import Mathlib

/-!
# toy-units: unit algebra, rescale engine and quantities

A shallow embedding of `physics/unit.hh`, `physics/unit/math.hh`,
`physics/unit/type_traits.hh`, `physics/unit/detail.hh`, `physics/unit/io.hh`,
`physics/util/math.hh` and `physics/util/mixin.hh`.

Conventions of the embedding.

* A C++ type that is a template-id is embedded as the value of its template
  arguments: `std::ratio<N, D>` is the pair `(N, D)`, a `unit<...>` is the record of
  its five arguments.  Two types are the same type exactly when these values are equal.
* `std::intmax_t` is embedded as `Int`.  All integer arithmetic of the unit algebra is
  evaluated by the compiler (template arguments and constant expressions), where a
  value that does not fit is a build error and never a wrapped value.  The embedding
  has two layers.  The definitions of the first layer compute in unbounded integers:
  they are the templates on the computations that fit.  The namespace `intmax` embeds
  the same templates with the rejections of the compiler: a `std::ratio` whose
  arguments, or an integer constant expression whose value, is outside the range of
  `std::intmax_t` is `Except.error overflow`.  The theorems named `..._in_range` are
  about the second layer and say when it agrees with the first.
* A template instantiation the compiler rejects is embedded as `Except.error`.
* `double` is embedded as an arbitrary field `F`; the `<cmath>` functions and the
  constant `unit_impl::pi` are the fields of a record `cmath F`.  "Exact arithmetic"
  is the instance `F = ℝ` with the mathematical functions.
-/

namespace physics

/-! ## `std::ratio` (the part of `<ratio>` the repository uses) -/

/-- Reasons for which the compiler rejects an instantiation. -/
inductive build_error where
  /-- `std::enable_if<have_same_system<U1, U2>::value, ...>` has no member `type` -/
  | different_system
  /-- a `std::ratio` with denominator zero is requested -/
  | zero_denominator
  /-- the packs of two `unit_dimensions` have different lengths -/
  | dimension_mismatch
  /-- a `static_assert` of `unit` fails -/
  | static_assertion
  /-- no converting constructor applies (system or dimensions differ) -/
  | incompatible
  /-- the constant evaluation of `iroot` does not reach `left == right` -/
  | no_constant
  /-- a class names the same type twice among its direct bases -/
  | duplicate_base
  /-- a `std::ratio` or an integer constant is not representable by `std::intmax_t` -/
  | overflow
  /-- a template argument needs a narrowing conversion -/
  | narrowing
  deriving DecidableEq, Repr

deriving instance DecidableEq for Except

/-- The template-id `std::ratio<N, D>`: its two template arguments as written. -/
structure ratio where
  /-- first template argument -/
  N : Int
  /-- second template argument (defaults to 1) -/
  D : Int := 1
  deriving DecidableEq, Repr

namespace ratio

/-- The instantiation `std::ratio<N, D>` is well-formed when `D` is not zero. -/
def valid (r : ratio) : Prop := r.D ≠ 0

instance (r : ratio) : Decidable r.valid := by unfold valid; infer_instance

/-- Static member `std::ratio<N, D>::num`: `sign(N) * sign(D) * abs(N) / gcd(N, D)`. -/
def num (r : ratio) : Int :=
  Int.sign r.N * Int.sign r.D * (r.N.natAbs : Int) / (Int.gcd r.N r.D : Int)

/-- Static member `std::ratio<N, D>::den`: `abs(D) / gcd(N, D)`. -/
def den (r : ratio) : Int :=
  (r.D.natAbs : Int) / (Int.gcd r.N r.D : Int)

/-- Member `std::ratio<N, D>::type`, which is `std::ratio<num, den>`. -/
def type (r : ratio) : ratio := ⟨r.num, r.den⟩

/-- A ratio written in lowest terms with a positive denominator. -/
def reduced (r : ratio) : Prop := 0 < r.D ∧ Int.gcd r.N r.D = 1

instance (r : ratio) : Decidable r.reduced := by unfold reduced; infer_instance

/-- The rational number a ratio denotes. -/
def toRat (r : ratio) : ℚ := (r.N : ℚ) / (r.D : ℚ)

end ratio

/-- Alias `std::ratio_add<R1, R2>`. -/
def ratio_add (r1 r2 : ratio) : ratio :=
  ratio.type ⟨r1.num * r2.den + r2.num * r1.den, r1.den * r2.den⟩

/-- Alias `std::ratio_subtract<R1, R2>`. -/
def ratio_subtract (r1 r2 : ratio) : ratio :=
  ratio.type ⟨r1.num * r2.den - r2.num * r1.den, r1.den * r2.den⟩

/-- Alias `std::ratio_multiply<R1, R2>`. -/
def ratio_multiply (r1 r2 : ratio) : ratio :=
  ratio.type ⟨r1.num * r2.num, r1.den * r2.den⟩

/-- Alias `std::ratio_divide<R1, R2>`; ill-formed when `R2::num` is zero. -/
def ratio_divide (r1 r2 : ratio) : Except build_error ratio :=
  if r2.num = 0 then .error .zero_denominator
  else .ok (ratio.type ⟨r1.num * r2.den, r1.den * r2.num⟩)

/-- Trait `std::ratio_not_equal<R1, R2>::value`. -/
def ratio_not_equal (r1 r2 : ratio) : Bool :=
  !(r1.num == r2.num && r1.den == r2.den)

/-! ## `physics/util/math.hh` -/

/-- Function `physics::abs`. -/
def abs (x : Int) : Int := if x < 0 then -x else x

/-- Function `physics::sgn`. -/
def sgn (x : Int) : Int := if x < 0 then -1 else 1

/-- Alias `ratio_abs<Ratio>`, which is `std::ratio<abs(Ratio::num), Ratio::den>`. -/
def ratio_abs (r : ratio) : ratio := ⟨abs r.num, r.den⟩

/-- Alias `ratio_sgn<Ratio>`, which is `std::ratio<sgn(Ratio::num)>`. -/
def ratio_sgn (r : ratio) : ratio := ⟨sgn r.num, 1⟩

namespace pow_impl

/-- The branch `n >= 0` of `recursive_pow`: `n == 0 ? 1 : x * recursive_pow(x, n - 1)`,
by recursion on the exponent. -/
def recursive_pow_nat {T : Type} [One T] [Mul T] (x : T) : Nat → T
  | 0 => 1
  | k + 1 => x * recursive_pow_nat x k

/-- Function `pow_impl::recursive_pow(x, n)`:
`n < 0 ? 1 / recursive_pow(x, -n) : (n == 0 ? 1 : x * recursive_pow(x, n - 1))`.
The branch `n < 0` can only be taken by the outermost call, whose inner call has the
positive exponent `-n`. -/
def recursive_pow {T : Type} [One T] [Mul T] [Div T] (x : T) (n : Int) : T :=
  if n < 0 then 1 / recursive_pow_nat x (-n).toNat else recursive_pow_nat x n.toNat

end pow_impl

/-- Function template `ipow<N>(n)` with `N` a `std::uintmax_t`. -/
def ipow (N : Nat) (n : Int) : Int := pow_impl.recursive_pow n (N : Int)

namespace iroot_impl

/-- Function `iroot_impl::mid`: `(a + b) / 2`, with the division of C++ that truncates. -/
def mid (a b : Int) : Int := Int.tdiv (a + b) 2

/-- Function template `iroot_impl::iroot<N>(n, left, right)`.  The recursion of the source
has no bound of its own; `fuel` is the number of calls the evaluation may make. -/
def iroot (N : Nat) (n : Int) : Nat → Int → Int → Option Int
  | 0, _, _ => none
  | fuel + 1, left, right =>
    if left = right then some right
    else iroot N n fuel
      (if ipow N (mid left right) ≥ n then left else mid left right + 1)
      (if ipow N (mid left right) ≥ n then mid left right else right)

end iroot_impl

/-- Function template `iroot<N>(n)`: the specialization `iroot<1>` returns `n`, degree 0 is
refused by the `static_assert`, every other degree searches `[1, n]`.  The search is given
`n + 1` calls: for `n >= 1` it ends within them and more calls give the same value
(`iroot_fuel_enough`), for `n < 1` it ends with no number of calls (`iroot_no_constant`),
so that the constant evaluation has no value. -/
def iroot (N : Nat) (n : Int) : Except build_error Int :=
  if N = 1 then .ok n
  else if N = 0 then .error .static_assertion
  else match iroot_impl.iroot N n (n.toNat + 1) 1 n with
    | some r => .ok r
    | none => .error .no_constant

/-- Function `isqrt`. -/
def isqrt (n : Int) : Except build_error Int := iroot 2 n

/-- Function `icbrt`. -/
def icbrt (n : Int) : Except build_error Int := iroot 3 n

/-- Function template `ipow<Ratio>(n)`:
`(Ratio::num >= 0) ? ipow<Ratio::num>(iroot<Ratio::den>(n)) : 0`.  The branch of a negative
`Ratio::num` is the value the expression names; the compiler rejects the template argument
of `ipow<Ratio::num>` there (`intmax.ipow_ratio`).  `ratio_pow` passes `ratio_abs<Ratio2>`,
whose numerator is not negative. -/
def ipow_ratio (r : ratio) (n : Int) : Except build_error Int :=
  if r.num ≥ 0 then (iroot r.den.toNat n).map (ipow r.num.toNat) else .ok 0

/-- Alias `ratio_pow<Ratio1, Ratio2>`: the template-id
`std::ratio<(Ratio2::num > 0) ? ipow<ratio_abs<Ratio2>>(Ratio1::num)
                              : ipow<ratio_abs<Ratio2>>(Ratio1::den),
            (Ratio2::num > 0) ? ipow<ratio_abs<Ratio2>>(Ratio1::den)
                              : ipow<ratio_abs<Ratio2>>(Ratio1::num)>`,
ill-formed when the second argument is zero. -/
def ratio_pow (r1 r2 : ratio) : Except build_error ratio := do
  let a ← if r2.num > 0 then ipow_ratio (ratio_abs r2) r1.num
          else ipow_ratio (ratio_abs r2) r1.den
  let b ← if r2.num > 0 then ipow_ratio (ratio_abs r2) r1.den
          else ipow_ratio (ratio_abs r2) r1.num
  if b = 0 then .error .zero_denominator else .ok ⟨a, b⟩

/-- Alias `ratio_sqrt<Ratio>`. -/
def ratio_sqrt (r : ratio) : Except build_error ratio := ratio_pow r ⟨1, 2⟩

/-- Alias `ratio_cbrt<Ratio>`. -/
def ratio_cbrt (r : ratio) : Except build_error ratio := ratio_pow r ⟨1, 3⟩

/-! ## `physics/unit.hh`: systems, dimensions, units -/

/-- A template argument `const char* const& Name`: the variable the reference is bound to,
which is what makes two arguments the same, and the text it points to. -/
structure name_ref where
  /-- the variable the argument names -/
  object : String
  /-- the null-terminated string the variable points to -/
  text : String
  deriving DecidableEq, Repr

/-- The template-id `unit_system<Names...>`: the base dimension names, in declared order. -/
structure unit_system where
  /-- the pack `Names...` -/
  names : List name_ref
  deriving DecidableEq, Repr

/-- Static member `unit_system<Names...>::size`. -/
def unit_system.size (s : unit_system) : Nat := s.names.length

/-- The template-id `unit_dimensions<Dimensions...>`: one exponent per base dimension. -/
abbrev unit_dimensions := List ratio

/-- Alias `make_unit_dimensions<Dimensions...>`: `unit_dimensions<std::ratio<Dimensions>...>`. -/
def make_unit_dimensions (ds : List Int) : unit_dimensions := ds.map (fun d => ⟨d, 1⟩)

namespace unit_impl

/-- Member `make_dimensionless<NDim>::type` of `unit/detail.hh`: `NDim` times
`std::ratio<0>`. -/
def make_dimensionless (ndim : Nat) : unit_dimensions := List.replicate ndim ⟨0, 1⟩

end unit_impl

/-- Member alias `unit_system<Names...>::dimensionless`. -/
def unit_system.dimensionless (s : unit_system) : unit_dimensions :=
  unit_impl.make_dimensionless s.size

/-- The template-id `unit<System, Dimensions, Pow10, PowPi, Factor>` with the defaults
`Pow10 = std::ratio<0>`, `PowPi = std::ratio<0>`, `Factor = std::ratio<1>`. -/
structure unit where
  /-- member alias `system` -/
  system : unit_system
  /-- member alias `dimensions` -/
  dimensions : unit_dimensions
  /-- member alias `pow_10` -/
  pow_10 : ratio := ⟨0, 1⟩
  /-- member alias `pow_pi` -/
  pow_pi : ratio := ⟨0, 1⟩
  /-- member alias `factor` -/
  factor : ratio := ⟨1, 1⟩
  deriving DecidableEq, Repr

/-- The compile-time checks of `unit` (and of its `unit_dimensions`): every argument is a
well-formed `std::ratio` and `System::size == Dimensions::size`. -/
def unit.valid (u : unit) : Prop :=
  u.system.size = u.dimensions.length ∧ (∀ d ∈ u.dimensions, d.valid) ∧
  u.pow_10.valid ∧ u.pow_pi.valid ∧ u.factor.valid

instance (u : unit) : Decidable u.valid := by unfold unit.valid; infer_instance

/-- Instantiating a `unit`: rejected when one of its `static_assert`s fails. -/
def unit.instantiate (u : unit) : Except build_error unit :=
  if u.valid then .ok u else .error .static_assertion

/-- A type written as a template argument of `unit`: a `unit_system<...>`, a
`unit_dimensions<...>`, a `std::ratio<N, D>`, or a type that is none of these (`double`,
...), given by its name. -/
inductive type_arg where
  /-- a `unit_system<Names...>` -/
  | system (s : unit_system)
  /-- a `unit_dimensions<Dimensions...>` -/
  | dimensions (d : unit_dimensions)
  /-- a `std::ratio<N, D>` -/
  | ratio (r : physics.ratio)
  /-- another type -/
  | other (name : String)
  deriving DecidableEq, Repr

/-- Static member `size` of a type, where it has one. -/
def type_arg.size : type_arg → Option Nat
  | .system s => some s.size
  | .dimensions d => some d.length
  | _ => none

namespace unit_impl

/-- Trait `is_unit_system<T>::value` of `unit/type_traits.hh`. -/
def is_unit_system : type_arg → Bool
  | .system _ => true
  | _ => false

/-- Trait `is_unit_dimensions<T>::value` of `unit/type_traits.hh`. -/
def is_unit_dimensions : type_arg → Bool
  | .dimensions _ => true
  | _ => false

/-- Trait `are_valid_ratios<R...>::value` of `unit/type_traits.hh`: the overload
`are_valid_ratios_impl(std::ratio<N, D>...)` is chosen when every argument is a
`std::ratio`. -/
def are_valid_ratios (rs : List type_arg) : Bool :=
  rs.all (fun t => match t with
    | .ratio _ => true
    | _ => false)

end unit_impl

/-- The class template `unit<System, Dimensions, Pow10, PowPi, Factor>` applied to five
types: its four `static_assert`s, in the order of the source, and then the well-formedness
of the `std::ratio` arguments (`unit.instantiate`). -/
def unit.define (System Dimensions : type_arg) (Pow10 : type_arg := .ratio ⟨0, 1⟩)
    (PowPi : type_arg := .ratio ⟨0, 1⟩) (Factor : type_arg := .ratio ⟨1, 1⟩) :
    Except build_error unit :=
  if ¬ unit_impl.is_unit_system System then .error .static_assertion
  else if ¬ unit_impl.is_unit_dimensions Dimensions then .error .static_assertion
  else if System.size ≠ Dimensions.size then .error .static_assertion
  else if ¬ unit_impl.are_valid_ratios [Pow10, PowPi, Factor] then .error .static_assertion
  else match System, Dimensions, Pow10, PowPi, Factor with
    | .system s, .dimensions d, .ratio p, .ratio q, .ratio f =>
      unit.instantiate ⟨s, d, p, q, f⟩
    | _, _, _, _, _ => .error .static_assertion

namespace unit_impl

/-- Trait `are_compatible<U1, U2>::value`: the specialization for two units that share the
arguments `System` and `Dimensions` is `true_type`, the primary template `false_type`. -/
def are_compatible (u1 u2 : unit) : Bool :=
  decide (u1.system = u2.system ∧ u1.dimensions = u2.dimensions)

/-- Trait `have_same_system<U1, U2>::value`: the specialization for two units that share
the argument `System` is `true_type`, the primary template `false_type`. -/
def have_same_system (u1 u2 : unit) : Bool :=
  decide (u1.system = u2.system)

/-- Alias `dimensions_add<Dim1, Dim2>` (through `dimensions_add_func`): the pack expansion
`std::ratio_add<std::ratio<N1, D1>, std::ratio<N2, D2>>...` needs packs of equal length. -/
def dimensions_add (d1 d2 : unit_dimensions) : Except build_error unit_dimensions :=
  if d1.length = d2.length then .ok (List.zipWith ratio_add d1 d2)
  else .error .dimension_mismatch

/-- Alias `dimensions_subtract<Dim1, Dim2>` (through `dimensions_subtract_func`). -/
def dimensions_subtract (d1 d2 : unit_dimensions) : Except build_error unit_dimensions :=
  if d1.length = d2.length then .ok (List.zipWith ratio_subtract d1 d2)
  else .error .dimension_mismatch

/-- Alias `dimensions_multiply<Dim, Ratio>` (through `dimensions_multiply_func`):
`unit_dimensions<std::ratio_multiply<std::ratio<N, D>, std::ratio<Fnum, Fden>>...>`. -/
def dimensions_multiply (d : unit_dimensions) (r : ratio) : unit_dimensions :=
  d.map (fun x => ratio_multiply x r)

end unit_impl

open unit_impl in
/-- Alias `unit_multiply<Unit1, Unit2>`. -/
def unit_multiply (u1 u2 : unit) : Except build_error unit :=
  if have_same_system u1 u2 then do
    let d ← dimensions_add u1.dimensions u2.dimensions
    pure { system := u1.system, dimensions := d,
           pow_10 := ratio_add u1.pow_10 u2.pow_10,
           pow_pi := ratio_add u1.pow_pi u2.pow_pi,
           factor := ratio_multiply u1.factor u2.factor }
  else .error .different_system

open unit_impl in
/-- Alias `unit_divide<Unit1, Unit2>`. -/
def unit_divide (u1 u2 : unit) : Except build_error unit :=
  if have_same_system u1 u2 then do
    let d ← dimensions_subtract u1.dimensions u2.dimensions
    let f ← ratio_divide u1.factor u2.factor
    pure { system := u1.system, dimensions := d,
           pow_10 := ratio_subtract u1.pow_10 u2.pow_10,
           pow_pi := ratio_subtract u1.pow_pi u2.pow_pi,
           factor := f }
  else .error .different_system

open unit_impl in
/-- Alias `unit_pow<Unit, Ratio>`. -/
def unit_pow (u : unit) (r : ratio) : Except build_error unit := do
  let f ← ratio_pow u.factor r
  pure { system := u.system, dimensions := dimensions_multiply u.dimensions r,
         pow_10 := ratio_multiply u.pow_10 r,
         pow_pi := ratio_multiply u.pow_pi r,
         factor := f }

/-- Alias `unit_sqrt<Unit>`. -/
def unit_sqrt (u : unit) : Except build_error unit := unit_pow u ⟨1, 2⟩

/-- Alias `unit_cbrt<Unit>`. -/
def unit_cbrt (u : unit) : Except build_error unit := unit_pow u ⟨1, 3⟩

/-! ## Floating point: `pow<Ratio>(double)` and the rescale engine -/

/-- The floating-point environment of the library: the constant `unit_impl::pi` and the
functions `std::pow`, `sqrt` and `cbrt` of `<cmath>`, over the number type `F` that
stands for `double`. -/
structure cmath (F : Type) where
  /-- constant `unit_impl::pi` -/
  pi : F
  /-- function `std::pow(x, y)` -/
  pow : F → F → F
  /-- function `sqrt(x)` -/
  sqrt : F → F
  /-- function `cbrt(x)` -/
  cbrt : F → F

/-- Exact arithmetic: the numbers are the reals, `unit_impl::pi` is the number pi and the
`<cmath>` functions are the real power, square root and cube root (on the arguments on
which the real functions are defined without a sign convention). -/
def cmath.exact (M : cmath ℝ) : Prop :=
  M.pi = Real.pi ∧ (∀ x y : ℝ, 0 < x → M.pow x y = x ^ y) ∧
  (∀ x : ℝ, 0 ≤ x → M.sqrt x = x ^ (1 / 2 : ℝ)) ∧
  (∀ x : ℝ, 0 ≤ x → M.cbrt x = x ^ (1 / 3 : ℝ))

namespace pow_impl

/-- Member `pow_impl::pow<N, D>::call(x)`: the specialization `<N, 1>` is
`recursive_pow(x, N)`, `<1, 2>` is `sqrt(x)`, `<1, 3>` is `cbrt(x)` and every other
instantiation is `std::pow(x, double(N) / D)`. -/
def pow {F : Type} [Field F] (M : cmath F) (N D : Int) (x : F) : F :=
  if D = 1 then recursive_pow x N
  else if N = 1 ∧ D = 2 then M.sqrt x
  else if N = 1 ∧ D = 3 then M.cbrt x
  else M.pow x ((N : F) / (D : F))

end pow_impl

/-- Function template `pow<Ratio>(double x)`: `pow_impl::pow<Ratio::num, Ratio::den>::call(x)`. -/
def pow {F : Type} [Field F] (M : cmath F) (r : ratio) (x : F) : F :=
  pow_impl.pow M r.num r.den x

namespace unit_impl

namespace rescale_impl

/-- Member `rescale_impl<UnitLHS, UnitRHS>::pow_10()`: `1` in the specialization for twice
the same unit, else `pow<ratio_subtract<UnitRHS::pow_10, UnitLHS::pow_10>>(10.)`. -/
def pow_10 {F : Type} [Field F] (M : cmath F) (lhs rhs : unit) : F :=
  if lhs = rhs then 1 else physics.pow M (ratio_subtract rhs.pow_10 lhs.pow_10) 10

/-- Member `rescale_impl<UnitLHS, UnitRHS>::pow_pi()`: `1` in the specialization for twice
the same unit, else `pow<ratio_subtract<UnitRHS::pow_pi, UnitLHS::pow_pi>>(pi)`. -/
def pow_pi {F : Type} [Field F] (M : cmath F) (lhs rhs : unit) : F :=
  if lhs = rhs then 1 else physics.pow M (ratio_subtract rhs.pow_pi lhs.pow_pi) M.pi

/-- Member `rescale_impl<UnitLHS, UnitRHS>::factor()`: `1` in the specialization for twice
the same unit, else `double(factor::num) / factor::den` for
`factor = ratio_divide<UnitRHS::factor, UnitLHS::factor>`. -/
def factor {F : Type} [Field F] (lhs rhs : unit) : Except build_error F :=
  if lhs = rhs then .ok 1
  else (ratio_divide rhs.factor lhs.factor).map (fun f => (f.num : F) / (f.den : F))

end rescale_impl

/-- Function template `rescale_value<UnitLHS, UnitRHS>(rhs_value)`: rescale the value of the
right-hand unit to the left-hand unit,
`rhs_value * pow_10() * pow_pi() * factor()`. -/
def rescale_value {F : Type} [Field F] (M : cmath F) (lhs rhs : unit) (rhs_value : F) :
    Except build_error F :=
  (rescale_impl.factor lhs rhs).map
    (fun f => rhs_value * rescale_impl.pow_10 M lhs rhs * rescale_impl.pow_pi M lhs rhs * f)

end unit_impl

/-! ## `quantity<Unit>` -/

/-- An object of class `quantity<Unit>`: the template argument and the member `value_`. -/
structure quantity (F : Type) where
  /-- member alias `unit` -/
  unit : physics.unit
  /-- data member `value_` -/
  value_ : F

/-- The unit `physics::unit<typename unit::system, typename unit::dimensions>`: same system
and dimensions, default scale (`pow_10` 0, `pow_pi` 0, `factor` 1). -/
def unit.unscaled (u : unit) : unit := { system := u.system, dimensions := u.dimensions }

/-- The partial specialization `quantity<unit<System, typename System::dimensionless, Pow10,
PowPi, Factor>>` is selected when the dimensions are the type `System::dimensionless`. -/
def unit.is_dimensionless (u : unit) : Bool := decide (u.dimensions = u.system.dimensionless)

namespace quantity

/-- Constructor 2, `explicit quantity(double v)`, of `quantity<u>`. -/
def from_double {F : Type} (u : physics.unit) (v : F) : quantity F := ⟨u, v⟩

/-- Member `raw_value()`. -/
def raw_value {F : Type} (q : quantity F) : F := q.value_

/-- Constructor 3 of `quantity<u>` (both the primary template and the dimensionless
specialization), `quantity(quantity<unit<system, dimensions, Pow10, PowPi, Factor>> rhs)`:
applicable when `rhs` has the system and dimensions of `u`, it stores
`rescale_value<unit, rhs unit>(rhs.raw_value())`. -/
def from_quantity {F : Type} [Field F] (M : cmath F) (u : physics.unit) (rhs : quantity F) :
    Except build_error (quantity F) :=
  if rhs.unit.system = u.system ∧ rhs.unit.dimensions = u.dimensions then
    (unit_impl.rescale_value M u rhs.unit rhs.raw_value).map (fun v => ⟨u, v⟩)
  else .error .incompatible

/-- Member `value()`: `value_` in the primary template; in the dimensionless specialization
`quantity<unit<system, dimensions>>{*this}.raw_value()`. -/
def value {F : Type} [Field F] (M : cmath F) (q : quantity F) : Except build_error F :=
  if q.unit.is_dimensionless then (from_quantity M q.unit.unscaled q).map raw_value
  else .ok q.value_

/-- Member template `value<UnitOrQuantity>()`: the `static_assert` on `are_compatible`, then
`quantity<other_unit>{*this}.value()`. -/
def value_in {F : Type} [Field F] (M : cmath F) (q : quantity F) (other_unit : physics.unit) :
    Except build_error F :=
  if unit_impl.are_compatible q.unit other_unit then
    (from_quantity M other_unit q).bind (value M)
  else .error .static_assertion

end quantity

/-! ## `physics/util/mixin.hh` -/

namespace comparison_mixin

/-- Member `operator!=` of `comparison_mixin<T, Rhs>`: `!(derived() == rhs)`. -/
def ne {T R : Type} (eq : T → R → Bool) (a : T) (rhs : R) : Bool := !(eq a rhs)

/-- Member `operator<=`: `(derived() == rhs || derived() < rhs)`. -/
def le {T R : Type} (eq lt : T → R → Bool) (a : T) (rhs : R) : Bool := eq a rhs || lt a rhs

/-- Member `operator>`: `!(derived() <= rhs)`. -/
def gt {T R : Type} (eq lt : T → R → Bool) (a : T) (rhs : R) : Bool := !(le eq lt a rhs)

/-- Member `operator>=`: `!(derived() < rhs)`. -/
def ge {T R : Type} (lt : T → R → Bool) (a : T) (rhs : R) : Bool := !(lt a rhs)

end comparison_mixin

/-! ## Members of `quantity<Unit>`

The members of the primary template apply to a quantity whose unit is not
`is_dimensionless`, those of the partial specialization to one whose unit is.  A member
whose parameter has the type `quantity` of the object itself is given an argument of that
type; `implicit` is the initialisation of such a parameter from the argument of a call. -/

namespace quantity

/-- Initialising a parameter of type `quantity<u>` from the argument `b`: an argument of
that type is copied, another one is converted by constructor 3, which is not `explicit`. -/
def implicit {F : Type} [Field F] (M : cmath F) (u : physics.unit) (b : quantity F) :
    Except build_error (quantity F) :=
  if b.unit = u then .ok b else from_quantity M u b

/-- Member template `operator*(quantity<Unit2> q)` (the same in the primary template and in
the specialization): `quantity<unit_multiply<unit, Unit2>>{value_ * q.raw_value()}`. -/
def mul {F : Type} [Field F] (a q : quantity F) : Except build_error (quantity F) :=
  (unit_multiply a.unit q.unit).map (fun u => ⟨u, a.value_ * q.raw_value⟩)

/-- Member template `operator/(quantity<Unit2> q)` (the same in the primary template and in
the specialization): `quantity<unit_divide<unit, Unit2>>{value_ / q.raw_value()}`. -/
def div {F : Type} [Field F] (a q : quantity F) : Except build_error (quantity F) :=
  (unit_divide a.unit q.unit).map (fun u => ⟨u, a.value_ / q.raw_value⟩)

/-- Member `operator+(quantity q)` of the primary template: `quantity{value_ + q.value_}`. -/
def add {F : Type} [Field F] (a q : quantity F) : quantity F := ⟨a.unit, a.value_ + q.value_⟩

/-- Member `operator-(quantity q)` of the primary template: `quantity{value_ - q.value_}`. -/
def sub {F : Type} [Field F] (a q : quantity F) : quantity F := ⟨a.unit, a.value_ - q.value_⟩

/-- Member `operator==(quantity q)` of the primary template: `value_ == q.value_`. -/
def eq {F : Type} [LinearOrderedField F] (a q : quantity F) : Bool := decide (a.value_ = q.value_)

/-- Member `operator<(quantity q)` of the primary template: `value_ < q.value_`. -/
def lt {F : Type} [LinearOrderedField F] (a q : quantity F) : Bool := decide (a.value_ < q.value_)

/-- The expression `a + b` for `a` of the primary template and a quantity `b`. -/
def add_expr {F : Type} [Field F] (M : cmath F) (a b : quantity F) :
    Except build_error (quantity F) :=
  (implicit M a.unit b).map (add a)

/-- The expression `a - b` for `a` of the primary template and a quantity `b`. -/
def sub_expr {F : Type} [Field F] (M : cmath F) (a b : quantity F) :
    Except build_error (quantity F) :=
  (implicit M a.unit b).map (sub a)

/-- The expression `a != b`, member of the base `comparison_mixin<quantity<Unit>>`. -/
def ne_expr {F : Type} [LinearOrderedField F] (M : cmath F) (a b : quantity F) :
    Except build_error Bool :=
  (implicit M a.unit b).map (comparison_mixin.ne eq a)

/-- The expression `a <= b`, member of the base `comparison_mixin<quantity<Unit>>`. -/
def le_expr {F : Type} [LinearOrderedField F] (M : cmath F) (a b : quantity F) :
    Except build_error Bool :=
  (implicit M a.unit b).map (comparison_mixin.le eq lt a)

/-- The expression `a >= b`, member of the base `comparison_mixin<quantity<Unit>>`. -/
def ge_expr {F : Type} [LinearOrderedField F] (M : cmath F) (a b : quantity F) :
    Except build_error Bool :=
  (implicit M a.unit b).map (comparison_mixin.ge lt a)

/-- Member template `pow<Ratio>()` (the same in the primary template and in the
specialization): with `unit_scaled = unit<system, dimensions, pow_10, pow_pi>`,
`quantity<unit_pow<unit_scaled, Ratio>>{
   physics::pow<Ratio>(value_ * unit::factor::num / unit::factor::den)}`. -/
def pow {F : Type} [Field F] (M : cmath F) (q : quantity F) (r : ratio) :
    Except build_error (quantity F) :=
  (unit_pow { system := q.unit.system, dimensions := q.unit.dimensions,
              pow_10 := q.unit.pow_10, pow_pi := q.unit.pow_pi } r).map
    (fun u => ⟨u, physics.pow M r
      (q.value_ * (q.unit.factor.num : F) / (q.unit.factor.den : F))⟩)

/-- Member `sqrt()`: `pow<1, 2>()`. -/
def sqrt {F : Type} [Field F] (M : cmath F) (q : quantity F) : Except build_error (quantity F) :=
  pow M q ⟨1, 2⟩

/-- Member `cbrt()`: `pow<1, 3>()`. -/
def cbrt {F : Type} [Field F] (M : cmath F) (q : quantity F) : Except build_error (quantity F) :=
  pow M q ⟨1, 3⟩

/-- Member `operator double()` of the specialization: `value()`; the primary template has
no conversion to a number. -/
def to_double {F : Type} [Field F] (M : cmath F) (q : quantity F) : Except build_error F :=
  if q.unit.is_dimensionless then value M q else .error .incompatible

/-- Member `operator+(double d)` of the specialization: `quantity{raw_value() +
rescale_value<unit, unit<system, system::dimensionless>>(d)}`. -/
def add_double {F : Type} [Field F] (M : cmath F) (q : quantity F) (d : F) :
    Except build_error (quantity F) :=
  (unit_impl.rescale_value M q.unit
      { system := q.unit.system, dimensions := q.unit.system.dimensionless } d).map
    (fun w => ⟨q.unit, q.raw_value + w⟩)

/-- Member `operator-(double d)` of the specialization: `quantity{raw_value() -
rescale_value<unit, unit<system, system::dimensionless>>(d)}`. -/
def sub_double {F : Type} [Field F] (M : cmath F) (q : quantity F) (d : F) :
    Except build_error (quantity F) :=
  (unit_impl.rescale_value M q.unit
      { system := q.unit.system, dimensions := q.unit.system.dimensionless } d).map
    (fun w => ⟨q.unit, q.raw_value - w⟩)

/-- The expression `d + q` for a number `d` and a dimensionless quantity `q`: the built-in
addition after the conversion `operator double()`. -/
def double_add {F : Type} [Field F] (M : cmath F) (d : F) (q : quantity F) :
    Except build_error F :=
  (to_double M q).map (fun x => d + x)

/-- The expression `d - q` for a number `d` and a dimensionless quantity `q`: the built-in
subtraction after the conversion `operator double()`. -/
def double_sub {F : Type} [Field F] (M : cmath F) (d : F) (q : quantity F) :
    Except build_error F :=
  (to_double M q).map (fun x => d - x)

end quantity

/-! ## `physics/unit/io.hh`: the name of a unit -/

/-- The statements that write an exponent after a name, `10` or `pi`:
`if (R::den != 1) os << "^(" << R::num << "/" << R::den << ")";
 else if (R::num != 1) os << "^" << R::num;`. -/
def exponent_string (r : ratio) : String :=
  if r.den ≠ 1 then "^(" ++ toString r.num ++ "/" ++ toString r.den ++ ")"
  else if r.num ≠ 1 then "^" ++ toString r.num
  else ""

namespace unit_impl

/-- Constructor of `single_name_dimension_streamer<Name, Dimension>`: what it writes. -/
def single_name_dimension_streamer (name : name_ref) (dimension : ratio) : String :=
  if dimension.num ≠ 0 then " " ++ name.text ++ exponent_string dimension else ""

/-- Function `stream_unit_name_dimensions(os, unit_system<Names...>,
unit_dimensions<Dimensions...>)`: it constructs an object of the class
`unit_name_dimensions_streamer<single_name_dimension_streamer<Names, Dimensions>...>`,
whose direct bases are these streamers, constructed in the order of the packs.  The
expansion needs packs of equal length, and a class is ill-formed when two of its direct
bases are the same type, that is when one name (the variable the reference is bound to)
occurs twice with the same `std::ratio<N, D>`. -/
def stream_unit_name_dimensions (s : unit_system) (d : unit_dimensions) :
    Except build_error String :=
  if s.names.length ≠ d.length then .error .dimension_mismatch
  else if ¬ (List.zip (s.names.map name_ref.object) d).Nodup then .error .duplicate_base
  else .ok (String.join (List.zipWith single_name_dimension_streamer s.names d))

end unit_impl

/-- Function template `unit_string<Unit>()` (the primary template).  The parameter
`double_string num den` is the text `os << double(num) / den` writes. -/
def unit_string (double_string : Int → Int → String) (u : unit) : Except build_error String :=
  let have_factor := ratio_not_equal u.factor ⟨1, 1⟩
  let have_pow_10 := ratio_not_equal u.pow_10 ⟨0, 1⟩
  let have_pow_pi := ratio_not_equal u.pow_pi ⟨0, 1⟩
  (unit_impl.stream_unit_name_dimensions u.system u.dimensions).map (fun names =>
    (if have_factor || have_pow_10 || have_pow_pi then
      " x ("
        ++ (if have_factor then double_string u.factor.num u.factor.den else "")
        ++ (if have_pow_10 then
              (if have_factor then " x " else "") ++ "10" ++ exponent_string u.pow_10
            else "")
        ++ (if have_pow_pi then
              (if have_factor || have_pow_10 then " x " else "") ++ "pi"
                ++ exponent_string u.pow_pi
            else "")
        ++ ")"
     else "")
    ++ names)

/-- Function `operator>>(std::istream& is, quantity<Unit>& q)`:
`double value; is >> value; q = physics::quantity<Unit>{q}; return is;`.
The stream is given by the number `x` that `is >> value` extracts, the result is the
object `q` after the call.  In `quantity<Unit>{q}` the argument has the type of the object
and the copy constructor is the exact match; `operator=(quantity rhs)` is
`value_ = rhs.value_`. -/
def istream_extract {F : Type} (x : F) (q : quantity F) : quantity F :=
  let _value := x
  let rhs : quantity F := ⟨q.unit, q.value_⟩
  ⟨q.unit, rhs.value_⟩

/-- Function `operator/(double d, quantity<Unit> q)` of `unit.hh`:
`quantity<unit_pow<Unit, std::ratio<-1>>>{d / q.raw_value()}`. -/
def double_div {F : Type} [Field F] (d : F) (q : quantity F) : Except build_error (quantity F) :=
  (unit_pow q.unit ⟨-1, 1⟩).map (fun u => ⟨u, d / q.raw_value⟩)

/-! ## The name of a unit in the words of the specification -/

/-- The exponent after a name, `10` or `pi`, in the words of the specification: nothing for
the exponent 1, `^e` for an integer `e` other than 1, `^(num/den)` for a non-integer. -/
def exponent_spec (e : ℚ) : String :=
  if e = 1 then ""
  else if e.den = 1 then "^" ++ toString e.num
  else "^(" ++ toString e.num ++ "/" ++ toString (e.den : Int) ++ ")"

/-- The scale clause in the words of the specification: the components that are present
(factor other than 1, as a decimal number; power of 10 with exponent other than 0; power
of pi with exponent other than 0), in this order, joined by `" x "` between `" x ("` and
`")"`; nothing when no component is present. -/
def scale_clause_spec (double_string : Int → Int → String) (factor pow_10 pow_pi : ℚ) : String :=
  let components :=
    (if factor ≠ 1 then [double_string factor.num factor.den] else [])
      ++ (if pow_10 ≠ 0 then ["10" ++ exponent_spec pow_10] else [])
      ++ (if pow_pi ≠ 0 then ["pi" ++ exponent_spec pow_pi] else [])
  if components = [] then "" else " x (" ++ " x ".intercalate components ++ ")"

/-- The dimension part in the words of the specification: the base dimensions with a
nonzero exponent, in the declared order of the system, each as its name after a blank,
followed by the exponent. -/
def dimension_names_spec (names : List String) (exponents : List ℚ) : String :=
  String.join (((List.zip names exponents).filter (fun p => p.2 ≠ 0)).map
    (fun p => " " ++ p.1 ++ exponent_spec p.2))

/-! ## Units of `test/test_unit.cc` -/

namespace test_unit

/-- Variable `mm_name`. -/
def mm_name : name_ref := ⟨"mm_name", "mm"⟩

/-- Variable `ns_name`. -/
def ns_name : name_ref := ⟨"ns_name", "ns"⟩

/-- Variable `MeV_name`. -/
def MeV_name : name_ref := ⟨"MeV_name", "MeV"⟩

/-- Variable `radian_name`. -/
def radian_name : name_ref := ⟨"radian_name", "rad"⟩

/-- Type `sys1_type`: `unit_system<mm_name, ns_name, MeV_name>`. -/
def sys1_type : unit_system := ⟨[mm_name, ns_name, MeV_name]⟩

/-- Type `sys3_type`: `unit_system<ns_name, MeV_name>`. -/
def sys3_type : unit_system := ⟨[ns_name, MeV_name]⟩

/-- Type `dim1_type`: `unit_dimensions<std::ratio<1>, std::ratio<0>, std::ratio<0>>`. -/
def dim1_type : unit_dimensions := [⟨1, 1⟩, ⟨0, 1⟩, ⟨0, 1⟩]

/-- Type `dim2_type`: `unit_dimensions<std::ratio<1>, std::ratio<2>, std::ratio<0>>`. -/
def dim2_type : unit_dimensions := [⟨1, 1⟩, ⟨2, 1⟩, ⟨0, 1⟩]

/-- Type `dim3_type`: `unit_dimensions<std::ratio<2>, std::ratio<0>>`. -/
def dim3_type : unit_dimensions := [⟨2, 1⟩, ⟨0, 1⟩]

/-- Type `u1_type` (also `pi_cm_over_2_type`):
`unit<sys1_type, dim1_type, std::ratio<1>, std::ratio<1>, std::ratio<1, 2>>`. -/
def u1_type : unit := ⟨sys1_type, dim1_type, ⟨1, 1⟩, ⟨1, 1⟩, ⟨1, 2⟩⟩

/-- Type `u2_type` (also `mm_type`):
`unit<sys1_type, dim1_type, std::ratio<0>, std::ratio<0>, std::ratio<1>>`. -/
def u2_type : unit := ⟨sys1_type, dim1_type, ⟨0, 1⟩, ⟨0, 1⟩, ⟨1, 1⟩⟩

/-- Type `u3_type`:
`unit<sys1_type, dim2_type, std::ratio<1>, std::ratio<1>, std::ratio<4, 3>>`. -/
def u3_type : unit := ⟨sys1_type, dim2_type, ⟨1, 1⟩, ⟨1, 1⟩, ⟨4, 3⟩⟩

/-- Type `u4_type`: `unit<sys3_type, dim3_type, std::ratio<3>, std::ratio<1>>`. -/
def u4_type : unit := ⟨sys3_type, dim3_type, ⟨3, 1⟩, ⟨1, 1⟩, ⟨1, 1⟩⟩

/-- Type `u00_type`:
`unit<sys1_type, sys1_type::dimensionless, std::ratio<2>, std::ratio<1>, std::ratio<1, 4>>`. -/
def u00_type : unit := ⟨sys1_type, sys1_type.dimensionless, ⟨2, 1⟩, ⟨1, 1⟩, ⟨1, 4⟩⟩

/-- Type `u01_type`:
`unit<sys1_type, sys1_type::dimensionless, std::ratio<0>, std::ratio<0>, std::ratio<3, 2>>`. -/
def u01_type : unit := ⟨sys1_type, sys1_type.dimensionless, ⟨0, 1⟩, ⟨0, 1⟩, ⟨3, 2⟩⟩

/-- Namespace `myunits`: `unit_system<mm_name, ns_name>`. -/
def myunits_system : unit_system := ⟨[mm_name, ns_name]⟩

/-- Type `myunits::m_unit`: `unit<system, distance_dim, std::ratio<3>>`. -/
def m_unit : unit := { system := myunits_system, dimensions := [⟨1, 1⟩, ⟨0, 1⟩], pow_10 := ⟨3, 1⟩ }

end test_unit

/-! ## `physics/util/math.hh`: the integers the search of `iroot` computes -/

/-- The range of `std::intmax_t` (64 bits, two's complement). -/
def intmax_fits (x : Int) : Prop := -(2 ^ 63) ≤ x ∧ x ≤ 2 ^ 63 - 1

instance (x : Int) : Decidable (intmax_fits x) := by unfold intmax_fits; infer_instance

namespace iroot_impl

/-- The integers the evaluation of `iroot_impl::iroot<N>(n, left, right)` computes, call
after call: in a call with `left != right` the sum `left + right` inside `mid`, the power
`ipow<N>(mid(left, right))`, and `mid(left, right) + 1` when the power is below `n`; then
those of the call it makes.  (The products inside `ipow<N>(m)` for `m >= 1` are the powers
of `m` up to the `N`-th, which is the largest.) -/
def evaluated (N : Nat) (n : Int) : Nat → Int → Int → List Int
  | 0, _, _ => []
  | fuel + 1, left, right =>
    if left = right then []
    else
      [left + right, ipow N (mid left right)]
        ++ (if ipow N (mid left right) ≥ n then [] else [mid left right + 1])
        ++ evaluated N n fuel
            (if ipow N (mid left right) ≥ n then left else mid left right + 1)
            (if ipow N (mid left right) ≥ n then mid left right else right)

end iroot_impl

/-! ## `physics/util/stringify.hh` -/

/-- Function template `stringify(r, delimiter, acc)`:
`std::string str{};
 for (auto& el : r) { if (!str.empty()) { str += delimiter; }
                      str += boost::lexical_cast<std::string>(acc(el)); }
 return str;`.
The range is the list of its elements in iteration order; the parameter `acc` stands for
`boost::lexical_cast<std::string>(acc(el))`, the string form of an element. -/
def stringify {Element : Type} (r : List Element) (delimiter : String)
    (acc : Element → String) : String :=
  r.foldl (fun str el => (if str ≠ "" then str ++ delimiter else str) ++ acc el) ""

/-! ## `physics/vector.hh` with `Quantity = Radian = double` -/

/-- An object of `vector<double>`: the members `x1`, `x2`, `x3`. -/
structure vector (F : Type) where
  /-- member `x1` -/
  x1 : F
  /-- member `x2` -/
  x2 : F
  /-- member `x3` -/
  x3 : F

namespace vector

/-- Member `operator+(const vector& v)`: `vector{x1 + v.x1, x2 + v.x2, x3 + v.x3}`. -/
def add {F : Type} [Field F] (a v : vector F) : vector F :=
  ⟨a.x1 + v.x1, a.x2 + v.x2, a.x3 + v.x3⟩

/-- Member `operator-(const vector& v)`: `vector{x1 - v.x1, x2 - v.x2, x3 - v.x3}`. -/
def sub {F : Type} [Field F] (a v : vector F) : vector F :=
  ⟨a.x1 - v.x1, a.x2 - v.x2, a.x3 - v.x3⟩

/-- Member template `operator*(Q2 q)` for a number `q`: `{x1 * q, x2 * q, x3 * q}`. -/
def mul {F : Type} [Field F] (a : vector F) (q : F) : vector F :=
  ⟨a.x1 * q, a.x2 * q, a.x3 * q⟩

/-- Member template `operator/(Q2 q)` for a number `q`: `{x1 / q, x2 / q, x3 / q}`. -/
def div {F : Type} [Field F] (a : vector F) (q : F) : vector F :=
  ⟨a.x1 / q, a.x2 / q, a.x3 / q⟩

/-- Member template `operator*(const vector<Q2, R2>& v)`, the scalar product:
`x1 * v.x1 + x2 * v.x2 + x3 * v.x3`. -/
def dot {F : Type} [Field F] (a v : vector F) : F :=
  a.x1 * v.x1 + a.x2 * v.x2 + a.x3 * v.x3

/-- Member `mag2()`: `*this * *this`. -/
def mag2 {F : Type} [Field F] (a : vector F) : F := dot a a

end vector

/-- An object of `lorentzvector<double>`: the members `x0` and `x`. -/
structure lorentzvector (F : Type) where
  /-- member `x0` -/
  x0 : F
  /-- member `x` -/
  x : vector F

namespace lorentzvector

/-- Member template `operator*(const lorentzvector<Q2, R2>& v)`, the scalar product:
`x0 * v.x0 - x * v.x`. -/
def dot {F : Type} [Field F] (a v : lorentzvector F) : F :=
  a.x0 * v.x0 - vector.dot a.x v.x

/-- Member `mag2()`: `*this * *this`. -/
def mag2 {F : Type} [Field F] (a : lorentzvector F) : F := dot a a

/-- Member `beta()`: `x / x0`. -/
def beta {F : Type} [Field F] (a : lorentzvector F) : vector F := vector.div a.x a.x0

/-- Member template `boost(const vector<Q2, R2>& beta)`:
`double gamma{1. / std::sqrt(1. - beta.mag2())};
 auto y = x + beta * ((gamma - 1) / beta.mag2() * (x * beta) - gamma * x0);
 auto y0 = gamma * (x0 - beta * x);
 return {y0, y};`. -/
def boost {F : Type} [Field F] (M : cmath F) (a : lorentzvector F) (beta : vector F) :
    lorentzvector F :=
  let gamma := 1 / M.sqrt (1 - beta.mag2)
  let y := a.x.add (beta.mul ((gamma - 1) / beta.mag2 * (a.x.dot beta) - gamma * a.x0))
  let y0 := gamma * (a.x0 - beta.dot a.x)
  ⟨y0, y⟩

end lorentzvector

/-! ## `physics/unit/standard.hh` -/

namespace standard_units

/-- Variable `mm_name`. -/
def mm_name : name_ref := ⟨"mm_name", "mm"⟩

/-- Variable `ns_name`. -/
def ns_name : name_ref := ⟨"ns_name", "ns"⟩

/-- Variable `MeV_name`. -/
def MeV_name : name_ref := ⟨"MeV_name", "MeV"⟩

/-- Variable `eplus_name`. -/
def eplus_name : name_ref := ⟨"eplus_name", "e+"⟩

/-- Variable `kelvin_name`. -/
def kelvin_name : name_ref := ⟨"kelvin_name", "K"⟩

/-- Variable `mole_name`. -/
def mole_name : name_ref := ⟨"mole_name", "mole"⟩

/-- Variable `candela_name`. -/
def candela_name : name_ref := ⟨"candela_name", "cd"⟩

/-- Variable `radian_name`. -/
def radian_name : name_ref := ⟨"radian_name", "rad"⟩

/-- Variable `sr_name`. -/
def sr_name : name_ref := ⟨"sr_name", "sr"⟩

/-- Type `standard_system`. -/
def standard_system : unit_system :=
  ⟨[mm_name, ns_name, MeV_name, eplus_name, kelvin_name, mole_name, candela_name,
    radian_name, sr_name]⟩

namespace energy

/-- Type `energy::dimensions`: `make_unit_dimensions<0, 0, 1, 0, 0, 0, 0, 0, 0>`. -/
def dimensions : unit_dimensions := make_unit_dimensions [0, 0, 1, 0, 0, 0, 0, 0, 0]

/-- Type `energy::electronvolt_unit`: `unit<standard_system, dimensions, std::ratio<-6>>`. -/
def electronvolt_unit : unit :=
  { system := standard_system, dimensions := dimensions, pow_10 := ⟨-6, 1⟩ }

/-- Type `energy::joule_unit`: `unit<standard_system, dimensions, std::ratio<12>,
std::ratio<0>, std::ratio<624150, 100000>>`. -/
def joule_unit : unit := ⟨standard_system, dimensions, ⟨12, 1⟩, ⟨0, 1⟩, ⟨624150, 100000⟩⟩

end energy

namespace charge

/-- Type `charge::dimensions`: `make_unit_dimensions<0, 0, 0, 1, 0, 0, 0, 0, 0>`. -/
def dimensions : unit_dimensions := make_unit_dimensions [0, 0, 0, 1, 0, 0, 0, 0, 0]

/-- The unit of type `charge::elementary`: `unit<standard_system, dimensions>`. -/
def elementary_unit : unit := { system := standard_system, dimensions := dimensions }

/-- Type `charge::coulomb_unit`: `unit<standard_system, dimensions, std::ratio<18>,
std::ratio<0>, std::ratio<62415 / 10000>>`; the one argument of the last `std::ratio` is
the quotient of two `int` literals. -/
def coulomb_unit : unit :=
  ⟨standard_system, dimensions, ⟨18, 1⟩, ⟨0, 1⟩, ⟨Int.tdiv 62415 10000, 1⟩⟩

end charge

end standard_units

/-! ## The same templates with the range of `std::intmax_t`

The definitions above compute every `std::ratio` and every integer constant in unbounded
integers.  The compiler does not: `<ratio>` rejects a `std::ratio` whose arguments are not
representable and an arithmetic alias whose result is not (`static_assert`s "out of range",
"overflow in addition", "overflow in multiplication"), and an integer expression whose
value leaves `std::intmax_t` is not a constant expression.  The namespace `intmax` embeds
the templates with these rejections; a definition of it that has the name of a definition
above is the same template, evaluated as the compiler evaluates it.  An arithmetic alias
of `<ratio>` is rejected exactly when the numerator or the denominator of its result, in
lowest terms, is not representable: this is the condition of [ratio.arithmetic], and the
one of libstdc++, which computes the intermediate products in double width. -/

/-- The constant `INTMAX_MAX` of `<cstdint>` for `std::intmax_t` of 64 bits. -/
def INTMAX_MAX : Int := 2 ^ 63 - 1

/-- The arguments of `std::ratio<N, D>` are in the range `<ratio>` accepts: the absolute
values of `N` and `D` are representable by `std::intmax_t`. -/
def ratio.representable (r : ratio) : Prop :=
  -INTMAX_MAX ≤ r.N ∧ r.N ≤ INTMAX_MAX ∧ -INTMAX_MAX ≤ r.D ∧ r.D ≤ INTMAX_MAX

instance (r : ratio) : Decidable r.representable := by
  unfold ratio.representable; infer_instance

/-- The template-id `std::ratio<N, D>` as `<ratio>` defines it: ill-formed when `D` is zero
("denominator cannot be zero") and when `N` or `D` is out of range. -/
def ratio.instantiate (r : ratio) : Except build_error ratio :=
  if r.D = 0 then .error .zero_denominator
  else if r.representable then .ok r
  else .error .overflow

/-- Every `std::ratio` among the template arguments of a unit has arguments in range. -/
def unit.representable (u : unit) : Prop :=
  (∀ d ∈ u.dimensions, d.representable) ∧ u.pow_10.representable ∧
  u.pow_pi.representable ∧ u.factor.representable

instance (u : unit) : Decidable u.representable := by
  unfold unit.representable; infer_instance

namespace intmax

/-- Alias `std::ratio_add<R1, R2>`: the sum in lowest terms, ill-formed when its numerator
or denominator is not representable. -/
def ratio_add (r1 r2 : ratio) : Except build_error ratio :=
  (physics.ratio_add r1 r2).instantiate

/-- Alias `std::ratio_subtract<R1, R2>`: the difference in lowest terms, ill-formed when
its numerator or denominator is not representable. -/
def ratio_subtract (r1 r2 : ratio) : Except build_error ratio :=
  (physics.ratio_subtract r1 r2).instantiate

/-- Alias `std::ratio_multiply<R1, R2>`: the product in lowest terms, ill-formed when its
numerator or denominator is not representable. -/
def ratio_multiply (r1 r2 : ratio) : Except build_error ratio :=
  (physics.ratio_multiply r1 r2).instantiate

/-- Alias `std::ratio_divide<R1, R2>`: ill-formed when `R2::num` is zero, else the quotient
in lowest terms, ill-formed when its numerator or denominator is not representable. -/
def ratio_divide (r1 r2 : ratio) : Except build_error ratio :=
  (physics.ratio_divide r1 r2).bind ratio.instantiate

/-- The template-id `unit_dimensions<R...>` for a pack of aliases: ill-formed when one of
the aliases is. -/
def expand : List (Except build_error ratio) → Except build_error unit_dimensions
  | [] => .ok []
  | x :: xs => x.bind (fun a => (expand xs).map (fun as => a :: as))

namespace unit_impl

/-- Alias `dimensions_add<Dim1, Dim2>`: the pack expansion of `std::ratio_add`. -/
def dimensions_add (d1 d2 : unit_dimensions) : Except build_error unit_dimensions :=
  if d1.length = d2.length then expand (List.zipWith ratio_add d1 d2)
  else .error .dimension_mismatch

/-- Alias `dimensions_subtract<Dim1, Dim2>`: the pack expansion of `std::ratio_subtract`. -/
def dimensions_subtract (d1 d2 : unit_dimensions) : Except build_error unit_dimensions :=
  if d1.length = d2.length then expand (List.zipWith ratio_subtract d1 d2)
  else .error .dimension_mismatch

/-- Alias `dimensions_multiply<Dim, Ratio>`: the pack expansion of `std::ratio_multiply`. -/
def dimensions_multiply (d : unit_dimensions) (r : ratio) : Except build_error unit_dimensions :=
  expand (d.map (fun x => ratio_multiply x r))

end unit_impl

/-- Alias `unit_multiply<Unit1, Unit2>`. -/
def unit_multiply (u1 u2 : unit) : Except build_error unit :=
  if physics.unit_impl.have_same_system u1 u2 then do
    let d ← unit_impl.dimensions_add u1.dimensions u2.dimensions
    let p ← ratio_add u1.pow_10 u2.pow_10
    let s ← ratio_add u1.pow_pi u2.pow_pi
    let f ← ratio_multiply u1.factor u2.factor
    pure { system := u1.system, dimensions := d, pow_10 := p, pow_pi := s, factor := f }
  else .error .different_system

/-- Alias `unit_divide<Unit1, Unit2>`. -/
def unit_divide (u1 u2 : unit) : Except build_error unit :=
  if physics.unit_impl.have_same_system u1 u2 then do
    let d ← unit_impl.dimensions_subtract u1.dimensions u2.dimensions
    let f ← ratio_divide u1.factor u2.factor
    let p ← ratio_subtract u1.pow_10 u2.pow_10
    let s ← ratio_subtract u1.pow_pi u2.pow_pi
    pure { system := u1.system, dimensions := d, pow_10 := p, pow_pi := s, factor := f }
  else .error .different_system

/-- An expression of type `std::intmax_t` inside a constant expression, with its
mathematical value: when the value is not representable the expression is not a constant
and the template argument it is part of is ill-formed. -/
def constant (x : Int) : Except build_error Int :=
  if intmax_fits x then .ok x else .error .overflow

namespace pow_impl

/-- Function `pow_impl::recursive_pow(x, n)` for `T = std::intmax_t` and `n >= 0`:
`n == 0 ? 1 : x * recursive_pow(x, n - 1)`, each product an expression of type
`std::intmax_t`. -/
def recursive_pow (x : Int) : Nat → Except build_error Int
  | 0 => .ok 1
  | k + 1 => (recursive_pow x k).bind (fun p => constant (x * p))

end pow_impl

/-- Function template `ipow<N>(n)`: `recursive_pow(n, N)`.  An `N` above `INTMAX_MAX` does
not fit the parameter of `recursive_pow`, and the evaluation has no value. -/
def ipow (N : Nat) (n : Int) : Except build_error Int :=
  if (N : Int) ≤ INTMAX_MAX then pow_impl.recursive_pow n N else .error .no_constant

namespace iroot_impl

/-- Function `iroot_impl::mid`: `(a + b) / 2`. -/
def mid (a b : Int) : Except build_error Int :=
  (constant (a + b)).map (fun s => Int.tdiv s 2)

/-- Function template `iroot_impl::iroot<N>(n, left, right)`, with the number of calls the
evaluation may make:
`(left == right) ? right
   : iroot<N>(n, ipow<N>(mid(left, right)) >= n ? left : mid(left, right) + 1,
                 ipow<N>(mid(left, right)) >= n ? mid(left, right) : right)`. -/
def iroot (N : Nat) (n : Int) : Nat → Int → Int → Except build_error Int
  | 0, _, _ => .error .no_constant
  | fuel + 1, left, right =>
    if left = right then .ok right
    else (mid left right).bind (fun m =>
      (ipow N m).bind (fun p =>
        if p ≥ n then iroot N n fuel left m
        else (constant (m + 1)).bind (fun m1 => iroot N n fuel m1 right)))

end iroot_impl

/-- Function template `iroot<N>(n)`: `n` for `N == 1`, the `static_assert` for `N == 0`,
else `iroot_impl::iroot<N>(n, 1, n)`, given `n + 1` calls as `physics.iroot`. -/
def iroot (N : Nat) (n : Int) : Except build_error Int :=
  if N = 1 then .ok n
  else if N = 0 then .error .static_assertion
  else iroot_impl.iroot N n (n.toNat + 1) 1 n

/-- Function template `ipow<Ratio>(n)`:
`(Ratio::num >= 0) ? ipow<Ratio::num>(iroot<Ratio::den>(n)) : 0`.  For a negative
`Ratio::num` the template argument of `ipow<Ratio::num>`, a `std::uintmax_t`, would need a
narrowing conversion, and the expression is ill-formed whichever branch is taken. -/
def ipow_ratio (r : ratio) (n : Int) : Except build_error Int :=
  if r.num ≥ 0 then (iroot r.den.toNat n).bind (ipow r.num.toNat) else .error .narrowing

/-- Alias `ratio_pow<Ratio1, Ratio2>`: the template-id `std::ratio<a, b>` of the two
constants of `physics.ratio_pow`. -/
def ratio_pow (r1 r2 : ratio) : Except build_error ratio :=
  (if r2.num > 0 then ipow_ratio (ratio_abs r2) r1.num
   else ipow_ratio (ratio_abs r2) r1.den).bind (fun a =>
    (if r2.num > 0 then ipow_ratio (ratio_abs r2) r1.den
     else ipow_ratio (ratio_abs r2) r1.num).bind (fun b =>
      (⟨a, b⟩ : ratio).instantiate))

/-- Alias `unit_pow<Unit, Ratio>`. -/
def unit_pow (u : unit) (r : ratio) : Except build_error unit := do
  let f ← ratio_pow u.factor r
  let d ← unit_impl.dimensions_multiply u.dimensions r
  let p ← ratio_multiply u.pow_10 r
  let s ← ratio_multiply u.pow_pi r
  pure { system := u.system, dimensions := d, pow_10 := p, pow_pi := s, factor := f }

namespace unit_impl

namespace rescale_impl

/-- Member `rescale_impl<UnitLHS, UnitRHS>::pow_10()`. -/
def pow_10 {F : Type} [Field F] (M : cmath F) (lhs rhs : unit) : Except build_error F :=
  if lhs = rhs then .ok 1
  else (ratio_subtract rhs.pow_10 lhs.pow_10).map (fun r => physics.pow M r 10)

/-- Member `rescale_impl<UnitLHS, UnitRHS>::pow_pi()`. -/
def pow_pi {F : Type} [Field F] (M : cmath F) (lhs rhs : unit) : Except build_error F :=
  if lhs = rhs then .ok 1
  else (ratio_subtract rhs.pow_pi lhs.pow_pi).map (fun r => physics.pow M r M.pi)

/-- Member `rescale_impl<UnitLHS, UnitRHS>::factor()`. -/
def factor {F : Type} [Field F] (lhs rhs : unit) : Except build_error F :=
  if lhs = rhs then .ok 1
  else (ratio_divide rhs.factor lhs.factor).map (fun f => (f.num : F) / (f.den : F))

/-- The three aliases of `rescale_impl<UnitLHS, UnitRHS>` have their results in range:
nothing is asked of the specialization for twice the same unit; otherwise of
`ratio_subtract<UnitRHS::pow_10, UnitLHS::pow_10>`, of the same alias for `pow_pi` and of
`ratio_divide<UnitRHS::factor, UnitLHS::factor>` where that quotient exists. -/
def representable (lhs rhs : unit) : Prop :=
  lhs = rhs ∨
    ((physics.ratio_subtract rhs.pow_10 lhs.pow_10).representable ∧
     (physics.ratio_subtract rhs.pow_pi lhs.pow_pi).representable ∧
     match physics.ratio_divide rhs.factor lhs.factor with
     | .ok q => q.representable
     | .error _ => True)

instance (lhs rhs : unit) : Decidable (representable lhs rhs) := by
  unfold representable
  cases physics.ratio_divide rhs.factor lhs.factor <;> infer_instance

end rescale_impl

/-- Function template `rescale_value<UnitLHS, UnitRHS>(rhs_value)`:
`rhs_value * pow_10() * pow_pi() * factor()`. -/
def rescale_value {F : Type} [Field F] (M : cmath F) (lhs rhs : unit) (rhs_value : F) :
    Except build_error F := do
  let a ← rescale_impl.pow_10 M lhs rhs
  let b ← rescale_impl.pow_pi M lhs rhs
  let f ← rescale_impl.factor lhs rhs
  pure (rhs_value * a * b * f)

end unit_impl

namespace quantity

/-- Constructor 3 of `quantity<u>`. -/
def from_quantity {F : Type} [Field F] (M : cmath F) (u : unit) (rhs : quantity F) :
    Except build_error (quantity F) :=
  if rhs.unit.system = u.system ∧ rhs.unit.dimensions = u.dimensions then
    (unit_impl.rescale_value M u rhs.unit rhs.raw_value).map (fun v => ⟨u, v⟩)
  else .error .incompatible

/-- Member `value()`. -/
def value {F : Type} [Field F] (M : cmath F) (q : quantity F) : Except build_error F :=
  if q.unit.is_dimensionless then
    (from_quantity M q.unit.unscaled q).map physics.quantity.raw_value
  else .ok q.value_

/-- Member template `value<UnitOrQuantity>()`. -/
def value_in {F : Type} [Field F] (M : cmath F) (q : quantity F) (other_unit : unit) :
    Except build_error F :=
  if physics.unit_impl.are_compatible q.unit other_unit then
    (from_quantity M other_unit q).bind (value M)
  else .error .static_assertion

/-- Initialising a parameter of type `quantity<u>` from the argument `b`. -/
def implicit {F : Type} [Field F] (M : cmath F) (u : unit) (b : quantity F) :
    Except build_error (quantity F) :=
  if b.unit = u then .ok b else from_quantity M u b

/-- Member template `operator*(quantity<Unit2> q)`. -/
def mul {F : Type} [Field F] (a q : quantity F) : Except build_error (quantity F) :=
  (unit_multiply a.unit q.unit).map (fun u => ⟨u, a.value_ * q.raw_value⟩)

/-- Member template `operator/(quantity<Unit2> q)`. -/
def div {F : Type} [Field F] (a q : quantity F) : Except build_error (quantity F) :=
  (unit_divide a.unit q.unit).map (fun u => ⟨u, a.value_ / q.raw_value⟩)

/-- The expression `a + b` for `a` of the primary template and a quantity `b`. -/
def add_expr {F : Type} [Field F] (M : cmath F) (a b : quantity F) :
    Except build_error (quantity F) :=
  (implicit M a.unit b).map (physics.quantity.add a)

/-- The expression `a - b` for `a` of the primary template and a quantity `b`. -/
def sub_expr {F : Type} [Field F] (M : cmath F) (a b : quantity F) :
    Except build_error (quantity F) :=
  (implicit M a.unit b).map (physics.quantity.sub a)

end quantity

end intmax

end physics

/-! # Lemmas and theorems -/

namespace physics

/-! ## Lemmas on `std::ratio` -/

namespace ratio

theorem toRat_eq_divInt (r : ratio) : r.toRat = Rat.divInt r.N r.D := by
  rw [toRat, Rat.divInt_eq_div]

theorem num_eq (r : ratio) : r.num = r.toRat.num := by
  rw [toRat_eq_divInt, Rat.num_mk, num]
  congr 1
  rw [mul_assoc, mul_comm, mul_assoc, mul_comm (r.N.natAbs : Int), Int.sign_mul_natAbs, mul_comm]

theorem den_eq (r : ratio) (h : r.valid) : r.den = (r.toRat.den : Int) := by
  have hD : r.D ≠ 0 := h
  rw [toRat_eq_divInt, Rat.den_mk, den, if_neg hD]
  push_cast
  rfl

theorem den_pos (r : ratio) (h : r.valid) : 0 < r.den := by
  rw [den_eq r h]
  exact_mod_cast r.toRat.den_pos

theorem den_ne_zero (r : ratio) (h : r.valid) : r.den ≠ 0 := (den_pos r h).ne'

theorem num_div_den (r : ratio) (h : r.valid) : (r.num : ℚ) / (r.den : ℚ) = r.toRat := by
  rw [num_eq, den_eq r h]
  exact_mod_cast Rat.num_div_den r.toRat

theorem num_div_den_cast {F : Type} [Field F] [CharZero F] (r : ratio) (h : r.valid) :
    (r.num : F) / (r.den : F) = ((r.toRat : ℚ) : F) := by
  rw [← num_div_den r h]
  push_cast
  rfl

theorem type_valid (r : ratio) (h : r.valid) : r.type.valid := den_ne_zero r h

theorem type_toRat (r : ratio) (h : r.valid) : r.type.toRat = r.toRat := by
  show ((r.num : ℚ) / (r.den : ℚ)) = r.toRat
  exact num_div_den r h

theorem type_reduced (r : ratio) (h : r.valid) : r.type.reduced := by
  refine ⟨den_pos r h, ?_⟩
  show Int.gcd r.num r.den = 1
  rw [num_eq, den_eq r h]
  exact r.toRat.reduced

theorem reduced.valid {r : ratio} (h : r.reduced) : r.valid := h.1.ne'

theorem reduced.num_self {r : ratio} (h : r.reduced) : r.num = r.N := by
  rw [ratio.num_eq, toRat]
  exact Rat.num_div_eq_of_coprime h.1 h.2

theorem reduced.den_self {r : ratio} (h : r.reduced) : r.den = r.D := by
  rw [ratio.den_eq r h.valid, toRat]
  exact Rat.den_div_eq_of_coprime h.1 h.2

theorem reduced.type_eq {r : ratio} (h : r.reduced) : r.type = r := by
  cases r
  simp only [type, mk.injEq]
  exact ⟨h.num_self, h.den_self⟩

theorem reduced_iff_type_eq (r : ratio) : r.reduced ↔ r.valid ∧ r.type = r :=
  ⟨fun h => ⟨h.valid, h.type_eq⟩, fun h => h.2 ▸ type_reduced r h.1⟩

/-- Two ratios in lowest terms are the same type exactly when they denote the same
rational number. -/
theorem reduced.eq_iff {r1 r2 : ratio} (h1 : r1.reduced) (h2 : r2.reduced) :
    r1 = r2 ↔ r1.toRat = r2.toRat := by
  constructor
  · intro h; rw [h]
  · intro h
    have hn : r1.N = r2.N := by rw [← h1.num_self, ← h2.num_self, ratio.num_eq, ratio.num_eq, h]
    have hd : r1.D = r2.D := by
      rw [← h1.den_self, ← h2.den_self, ratio.den_eq r1 h1.valid, ratio.den_eq r2 h2.valid, h]
    cases r1; cases r2; simp_all

theorem num_eq_zero_iff (r : ratio) : r.num = 0 ↔ r.toRat = 0 := by
  rw [num_eq]; exact Rat.num_eq_zero

theorem toRat_eq_zero_iff (r : ratio) (h : r.valid) : r.toRat = 0 ↔ r.N = 0 := by
  have hD : (r.D : ℚ) ≠ 0 := by exact_mod_cast h
  rw [toRat, div_eq_zero_iff]
  simp [hD]

end ratio


/-! ## Lemmas on the ratio arithmetic -/

theorem ratio_type_spec (n d : Int) (hd : d ≠ 0) :
    (ratio.type ⟨n, d⟩).reduced ∧ (ratio.type ⟨n, d⟩).toRat = (n : ℚ) / (d : ℚ) :=
  ⟨ratio.type_reduced ⟨n, d⟩ hd, ratio.type_toRat ⟨n, d⟩ hd⟩

theorem ratio_add_reduced (r1 r2 : ratio) (h1 : r1.valid) (h2 : r2.valid) :
    (ratio_add r1 r2).reduced :=
  (ratio_type_spec _ _ (mul_ne_zero (r1.den_ne_zero h1) (r2.den_ne_zero h2))).1

theorem ratio_add_toRat (r1 r2 : ratio) (h1 : r1.valid) (h2 : r2.valid) :
    (ratio_add r1 r2).toRat = r1.toRat + r2.toRat := by
  have d1 : (r1.den : ℚ) ≠ 0 := by exact_mod_cast r1.den_ne_zero h1
  have d2 : (r2.den : ℚ) ≠ 0 := by exact_mod_cast r2.den_ne_zero h2
  rw [ratio_add, (ratio_type_spec _ _ (mul_ne_zero (r1.den_ne_zero h1) (r2.den_ne_zero h2))).2,
    ← r1.num_div_den h1, ← r2.num_div_den h2]
  push_cast
  field_simp
  try ring

theorem ratio_subtract_reduced (r1 r2 : ratio) (h1 : r1.valid) (h2 : r2.valid) :
    (ratio_subtract r1 r2).reduced :=
  (ratio_type_spec _ _ (mul_ne_zero (r1.den_ne_zero h1) (r2.den_ne_zero h2))).1

theorem ratio_subtract_toRat (r1 r2 : ratio) (h1 : r1.valid) (h2 : r2.valid) :
    (ratio_subtract r1 r2).toRat = r1.toRat - r2.toRat := by
  have d1 : (r1.den : ℚ) ≠ 0 := by exact_mod_cast r1.den_ne_zero h1
  have d2 : (r2.den : ℚ) ≠ 0 := by exact_mod_cast r2.den_ne_zero h2
  rw [ratio_subtract,
    (ratio_type_spec _ _ (mul_ne_zero (r1.den_ne_zero h1) (r2.den_ne_zero h2))).2,
    ← r1.num_div_den h1, ← r2.num_div_den h2]
  push_cast
  field_simp
  try ring

theorem ratio_multiply_reduced (r1 r2 : ratio) (h1 : r1.valid) (h2 : r2.valid) :
    (ratio_multiply r1 r2).reduced :=
  (ratio_type_spec _ _ (mul_ne_zero (r1.den_ne_zero h1) (r2.den_ne_zero h2))).1

theorem ratio_multiply_toRat (r1 r2 : ratio) (h1 : r1.valid) (h2 : r2.valid) :
    (ratio_multiply r1 r2).toRat = r1.toRat * r2.toRat := by
  have d1 : (r1.den : ℚ) ≠ 0 := by exact_mod_cast r1.den_ne_zero h1
  have d2 : (r2.den : ℚ) ≠ 0 := by exact_mod_cast r2.den_ne_zero h2
  rw [ratio_multiply,
    (ratio_type_spec _ _ (mul_ne_zero (r1.den_ne_zero h1) (r2.den_ne_zero h2))).2,
    ← r1.num_div_den h1, ← r2.num_div_den h2]
  push_cast
  field_simp
  try ring

/-- The alias `ratio_divide` is well-formed exactly when the divisor is not zero, and
then it is the quotient in lowest terms. -/
theorem ratio_divide_spec (r1 r2 : ratio) (h1 : r1.valid) (h2 : r2.valid)
    (hz : r2.toRat ≠ 0) :
    ∃ q, ratio_divide r1 r2 = .ok q ∧ q.reduced ∧ q.toRat = r1.toRat / r2.toRat := by
  have hn : r2.num ≠ 0 := fun h => hz ((r2.num_eq_zero_iff).1 h)
  have hd : r1.den * r2.num ≠ 0 := mul_ne_zero (r1.den_ne_zero h1) hn
  refine ⟨_, by rw [ratio_divide, if_neg hn], (ratio_type_spec _ _ hd).1, ?_⟩
  have d1 : (r1.den : ℚ) ≠ 0 := by exact_mod_cast r1.den_ne_zero h1
  have d2 : (r2.den : ℚ) ≠ 0 := by exact_mod_cast r2.den_ne_zero h2
  have n2 : (r2.num : ℚ) ≠ 0 := by exact_mod_cast hn
  rw [(ratio_type_spec _ _ hd).2, ← r1.num_div_den h1, ← r2.num_div_den h2]
  push_cast
  field_simp
  try ring

theorem ratio_divide_zero (r1 r2 : ratio) (hz : r2.toRat = 0) :
    ratio_divide r1 r2 = .error .zero_denominator := by
  rw [ratio_divide, if_pos ((r2.num_eq_zero_iff).2 hz)]

end physics

namespace physics

theorem dimensions_toRat_zipWith (f : ratio → ratio → ratio) (g : ℚ → ℚ → ℚ)
    (hf : ∀ a b : ratio, a.valid → b.valid → (f a b).reduced ∧ (f a b).toRat = g a.toRat b.toRat) :
    ∀ d1 d2 : unit_dimensions, (∀ d ∈ d1, d.valid) → (∀ d ∈ d2, d.valid) →
      (∀ d ∈ List.zipWith f d1 d2, d.reduced) ∧
      (List.zipWith f d1 d2).map ratio.toRat =
        List.zipWith g (d1.map ratio.toRat) (d2.map ratio.toRat)
  | [], _, _, _ => by simp
  | _ :: _, [], _, _ => by simp
  | a :: d1, b :: d2, h1, h2 => by
    have ha : a.valid := h1 a (List.mem_cons_self _ _)
    have hb : b.valid := h2 b (List.mem_cons_self _ _)
    have ih := dimensions_toRat_zipWith f g hf d1 d2
      (fun d hd => h1 d (List.mem_cons_of_mem _ hd)) (fun d hd => h2 d (List.mem_cons_of_mem _ hd))
    refine ⟨?_, ?_⟩
    · intro d hd
      rw [List.zipWith_cons_cons, List.mem_cons] at hd
      rcases hd with rfl | hd
      · exact (hf a b ha hb).1
      · exact ih.1 d hd
    · simp only [List.zipWith_cons_cons, List.map_cons, (hf a b ha hb).2, ih.2]

theorem unit_multiply_ok (u1 u2 : unit) (hs : u1.system = u2.system)
    (hlen : u1.dimensions.length = u2.dimensions.length) :
    unit_multiply u1 u2 = .ok
      { system := u1.system
        dimensions := List.zipWith ratio_add u1.dimensions u2.dimensions
        pow_10 := ratio_add u1.pow_10 u2.pow_10
        pow_pi := ratio_add u1.pow_pi u2.pow_pi
        factor := ratio_multiply u1.factor u2.factor } := by
  simp [unit_multiply, unit_impl.have_same_system, hs, unit_impl.dimensions_add, hlen, bind,
    Except.bind, pure, Except.pure]

/-- In unbounded integers: for two units of the same system `unit_multiply` is well-formed and its result has
the system of the first unit, the elementwise sum of the dimension vectors, the sum of
the `pow_10`, the sum of the `pow_pi` and the product of the factors, each an exact
rational in lowest terms. -/
theorem unit_multiply_spec (u1 u2 : unit) (h1 : u1.valid) (h2 : u2.valid)
    (hs : unit_impl.have_same_system u1 u2 = true) :
    ∃ u, unit_multiply u1 u2 = .ok u ∧ u.valid ∧ u.system = u1.system ∧
      (∀ d ∈ u.dimensions, d.reduced) ∧
      u.dimensions.map ratio.toRat =
        List.zipWith (· + ·) (u1.dimensions.map ratio.toRat) (u2.dimensions.map ratio.toRat) ∧
      u.dimensions.length = u1.dimensions.length ∧
      u.pow_10.reduced ∧ u.pow_10.toRat = u1.pow_10.toRat + u2.pow_10.toRat ∧
      u.pow_pi.reduced ∧ u.pow_pi.toRat = u1.pow_pi.toRat + u2.pow_pi.toRat ∧
      u.factor.reduced ∧ u.factor.toRat = u1.factor.toRat * u2.factor.toRat := by
  obtain ⟨hl1, hd1, hp1, hq1, hf1⟩ := h1
  obtain ⟨hl2, hd2, hp2, hq2, hf2⟩ := h2
  have hsys : u1.system = u2.system := by simpa [unit_impl.have_same_system] using hs
  have hlen : u1.dimensions.length = u2.dimensions.length := by rw [← hl1, ← hl2, hsys]
  have hz := dimensions_toRat_zipWith ratio_add (· + ·)
    (fun a b ha hb => ⟨ratio_add_reduced a b ha hb, ratio_add_toRat a b ha hb⟩)
    u1.dimensions u2.dimensions hd1 hd2
  have hzl : (List.zipWith ratio_add u1.dimensions u2.dimensions).length = u1.dimensions.length := by
    rw [List.length_zipWith, ← hlen, min_self]
  refine ⟨_, unit_multiply_ok u1 u2 hsys hlen,
    ⟨?_, fun d hd => (hz.1 d hd).valid, (ratio_add_reduced _ _ hp1 hp2).valid,
      (ratio_add_reduced _ _ hq1 hq2).valid, (ratio_multiply_reduced _ _ hf1 hf2).valid⟩,
    rfl, hz.1, hz.2, hzl, ratio_add_reduced _ _ hp1 hp2, ratio_add_toRat _ _ hp1 hp2,
    ratio_add_reduced _ _ hq1 hq2, ratio_add_toRat _ _ hq1 hq2,
    ratio_multiply_reduced _ _ hf1 hf2, ratio_multiply_toRat _ _ hf1 hf2⟩
  show u1.system.size = (List.zipWith ratio_add u1.dimensions u2.dimensions).length
  rw [hzl, hl1]

/-- An instance, in unbounded integers, in `test_unit.cc`: `u1_type` times `u3_type`. -/
theorem unit_multiply_spec_witness :
    test_unit.u1_type.valid ∧ test_unit.u3_type.valid ∧
    unit_impl.have_same_system test_unit.u1_type test_unit.u3_type = true ∧
    ∃ u, unit_multiply test_unit.u1_type test_unit.u3_type = .ok u ∧ u.valid ∧
      u.system = test_unit.u1_type.system ∧
      (∀ d ∈ u.dimensions, d.reduced) ∧
      u.dimensions.map ratio.toRat =
        List.zipWith (· + ·) (test_unit.u1_type.dimensions.map ratio.toRat)
          (test_unit.u3_type.dimensions.map ratio.toRat) ∧
      u.dimensions.length = test_unit.u1_type.dimensions.length ∧
      u.pow_10.reduced ∧
      u.pow_10.toRat = test_unit.u1_type.pow_10.toRat + test_unit.u3_type.pow_10.toRat ∧
      u.pow_pi.reduced ∧
      u.pow_pi.toRat = test_unit.u1_type.pow_pi.toRat + test_unit.u3_type.pow_pi.toRat ∧
      u.factor.reduced ∧
      u.factor.toRat = test_unit.u1_type.factor.toRat * test_unit.u3_type.factor.toRat :=
  ⟨by decide, by decide, by decide,
    unit_multiply_spec test_unit.u1_type test_unit.u3_type (by decide) (by decide) (by decide)⟩

/-- The checks of `test_unit.cc` on `unit_multiply`: `u1xu3_type` has `pow_10` 2, `pow_pi` 2
and factor 2/3, on the dimensions (2, 2, 0). -/
theorem unit_multiply_test :
    unit_multiply test_unit.u1_type test_unit.u3_type =
      .ok ⟨test_unit.sys1_type, [⟨2, 1⟩, ⟨2, 1⟩, ⟨0, 1⟩], ⟨2, 1⟩, ⟨2, 1⟩, ⟨2, 3⟩⟩ ∧
    unit_multiply test_unit.u1_type test_unit.u1_type =
      .ok ⟨test_unit.sys1_type, [⟨2, 1⟩, ⟨0, 1⟩, ⟨0, 1⟩], ⟨2, 1⟩, ⟨2, 1⟩, ⟨1, 4⟩⟩ ∧
    unit_multiply test_unit.u1_type test_unit.u2_type =
      .ok ⟨test_unit.sys1_type, [⟨2, 1⟩, ⟨0, 1⟩, ⟨0, 1⟩], ⟨1, 1⟩, ⟨1, 1⟩, ⟨1, 2⟩⟩ := by
  decide

/-! ## Lemmas on `ipow`, `iroot` and `ratio_pow` -/

theorem pow_impl.recursive_pow_nat_eq {T : Type} [Monoid T] (x : T) (k : Nat) :
    pow_impl.recursive_pow_nat x k = x ^ k := by
  induction k with
  | zero => simp [pow_impl.recursive_pow_nat]
  | succ k ih => rw [pow_impl.recursive_pow_nat, ih, pow_succ']

theorem ipow_eq_pow (N : Nat) (n : Int) : ipow N n = n ^ N := by
  have h : ¬ ((N : Int) < 0) := by omega
  rw [ipow, pow_impl.recursive_pow, if_neg h, pow_impl.recursive_pow_nat_eq, Int.toNat_ofNat]

theorem iroot_impl.mid_eq (a b : Int) (h : 0 ≤ a + b) : iroot_impl.mid a b = (a + b) / 2 := by
  rw [iroot_impl.mid, Int.tdiv_eq_ediv h (by decide)]

/-- The binary search ends: started on `1 <= left <= right` with more calls available than
the width of the interval, it returns a value of the interval. -/
theorem iroot_impl.iroot_terminates (N : Nat) (n : Int) :
    ∀ (fuel : Nat) (left right : Int), 1 ≤ left → left ≤ right → right - left < fuel →
      ∃ r, iroot_impl.iroot N n fuel left right = some r ∧ left ≤ r ∧ r ≤ right
  | 0, left, right, _, hlr, hf => by omega
  | fuel + 1, left, right, hl, hlr, hf => by
    rw [iroot_impl.iroot]
    by_cases heq : left = right
    · rw [if_pos heq]; exact ⟨right, rfl, hlr, le_refl _⟩
    · rw [if_neg heq]
      have hlt : left < right := lt_of_le_of_ne hlr heq
      have hm : iroot_impl.mid left right = (left + right) / 2 :=
        iroot_impl.mid_eq _ _ (by omega)
      rw [hm]
      by_cases hc : ipow N ((left + right) / 2) ≥ n
      · rw [if_pos hc, if_pos hc]
        obtain ⟨r, hr, h1, h2⟩ := iroot_impl.iroot_terminates N n fuel left ((left + right) / 2)
          hl (by omega) (by omega)
        exact ⟨r, hr, h1, by omega⟩
      · rw [if_neg hc, if_neg hc]
        obtain ⟨r, hr, h1, h2⟩ := iroot_impl.iroot_terminates N n fuel ((left + right) / 2 + 1)
          right (by omega) (by omega) (by omega)
        exact ⟨r, hr, by omega, h2⟩

theorem iroot_pos (N : Nat) (hN : 1 ≤ N) (n : Int) (hn : 1 ≤ n) :
    ∃ r, iroot N n = .ok r ∧ 1 ≤ r ∧ r ≤ n := by
  rw [iroot]
  by_cases h1 : N = 1
  · rw [if_pos h1]; exact ⟨n, rfl, hn, le_refl _⟩
  · rw [if_neg h1, if_neg (by omega)]
    obtain ⟨r, hr, hr1, hr2⟩ := iroot_impl.iroot_terminates N n (n.toNat + 1) 1 n (le_refl _) hn
      (by omega)
    exact ⟨r, by rw [hr], hr1, hr2⟩

theorem ratio_abs_reduced (r : ratio) (h : r.valid) : (ratio_abs r).reduced := by
  have hr := ratio.type_reduced r h
  refine ⟨hr.1, ?_⟩
  show Int.gcd (abs r.num) r.den = 1
  have : Int.gcd r.num r.den = 1 := hr.2
  unfold abs
  split
  · rwa [Int.neg_gcd]
  · exact this

theorem ipow_ratio_abs_pos (r : ratio) (h : r.valid) (n : Int) (hn : 1 ≤ n) :
    ∃ m, ipow_ratio (ratio_abs r) n = .ok m ∧ 1 ≤ m := by
  have hred := ratio_abs_reduced r h
  have hnum : (ratio_abs r).num = abs r.num := hred.num_self
  have hden : (ratio_abs r).den = r.den := hred.den_self
  have habs : 0 ≤ abs r.num := by unfold abs; split <;> omega
  have hdpos := r.den_pos h
  rw [ipow_ratio, hnum, hden, if_pos habs]
  obtain ⟨m, hm, hm1, _⟩ := iroot_pos r.den.toNat (by omega) n hn
  refine ⟨ipow (abs r.num).toNat m, by rw [hm]; rfl, ?_⟩
  rw [ipow_eq_pow]
  exact one_le_pow₀ hm1

/-- The alias `ratio_pow` is well-formed on a positive base. -/
theorem ratio_pow_pos (r1 r2 : ratio) (h1 : r1.valid) (h2 : r2.valid) (hpos : 0 < r1.toRat) :
    ∃ q, ratio_pow r1 r2 = .ok q ∧ 0 < q.N ∧ 0 < q.D := by
  have hn : 1 ≤ r1.num := by
    have : 0 < r1.toRat.num := Rat.num_pos.2 hpos
    rw [r1.num_eq]; omega
  have hd : 1 ≤ r1.den := r1.den_pos h1
  obtain ⟨a, ha, ha1⟩ := ipow_ratio_abs_pos r2 h2 r1.num hn
  obtain ⟨b, hb, hb1⟩ := ipow_ratio_abs_pos r2 h2 r1.den hd
  by_cases hs : r2.num > 0
  · refine ⟨⟨a, b⟩, ?_, by show 0 < a; omega, by show 0 < b; omega⟩
    have hb0 : b ≠ 0 := by omega
    simp [ratio_pow, hs, ha, hb, hb0, bind, Except.bind]
  · refine ⟨⟨b, a⟩, ?_, by show 0 < b; omega, by show 0 < a; omega⟩
    have ha0 : a ≠ 0 := by omega
    simp [ratio_pow, hs, ha, hb, ha0, bind, Except.bind]

/-! ## The calls given to `iroot` are enough -/

/-- More calls do not change a result of the binary search. -/
theorem iroot_impl.iroot_fuel_mono (N : Nat) (n : Int) :
    ∀ (fuel : Nat) (left right r : Int), iroot_impl.iroot N n fuel left right = some r →
      ∀ more : Nat, iroot_impl.iroot N n (fuel + more) left right = some r
  | 0, _, _, _, h, _ => by simp [iroot_impl.iroot] at h
  | fuel + 1, left, right, r, h, more => by
    rw [show fuel + 1 + more = (fuel + more) + 1 by omega, iroot_impl.iroot]
    rw [iroot_impl.iroot] at h
    by_cases heq : left = right
    · rw [if_pos heq] at h ⊢; exact h
    · rw [if_neg heq] at h ⊢
      exact iroot_impl.iroot_fuel_mono N n fuel _ _ r h more

theorem iroot_impl.mid_nonpos (a b : Int) (h : a + b ≤ 0) :
    iroot_impl.mid a b = -((-(a + b)) / 2) := by
  rw [iroot_impl.mid]
  have h2 : Int.tdiv (-(-(a + b))) 2 = -(Int.tdiv (-(a + b)) 2) := Int.neg_tdiv _ _
  rw [neg_neg] at h2
  rw [h2, Int.tdiv_eq_ediv (by omega) (by decide)]

/-- On `n < 1` the binary search of a degree `N >= 1` never reaches `left == right`,
however many calls it is given: the constant evaluation of `iroot<N>(n)` has no value. -/
theorem iroot_impl.iroot_diverges (N : Nat) (hN : 1 ≤ N) (n : Int) (hn : n ≤ 0) :
    ∀ (fuel : Nat) (left right : Int),
      ((left = 1 ∧ right ≤ 0) ∨ (left ≤ 0 ∧ right + 2 ≤ left ∧ ipow N (left - 1) < n)) →
      iroot_impl.iroot N n fuel left right = none
  | 0, _, _, _ => rfl
  | fuel + 1, left, right, hinv => by
    rw [iroot_impl.iroot]
    have hne : left ≠ right := by rcases hinv with ⟨h1, h2⟩ | ⟨h1, h2, _⟩ <;> omega
    rw [if_neg hne]
    apply iroot_impl.iroot_diverges N hN n hn fuel
    rcases hinv with ⟨h1, h2⟩ | ⟨h1, h2, h3⟩
    · subst h1
      have hm : (right ≠ 0 ∧ iroot_impl.mid 1 right = -((-(1 + right)) / 2)) ∨
          (right = 0 ∧ iroot_impl.mid 1 right = 0) := by
        by_cases h0 : right = 0
        · right; subst h0; exact ⟨rfl, by decide⟩
        · left; exact ⟨h0, iroot_impl.mid_nonpos _ _ (by omega)⟩
      by_cases hc : ipow N (iroot_impl.mid 1 right) ≥ n
      · rw [if_pos hc, if_pos hc]
        left
        refine ⟨rfl, ?_⟩
        rcases hm with ⟨h0, hm⟩ | ⟨_, hm⟩ <;> omega
      · rw [if_neg hc, if_neg hc]
        right
        have hlt : ipow N (iroot_impl.mid 1 right) < n := by omega
        have hneg : iroot_impl.mid 1 right < 0 := by
          by_contra hnn
          have : 0 ≤ ipow N (iroot_impl.mid 1 right) := by
            rw [ipow_eq_pow]; exact pow_nonneg (by omega) N
          omega
        refine ⟨by omega, ?_, by simpa using hlt⟩
        rcases hm with ⟨h0, hm⟩ | ⟨_, hm⟩ <;> omega
    · have hm := iroot_impl.mid_nonpos left right (by omega)
      have hle : iroot_impl.mid left right ≤ left - 1 := by rw [hm]; omega
      have hge : right + 1 ≤ iroot_impl.mid left right := by rw [hm]; omega
      have hodd : Odd N := by
        by_contra he
        rw [Nat.not_odd_iff_even] at he
        have : 0 ≤ ipow N (left - 1) := by rw [ipow_eq_pow]; exact he.pow_nonneg _
        omega
      have hlt : ipow N (iroot_impl.mid left right) < n := by
        have := hodd.strictMono_pow.monotone hle
        simp only at this
        rw [ipow_eq_pow] at h3 ⊢
        omega
      have hc : ¬ ipow N (iroot_impl.mid left right) ≥ n := by omega
      rw [if_neg hc, if_neg hc]
      right
      exact ⟨by omega, by omega, by simpa using hlt⟩

/-- For `n < 1` and a degree other than 1, `iroot<N>(n)` is no constant, whatever number
of calls the search is given; the model of `iroot` loses no value by its bound. -/
theorem iroot_no_constant (N : Nat) (hN : 2 ≤ N) (n : Int) (hn : n ≤ 0) :
    (∀ fuel : Nat, iroot_impl.iroot N n fuel 1 n = none) ∧
    iroot N n = .error .no_constant := by
  have h : ∀ fuel : Nat, iroot_impl.iroot N n fuel 1 n = none := fun fuel =>
    iroot_impl.iroot_diverges N (by omega) n hn fuel 1 n (Or.inl ⟨rfl, hn⟩)
  refine ⟨h, ?_⟩
  rw [iroot, if_neg (by omega), if_neg (by omega), h]

/-- For `n >= 1` the result of `iroot<N>(n)` is the result of the binary search with any
larger number of calls. -/
theorem iroot_fuel_enough (N : Nat) (hN : 2 ≤ N) (n : Int) (hn : 1 ≤ n) :
    ∃ r, iroot N n = .ok r ∧
      ∀ more : Nat, iroot_impl.iroot N n (n.toNat + 1 + more) 1 n = some r := by
  obtain ⟨r, hr, _, _⟩ := iroot_impl.iroot_terminates N n (n.toNat + 1) 1 n (le_refl _) hn
    (by omega)
  refine ⟨r, ?_, iroot_impl.iroot_fuel_mono N n _ _ _ r hr⟩
  rw [iroot, if_neg (by omega), if_neg (by omega), hr]

/-! ## Unit algebra: division and power -/

theorem unit_divide_ok (u1 u2 : unit) (hs : u1.system = u2.system)
    (hlen : u1.dimensions.length = u2.dimensions.length) (q : ratio)
    (hq : ratio_divide u1.factor u2.factor = .ok q) :
    unit_divide u1 u2 = .ok
      { system := u1.system
        dimensions := List.zipWith ratio_subtract u1.dimensions u2.dimensions
        pow_10 := ratio_subtract u1.pow_10 u2.pow_10
        pow_pi := ratio_subtract u1.pow_pi u2.pow_pi
        factor := q } := by
  simp [unit_divide, unit_impl.have_same_system, hs, unit_impl.dimensions_subtract, hlen, hq,
    bind, Except.bind, pure, Except.pure]

theorem unit_divide_zero (u1 u2 : unit) (hs : u1.system = u2.system)
    (hlen : u1.dimensions.length = u2.dimensions.length) (hz : u2.factor.toRat = 0) :
    unit_divide u1 u2 = .error .zero_denominator := by
  simp [unit_divide, unit_impl.have_same_system, hs, unit_impl.dimensions_subtract, hlen,
    ratio_divide_zero _ _ hz, bind, Except.bind]

theorem unit_valid_same_length (u1 u2 : unit) (h1 : u1.valid) (h2 : u2.valid)
    (hs : u1.system = u2.system) : u1.dimensions.length = u2.dimensions.length := by
  rw [← h1.1, ← h2.1, hs]

theorem have_same_system_iff (u1 u2 : unit) :
    unit_impl.have_same_system u1 u2 = true ↔ u1.system = u2.system := by
  simp [unit_impl.have_same_system]

/-- In unbounded integers: for two units of the same system whose divisor has a nonzero factor,
`unit_divide` is well-formed and its result has the system of the first unit, the
elementwise difference of the dimension vectors, the difference of the `pow_10`, the
difference of the `pow_pi` and the quotient of the factors, each an exact rational in
lowest terms. -/
theorem unit_divide_spec (u1 u2 : unit) (h1 : u1.valid) (h2 : u2.valid)
    (hs : unit_impl.have_same_system u1 u2 = true) (hz : u2.factor.toRat ≠ 0) :
    ∃ u, unit_divide u1 u2 = .ok u ∧ u.valid ∧ u.system = u1.system ∧
      (∀ d ∈ u.dimensions, d.reduced) ∧
      u.dimensions.map ratio.toRat =
        List.zipWith (· - ·) (u1.dimensions.map ratio.toRat) (u2.dimensions.map ratio.toRat) ∧
      u.dimensions.length = u1.dimensions.length ∧
      u.pow_10.reduced ∧ u.pow_10.toRat = u1.pow_10.toRat - u2.pow_10.toRat ∧
      u.pow_pi.reduced ∧ u.pow_pi.toRat = u1.pow_pi.toRat - u2.pow_pi.toRat ∧
      u.factor.reduced ∧ u.factor.toRat = u1.factor.toRat / u2.factor.toRat := by
  have hsys := (have_same_system_iff u1 u2).1 hs
  have hlen := unit_valid_same_length u1 u2 h1 h2 hsys
  obtain ⟨hl1, hd1, hp1, hq1, hf1⟩ := h1
  obtain ⟨hl2, hd2, hp2, hq2, hf2⟩ := h2
  obtain ⟨q, hq, hqr, hqv⟩ := ratio_divide_spec u1.factor u2.factor hf1 hf2 hz
  have hzw := dimensions_toRat_zipWith ratio_subtract (· - ·)
    (fun a b ha hb => ⟨ratio_subtract_reduced a b ha hb, ratio_subtract_toRat a b ha hb⟩)
    u1.dimensions u2.dimensions hd1 hd2
  have hzl : (List.zipWith ratio_subtract u1.dimensions u2.dimensions).length =
      u1.dimensions.length := by
    rw [List.length_zipWith, ← hlen, min_self]
  refine ⟨_, unit_divide_ok u1 u2 hsys hlen q hq,
    ⟨?_, fun d hd => (hzw.1 d hd).valid, (ratio_subtract_reduced _ _ hp1 hp2).valid,
      (ratio_subtract_reduced _ _ hq1 hq2).valid, hqr.valid⟩,
    rfl, hzw.1, hzw.2, hzl, ratio_subtract_reduced _ _ hp1 hp2, ratio_subtract_toRat _ _ hp1 hp2,
    ratio_subtract_reduced _ _ hq1 hq2, ratio_subtract_toRat _ _ hq1 hq2, hqr, hqv⟩
  show u1.system.size = (List.zipWith ratio_subtract u1.dimensions u2.dimensions).length
  rw [hzl, hl1]

/-- An instance, in unbounded integers, in `test_unit.cc`: `u1_type` divided by `u3_type`. -/
theorem unit_divide_spec_witness :
    test_unit.u1_type.valid ∧ test_unit.u3_type.valid ∧
    unit_impl.have_same_system test_unit.u1_type test_unit.u3_type = true ∧
    test_unit.u3_type.factor.toRat ≠ 0 ∧
    ∃ u, unit_divide test_unit.u1_type test_unit.u3_type = .ok u ∧ u.valid ∧
      u.system = test_unit.u1_type.system ∧
      (∀ d ∈ u.dimensions, d.reduced) ∧
      u.dimensions.map ratio.toRat =
        List.zipWith (· - ·) (test_unit.u1_type.dimensions.map ratio.toRat)
          (test_unit.u3_type.dimensions.map ratio.toRat) ∧
      u.dimensions.length = test_unit.u1_type.dimensions.length ∧
      u.pow_10.reduced ∧
      u.pow_10.toRat = test_unit.u1_type.pow_10.toRat - test_unit.u3_type.pow_10.toRat ∧
      u.pow_pi.reduced ∧
      u.pow_pi.toRat = test_unit.u1_type.pow_pi.toRat - test_unit.u3_type.pow_pi.toRat ∧
      u.factor.reduced ∧
      u.factor.toRat = test_unit.u1_type.factor.toRat / test_unit.u3_type.factor.toRat :=
  have hz : test_unit.u3_type.factor.toRat ≠ 0 := by
    norm_num [test_unit.u3_type, ratio.toRat]
  ⟨by decide, by decide, by decide, hz,
    unit_divide_spec test_unit.u1_type test_unit.u3_type (by decide) (by decide) (by decide) hz⟩

/-- A division by a zero factor: a unit whose factor is `std::ratio<0>` is a well-formed unit of the
system of `u1_type`, and `unit_divide` by it is rejected (`std::ratio` with denominator
zero), so that no unit results. -/
theorem unit_divide_by_zero_factor :
    test_unit.u1_type.valid ∧ ({ test_unit.u2_type with factor := ⟨0, 1⟩ } : unit).valid ∧
    unit_impl.have_same_system test_unit.u1_type { test_unit.u2_type with factor := ⟨0, 1⟩ }
      = true ∧
    ¬ ∃ u, unit_divide test_unit.u1_type { test_unit.u2_type with factor := ⟨0, 1⟩ } = .ok u := by
  refine ⟨by decide, by decide, by decide, ?_⟩
  rintro ⟨u, hu⟩
  have h : unit_divide test_unit.u1_type { test_unit.u2_type with factor := ⟨0, 1⟩ } =
      .error .zero_denominator := by decide
  rw [h] at hu
  cases hu

/-- The checks of `test_unit.cc` on `unit_divide`: `u1ou3_type` has `pow_10` 0, `pow_pi` 0
and factor 3/8, `u1ou1_type` has factor 1 and `u1ou2_type` the scale of `u1_type`. -/
theorem unit_divide_test :
    unit_divide test_unit.u1_type test_unit.u3_type =
      .ok ⟨test_unit.sys1_type, [⟨0, 1⟩, ⟨-2, 1⟩, ⟨0, 1⟩], ⟨0, 1⟩, ⟨0, 1⟩, ⟨3, 8⟩⟩ ∧
    unit_divide test_unit.u1_type test_unit.u1_type =
      .ok ⟨test_unit.sys1_type, [⟨0, 1⟩, ⟨0, 1⟩, ⟨0, 1⟩], ⟨0, 1⟩, ⟨0, 1⟩, ⟨1, 1⟩⟩ ∧
    unit_divide test_unit.u1_type test_unit.u2_type =
      .ok ⟨test_unit.sys1_type, [⟨0, 1⟩, ⟨0, 1⟩, ⟨0, 1⟩], ⟨1, 1⟩, ⟨1, 1⟩, ⟨1, 2⟩⟩ := by
  decide

theorem dimensions_multiply_spec (r : ratio) (hr : r.valid) :
    ∀ d : unit_dimensions, (∀ x ∈ d, x.valid) →
      (∀ x ∈ unit_impl.dimensions_multiply d r, x.reduced) ∧
      (unit_impl.dimensions_multiply d r).map ratio.toRat = d.map (fun x => x.toRat * r.toRat)
  | [], _ => by simp [unit_impl.dimensions_multiply]
  | a :: d, h => by
    have ha : a.valid := h a (List.mem_cons_self _ _)
    have ih := dimensions_multiply_spec r hr d (fun x hx => h x (List.mem_cons_of_mem _ hx))
    unfold unit_impl.dimensions_multiply at ih ⊢
    refine ⟨?_, ?_⟩
    · intro x hx
      rw [List.map_cons, List.mem_cons] at hx
      rcases hx with rfl | hx
      · exact ratio_multiply_reduced a r ha hr
      · exact ih.1 x hx
    · simp only [List.map_cons, ratio_multiply_toRat a r ha hr, ih.2]

theorem unit_pow_ok (u : unit) (r f : ratio) (hf : ratio_pow u.factor r = .ok f) :
    unit_pow u r = .ok
      { system := u.system
        dimensions := unit_impl.dimensions_multiply u.dimensions r
        pow_10 := ratio_multiply u.pow_10 r
        pow_pi := ratio_multiply u.pow_pi r
        factor := f } := by
  simp [unit_pow, hf, bind, Except.bind, pure, Except.pure]

theorem unit_pow_error (u : unit) (r : ratio) (e : build_error)
    (hf : ratio_pow u.factor r = .error e) : unit_pow u r = .error e := by
  simp [unit_pow, hf, bind, Except.bind]

theorem ratio_pow_valid (r1 r2 f : ratio) (h : ratio_pow r1 r2 = .ok f) : f.valid := by
  unfold ratio_pow at h
  simp only [bind, Except.bind] at h
  by_cases hs : r2.num > 0
  · simp only [hs, if_true] at h
    cases ha : ipow_ratio (ratio_abs r2) r1.num <;> cases hb : ipow_ratio (ratio_abs r2) r1.den <;>
      simp only [ha, hb] at h <;> try cases h
    split at h
    · cases h
    · injection h with h; subst h; assumption
  · simp only [hs, if_false] at h
    cases ha : ipow_ratio (ratio_abs r2) r1.num <;> cases hb : ipow_ratio (ratio_abs r2) r1.den <;>
      simp only [ha, hb] at h <;> try cases h
    split at h
    · cases h
    · injection h with h; subst h; assumption

/-- In unbounded integers: `unit_pow<Unit, Ratio>` is well-formed exactly when
`ratio_pow<Unit::factor, Ratio>` is, which is the case for every unit with a positive
factor; its result keeps the system, scales every dimension exponent, `pow_10` and
`pow_pi` by the exponent (exact rationals in lowest terms) and has the factor
`ratio_pow<Unit::factor, Ratio>`. -/
theorem unit_pow_spec (u : unit) (r : ratio) (hu : u.valid) (hr : r.valid) :
    (∀ f, ratio_pow u.factor r = .ok f →
      ∃ res, unit_pow u r = .ok res ∧ res.valid ∧ res.system = u.system ∧
        (∀ d ∈ res.dimensions, d.reduced) ∧
        res.dimensions.map ratio.toRat = u.dimensions.map (fun d => d.toRat * r.toRat) ∧
        res.pow_10.reduced ∧ res.pow_10.toRat = u.pow_10.toRat * r.toRat ∧
        res.pow_pi.reduced ∧ res.pow_pi.toRat = u.pow_pi.toRat * r.toRat ∧
        res.factor = f) ∧
    (∀ e, ratio_pow u.factor r = .error e → unit_pow u r = .error e) ∧
    (0 < u.factor.toRat → ∃ f, ratio_pow u.factor r = .ok f) := by
  obtain ⟨hl, hd, hp, hq, hf⟩ := hu
  have hdm := dimensions_multiply_spec r hr u.dimensions hd
  refine ⟨fun f hfr => ⟨_, unit_pow_ok u r f hfr,
      ⟨?_, fun d hd => (hdm.1 d hd).valid, (ratio_multiply_reduced _ _ hp hr).valid,
        (ratio_multiply_reduced _ _ hq hr).valid, ratio_pow_valid _ _ _ hfr⟩,
      rfl, hdm.1, hdm.2, ratio_multiply_reduced _ _ hp hr, ratio_multiply_toRat _ _ hp hr,
      ratio_multiply_reduced _ _ hq hr, ratio_multiply_toRat _ _ hq hr, rfl⟩,
    fun e he => unit_pow_error u r e he, fun hpos => ?_⟩
  · show u.system.size = (unit_impl.dimensions_multiply u.dimensions r).length
    rw [unit_impl.dimensions_multiply, List.length_map, hl]
  · obtain ⟨q, hq, _⟩ := ratio_pow_pos u.factor r hf hr hpos
    exact ⟨q, hq⟩

/-- An instance, in unbounded integers, in `test_unit.cc`: `u1_type` to the power 4, with factor
`ratio_pow<std::ratio<1, 2>, std::ratio<4>>`, which is `std::ratio<1, 16>`. -/
theorem unit_pow_spec_witness :
    test_unit.u1_type.valid ∧ (⟨4, 1⟩ : ratio).valid ∧
    ratio_pow test_unit.u1_type.factor ⟨4, 1⟩ = .ok ⟨1, 16⟩ ∧
    0 < test_unit.u1_type.factor.toRat ∧
    (∃ res, unit_pow test_unit.u1_type ⟨4, 1⟩ = .ok res ∧ res.valid ∧
        res.system = test_unit.u1_type.system ∧
        (∀ d ∈ res.dimensions, d.reduced) ∧
        res.dimensions.map ratio.toRat =
          test_unit.u1_type.dimensions.map (fun d => d.toRat * (⟨4, 1⟩ : ratio).toRat) ∧
        res.pow_10.reduced ∧
        res.pow_10.toRat = test_unit.u1_type.pow_10.toRat * (⟨4, 1⟩ : ratio).toRat ∧
        res.pow_pi.reduced ∧
        res.pow_pi.toRat = test_unit.u1_type.pow_pi.toRat * (⟨4, 1⟩ : ratio).toRat ∧
        res.factor = ⟨1, 16⟩) ∧
    ∃ f, ratio_pow test_unit.u1_type.factor ⟨4, 1⟩ = .ok f :=
  have hpos : 0 < test_unit.u1_type.factor.toRat := by
    norm_num [test_unit.u1_type, ratio.toRat]
  have h := unit_pow_spec test_unit.u1_type ⟨4, 1⟩ (by decide) (by decide)
  ⟨by decide, by decide, by decide, hpos, h.1 ⟨1, 16⟩ (by decide), h.2.2 hpos⟩

/-- A power with no type, in unbounded integers: for the well-formed unit with factor `std::ratio<0>` and the
exponent `std::ratio<-1>`, `ratio_pow` asks for `std::ratio<1, 0>`; neither it nor
`unit_pow` yields a type. -/
theorem unit_pow_zero_factor :
    ({ test_unit.u2_type with factor := ⟨0, 1⟩ } : unit).valid ∧ (⟨-1, 1⟩ : ratio).valid ∧
    ratio_pow ⟨0, 1⟩ ⟨-1, 1⟩ = .error .zero_denominator ∧
    ¬ ∃ res, unit_pow { test_unit.u2_type with factor := ⟨0, 1⟩ } ⟨-1, 1⟩ = .ok res := by
  refine ⟨by decide, by decide, by decide, ?_⟩
  rintro ⟨u, hu⟩
  have h : unit_pow { test_unit.u2_type with factor := ⟨0, 1⟩ } ⟨-1, 1⟩ =
      .error .zero_denominator := by decide
  rw [h] at hu
  cases hu

/-- The checks of `test_unit.cc` on `unit_pow`: `u1p4_type` has `pow_10` 4, `pow_pi` 4 and
factor 1/16; `u2p12_type` has `pow_10` 0, `pow_pi` 0 and factor 1. -/
theorem unit_pow_test :
    unit_pow test_unit.u1_type ⟨4, 1⟩ =
      .ok ⟨test_unit.sys1_type, [⟨4, 1⟩, ⟨0, 1⟩, ⟨0, 1⟩], ⟨4, 1⟩, ⟨4, 1⟩, ⟨1, 16⟩⟩ ∧
    unit_pow test_unit.u2_type ⟨1, 2⟩ =
      .ok ⟨test_unit.sys1_type, [⟨1, 2⟩, ⟨0, 1⟩, ⟨0, 1⟩], ⟨0, 1⟩, ⟨0, 1⟩, ⟨1, 1⟩⟩ := by
  decide

/-! ## Definedness of the unit algebra and compatibility -/

theorem unit_multiply_error (u1 u2 : unit) (hs : u1.system ≠ u2.system) :
    unit_multiply u1 u2 = .error .different_system := by
  simp [unit_multiply, unit_impl.have_same_system, hs]

theorem unit_divide_error (u1 u2 : unit) (hs : u1.system ≠ u2.system) :
    unit_divide u1 u2 = .error .different_system := by
  simp [unit_divide, unit_impl.have_same_system, hs]

/-- In unbounded integers: `have_same_system` compares the systems only; for well-formed units
`unit_multiply` is defined exactly when the two units have the same system,
`unit_divide` exactly when they have the same system and the factor of the divisor is
not zero, and for units of different systems both are rejected and yield no unit. -/
theorem unit_multiply_divide_defined (u1 u2 : unit) (h1 : u1.valid) (h2 : u2.valid) :
    (unit_impl.have_same_system u1 u2 = true ↔ u1.system = u2.system) ∧
    ((∃ u, unit_multiply u1 u2 = .ok u) ↔ unit_impl.have_same_system u1 u2 = true) ∧
    ((∃ u, unit_divide u1 u2 = .ok u) ↔
      (unit_impl.have_same_system u1 u2 = true ∧ u2.factor.toRat ≠ 0)) ∧
    (unit_impl.have_same_system u1 u2 = false →
      unit_multiply u1 u2 = .error .different_system ∧
      unit_divide u1 u2 = .error .different_system) := by
  refine ⟨have_same_system_iff u1 u2, ?_, ?_, ?_⟩
  · constructor
    · rintro ⟨u, hu⟩
      by_contra hs
      rw [have_same_system_iff] at hs
      rw [unit_multiply_error u1 u2 hs] at hu
      cases hu
    · intro hs
      rw [have_same_system_iff] at hs
      exact ⟨_, unit_multiply_ok u1 u2 hs (unit_valid_same_length u1 u2 h1 h2 hs)⟩
  · constructor
    · rintro ⟨u, hu⟩
      have hs : u1.system = u2.system := by
        by_contra hs
        rw [unit_divide_error u1 u2 hs] at hu
        cases hu
      refine ⟨(have_same_system_iff u1 u2).2 hs, fun hz => ?_⟩
      rw [unit_divide_zero u1 u2 hs (unit_valid_same_length u1 u2 h1 h2 hs) hz] at hu
      cases hu
    · rintro ⟨hs, hz⟩
      rw [have_same_system_iff] at hs
      obtain ⟨q, hq, _⟩ := ratio_divide_spec u1.factor u2.factor h1.2.2.2.2 h2.2.2.2.2 hz
      exact ⟨_, unit_divide_ok u1 u2 hs (unit_valid_same_length u1 u2 h1 h2 hs) q hq⟩
  · intro hs
    have hne : u1.system ≠ u2.system := by
      intro h
      rw [(have_same_system_iff u1 u2).2 h] at hs
      cases hs
    exact ⟨unit_multiply_error u1 u2 hne, unit_divide_error u1 u2 hne⟩

/-- An instance, in unbounded integers, in `test_unit.cc`: `u1_type` and `u4_type` belong to different
systems. -/
theorem unit_multiply_divide_defined_witness :
    test_unit.u1_type.valid ∧ test_unit.u4_type.valid ∧
    (unit_impl.have_same_system test_unit.u1_type test_unit.u4_type = true ↔
      test_unit.u1_type.system = test_unit.u4_type.system) ∧
    ((∃ u, unit_multiply test_unit.u1_type test_unit.u4_type = .ok u) ↔
      unit_impl.have_same_system test_unit.u1_type test_unit.u4_type = true) ∧
    ((∃ u, unit_divide test_unit.u1_type test_unit.u4_type = .ok u) ↔
      (unit_impl.have_same_system test_unit.u1_type test_unit.u4_type = true ∧
        test_unit.u4_type.factor.toRat ≠ 0)) ∧
    (unit_impl.have_same_system test_unit.u1_type test_unit.u4_type = false →
      unit_multiply test_unit.u1_type test_unit.u4_type = .error .different_system ∧
      unit_divide test_unit.u1_type test_unit.u4_type = .error .different_system) :=
  ⟨by decide, by decide,
    unit_multiply_divide_defined test_unit.u1_type test_unit.u4_type (by decide) (by decide)⟩

/-- The same system does not suffice for `unit_divide`: `u3_type` and the well-formed unit with the
dimensions of `u1_type` and factor `std::ratio<0, 5>` have the same system, yet
`unit_divide` is rejected, while `unit_multiply` of the same two units is defined. -/
theorem unit_divide_same_system_undefined :
    test_unit.u3_type.valid ∧ ({ test_unit.u1_type with factor := ⟨0, 5⟩ } : unit).valid ∧
    unit_impl.have_same_system test_unit.u3_type { test_unit.u1_type with factor := ⟨0, 5⟩ }
      = true ∧
    unit_divide test_unit.u3_type { test_unit.u1_type with factor := ⟨0, 5⟩ } =
      .error .zero_denominator ∧
    unit_multiply test_unit.u3_type { test_unit.u1_type with factor := ⟨0, 5⟩ } =
      .ok ⟨test_unit.sys1_type, [⟨2, 1⟩, ⟨2, 1⟩, ⟨0, 1⟩], ⟨2, 1⟩, ⟨2, 1⟩, ⟨0, 1⟩⟩ := by
  decide

/-- The checks of `test_unit.cc` on the traits: `u1_type` and `u2_type` are compatible,
`u1_type` and `u3_type` share the system only, `u1_type` and `u4_type` share nothing. -/
theorem are_compatible_test :
    unit_impl.are_compatible test_unit.u1_type test_unit.u2_type = true ∧
    unit_impl.have_same_system test_unit.u1_type test_unit.u2_type = true ∧
    unit_impl.are_compatible test_unit.u1_type test_unit.u3_type = false ∧
    unit_impl.have_same_system test_unit.u1_type test_unit.u3_type = true ∧
    unit_impl.are_compatible test_unit.u1_type test_unit.u4_type = false ∧
    unit_impl.have_same_system test_unit.u1_type test_unit.u4_type = false := by
  decide

theorem dimensions_eq_of_toRat_eq :
    ∀ d1 d2 : unit_dimensions, (∀ d ∈ d1, d.reduced) → (∀ d ∈ d2, d.reduced) →
      d1.map ratio.toRat = d2.map ratio.toRat → d1 = d2
  | [], [], _, _, _ => rfl
  | [], _ :: _, _, _, h => by simp at h
  | _ :: _, [], _, _, h => by simp at h
  | a :: d1, b :: d2, h1, h2, h => by
    simp only [List.map_cons, List.cons.injEq] at h
    have hab : a = b :=
      (ratio.reduced.eq_iff (h1 a (List.mem_cons_self _ _)) (h2 b (List.mem_cons_self _ _))).2 h.1
    rw [hab, dimensions_eq_of_toRat_eq d1 d2 (fun d hd => h1 d (List.mem_cons_of_mem _ hd))
      (fun d hd => h2 d (List.mem_cons_of_mem _ hd)) h.2]

/-- C5 (amended): `are_compatible` is true exactly when the two units have the same system
and the same dimension vector as written (the same `std::ratio<N, D>` at every
position); for units whose exponents are written in lowest terms this is equality of
the exponents as rational numbers; `pow_10`, `pow_pi` and `factor` never influence the
result. -/
theorem are_compatible_iff (u1 u2 : unit) :
    (unit_impl.are_compatible u1 u2 = true ↔
      (u1.system = u2.system ∧ u1.dimensions = u2.dimensions)) ∧
    ((∀ d ∈ u1.dimensions, d.reduced) → (∀ d ∈ u2.dimensions, d.reduced) →
      (unit_impl.are_compatible u1 u2 = true ↔
        (u1.system = u2.system ∧
          u1.dimensions.map ratio.toRat = u2.dimensions.map ratio.toRat))) ∧
    (∀ p1 q1 f1 p2 q2 f2 : ratio,
      unit_impl.are_compatible { u1 with pow_10 := p1, pow_pi := q1, factor := f1 }
        { u2 with pow_10 := p2, pow_pi := q2, factor := f2 } =
      unit_impl.are_compatible u1 u2) := by
  have h0 : unit_impl.are_compatible u1 u2 = true ↔
      (u1.system = u2.system ∧ u1.dimensions = u2.dimensions) := by
    simp [unit_impl.are_compatible]
  refine ⟨h0, fun hr1 hr2 => ?_, fun p1 q1 f1 p2 q2 f2 => rfl⟩
  rw [h0]
  constructor
  · rintro ⟨hs, hd⟩
    exact ⟨hs, by rw [hd]⟩
  · rintro ⟨hs, hd⟩
    exact ⟨hs, dimensions_eq_of_toRat_eq _ _ hr1 hr2 hd⟩

/-- The witness of C5 in `test_unit.cc`: `u1_type` and `u2_type` differ in scale only. -/
theorem are_compatible_iff_witness :
    (∀ d ∈ test_unit.u1_type.dimensions, d.reduced) ∧
    (∀ d ∈ test_unit.u2_type.dimensions, d.reduced) ∧
    (unit_impl.are_compatible test_unit.u1_type test_unit.u2_type = true ↔
      (test_unit.u1_type.system = test_unit.u2_type.system ∧
        test_unit.u1_type.dimensions.map ratio.toRat =
          test_unit.u2_type.dimensions.map ratio.toRat)) :=
  ⟨by decide, by decide,
    (are_compatible_iff test_unit.u1_type test_unit.u2_type).2.1 (by decide) (by decide)⟩

/-- C5 as stated fails: two well-formed units of the system `sys1_type` whose first
exponents are written `std::ratio<1, 2>` and `std::ratio<2, 4>` have equal exponents as
reduced rationals, and `are_compatible` is false for them. -/
theorem are_compatible_unreduced :
    (⟨test_unit.sys1_type, [⟨1, 2⟩, ⟨0, 1⟩, ⟨0, 1⟩], ⟨0, 1⟩, ⟨0, 1⟩, ⟨1, 1⟩⟩ : unit).valid ∧
    (⟨test_unit.sys1_type, [⟨2, 4⟩, ⟨0, 1⟩, ⟨0, 1⟩], ⟨0, 1⟩, ⟨0, 1⟩, ⟨1, 1⟩⟩ : unit).valid ∧
    ([⟨1, 2⟩, ⟨0, 1⟩, ⟨0, 1⟩] : unit_dimensions).map ratio.type =
      ([⟨2, 4⟩, ⟨0, 1⟩, ⟨0, 1⟩] : unit_dimensions).map ratio.type ∧
    ([⟨1, 2⟩, ⟨0, 1⟩, ⟨0, 1⟩] : unit_dimensions).map ratio.toRat =
      ([⟨2, 4⟩, ⟨0, 1⟩, ⟨0, 1⟩] : unit_dimensions).map ratio.toRat ∧
    unit_impl.are_compatible
      ⟨test_unit.sys1_type, [⟨1, 2⟩, ⟨0, 1⟩, ⟨0, 1⟩], ⟨0, 1⟩, ⟨0, 1⟩, ⟨1, 1⟩⟩
      ⟨test_unit.sys1_type, [⟨2, 4⟩, ⟨0, 1⟩, ⟨0, 1⟩], ⟨0, 1⟩, ⟨0, 1⟩, ⟨1, 1⟩⟩ = false := by
  refine ⟨by decide, by decide, by decide, ?_, by decide⟩
  norm_num [ratio.toRat]

/-! ## Multiplication followed by division -/

theorem zipWith_sub_add_cancel :
    ∀ a b : List ℚ, a.length = b.length →
      List.zipWith (· - ·) (List.zipWith (· + ·) a b) b = a
  | [], [], _ => rfl
  | [], _ :: _, h => by simp at h
  | _ :: _, [], h => by simp at h
  | x :: a, y :: b, h => by
    simp only [List.length_cons, add_left_inj] at h
    simp only [List.zipWith_cons_cons, add_sub_cancel_right, zipWith_sub_add_cancel a b h]

/-- In unbounded integers: for units of one system, with a nonzero factor of the second, dividing the product
`unit_multiply<U1, U2>` by `U2` is well-formed and gives a unit of the system of `U1` whose
dimension exponents, `pow_10`, `pow_pi` and factor are, as rational numbers, those of
`U1`; it is the type `U1` itself when `U1` is written in lowest terms. -/
theorem unit_divide_multiply (u1 u2 : unit) (h1 : u1.valid) (h2 : u2.valid)
    (hs : unit_impl.have_same_system u1 u2 = true) (hz : u2.factor.toRat ≠ 0) :
    ∃ u, (unit_multiply u1 u2).bind (fun m => unit_divide m u2) = .ok u ∧
      u.system = u1.system ∧
      u.dimensions.map ratio.toRat = u1.dimensions.map ratio.toRat ∧
      u.pow_10.toRat = u1.pow_10.toRat ∧
      u.pow_pi.toRat = u1.pow_pi.toRat ∧
      u.factor.toRat = u1.factor.toRat ∧
      (((∀ d ∈ u1.dimensions, d.reduced) ∧ u1.pow_10.reduced ∧ u1.pow_pi.reduced ∧
        u1.factor.reduced) → u = u1) := by
  have hsys := (have_same_system_iff u1 u2).1 hs
  have hlen := unit_valid_same_length u1 u2 h1 h2 hsys
  obtain ⟨hl1, hd1, hp1, hq1, hf1⟩ := h1
  obtain ⟨hl2, hd2, hp2, hq2, hf2⟩ := h2
  -- the product
  have hadd := dimensions_toRat_zipWith ratio_add (· + ·)
    (fun a b ha hb => ⟨ratio_add_reduced a b ha hb, ratio_add_toRat a b ha hb⟩)
    u1.dimensions u2.dimensions hd1 hd2
  have haddl : (List.zipWith ratio_add u1.dimensions u2.dimensions).length =
      u2.dimensions.length := by
    rw [List.length_zipWith, hlen, min_self]
  have hmp := (ratio_add_reduced _ _ hp1 hp2).valid
  have hmq := (ratio_add_reduced _ _ hq1 hq2).valid
  have hmf := (ratio_multiply_reduced _ _ hf1 hf2).valid
  -- the quotient
  obtain ⟨q, hq, hqr, hqv⟩ := ratio_divide_spec (ratio_multiply u1.factor u2.factor) u2.factor
    hmf hf2 hz
  have hsub := dimensions_toRat_zipWith ratio_subtract (· - ·)
    (fun a b ha hb => ⟨ratio_subtract_reduced a b ha hb, ratio_subtract_toRat a b ha hb⟩)
    (List.zipWith ratio_add u1.dimensions u2.dimensions) u2.dimensions
    (fun d hd => (hadd.1 d hd).valid) hd2
  have hdims : (List.zipWith ratio_subtract (List.zipWith ratio_add u1.dimensions u2.dimensions)
      u2.dimensions).map ratio.toRat = u1.dimensions.map ratio.toRat := by
    rw [hsub.2, hadd.2]
    exact zipWith_sub_add_cancel _ _ (by simp [hlen])
  have hp : (ratio_subtract (ratio_add u1.pow_10 u2.pow_10) u2.pow_10).toRat = u1.pow_10.toRat := by
    rw [ratio_subtract_toRat _ _ hmp hp2, ratio_add_toRat _ _ hp1 hp2, add_sub_cancel_right]
  have hpi : (ratio_subtract (ratio_add u1.pow_pi u2.pow_pi) u2.pow_pi).toRat = u1.pow_pi.toRat := by
    rw [ratio_subtract_toRat _ _ hmq hq2, ratio_add_toRat _ _ hq1 hq2, add_sub_cancel_right]
  have hf : q.toRat = u1.factor.toRat := by
    rw [hqv, ratio_multiply_toRat _ _ hf1 hf2, mul_div_assoc, div_self hz, mul_one]
  refine ⟨{ system := u1.system
            dimensions := List.zipWith ratio_subtract
              (List.zipWith ratio_add u1.dimensions u2.dimensions) u2.dimensions
            pow_10 := ratio_subtract (ratio_add u1.pow_10 u2.pow_10) u2.pow_10
            pow_pi := ratio_subtract (ratio_add u1.pow_pi u2.pow_pi) u2.pow_pi
            factor := q }, ?_, rfl, hdims, hp, hpi, hf, ?_⟩
  · rw [unit_multiply_ok u1 u2 hsys hlen]
    exact unit_divide_ok
      { system := u1.system
        dimensions := List.zipWith ratio_add u1.dimensions u2.dimensions
        pow_10 := ratio_add u1.pow_10 u2.pow_10
        pow_pi := ratio_add u1.pow_pi u2.pow_pi
        factor := ratio_multiply u1.factor u2.factor } u2 hsys haddl q hq
  · rintro ⟨rd, rp, rq, rf⟩
    have e1 := dimensions_eq_of_toRat_eq _ _ hsub.1 rd hdims
    have e2 := (ratio.reduced.eq_iff (ratio_subtract_reduced _ _ hmp hp2) rp).2 hp
    have e3 := (ratio.reduced.eq_iff (ratio_subtract_reduced _ _ hmq hq2) rq).2 hpi
    have e4 := (ratio.reduced.eq_iff hqr rf).2 hf
    rw [e1, e2, e3, e4]

/-- An instance, in unbounded integers, on the units of `test_unit.cc`: `u1_type` times `u3_type`, divided
by `u3_type`, is `u1_type`. -/
theorem unit_divide_multiply_witness :
    test_unit.u1_type.valid ∧ test_unit.u3_type.valid ∧
    unit_impl.have_same_system test_unit.u1_type test_unit.u3_type = true ∧
    test_unit.u3_type.factor.toRat ≠ 0 ∧
    (unit_multiply test_unit.u1_type test_unit.u3_type).bind
      (fun m => unit_divide m test_unit.u3_type) = .ok test_unit.u1_type ∧
    ∃ u, (unit_multiply test_unit.u1_type test_unit.u3_type).bind
        (fun m => unit_divide m test_unit.u3_type) = .ok u ∧
      u.system = test_unit.u1_type.system ∧
      u.dimensions.map ratio.toRat = test_unit.u1_type.dimensions.map ratio.toRat ∧
      u.pow_10.toRat = test_unit.u1_type.pow_10.toRat ∧
      u.pow_pi.toRat = test_unit.u1_type.pow_pi.toRat ∧
      u.factor.toRat = test_unit.u1_type.factor.toRat ∧
      (((∀ d ∈ test_unit.u1_type.dimensions, d.reduced) ∧ test_unit.u1_type.pow_10.reduced ∧
        test_unit.u1_type.pow_pi.reduced ∧ test_unit.u1_type.factor.reduced) →
        u = test_unit.u1_type) :=
  have hz : test_unit.u3_type.factor.toRat ≠ 0 := by
    norm_num [test_unit.u3_type, ratio.toRat]
  ⟨by decide, by decide, by decide, hz, by decide,
    unit_divide_multiply test_unit.u1_type test_unit.u3_type (by decide) (by decide)
      (by decide) hz⟩

/-! ## The rescale engine -/

theorem pow_impl.recursive_pow_eq_zpow {F : Type} [Field F] (x : F) (n : Int) :
    pow_impl.recursive_pow x n = x ^ n := by
  unfold pow_impl.recursive_pow
  split
  · rw [pow_impl.recursive_pow_nat_eq, one_div, ← zpow_natCast, Int.toNat_of_nonneg (by omega),
      zpow_neg, inv_inv]
  · rw [pow_impl.recursive_pow_nat_eq, ← zpow_natCast, Int.toNat_of_nonneg (by omega)]

/-- An integer power is computed by `recursive_pow`, in every field and whatever the
`<cmath>` functions are. -/
theorem pow_of_den_one {F : Type} [Field F] (M : cmath F) (r : ratio) (h : r.den = 1) (x : F) :
    pow M r x = x ^ r.num := by
  rw [pow, pow_impl.pow, if_pos h, pow_impl.recursive_pow_eq_zpow]

/-- In exact arithmetic `pow<Ratio>(x)` is the real power of a positive `x` to the
rational number `Ratio` denotes. -/
theorem pow_exact (M : cmath ℝ) (hM : M.exact) (r : ratio) (hr : r.valid) (x : ℝ) (hx : 0 < x) :
    pow M r x = x ^ ((r.toRat : ℚ) : ℝ) := by
  obtain ⟨_, hpow, hsqrt, hcbrt⟩ := hM
  have hden : (0 : ℝ) < (r.den : ℝ) := by exact_mod_cast r.den_pos hr
  rw [← ratio.num_div_den_cast r hr, pow, pow_impl.pow]
  split
  · next h => rw [pow_impl.recursive_pow_eq_zpow, h, Int.cast_one, div_one, Real.rpow_intCast]
  · split
    · next h => rw [hsqrt x hx.le, h.1, h.2]; norm_num
    · split
      · next h => rw [hcbrt x hx.le, h.1, h.2]; norm_num
      · exact hpow x _ hx

theorem cmath.exact_real :
    (cmath.mk Real.pi (fun x y => x ^ y) (fun x => x ^ (1 / 2 : ℝ))
      (fun x => x ^ (1 / 3 : ℝ))).exact :=
  ⟨rfl, fun _ _ _ => rfl, fun _ _ => rfl, fun _ _ => rfl⟩

theorem unit_impl.rescale_value_self {F : Type} [Field F] (M : cmath F) (u : unit) (v : F) :
    unit_impl.rescale_value M u u v = .ok v := by
  simp [unit_impl.rescale_value, unit_impl.rescale_impl.factor, unit_impl.rescale_impl.pow_10,
    unit_impl.rescale_impl.pow_pi, Except.map]

theorem unit_impl.rescale_value_ne {F : Type} [Field F] (M : cmath F) (lhs rhs : unit)
    (hne : lhs ≠ rhs) (q : ratio) (hq : ratio_divide rhs.factor lhs.factor = .ok q) (v : F) :
    unit_impl.rescale_value M lhs rhs v = .ok
      (v * pow M (ratio_subtract rhs.pow_10 lhs.pow_10) 10 *
        pow M (ratio_subtract rhs.pow_pi lhs.pow_pi) M.pi * ((q.num : F) / (q.den : F))) := by
  simp [unit_impl.rescale_value, unit_impl.rescale_impl.factor, unit_impl.rescale_impl.pow_10,
    unit_impl.rescale_impl.pow_pi, Except.map, hne, hq]

/-- The value of the rescale engine in exact arithmetic, for a left-hand unit with a
nonzero factor. -/
theorem unit_impl.rescale_value_exact (M : cmath ℝ) (hM : M.exact) (lhs rhs : unit)
    (hl : lhs.valid) (hr : rhs.valid) (hz : lhs.factor.toRat ≠ 0) (v : ℝ) :
    unit_impl.rescale_value M lhs rhs v = .ok
      (v * (10 : ℝ) ^ (((rhs.pow_10.toRat - lhs.pow_10.toRat : ℚ)) : ℝ) *
        Real.pi ^ (((rhs.pow_pi.toRat - lhs.pow_pi.toRat : ℚ)) : ℝ) *
        (((rhs.factor.toRat / lhs.factor.toRat : ℚ)) : ℝ)) := by
  by_cases he : lhs = rhs
  · subst he
    rw [unit_impl.rescale_value_self, sub_self, sub_self, div_self hz]
    simp
  · obtain ⟨q, hq, hqr, hqv⟩ := ratio_divide_spec rhs.factor lhs.factor hr.2.2.2.2 hl.2.2.2.2 hz
    rw [unit_impl.rescale_value_ne M lhs rhs he q hq,
      pow_exact M hM _ (ratio_subtract_reduced _ _ hr.2.2.1 hl.2.2.1).valid 10 (by norm_num),
      pow_exact M hM _ (ratio_subtract_reduced _ _ hr.2.2.2.1 hl.2.2.2.1).valid M.pi
        (by rw [hM.1]; exact Real.pi_pos),
      ratio_subtract_toRat _ _ hr.2.2.1 hl.2.2.1, ratio_subtract_toRat _ _ hr.2.2.2.1 hl.2.2.2.1,
      ratio.num_div_den_cast q hqr.valid, hqv, hM.1]

theorem are_compatible_eq_true (u1 u2 : unit) :
    unit_impl.are_compatible u1 u2 = true ↔
      (u1.system = u2.system ∧ u1.dimensions = u2.dimensions) := by
  simp [unit_impl.are_compatible]

theorem from_quantity_ok {F : Type} [Field F] (M : cmath F) (u : unit) (q : quantity F)
    (hc : q.unit.system = u.system ∧ q.unit.dimensions = u.dimensions) (w : F)
    (hw : unit_impl.rescale_value M u q.unit q.value_ = .ok w) :
    quantity.from_quantity M u q = .ok ⟨u, w⟩ := by
  rw [quantity.from_quantity, if_pos hc, quantity.raw_value, hw]
  rfl

/-- In unbounded integers: in exact arithmetic, for compatible well-formed units and a target unit
with a nonzero factor, the rescale engine with `UnitLHS = to` and `UnitRHS = from` returns
`v * 10^(from.pow_10 - to.pow_10) * pi^(from.pow_pi - to.pow_pi) * (from.factor / to.factor)`,
and this is the value the converting constructor of `quantity<to>` stores. -/
theorem rescale_value_spec (M : cmath ℝ) (hM : M.exact) (u_from u_to : unit)
    (hf : u_from.valid) (ht : u_to.valid)
    (hc : unit_impl.are_compatible u_from u_to = true) (hz : u_to.factor.toRat ≠ 0) (v : ℝ) :
    unit_impl.rescale_value M u_to u_from v = .ok
      (v * (10 : ℝ) ^ (((u_from.pow_10.toRat - u_to.pow_10.toRat : ℚ)) : ℝ) *
        Real.pi ^ (((u_from.pow_pi.toRat - u_to.pow_pi.toRat : ℚ)) : ℝ) *
        (((u_from.factor.toRat / u_to.factor.toRat : ℚ)) : ℝ)) ∧
    quantity.from_quantity M u_to ⟨u_from, v⟩ = .ok
      ⟨u_to, v * (10 : ℝ) ^ (((u_from.pow_10.toRat - u_to.pow_10.toRat : ℚ)) : ℝ) *
        Real.pi ^ (((u_from.pow_pi.toRat - u_to.pow_pi.toRat : ℚ)) : ℝ) *
        (((u_from.factor.toRat / u_to.factor.toRat : ℚ)) : ℝ)⟩ := by
  have h := unit_impl.rescale_value_exact M hM u_to u_from ht hf hz v
  exact ⟨h, from_quantity_ok M u_to ⟨u_from, v⟩ ((are_compatible_eq_true _ _).1 hc) _ h⟩

/-- An instance, in unbounded integers, in `test_unit.cc`: `q_mm` is constructed from `q_pi_cm_over_2`, of
raw value 12. -/
theorem rescale_value_spec_witness :
    ∃ M : cmath ℝ, M.exact ∧ test_unit.u1_type.valid ∧ test_unit.u2_type.valid ∧
      unit_impl.are_compatible test_unit.u1_type test_unit.u2_type = true ∧
      test_unit.u2_type.factor.toRat ≠ 0 ∧
      unit_impl.rescale_value M test_unit.u2_type test_unit.u1_type 12 = .ok
        ((12 : ℝ) *
          (10 : ℝ) ^ (((test_unit.u1_type.pow_10.toRat - test_unit.u2_type.pow_10.toRat : ℚ)) : ℝ) *
          Real.pi ^ (((test_unit.u1_type.pow_pi.toRat - test_unit.u2_type.pow_pi.toRat : ℚ)) : ℝ) *
          (((test_unit.u1_type.factor.toRat / test_unit.u2_type.factor.toRat : ℚ)) : ℝ)) :=
  have hz : test_unit.u2_type.factor.toRat ≠ 0 := by
    norm_num [test_unit.u2_type, ratio.toRat]
  ⟨_, cmath.exact_real, by decide, by decide, by decide, hz,
    (rescale_value_spec _ cmath.exact_real test_unit.u1_type test_unit.u2_type (by decide)
      (by decide) (by decide) hz 12).1⟩

/-- The direction of the factor, in unbounded integers, on the conversion checked in `test_unit.cc`: from `u1_type` (factor
1/2) to `u2_type` (factor 1) the engine multiplies 12 by `10 * pi * (1/2)`, the stated
formula with `to.factor / from.factor` gives `12 * 10 * pi * 2`; and towards a unit with
factor zero that differs from the source no value is produced at all. -/
theorem rescale_value_factor_direction :
    ∃ M : cmath ℝ, M.exact ∧
      unit_impl.are_compatible test_unit.u1_type test_unit.u2_type = true ∧
      unit_impl.rescale_value M test_unit.u2_type test_unit.u1_type 12 =
        .ok (12 * (Real.pi * 10) / 2) ∧
      unit_impl.rescale_value M test_unit.u2_type test_unit.u1_type 12 ≠ .ok
        ((12 : ℝ) *
          (10 : ℝ) ^ (((test_unit.u1_type.pow_10.toRat - test_unit.u2_type.pow_10.toRat : ℚ)) : ℝ) *
          Real.pi ^ (((test_unit.u1_type.pow_pi.toRat - test_unit.u2_type.pow_pi.toRat : ℚ)) : ℝ) *
          (((test_unit.u2_type.factor.toRat / test_unit.u1_type.factor.toRat : ℚ)) : ℝ)) ∧
      unit_impl.are_compatible test_unit.u1_type { test_unit.u2_type with factor := ⟨0, 1⟩ }
        = true ∧
      unit_impl.rescale_value M { test_unit.u2_type with factor := ⟨0, 1⟩ } test_unit.u1_type 12
        = .error .zero_denominator := by
  have hz : test_unit.u2_type.factor.toRat ≠ 0 := by
    norm_num [test_unit.u2_type, ratio.toRat]
  have h := unit_impl.rescale_value_exact _ cmath.exact_real test_unit.u2_type
    test_unit.u1_type (by decide) (by decide) hz 12
  have hv : ((12 : ℝ) *
      (10 : ℝ) ^ (((test_unit.u1_type.pow_10.toRat - test_unit.u2_type.pow_10.toRat : ℚ)) : ℝ) *
      Real.pi ^ (((test_unit.u1_type.pow_pi.toRat - test_unit.u2_type.pow_pi.toRat : ℚ)) : ℝ) *
      (((test_unit.u1_type.factor.toRat / test_unit.u2_type.factor.toRat : ℚ)) : ℝ)) =
      12 * (Real.pi * 10) / 2 := by
    norm_num [test_unit.u1_type, test_unit.u2_type, ratio.toRat]
    ring
  refine ⟨_, cmath.exact_real, by decide, ?_, ?_, by decide, ?_⟩
  · rw [h, hv]
  · rw [h, hv]
    intro hc
    injection hc with hc
    have hpi := Real.pi_pos
    norm_num [test_unit.u1_type, test_unit.u2_type, ratio.toRat] at hc
    nlinarith [hc, hpi]
  · have hne : ({ test_unit.u2_type with factor := ⟨0, 1⟩ } : unit) ≠ test_unit.u1_type := by
      decide
    have hd : ratio_divide test_unit.u1_type.factor
        ({ test_unit.u2_type with factor := ⟨0, 1⟩ } : unit).factor = .error .zero_denominator := by
      decide
    simp [unit_impl.rescale_value, unit_impl.rescale_impl.factor, hne, hd, Except.map]

/-- C6: in exact arithmetic, constructing a quantity of the unscaled unit
`unit<system, dimensions>` from a quantity of a well-formed unit with scale
`(pow_10 p, pow_pi s, factor f)` and raw value `v` is well-formed and stores
`v * f * 10^p * pi^s`. -/
theorem quantity_to_unscaled (M : cmath ℝ) (hM : M.exact) (u : unit) (hu : u.valid) (v : ℝ) :
    quantity.from_quantity M u.unscaled ⟨u, v⟩ = .ok
      ⟨u.unscaled, v * ((u.factor.toRat : ℚ) : ℝ) * (10 : ℝ) ^ ((u.pow_10.toRat : ℚ) : ℝ) *
        Real.pi ^ ((u.pow_pi.toRat : ℚ) : ℝ)⟩ := by
  have hr0 : (⟨0, 1⟩ : ratio).valid := by decide
  have hr1 : (⟨1, 1⟩ : ratio).valid := by decide
  have hv : u.unscaled.valid := ⟨hu.1, hu.2.1, hr0, hr0, hr1⟩
  have hz : u.unscaled.factor.toRat ≠ 0 := by norm_num [unit.unscaled, ratio.toRat]
  have h := unit_impl.rescale_value_exact M hM u.unscaled u hv hu hz v
  have e1 : u.unscaled.pow_10.toRat = 0 := by norm_num [unit.unscaled, ratio.toRat]
  have e2 : u.unscaled.pow_pi.toRat = 0 := by norm_num [unit.unscaled, ratio.toRat]
  have e3 : u.unscaled.factor.toRat = 1 := by norm_num [unit.unscaled, ratio.toRat]
  rw [e1, e2, e3, sub_zero, sub_zero, div_one] at h
  rw [from_quantity_ok M u.unscaled ⟨u, v⟩ ⟨rfl, rfl⟩ _ h]
  congr 2
  ring

/-- The witness of C6 in `test_unit.cc`: raw value 12 in `pi_cm_over_2_type` (`pow_10` 1,
`pow_pi` 1, factor 1/2) converts to `12 * (pi * 10) / 2` in `mm_type`, which is the
unscaled unit of the same system and dimensions. -/
theorem quantity_to_unscaled_witness :
    ∃ M : cmath ℝ, M.exact ∧ test_unit.u1_type.valid ∧
      test_unit.u1_type.unscaled = test_unit.u2_type ∧
      quantity.from_quantity M test_unit.u2_type ⟨test_unit.u1_type, 12⟩ =
        .ok ⟨test_unit.u2_type, 12 * (Real.pi * 10) / 2⟩ := by
  refine ⟨_, cmath.exact_real, by decide, by decide, ?_⟩
  have h := quantity_to_unscaled _ cmath.exact_real test_unit.u1_type (by decide) 12
  have hu : test_unit.u1_type.unscaled = test_unit.u2_type := by decide
  rw [hu] at h
  rw [h]
  congr 2
  norm_num [test_unit.u1_type, ratio.toRat]
  ring

/-- The second witness of C6, of `test_unit_prefix`: `m{5}` (unit `m_unit`, `pow_10` 3)
converts to 5000 in the unscaled unit of its system, in every field of characteristic
zero and whatever the `<cmath>` functions are. -/
theorem quantity_m_to_mm {F : Type} [Field F] [CharZero F] (M : cmath F) :
    quantity.from_quantity M test_unit.m_unit.unscaled ⟨test_unit.m_unit, 5⟩ =
      .ok ⟨test_unit.m_unit.unscaled, 5000⟩ := by
  have hne : test_unit.m_unit.unscaled ≠ test_unit.m_unit := by decide
  have hq : ratio_divide test_unit.m_unit.factor test_unit.m_unit.unscaled.factor =
      .ok ⟨1, 1⟩ := by decide
  have h10 : ratio_subtract test_unit.m_unit.pow_10 test_unit.m_unit.unscaled.pow_10 = ⟨3, 1⟩ := by
    decide
  have hpi : ratio_subtract test_unit.m_unit.pow_pi test_unit.m_unit.unscaled.pow_pi = ⟨0, 1⟩ := by
    decide
  have h := unit_impl.rescale_value_ne M _ _ hne _ hq (5 : F)
  rw [h10, hpi, pow_of_den_one M ⟨3, 1⟩ (by decide), pow_of_den_one M ⟨0, 1⟩ (by decide)] at h
  rw [from_quantity_ok M test_unit.m_unit.unscaled ⟨test_unit.m_unit, 5⟩ ⟨rfl, rfl⟩ _ h]
  congr 2
  have e3 : (⟨3, 1⟩ : ratio).num = 3 := by decide
  have e0 : (⟨0, 1⟩ : ratio).num = 0 := by decide
  have e1 : (⟨1, 1⟩ : ratio).num = 1 := by decide
  have d1 : (⟨1, 1⟩ : ratio).den = 1 := by decide
  rw [e3, e0, e1, d1]
  norm_num

/-- C8: rescaling between twice the same unit returns the value unchanged, in every field
and for every unit: the three multipliers are the constant 1, none of the `<cmath>`
functions enters the result, and the converting constructor keeps the raw value. -/
theorem rescale_identity {F : Type} [Field F] (M : cmath F) (u : unit) (v : F) :
    unit_impl.rescale_value M u u v = .ok v ∧
    unit_impl.rescale_impl.pow_10 M u u = 1 ∧
    unit_impl.rescale_impl.pow_pi M u u = 1 ∧
    unit_impl.rescale_impl.factor u u = .ok (1 : F) ∧
    (∀ M2 : cmath F, unit_impl.rescale_value M2 u u v = unit_impl.rescale_value M u u v) ∧
    quantity.from_quantity M u ⟨u, v⟩ = .ok ⟨u, v⟩ := by
  refine ⟨unit_impl.rescale_value_self M u v, by simp [unit_impl.rescale_impl.pow_10],
    by simp [unit_impl.rescale_impl.pow_pi], by simp [unit_impl.rescale_impl.factor],
    fun M2 => ?_, from_quantity_ok M u ⟨u, v⟩ ⟨rfl, rfl⟩ v (unit_impl.rescale_value_self M u v)⟩
  rw [unit_impl.rescale_value_self, unit_impl.rescale_value_self]

theorem rpow_cancel (x : ℝ) (hx : 0 < x) (a b : ℚ) :
    x ^ (((a - b : ℚ)) : ℝ) * x ^ (((b - a : ℚ)) : ℝ) = 1 := by
  rw [← Real.rpow_add hx]
  have h : (((a - b : ℚ)) : ℝ) + (((b - a : ℚ)) : ℝ) = 0 := by push_cast; ring
  rw [h, Real.rpow_zero]

/-- In unbounded integers: in exact arithmetic, for compatible well-formed units with nonzero factors,
rescaling a value from `u1` to `u2` and back from `u2` to `u1` is well-formed and returns
the value; and a quantity built in `u2` from a quantity of a non-dimensionless `u1` with
raw value `v` reports `value<u1>() == v`. -/
theorem rescale_round_trip (M : cmath ℝ) (hM : M.exact) (u1 u2 : unit)
    (h1 : u1.valid) (h2 : u2.valid) (hc : unit_impl.are_compatible u1 u2 = true)
    (hz1 : u1.factor.toRat ≠ 0) (hz2 : u2.factor.toRat ≠ 0) (v : ℝ) :
    (unit_impl.rescale_value M u2 u1 v).bind (unit_impl.rescale_value M u1 u2) = .ok v ∧
    (u1.is_dimensionless = false →
      (quantity.from_quantity M u2 ⟨u1, v⟩).bind (fun q => q.value_in M u1) = .ok v) := by
  have hcc := (are_compatible_eq_true u1 u2).1 hc
  have hc2 : unit_impl.are_compatible u2 u1 = true :=
    (are_compatible_eq_true u2 u1).2 ⟨hcc.1.symm, hcc.2.symm⟩
  have e1 := unit_impl.rescale_value_exact M hM u2 u1 h2 h1 hz2 v
  have hq1 : ((u1.factor.toRat : ℚ) : ℝ) ≠ 0 := by exact_mod_cast hz1
  have hq2 : ((u2.factor.toRat : ℚ) : ℝ) ≠ 0 := by exact_mod_cast hz2
  have key : ∀ w : ℝ,
      w = v * (10 : ℝ) ^ (((u1.pow_10.toRat - u2.pow_10.toRat : ℚ)) : ℝ) *
        Real.pi ^ (((u1.pow_pi.toRat - u2.pow_pi.toRat : ℚ)) : ℝ) *
        (((u1.factor.toRat / u2.factor.toRat : ℚ)) : ℝ) →
      unit_impl.rescale_value M u1 u2 w = .ok v := by
    intro w hw
    rw [unit_impl.rescale_value_exact M hM u1 u2 h1 h2 hz1 w, hw]
    congr 1
    have a10 := rpow_cancel 10 (by norm_num) u1.pow_10.toRat u2.pow_10.toRat
    have api := rpow_cancel Real.pi Real.pi_pos u1.pow_pi.toRat u2.pow_pi.toRat
    have af : (((u1.factor.toRat / u2.factor.toRat : ℚ)) : ℝ) *
        (((u2.factor.toRat / u1.factor.toRat : ℚ)) : ℝ) = 1 := by
      push_cast
      field_simp
    calc v * (10 : ℝ) ^ (((u1.pow_10.toRat - u2.pow_10.toRat : ℚ)) : ℝ) *
          Real.pi ^ (((u1.pow_pi.toRat - u2.pow_pi.toRat : ℚ)) : ℝ) *
          (((u1.factor.toRat / u2.factor.toRat : ℚ)) : ℝ) *
          (10 : ℝ) ^ (((u2.pow_10.toRat - u1.pow_10.toRat : ℚ)) : ℝ) *
          Real.pi ^ (((u2.pow_pi.toRat - u1.pow_pi.toRat : ℚ)) : ℝ) *
          (((u2.factor.toRat / u1.factor.toRat : ℚ)) : ℝ)
        = v * ((10 : ℝ) ^ (((u1.pow_10.toRat - u2.pow_10.toRat : ℚ)) : ℝ) *
            (10 : ℝ) ^ (((u2.pow_10.toRat - u1.pow_10.toRat : ℚ)) : ℝ)) *
          (Real.pi ^ (((u1.pow_pi.toRat - u2.pow_pi.toRat : ℚ)) : ℝ) *
            Real.pi ^ (((u2.pow_pi.toRat - u1.pow_pi.toRat : ℚ)) : ℝ)) *
          ((((u1.factor.toRat / u2.factor.toRat : ℚ)) : ℝ) *
            (((u2.factor.toRat / u1.factor.toRat : ℚ)) : ℝ)) := by ring
      _ = v := by rw [a10, api, af]; ring
  refine ⟨?_, fun hd => ?_⟩
  · rw [e1]
    exact key _ rfl
  · rw [from_quantity_ok M u2 ⟨u1, v⟩ hcc _ e1]
    show quantity.value_in M _ u1 = .ok v
    rw [quantity.value_in, if_pos hc2,
      from_quantity_ok M u1 _ ⟨hcc.1.symm, hcc.2.symm⟩ v (key _ rfl)]
    show quantity.value M ⟨u1, v⟩ = .ok v
    rw [quantity.value]
    simp [hd]

/-- An instance, in unbounded integers, in `test_unit.cc`: `q_mm` is built from `q_pi_cm_over_2` (raw value
12) and `q_mm.value<pi_cm_over_2_type>()` is 12. -/
theorem rescale_round_trip_witness :
    ∃ M : cmath ℝ, M.exact ∧ test_unit.u1_type.valid ∧ test_unit.u2_type.valid ∧
      unit_impl.are_compatible test_unit.u1_type test_unit.u2_type = true ∧
      test_unit.u1_type.factor.toRat ≠ 0 ∧ test_unit.u2_type.factor.toRat ≠ 0 ∧
      test_unit.u1_type.is_dimensionless = false ∧
      (unit_impl.rescale_value M test_unit.u2_type test_unit.u1_type 12).bind
        (unit_impl.rescale_value M test_unit.u1_type test_unit.u2_type) = .ok 12 ∧
      (quantity.from_quantity M test_unit.u2_type ⟨test_unit.u1_type, 12⟩).bind
        (fun q => q.value_in M test_unit.u1_type) = .ok 12 :=
  have hz1 : test_unit.u1_type.factor.toRat ≠ 0 := by
    norm_num [test_unit.u1_type, ratio.toRat]
  have hz2 : test_unit.u2_type.factor.toRat ≠ 0 := by
    norm_num [test_unit.u2_type, ratio.toRat]
  have h := rescale_round_trip _ cmath.exact_real test_unit.u1_type test_unit.u2_type
    (by decide) (by decide) (by decide) hz1 hz2 12
  ⟨_, cmath.exact_real, by decide, by decide, by decide, hz1, hz2, by decide, h.1,
    h.2 (by decide)⟩

/-! ## Symmetry of compatibility -/

/-- C11: `are_compatible` gives the same answer for two units in either order (also for
units of different systems), and every unit is compatible with itself. -/
theorem are_compatible_symm_refl (u1 u2 : unit) :
    unit_impl.are_compatible u1 u2 = unit_impl.are_compatible u2 u1 ∧
    unit_impl.are_compatible u1 u1 = true := by
  refine ⟨?_, by simp [unit_impl.are_compatible]⟩
  rw [Bool.eq_iff_iff, are_compatible_eq_true, are_compatible_eq_true]
  exact ⟨fun h => ⟨h.1.symm, h.2.symm⟩, fun h => ⟨h.1.symm, h.2.symm⟩⟩

/-! ## Products and quotients of quantities -/

theorem quantity_mul_ok {F : Type} [Field F] (a b : quantity F) (u : unit)
    (h : unit_multiply a.unit b.unit = .ok u) :
    quantity.mul a b = .ok ⟨u, a.value_ * b.value_⟩ := by
  rw [quantity.mul, h]; rfl

theorem quantity_div_ok {F : Type} [Field F] (a b : quantity F) (u : unit)
    (h : unit_divide a.unit b.unit = .ok u) :
    quantity.div a b = .ok ⟨u, a.value_ / b.value_⟩ := by
  rw [quantity.div, h]; rfl

theorem quantity_div_error {F : Type} [Field F] (a b : quantity F) (e : build_error)
    (h : unit_divide a.unit b.unit = .error e) :
    quantity.div a b = .error e := by
  rw [quantity.div, h]; rfl

/-- In unbounded integers: for quantities of well-formed units of one system, dimensionless or not,
`q1 * q2` is the quantity of unit `unit_multiply<U1, U2>` with raw value
`q1.raw * q2.raw`; `q1 / q2` is, when the factor of `U2` is not zero, the quantity of unit
`unit_divide<U1, U2>` with raw value `q1.raw / q2.raw`, and is rejected when that factor
is zero.  No `<cmath>` function and no rescaling enters either result. -/
theorem quantity_mul_div {F : Type} [Field F] (q1 q2 : quantity F)
    (h1 : q1.unit.valid) (h2 : q2.unit.valid)
    (hs : unit_impl.have_same_system q1.unit q2.unit = true) :
    (∃ u, unit_multiply q1.unit q2.unit = .ok u ∧
      quantity.mul q1 q2 = .ok ⟨u, q1.raw_value * q2.raw_value⟩) ∧
    (q2.unit.factor.toRat ≠ 0 →
      ∃ u, unit_divide q1.unit q2.unit = .ok u ∧
        quantity.div q1 q2 = .ok ⟨u, q1.raw_value / q2.raw_value⟩) ∧
    (q2.unit.factor.toRat = 0 → quantity.div q1 q2 = .error .zero_denominator) := by
  have hsys := (have_same_system_iff _ _).1 hs
  have hlen := unit_valid_same_length _ _ h1 h2 hsys
  refine ⟨⟨_, unit_multiply_ok _ _ hsys hlen, quantity_mul_ok _ _ _ (unit_multiply_ok _ _ hsys hlen)⟩,
    fun hz => ?_, fun hz => quantity_div_error _ _ _ (unit_divide_zero _ _ hsys hlen hz)⟩
  obtain ⟨q, hq, _⟩ := ratio_divide_spec q1.unit.factor q2.unit.factor h1.2.2.2.2 h2.2.2.2.2 hz
  exact ⟨_, unit_divide_ok _ _ hsys hlen q hq, quantity_div_ok _ _ _ (unit_divide_ok _ _ hsys hlen q hq)⟩

/-- An instance, in unbounded integers: 4 mm times 3 mm (unit `mm_type` of `test_unit.cc`) is the quantity
of raw value `4 * 3` whose unit has the length exponent 2 and the default scale, and 4 mm
divided by 3 mm the dimensionless quantity of raw value `4 / 3`. -/
theorem quantity_mul_div_witness :
    test_unit.u2_type.valid ∧
    unit_impl.have_same_system test_unit.u2_type test_unit.u2_type = true ∧
    test_unit.u2_type.factor.toRat ≠ 0 ∧
    unit_multiply test_unit.u2_type test_unit.u2_type =
      .ok ⟨test_unit.sys1_type, [⟨2, 1⟩, ⟨0, 1⟩, ⟨0, 1⟩], ⟨0, 1⟩, ⟨0, 1⟩, ⟨1, 1⟩⟩ ∧
    (∃ u, unit_multiply test_unit.u2_type test_unit.u2_type = .ok u ∧
      quantity.mul (⟨test_unit.u2_type, 4⟩ : quantity ℚ) ⟨test_unit.u2_type, 3⟩ =
        .ok ⟨u, (4 : ℚ) * 3⟩) ∧
    (∃ u, unit_divide test_unit.u2_type test_unit.u2_type = .ok u ∧
      quantity.div (⟨test_unit.u2_type, 4⟩ : quantity ℚ) ⟨test_unit.u2_type, 3⟩ =
        .ok ⟨u, (4 : ℚ) / 3⟩) :=
  have hz : test_unit.u2_type.factor.toRat ≠ 0 := by
    norm_num [test_unit.u2_type, ratio.toRat]
  have h := quantity_mul_div (⟨test_unit.u2_type, 4⟩ : quantity ℚ) ⟨test_unit.u2_type, 3⟩
    (by decide) (by decide) (by decide)
  ⟨by decide, by decide, hz, by decide, h.1, h.2.1 hz⟩

/-- A quotient by a zero factor: a quantity of the well-formed unit with the
system and dimensions of `mm_type` and factor `std::ratio<0>` is a quantity of the system
of `q_pi_cm_over_2`, and dividing by it is rejected, so that no quantity results. -/
theorem quantity_div_by_zero_factor :
    test_unit.u1_type.valid ∧ ({ test_unit.u2_type with factor := ⟨0, 1⟩ } : unit).valid ∧
    unit_impl.have_same_system test_unit.u1_type { test_unit.u2_type with factor := ⟨0, 1⟩ }
      = true ∧
    quantity.div (⟨test_unit.u1_type, 12⟩ : quantity ℚ)
      ⟨{ test_unit.u2_type with factor := ⟨0, 1⟩ }, 3⟩ = .error .zero_denominator ∧
    ¬ ∃ q, quantity.div (⟨test_unit.u1_type, 12⟩ : quantity ℚ)
      ⟨{ test_unit.u2_type with factor := ⟨0, 1⟩ }, 3⟩ = .ok q := by
  have h : quantity.div (⟨test_unit.u1_type, 12⟩ : quantity ℚ)
      ⟨{ test_unit.u2_type with factor := ⟨0, 1⟩ }, 3⟩ = .error .zero_denominator :=
    quantity_div_error _ _ _ (by decide)
  refine ⟨by decide, by decide, by decide, h, ?_⟩
  rintro ⟨q, hq⟩
  rw [h] at hq
  cases hq

/-- The checks of `test_quantity` on `q_mm * q_pi_cm_over_2` and `q_mm / q_pi_cm_over_2`:
the unit of the product has `pow_10` 1, `pow_pi` 1 and factor 1/2, that of the quotient
`pow_10` -1, `pow_pi` -1 and factor 2, and the raw values are the product and the quotient
of the raw values. -/
theorem quantity_mul_div_test {F : Type} [Field F] (x y : F) :
    quantity.mul (⟨test_unit.u2_type, x⟩ : quantity F) ⟨test_unit.u1_type, y⟩ =
      .ok ⟨⟨test_unit.sys1_type, [⟨2, 1⟩, ⟨0, 1⟩, ⟨0, 1⟩], ⟨1, 1⟩, ⟨1, 1⟩, ⟨1, 2⟩⟩, x * y⟩ ∧
    quantity.div (⟨test_unit.u2_type, x⟩ : quantity F) ⟨test_unit.u1_type, y⟩ =
      .ok ⟨⟨test_unit.sys1_type, [⟨0, 1⟩, ⟨0, 1⟩, ⟨0, 1⟩], ⟨-1, 1⟩, ⟨-1, 1⟩, ⟨2, 1⟩⟩, x / y⟩ :=
  have hm : unit_multiply test_unit.u2_type test_unit.u1_type =
      .ok ⟨test_unit.sys1_type, [⟨2, 1⟩, ⟨0, 1⟩, ⟨0, 1⟩], ⟨1, 1⟩, ⟨1, 1⟩, ⟨1, 2⟩⟩ := by decide
  have hd : unit_divide test_unit.u2_type test_unit.u1_type =
      .ok ⟨test_unit.sys1_type, [⟨0, 1⟩, ⟨0, 1⟩, ⟨0, 1⟩], ⟨-1, 1⟩, ⟨-1, 1⟩, ⟨2, 1⟩⟩ := by decide
  ⟨quantity_mul_ok _ _ _ hm, quantity_div_ok _ _ _ hd⟩

/-! ## Sums, differences and comparisons of quantities -/

theorem rescale_value_defined {F : Type} [Field F] (M : cmath F) (lhs rhs : unit)
    (hl : lhs.valid) (hr : rhs.valid) (hz : lhs.factor.toRat ≠ 0 ∨ rhs = lhs) (v : F) :
    ∃ w, unit_impl.rescale_value M lhs rhs v = .ok w := by
  by_cases he : lhs = rhs
  · subst he
    exact ⟨v, unit_impl.rescale_value_self M lhs v⟩
  · have hz2 : lhs.factor.toRat ≠ 0 := by
      rcases hz with hz | hz
      · exact hz
      · exact absurd hz.symm he
    obtain ⟨q, hq, _⟩ := ratio_divide_spec rhs.factor lhs.factor hr.2.2.2.2 hl.2.2.2.2 hz2
    exact ⟨_, unit_impl.rescale_value_ne M lhs rhs he q hq v⟩

theorem rescale_value_zero_factor {F : Type} [Field F] (M : cmath F) (lhs rhs : unit)
    (hne : rhs ≠ lhs) (hz : lhs.factor.toRat = 0) (v : F) :
    unit_impl.rescale_value M lhs rhs v = .error .zero_denominator := by
  have hne2 : lhs ≠ rhs := fun h => hne h.symm
  simp [unit_impl.rescale_value, unit_impl.rescale_impl.factor, hne2,
    ratio_divide_zero rhs.factor lhs.factor hz, Except.map]

theorem implicit_ok {F : Type} [Field F] (M : cmath F) (u : unit) (b : quantity F)
    (hc : b.unit.system = u.system ∧ b.unit.dimensions = u.dimensions) (w : F)
    (hw : unit_impl.rescale_value M u b.unit b.value_ = .ok w) :
    quantity.implicit M u b = .ok ⟨u, w⟩ := by
  rw [quantity.implicit]
  by_cases he : b.unit = u
  · rw [if_pos he]
    rw [he, unit_impl.rescale_value_self] at hw
    injection hw with hw
    cases b
    simp only at he hw
    rw [he, hw]
  · rw [if_neg he]
    exact from_quantity_ok M u b hc w hw

theorem implicit_error {F : Type} [Field F] (M : cmath F) (u : unit) (b : quantity F)
    (hc : unit_impl.are_compatible u b.unit = false) :
    quantity.implicit M u b = .error .incompatible := by
  have hn : ¬ (u.system = b.unit.system ∧ u.dimensions = b.unit.dimensions) := by
    intro h
    rw [(are_compatible_eq_true _ _).2 h] at hc
    cases hc
  have he : b.unit ≠ u := fun h => hn ⟨by rw [h], by rw [h]⟩
  have hn2 : ¬ (b.unit.system = u.system ∧ b.unit.dimensions = u.dimensions) :=
    fun h => hn ⟨h.1.symm, h.2.symm⟩
  rw [quantity.implicit, if_neg he, quantity.from_quantity, if_neg hn2]

theorem implicit_zero_factor {F : Type} [Field F] (M : cmath F) (u : unit) (b : quantity F)
    (hc : b.unit.system = u.system ∧ b.unit.dimensions = u.dimensions)
    (hne : b.unit ≠ u) (hz : u.factor.toRat = 0) :
    quantity.implicit M u b = .error .zero_denominator := by
  rw [quantity.implicit, if_neg hne, quantity.from_quantity, if_pos hc,
    quantity.raw_value, rescale_value_zero_factor M u b.unit hne hz]
  rfl

theorem value_of_dimensioned {F : Type} [Field F] (M : cmath F) (q : quantity F)
    (hd : q.unit.is_dimensionless = false) : quantity.value M q = .ok q.value_ := by
  rw [quantity.value]
  simp [hd]

/-- In unbounded integers: for compatible non-dimensionless quantities `a` and `b` of well-formed
units, where the factor of the unit of `a` is not zero or the two units are the same,
`a + b` and `a - b` are quantities of the unit of `a` whose raw value is `a.raw` plus or
minus `rescale_value<ua, ub>(b.raw)`, so that `(a + b).value() == a.value() +
b.value<ua>()` and `(a - b).value() == a.value() - b.value<ua>()`. -/
theorem quantity_add_sub {F : Type} [Field F] (M : cmath F) (a b : quantity F)
    (ha : a.unit.valid) (hb : b.unit.valid)
    (hc : unit_impl.are_compatible a.unit b.unit = true)
    (hd : a.unit.is_dimensionless = false)
    (hz : a.unit.factor.toRat ≠ 0 ∨ b.unit = a.unit) :
    ∃ w, unit_impl.rescale_value M a.unit b.unit b.raw_value = .ok w ∧
      quantity.add_expr M a b = .ok ⟨a.unit, a.raw_value + w⟩ ∧
      quantity.sub_expr M a b = .ok ⟨a.unit, a.raw_value - w⟩ ∧
      quantity.value M a = .ok a.raw_value ∧
      quantity.value_in M b a.unit = .ok w ∧
      (quantity.add_expr M a b).bind (quantity.value M) = .ok (a.raw_value + w) ∧
      (quantity.sub_expr M a b).bind (quantity.value M) = .ok (a.raw_value - w) := by
  obtain ⟨w, hw⟩ := rescale_value_defined M a.unit b.unit ha hb hz b.value_
  have hcc := (are_compatible_eq_true _ _).1 hc
  have hcs : b.unit.system = a.unit.system ∧ b.unit.dimensions = a.unit.dimensions :=
    ⟨hcc.1.symm, hcc.2.symm⟩
  have hi := implicit_ok M a.unit b hcs w hw
  have hadd : quantity.add_expr M a b = .ok ⟨a.unit, a.raw_value + w⟩ := by
    rw [quantity.add_expr, hi]; rfl
  have hsub : quantity.sub_expr M a b = .ok ⟨a.unit, a.raw_value - w⟩ := by
    rw [quantity.sub_expr, hi]; rfl
  have hc2 : unit_impl.are_compatible b.unit a.unit = true :=
    (are_compatible_eq_true _ _).2 hcs
  refine ⟨w, hw, hadd, hsub, value_of_dimensioned M a hd, ?_, ?_, ?_⟩
  · rw [quantity.value_in, if_pos hc2, from_quantity_ok M a.unit b hcs w hw]
    exact value_of_dimensioned M ⟨a.unit, w⟩ hd
  · rw [hadd]
    exact value_of_dimensioned M ⟨a.unit, a.raw_value + w⟩ hd
  · rw [hsub]
    exact value_of_dimensioned M ⟨a.unit, a.raw_value - w⟩ hd

/-- The conversion of `test_quantity` in exact arithmetic: a raw value in
`pi_cm_over_2_type` is multiplied by `pi * 10 / 2` on its way to `mm_type`. -/
theorem rescale_pi_cm_over_2_to_mm (M : cmath ℝ) (hM : M.exact) (v : ℝ) :
    unit_impl.rescale_value M test_unit.u2_type test_unit.u1_type v =
      .ok (v * (Real.pi * 10) / 2) := by
  have hz : test_unit.u2_type.factor.toRat ≠ 0 := by
    norm_num [test_unit.u2_type, ratio.toRat]
  rw [unit_impl.rescale_value_exact M hM test_unit.u2_type test_unit.u1_type (by decide)
    (by decide) hz v]
  congr 1
  norm_num [test_unit.u1_type, test_unit.u2_type, ratio.toRat]
  ring

/-- An instance, in unbounded integers, in `test_quantity`: `q_mm + q_pi_cm_over_2` and
`q_mm - q_pi_cm_over_2`, for a `q_mm` of raw value 5 and `q_pi_cm_over_2` of raw value 12. -/
theorem quantity_add_sub_witness :
    ∃ M : cmath ℝ, M.exact ∧ test_unit.u2_type.valid ∧ test_unit.u1_type.valid ∧
      unit_impl.are_compatible test_unit.u2_type test_unit.u1_type = true ∧
      test_unit.u2_type.is_dimensionless = false ∧
      test_unit.u2_type.factor.toRat ≠ 0 ∧
      quantity.add_expr M ⟨test_unit.u2_type, 5⟩ ⟨test_unit.u1_type, 12⟩ =
        .ok ⟨test_unit.u2_type, 5 + 12 * (Real.pi * 10) / 2⟩ ∧
      quantity.sub_expr M ⟨test_unit.u2_type, 5⟩ ⟨test_unit.u1_type, 12⟩ =
        .ok ⟨test_unit.u2_type, 5 - 12 * (Real.pi * 10) / 2⟩ := by
  have hz : test_unit.u2_type.factor.toRat ≠ 0 := by
    norm_num [test_unit.u2_type, ratio.toRat]
  refine ⟨_, cmath.exact_real, by decide, by decide, by decide, by decide, hz, ?_⟩
  obtain ⟨w, hw, hadd, hsub, _⟩ := quantity_add_sub _ (⟨test_unit.u2_type, 5⟩ : quantity ℝ)
    ⟨test_unit.u1_type, 12⟩ (by decide) (by decide) (by decide) (by decide) (Or.inl hz)
  have hw2 := rescale_pi_cm_over_2_to_mm _ cmath.exact_real 12
  have hw3 : w = 12 * (Real.pi * 10) / 2 := by
    have h := hw.symm.trans hw2
    injection h
  rw [hw3] at hadd hsub
  exact ⟨hadd, hsub⟩

/-- No sum, in unbounded integers, where the unit of `a` has the factor `std::ratio<0>` and differs
from the unit of `b`: the quantities are compatible and non-dimensionless, and neither
`a + b` nor `a - b` is accepted, the conversion of `b` asking for a `std::ratio` with
denominator zero. -/
theorem quantity_add_zero_factor :
    ∃ M : cmath ℝ, M.exact ∧
      ({ test_unit.u2_type with factor := ⟨0, 1⟩ } : unit).valid ∧ test_unit.u1_type.valid ∧
      unit_impl.are_compatible { test_unit.u2_type with factor := ⟨0, 1⟩ } test_unit.u1_type
        = true ∧
      ({ test_unit.u2_type with factor := ⟨0, 1⟩ } : unit).is_dimensionless = false ∧
      quantity.add_expr M ⟨{ test_unit.u2_type with factor := ⟨0, 1⟩ }, 5⟩
        ⟨test_unit.u1_type, 12⟩ = .error .zero_denominator ∧
      quantity.sub_expr M ⟨{ test_unit.u2_type with factor := ⟨0, 1⟩ }, 5⟩
        ⟨test_unit.u1_type, 12⟩ = .error .zero_denominator := by
  refine ⟨_, cmath.exact_real, by decide, by decide, by decide, by decide, ?_, ?_⟩
  · rw [quantity.add_expr, implicit_zero_factor _ _ _ ⟨by decide, by decide⟩ (by decide)
      (by norm_num [ratio.toRat])]
    rfl
  · rw [quantity.sub_expr, implicit_zero_factor _ _ _ ⟨by decide, by decide⟩ (by decide)
      (by norm_num [ratio.toRat])]
    rfl

/-- In unbounded integers: `operator+` and `operator-` of a non-dimensionless quantity take a
right operand of the type of the left one.  For identical units the raw values are added
or subtracted directly and the unit is unchanged; an operand whose unit is compatible
but differs in scale is accepted as well and is rescaled into the unit of the left
operand by the converting constructor (whenever that conversion is well-formed, which
it is for a nonzero factor of the left unit); an operand whose unit is not compatible is
rejected. -/
theorem quantity_add_sub_operands {F : Type} [Field F] (M : cmath F) (a b : quantity F)
    (ha : a.unit.valid) (hb : b.unit.valid) :
    (b.unit = a.unit →
      quantity.add_expr M a b = .ok ⟨a.unit, a.raw_value + b.raw_value⟩ ∧
      quantity.sub_expr M a b = .ok ⟨a.unit, a.raw_value - b.raw_value⟩) ∧
    (unit_impl.are_compatible a.unit b.unit = true → a.unit.factor.toRat ≠ 0 →
      ∃ w, unit_impl.rescale_value M a.unit b.unit b.raw_value = .ok w ∧
        quantity.add_expr M a b = .ok ⟨a.unit, a.raw_value + w⟩ ∧
        quantity.sub_expr M a b = .ok ⟨a.unit, a.raw_value - w⟩) ∧
    (unit_impl.are_compatible a.unit b.unit = false →
      quantity.add_expr M a b = .error .incompatible ∧
      quantity.sub_expr M a b = .error .incompatible) := by
  refine ⟨fun he => ?_, fun hc hz => ?_, fun hc => ?_⟩
  · have hi : quantity.implicit M a.unit b = .ok b := by rw [quantity.implicit, if_pos he]
    constructor
    · rw [quantity.add_expr, hi]; rfl
    · rw [quantity.sub_expr, hi]; rfl
  · obtain ⟨w, hw⟩ := rescale_value_defined M a.unit b.unit ha hb (Or.inl hz) b.value_
    have hcc := (are_compatible_eq_true _ _).1 hc
    have hi := implicit_ok M a.unit b ⟨hcc.1.symm, hcc.2.symm⟩ w hw
    refine ⟨w, hw, ?_, ?_⟩
    · rw [quantity.add_expr, hi]; rfl
    · rw [quantity.sub_expr, hi]; rfl
  · have hi := implicit_error M a.unit b hc
    constructor
    · rw [quantity.add_expr, hi]; rfl
    · rw [quantity.sub_expr, hi]; rfl

/-- An instance, in unbounded integers, on the units of `test_unit.cc`: `mm_type` on the left, and on the
right `mm_type` itself, the compatible `pi_cm_over_2_type`, and `u3_type`, which is not
compatible. -/
theorem quantity_add_sub_operands_witness :
    ∃ M : cmath ℝ, M.exact ∧ test_unit.u2_type.valid ∧ test_unit.u1_type.valid ∧
      test_unit.u3_type.valid ∧ test_unit.u2_type.factor.toRat ≠ 0 ∧
      unit_impl.are_compatible test_unit.u2_type test_unit.u1_type = true ∧
      unit_impl.are_compatible test_unit.u2_type test_unit.u3_type = false ∧
      quantity.add_expr M ⟨test_unit.u2_type, 5⟩ ⟨test_unit.u2_type, 12⟩ =
        .ok ⟨test_unit.u2_type, 5 + 12⟩ ∧
      (∃ w, unit_impl.rescale_value M test_unit.u2_type test_unit.u1_type 12 = .ok w ∧
        quantity.add_expr M ⟨test_unit.u2_type, 5⟩ ⟨test_unit.u1_type, 12⟩ =
          .ok ⟨test_unit.u2_type, 5 + w⟩) ∧
      quantity.add_expr M ⟨test_unit.u2_type, 5⟩ ⟨test_unit.u3_type, 12⟩ =
        .error .incompatible := by
  have hz : test_unit.u2_type.factor.toRat ≠ 0 := by
    norm_num [test_unit.u2_type, ratio.toRat]
  refine ⟨_, cmath.exact_real, by decide, by decide, by decide, hz, by decide, by decide,
    ?_, ?_, ?_⟩
  · exact ((quantity_add_sub_operands _ (⟨test_unit.u2_type, 5⟩ : quantity ℝ)
      ⟨test_unit.u2_type, 12⟩ (by decide) (by decide)).1 rfl).1
  · obtain ⟨w, hw, hadd, _⟩ := (quantity_add_sub_operands _ (⟨test_unit.u2_type, 5⟩ : quantity ℝ)
      ⟨test_unit.u1_type, 12⟩ (by decide) (by decide)).2.1 (by decide) hz
    exact ⟨w, hw, hadd⟩
  · exact ((quantity_add_sub_operands _ (⟨test_unit.u2_type, 5⟩ : quantity ℝ)
      ⟨test_unit.u3_type, 12⟩ (by decide) (by decide)).2.2 (by decide)).1

/-- The implicit conversion, in unbounded integers, on the sum checked in `test_quantity`: `pi_cm_over_2_type` differs
from `mm_type` in `pow_10`, `pow_pi` and factor, and `q_mm + q_pi_cm_over_2` is accepted
without an explicit conversion, giving the quantity of `mm_type` with raw value
`q_mm.raw + 12 * (pi * 10) / 2`. -/
theorem quantity_add_accepts_compatible :
    ∃ M : cmath ℝ, M.exact ∧
      test_unit.u1_type ≠ test_unit.u2_type ∧
      test_unit.u1_type.pow_10 ≠ test_unit.u2_type.pow_10 ∧
      test_unit.u1_type.pow_pi ≠ test_unit.u2_type.pow_pi ∧
      test_unit.u1_type.factor ≠ test_unit.u2_type.factor ∧
      test_unit.u2_type.is_dimensionless = false ∧
      quantity.add_expr M ⟨test_unit.u2_type, 5⟩ ⟨test_unit.u1_type, 12⟩ =
        .ok ⟨test_unit.u2_type, 5 + 12 * (Real.pi * 10) / 2⟩ ∧
      quantity.sub_expr M ⟨test_unit.u2_type, 5⟩ ⟨test_unit.u1_type, 12⟩ =
        .ok ⟨test_unit.u2_type, 5 - 12 * (Real.pi * 10) / 2⟩ := by
  refine ⟨_, cmath.exact_real, by decide, by decide, by decide, by decide, by decide, ?_, ?_⟩
  · rw [quantity.add_expr, implicit_ok _ test_unit.u2_type ⟨test_unit.u1_type, 12⟩
      ⟨by decide, by decide⟩ _ (rescale_pi_cm_over_2_to_mm _ cmath.exact_real 12)]
    rfl
  · rw [quantity.sub_expr, implicit_ok _ test_unit.u2_type ⟨test_unit.u1_type, 12⟩
      ⟨by decide, by decide⟩ _ (rescale_pi_cm_over_2_to_mm _ cmath.exact_real 12)]
    rfl

theorem iroot_one (D : Nat) (hD : 1 ≤ D) : iroot D 1 = .ok 1 := by
  rw [iroot]
  by_cases h1 : D = 1
  · rw [if_pos h1]
  · rw [if_neg h1, if_neg (by omega)]
    rfl

theorem ipow_ratio_abs_one (r : ratio) (h : r.valid) : ipow_ratio (ratio_abs r) 1 = .ok 1 := by
  have hred := ratio_abs_reduced r h
  have hnum : (ratio_abs r).num = abs r.num := hred.num_self
  have hden : (ratio_abs r).den = r.den := hred.den_self
  have habs : 0 ≤ abs r.num := by unfold abs; split <;> omega
  have hdpos := r.den_pos h
  rw [ipow_ratio, hnum, hden, if_pos habs, iroot_one r.den.toNat (by omega)]
  show Except.ok (ipow (abs r.num).toNat 1) = .ok 1
  rw [ipow_eq_pow, one_pow]

/-- The factor `std::ratio<1>` to any power is `std::ratio<1, 1>`. -/
theorem ratio_pow_one (r : ratio) (h : r.valid) : ratio_pow ⟨1, 1⟩ r = .ok ⟨1, 1⟩ := by
  have e1 : (⟨1, 1⟩ : ratio).num = 1 := by decide
  have d1 : (⟨1, 1⟩ : ratio).den = 1 := by decide
  have hp := ipow_ratio_abs_one r h
  unfold ratio_pow
  rw [e1, d1]
  simp [hp, bind, Except.bind]

theorem quantity_pow_ok {F : Type} [Field F] (M : cmath F) (q : quantity F) (r : ratio)
    (hr : r.valid) :
    quantity.pow M q r = .ok
      ⟨{ system := q.unit.system
         dimensions := unit_impl.dimensions_multiply q.unit.dimensions r
         pow_10 := ratio_multiply q.unit.pow_10 r
         pow_pi := ratio_multiply q.unit.pow_pi r
         factor := ⟨1, 1⟩ },
       pow M r (q.value_ * (q.unit.factor.num : F) / (q.unit.factor.den : F))⟩ := by
  rw [quantity.pow, unit_pow_ok _ r ⟨1, 1⟩ (ratio_pow_one r hr)]
  rfl

theorem ratio_multiply_zero (r : ratio) (hr : r.valid) : ratio_multiply ⟨0, 1⟩ r = ⟨0, 1⟩ := by
  have h0 : (⟨0, 1⟩ : ratio).valid := by decide
  have hred : (⟨0, 1⟩ : ratio).reduced := by decide
  rw [ratio.reduced.eq_iff (ratio_multiply_reduced _ _ h0 hr) hred,
    ratio_multiply_toRat _ _ h0 hr]
  norm_num [ratio.toRat]

theorem dimensions_multiply_dimensionless (n : Nat) (r : ratio) (hr : r.valid) :
    unit_impl.dimensions_multiply (unit_impl.make_dimensionless n) r =
      unit_impl.make_dimensionless n := by
  simp [unit_impl.dimensions_multiply, unit_impl.make_dimensionless, ratio_multiply_zero r hr]

/-- In unbounded integers: for every quantity `q` of a well-formed unit and every well-formed exponent `R`,
`q.pow<R>()` is well-formed; its raw value is `pow<R>(q.raw * f.num / f.den)` and its unit
has the system of `q`, the dimension exponents, `pow_10` and `pow_pi` of `q` times `R`
(exact rationals in lowest terms) and the factor `std::ratio<1, 1>`, whatever the factor
of `q` and the exponent are; the power of a dimensionless quantity is dimensionless. -/
theorem quantity_pow_spec {F : Type} [Field F] (M : cmath F) (q : quantity F) (r : ratio)
    (hq : q.unit.valid) (hr : r.valid) :
    ∃ u, quantity.pow M q r = .ok
        ⟨u, pow M r (q.raw_value * (q.unit.factor.num : F) / (q.unit.factor.den : F))⟩ ∧
      u.valid ∧ u.system = q.unit.system ∧
      (∀ d ∈ u.dimensions, d.reduced) ∧
      u.dimensions.map ratio.toRat = q.unit.dimensions.map (fun d => d.toRat * r.toRat) ∧
      u.pow_10.reduced ∧ u.pow_10.toRat = q.unit.pow_10.toRat * r.toRat ∧
      u.pow_pi.reduced ∧ u.pow_pi.toRat = q.unit.pow_pi.toRat * r.toRat ∧
      u.factor = ⟨1, 1⟩ ∧
      (q.unit.is_dimensionless = true → u.is_dimensionless = true) := by
  obtain ⟨hl, hd, hp, hs, _⟩ := hq
  have hdm := dimensions_multiply_spec r hr q.unit.dimensions hd
  have h1 : (⟨1, 1⟩ : ratio).valid := by decide
  refine ⟨_, quantity_pow_ok M q r hr,
    ⟨?_, fun d hd => (hdm.1 d hd).valid, (ratio_multiply_reduced _ _ hp hr).valid,
      (ratio_multiply_reduced _ _ hs hr).valid, h1⟩,
    rfl, hdm.1, hdm.2, ratio_multiply_reduced _ _ hp hr, ratio_multiply_toRat _ _ hp hr,
    ratio_multiply_reduced _ _ hs hr, ratio_multiply_toRat _ _ hs hr, rfl, fun hdl => ?_⟩
  · show q.unit.system.size = (unit_impl.dimensions_multiply q.unit.dimensions r).length
    rw [unit_impl.dimensions_multiply, List.length_map, hl]
  · have hdl2 : q.unit.dimensions = q.unit.system.dimensionless := by
      simpa [unit.is_dimensionless] using hdl
    simp only [unit.is_dimensionless, decide_eq_true_eq]
    show unit_impl.dimensions_multiply q.unit.dimensions r = q.unit.system.dimensionless
    rw [hdl2]
    exact dimensions_multiply_dimensionless _ r hr

/-- An instance, in unbounded integers, in `test_quantity`: `q00.pow<std::ratio<2, 3>>()` for the
dimensionless `q00` of unit `u00_type` (`pow_10` 2, `pow_pi` 1, factor 1/4) has the unit
with `pow_10` 4/3, `pow_pi` 2/3 and factor 1, named `" x (10^(4/3) x pi^(2/3))"`. -/
theorem quantity_pow_spec_witness :
    ∃ M : cmath ℝ, M.exact ∧ test_unit.u00_type.valid ∧ (⟨2, 3⟩ : ratio).valid ∧
      test_unit.u00_type.is_dimensionless = true ∧
      quantity.pow M ⟨test_unit.u00_type, 12⟩ ⟨2, 3⟩ = .ok
        ⟨⟨test_unit.sys1_type, test_unit.sys1_type.dimensionless, ⟨4, 3⟩, ⟨2, 3⟩, ⟨1, 1⟩⟩,
          pow M ⟨2, 3⟩ (12 * ((1 : Int) : ℝ) / ((4 : Int) : ℝ))⟩ ∧
      (∀ double_string : Int → Int → String,
        unit_string double_string
          ⟨test_unit.sys1_type, test_unit.sys1_type.dimensionless, ⟨4, 3⟩, ⟨2, 3⟩, ⟨1, 1⟩⟩
          = .ok " x (10^(4/3) x pi^(2/3))") := by
  obtain ⟨M, hM⟩ : ∃ M : cmath ℝ, M.exact := ⟨_, cmath.exact_real⟩
  refine ⟨M, hM, by decide, by decide, by decide, ?_, fun ds => by rfl⟩
  obtain ⟨u, hu, _, _, _, _, _, _, _, _, _, _⟩ := quantity_pow_spec M
    (⟨test_unit.u00_type, 12⟩ : quantity ℝ) ⟨2, 3⟩ (by decide) (by decide)
  rw [quantity_pow_ok _ _ _ (by decide)] at hu ⊢
  have hunit : unit_pow { system := test_unit.u00_type.system
                          dimensions := test_unit.u00_type.dimensions
                          pow_10 := test_unit.u00_type.pow_10
                          pow_pi := test_unit.u00_type.pow_pi } ⟨2, 3⟩ = .ok
      ⟨test_unit.sys1_type, test_unit.sys1_type.dimensionless, ⟨4, 3⟩, ⟨2, 3⟩, ⟨1, 1⟩⟩ := by
    decide
  rw [unit_pow_ok _ ⟨2, 3⟩ ⟨1, 1⟩ (ratio_pow_one _ (by decide))] at hunit
  injection hunit with hunit
  have hn : test_unit.u00_type.factor.num = 1 := by decide
  have hd : test_unit.u00_type.factor.den = 4 := by decide
  show Except.ok (quantity.mk _ _) = _
  rw [hunit, hn, hd]

/-! ## Dimensionless quantities -/

theorem unscaled_valid (u : unit) (hu : u.valid) : u.unscaled.valid := by
  have hr0 : (⟨0, 1⟩ : ratio).valid := by decide
  have hr1 : (⟨1, 1⟩ : ratio).valid := by decide
  exact ⟨hu.1, hu.2.1, hr0, hr0, hr1⟩

theorem unscaled_of_dimensionless (u : unit) (hd : u.is_dimensionless = true) :
    ({ system := u.system, dimensions := u.system.dimensionless } : unit) = u.unscaled := by
  have h : u.dimensions = u.system.dimensionless := by simpa [unit.is_dimensionless] using hd
  rw [unit.unscaled, h]

/-- In exact arithmetic `value()` of a dimensionless quantity of a well-formed unit is the
raw value times `10^pow_10 * pi^pow_pi * factor`. -/
theorem value_dimensionless_exact (M : cmath ℝ) (hM : M.exact) (q : quantity ℝ)
    (hu : q.unit.valid) (hd : q.unit.is_dimensionless = true) :
    quantity.value M q = .ok
      (q.value_ * (10 : ℝ) ^ ((q.unit.pow_10.toRat : ℚ) : ℝ) *
        Real.pi ^ ((q.unit.pow_pi.toRat : ℚ) : ℝ) * ((q.unit.factor.toRat : ℚ) : ℝ)) := by
  have hz : q.unit.unscaled.factor.toRat ≠ 0 := by norm_num [unit.unscaled, ratio.toRat]
  have h := unit_impl.rescale_value_exact M hM q.unit.unscaled q.unit
    (unscaled_valid _ hu) hu hz q.value_
  have e1 : q.unit.unscaled.pow_10.toRat = 0 := by norm_num [unit.unscaled, ratio.toRat]
  have e2 : q.unit.unscaled.pow_pi.toRat = 0 := by norm_num [unit.unscaled, ratio.toRat]
  have e3 : q.unit.unscaled.factor.toRat = 1 := by norm_num [unit.unscaled, ratio.toRat]
  rw [e1, e2, e3, sub_zero, sub_zero, div_one] at h
  rw [quantity.value, if_pos hd, from_quantity_ok M q.unit.unscaled q ⟨rfl, rfl⟩ _ h]
  rfl

/-- C18: in exact arithmetic, for every well-formed dimensionless unit `u` with scale
`(pow_10 p, pow_pi s, factor f)` and every number `v`, the quantity `quantity<u>{v}` has
`raw_value() == v` and `value() == v * 10^p * pi^s * f`, and its conversion
`operator double()` returns `value()`. -/
theorem quantity_dimensionless_value (M : cmath ℝ) (hM : M.exact) (u : unit) (hu : u.valid)
    (hd : u.is_dimensionless = true) (v : ℝ) :
    (quantity.from_double u v).raw_value = v ∧
    quantity.value M (quantity.from_double u v) = .ok
      (v * (10 : ℝ) ^ ((u.pow_10.toRat : ℚ) : ℝ) * Real.pi ^ ((u.pow_pi.toRat : ℚ) : ℝ) *
        ((u.factor.toRat : ℚ) : ℝ)) ∧
    quantity.to_double M (quantity.from_double u v) =
      quantity.value M (quantity.from_double u v) := by
  refine ⟨rfl, value_dimensionless_exact M hM ⟨u, v⟩ hu hd, ?_⟩
  rw [quantity.to_double]
  exact if_pos hd

/-- The witness of C18 in `test_quantity`: `q00{12}` of the dimensionless unit `u00_type`
(`pow_10` 2, `pow_pi` 1, factor 1/4) has `raw_value() == 12` and
`value() == 12 * (pi * 100) / 4`. -/
theorem quantity_dimensionless_value_witness :
    ∃ M : cmath ℝ, M.exact ∧ test_unit.u00_type.valid ∧
      test_unit.u00_type.is_dimensionless = true ∧
      (quantity.from_double test_unit.u00_type (12 : ℝ)).raw_value = 12 ∧
      quantity.value M (quantity.from_double test_unit.u00_type 12) =
        .ok (12 * (Real.pi * 100) / 4) ∧
      quantity.to_double M (quantity.from_double test_unit.u00_type 12) =
        .ok (12 * (Real.pi * 100) / 4) := by
  obtain ⟨M, hM⟩ : ∃ M : cmath ℝ, M.exact := ⟨_, cmath.exact_real⟩
  have h := quantity_dimensionless_value M hM test_unit.u00_type (by decide) (by decide) 12
  have hv : ((12 : ℝ) * (10 : ℝ) ^ ((test_unit.u00_type.pow_10.toRat : ℚ) : ℝ) *
      Real.pi ^ ((test_unit.u00_type.pow_pi.toRat : ℚ) : ℝ) *
      ((test_unit.u00_type.factor.toRat : ℚ) : ℝ)) = 12 * (Real.pi * 100) / 4 := by
    have e1 : test_unit.u00_type.pow_10.toRat = 2 := by
      norm_num [test_unit.u00_type, ratio.toRat]
    have e2 : test_unit.u00_type.pow_pi.toRat = 1 := by
      norm_num [test_unit.u00_type, ratio.toRat]
    have e3 : test_unit.u00_type.factor.toRat = 1 / 4 := by
      norm_num [test_unit.u00_type, ratio.toRat]
    have e4 : (10 : ℝ) ^ (2 : ℝ) = 100 := by
      rw [Real.rpow_two]
      norm_num
    rw [e1, e2, e3]
    push_cast
    rw [e4, Real.rpow_one]
    ring
  rw [hv] at h
  exact ⟨M, hM, by decide, by decide, h.1, h.2.1, h.2.2.trans h.2.1⟩

/-- C19: in exact arithmetic, for every dimensionless quantity `q` of a well-formed unit
with a nonzero factor and every number `d`, `q + d` and `q - d` are well-formed quantities
of the unit of `q` with raw value `q.raw_value()` plus (minus)
`rescale_value<unit, unit<system, system::dimensionless>>(d)`; `(q + d).value()` is
`q.value() + d`, the number that `d + q` gives through `operator double()`, and
`(q - d).value()` is `q.value() - d`. -/
theorem quantity_add_sub_double (M : cmath ℝ) (hM : M.exact) (q : quantity ℝ)
    (hu : q.unit.valid) (hd : q.unit.is_dimensionless = true)
    (hz : q.unit.factor.toRat ≠ 0) (d : ℝ) :
    ∃ w x : ℝ,
      unit_impl.rescale_value M q.unit
        { system := q.unit.system, dimensions := q.unit.system.dimensionless } d = .ok w ∧
      quantity.value M q = .ok x ∧
      quantity.add_double M q d = .ok ⟨q.unit, q.raw_value + w⟩ ∧
      (quantity.add_double M q d).bind (quantity.value M) = .ok (x + d) ∧
      quantity.double_add M d q = .ok (d + x) ∧
      (quantity.add_double M q d).bind (quantity.value M) = quantity.double_add M d q ∧
      quantity.sub_double M q d = .ok ⟨q.unit, q.raw_value - w⟩ ∧
      (quantity.sub_double M q d).bind (quantity.value M) = .ok (x - d) := by
  have hw := unit_impl.rescale_value_exact M hM q.unit q.unit.unscaled hu
    (unscaled_valid _ hu) hz d
  have e1 : q.unit.unscaled.pow_10.toRat = 0 := by norm_num [unit.unscaled, ratio.toRat]
  have e2 : q.unit.unscaled.pow_pi.toRat = 0 := by norm_num [unit.unscaled, ratio.toRat]
  have e3 : q.unit.unscaled.factor.toRat = 1 := by norm_num [unit.unscaled, ratio.toRat]
  rw [e1, e2, e3] at hw
  have hx := value_dimensionless_exact M hM q hu hd
  have h10 : (10 : ℝ) ^ (((0 - q.unit.pow_10.toRat : ℚ)) : ℝ) *
      (10 : ℝ) ^ ((q.unit.pow_10.toRat : ℚ) : ℝ) = 1 := by
    rw [← Real.rpow_add (by norm_num)]
    push_cast
    rw [zero_sub, neg_add_cancel, Real.rpow_zero]
  have hpi : Real.pi ^ (((0 - q.unit.pow_pi.toRat : ℚ)) : ℝ) *
      Real.pi ^ ((q.unit.pow_pi.toRat : ℚ) : ℝ) = 1 := by
    rw [← Real.rpow_add Real.pi_pos]
    push_cast
    rw [zero_sub, neg_add_cancel, Real.rpow_zero]
  have hf : (((1 / q.unit.factor.toRat : ℚ)) : ℝ) * ((q.unit.factor.toRat : ℚ) : ℝ) = 1 := by
    have hz2 : ((q.unit.factor.toRat : ℚ) : ℝ) ≠ 0 := by exact_mod_cast hz
    push_cast
    field_simp
  obtain ⟨w, hw, hwd⟩ : ∃ w : ℝ, unit_impl.rescale_value M q.unit q.unit.unscaled d = .ok w ∧
      w * (10 : ℝ) ^ ((q.unit.pow_10.toRat : ℚ) : ℝ) *
        Real.pi ^ ((q.unit.pow_pi.toRat : ℚ) : ℝ) * ((q.unit.factor.toRat : ℚ) : ℝ) = d := by
    refine ⟨_, hw, ?_⟩
    linear_combination d * (Real.pi ^ (((0 - q.unit.pow_pi.toRat : ℚ)) : ℝ) *
        Real.pi ^ ((q.unit.pow_pi.toRat : ℚ) : ℝ)) *
        ((((1 / q.unit.factor.toRat : ℚ)) : ℝ) * ((q.unit.factor.toRat : ℚ) : ℝ)) * h10 +
      d * ((((1 / q.unit.factor.toRat : ℚ)) : ℝ) * ((q.unit.factor.toRat : ℚ) : ℝ)) * hpi +
      d * hf
  obtain ⟨x, hx, hxv⟩ : ∃ x : ℝ, quantity.value M q = .ok x ∧
      x = q.value_ * (10 : ℝ) ^ ((q.unit.pow_10.toRat : ℚ) : ℝ) *
        Real.pi ^ ((q.unit.pow_pi.toRat : ℚ) : ℝ) * ((q.unit.factor.toRat : ℚ) : ℝ) :=
    ⟨_, hx, rfl⟩
  have hadd : quantity.add_double M q d = .ok ⟨q.unit, q.raw_value + w⟩ := by
    rw [quantity.add_double, unscaled_of_dimensionless _ hd, hw]
    rfl
  have hsub : quantity.sub_double M q d = .ok ⟨q.unit, q.raw_value - w⟩ := by
    rw [quantity.sub_double, unscaled_of_dimensionless _ hd, hw]
    rfl
  have hva := value_dimensionless_exact M hM ⟨q.unit, q.raw_value + w⟩ hu hd
  have hvs := value_dimensionless_exact M hM ⟨q.unit, q.raw_value - w⟩ hu hd
  have hda : quantity.double_add M d q = .ok (d + x) := by
    rw [quantity.double_add, quantity.to_double, if_pos hd, hx]
    rfl
  have hsum : (quantity.add_double M q d).bind (quantity.value M) = .ok (x + d) := by
    rw [hadd]
    show quantity.value M _ = _
    rw [hva]
    congr 1
    show (q.value_ + w) * _ * _ * _ = _
    linear_combination hwd - hxv
  refine ⟨w, x, by rw [unscaled_of_dimensionless _ hd]; exact hw, hx, hadd, hsum, hda, ?_,
    hsub, ?_⟩
  · rw [hsum, hda, add_comm]
  · rw [hsub]
    show quantity.value M _ = _
    rw [hvs]
    congr 1
    show (q.value_ - w) * _ * _ * _ = _
    linear_combination (-1 : ℝ) * hwd - hxv

/-! ## Products and quotients of dimensionless quantities -/

theorem zipWith_make_dimensionless (f : ratio → ratio → ratio) (hf : f ⟨0, 1⟩ ⟨0, 1⟩ = ⟨0, 1⟩)
    (n : Nat) :
    List.zipWith f (unit_impl.make_dimensionless n) (unit_impl.make_dimensionless n) =
      unit_impl.make_dimensionless n := by
  induction n with
  | zero => rfl
  | succ n ih =>
    unfold unit_impl.make_dimensionless at ih ⊢
    rw [List.replicate_succ, List.zipWith_cons_cons, hf, ih]

theorem dimensionless_valid (u : unit) (hd : u.is_dimensionless = true) (hp : u.pow_10.valid)
    (hs : u.pow_pi.valid) (hf : u.factor.valid) : u.valid := by
  have h : u.dimensions = u.system.dimensionless := by simpa [unit.is_dimensionless] using hd
  have hr0 : (⟨0, 1⟩ : ratio).valid := by decide
  refine ⟨?_, ?_, hp, hs, hf⟩
  · rw [h, unit_system.dimensionless, unit_impl.make_dimensionless, List.length_replicate]
  · intro d hdm
    rw [h, unit_system.dimensionless, unit_impl.make_dimensionless] at hdm
    rw [List.eq_of_mem_replicate hdm]
    exact hr0

/-- In unbounded integers: in exact arithmetic, for dimensionless quantities `a` and `b` of well-formed units
of the same system, `a * b` is a well-formed dimensionless quantity with raw value
`a.raw_value() * b.raw_value()` and `(a * b).value() == a.value() * b.value()`; when the
factor of the unit of `b` is not zero and `b` is not zero, `a / b` is a well-formed
dimensionless quantity with raw value `a.raw_value() / b.raw_value()` and
`(a / b).value() == a.value() / b.value()`. -/
theorem quantity_dimensionless_mul_div (M : cmath ℝ) (hM : M.exact) (a b : quantity ℝ)
    (ha : a.unit.valid) (hb : b.unit.valid) (hda : a.unit.is_dimensionless = true)
    (hdb : b.unit.is_dimensionless = true) (hs : a.unit.system = b.unit.system) :
    ∃ x y : ℝ, quantity.value M a = .ok x ∧ quantity.value M b = .ok y ∧
      (∃ m, quantity.mul a b = .ok m ∧ m.raw_value = a.raw_value * b.raw_value ∧
        m.unit.is_dimensionless = true ∧ quantity.value M m = .ok (x * y)) ∧
      (b.unit.factor.toRat ≠ 0 → b.raw_value ≠ 0 →
        ∃ m, quantity.div a b = .ok m ∧ m.raw_value = a.raw_value / b.raw_value ∧
          m.unit.is_dimensionless = true ∧ quantity.value M m = .ok (x / y)) := by
  have hlen := unit_valid_same_length a.unit b.unit ha hb hs
  have hdima : a.unit.dimensions = unit_impl.make_dimensionless a.unit.system.size := by
    simpa [unit.is_dimensionless] using hda
  have hdimb : b.unit.dimensions = unit_impl.make_dimensionless a.unit.system.size := by
    rw [hs]
    simpa [unit.is_dimensionless] using hdb
  have hr0 : (⟨0, 1⟩ : ratio).valid := by decide
  have hadd0 : ratio_add ⟨0, 1⟩ ⟨0, 1⟩ = ⟨0, 1⟩ := by decide
  have hsub0 : ratio_subtract ⟨0, 1⟩ ⟨0, 1⟩ = ⟨0, 1⟩ := by decide
  have h10 : (0 : ℝ) < 10 := by norm_num
  refine ⟨_, _, value_dimensionless_exact M hM a ha hda, value_dimensionless_exact M hM b hb hdb,
    ⟨_, quantity_mul_ok a b _ (unit_multiply_ok a.unit b.unit hs hlen), rfl, ?_, ?_⟩, ?_⟩
  · simp only [unit.is_dimensionless, decide_eq_true_eq]
    show List.zipWith ratio_add a.unit.dimensions b.unit.dimensions =
      unit_impl.make_dimensionless a.unit.system.size
    rw [hdima, hdimb, zipWith_make_dimensionless _ hadd0]
  · have hdm : ({ system := a.unit.system
                  dimensions := List.zipWith ratio_add a.unit.dimensions b.unit.dimensions
                  pow_10 := ratio_add a.unit.pow_10 b.unit.pow_10
                  pow_pi := ratio_add a.unit.pow_pi b.unit.pow_pi
                  factor := ratio_multiply a.unit.factor b.unit.factor } :
        unit).is_dimensionless = true := by
      simp only [unit.is_dimensionless, decide_eq_true_eq]
      show List.zipWith ratio_add a.unit.dimensions b.unit.dimensions =
        unit_impl.make_dimensionless a.unit.system.size
      rw [hdima, hdimb, zipWith_make_dimensionless _ hadd0]
    have hv := dimensionless_valid _ hdm
      (ratio_add_reduced _ _ ha.2.2.1 hb.2.2.1).valid
      (ratio_add_reduced _ _ ha.2.2.2.1 hb.2.2.2.1).valid
      (ratio_multiply_reduced _ _ ha.2.2.2.2 hb.2.2.2.2).valid
    rw [value_dimensionless_exact M hM ⟨_, a.value_ * b.value_⟩ hv hdm]
    congr 1
    show a.value_ * b.value_ *
        (10 : ℝ) ^ (((ratio_add a.unit.pow_10 b.unit.pow_10).toRat : ℚ) : ℝ) *
        Real.pi ^ (((ratio_add a.unit.pow_pi b.unit.pow_pi).toRat : ℚ) : ℝ) *
        (((ratio_multiply a.unit.factor b.unit.factor).toRat : ℚ) : ℝ) = _
    rw [ratio_add_toRat _ _ ha.2.2.1 hb.2.2.1, ratio_add_toRat _ _ ha.2.2.2.1 hb.2.2.2.1,
      ratio_multiply_toRat _ _ ha.2.2.2.2 hb.2.2.2.2]
    push_cast
    rw [Real.rpow_add h10, Real.rpow_add Real.pi_pos]
    ring
  · intro hz hb0
    obtain ⟨f, hf, hfr, hfv⟩ := ratio_divide_spec a.unit.factor b.unit.factor ha.2.2.2.2
      hb.2.2.2.2 hz
    have hdm : ({ system := a.unit.system
                  dimensions := List.zipWith ratio_subtract a.unit.dimensions b.unit.dimensions
                  pow_10 := ratio_subtract a.unit.pow_10 b.unit.pow_10
                  pow_pi := ratio_subtract a.unit.pow_pi b.unit.pow_pi
                  factor := f } : unit).is_dimensionless = true := by
      simp only [unit.is_dimensionless, decide_eq_true_eq]
      show List.zipWith ratio_subtract a.unit.dimensions b.unit.dimensions =
        unit_impl.make_dimensionless a.unit.system.size
      rw [hdima, hdimb, zipWith_make_dimensionless _ hsub0]
    have hv := dimensionless_valid _ hdm
      (ratio_subtract_reduced _ _ ha.2.2.1 hb.2.2.1).valid
      (ratio_subtract_reduced _ _ ha.2.2.2.1 hb.2.2.2.1).valid hfr.valid
    refine ⟨_, quantity_div_ok a b _ (unit_divide_ok a.unit b.unit hs hlen f hf), rfl, hdm, ?_⟩
    rw [value_dimensionless_exact M hM ⟨_, a.value_ / b.value_⟩ hv hdm]
    congr 1
    show a.value_ / b.value_ *
        (10 : ℝ) ^ (((ratio_subtract a.unit.pow_10 b.unit.pow_10).toRat : ℚ) : ℝ) *
        Real.pi ^ (((ratio_subtract a.unit.pow_pi b.unit.pow_pi).toRat : ℚ) : ℝ) *
        ((f.toRat : ℚ) : ℝ) = _
    rw [ratio_subtract_toRat _ _ ha.2.2.1 hb.2.2.1,
      ratio_subtract_toRat _ _ ha.2.2.2.1 hb.2.2.2.1, hfv]
    push_cast
    rw [Real.rpow_sub h10, Real.rpow_sub Real.pi_pos]
    have hz2 : ((b.unit.factor.toRat : ℚ) : ℝ) ≠ 0 := by exact_mod_cast hz
    have hb1 : b.value_ ≠ 0 := hb0
    have hp1 : (10 : ℝ) ^ ((b.unit.pow_10.toRat : ℚ) : ℝ) ≠ 0 := (Real.rpow_pos_of_pos h10 _).ne'
    have hp2 : Real.pi ^ ((b.unit.pow_pi.toRat : ℚ) : ℝ) ≠ 0 :=
      (Real.rpow_pos_of_pos Real.pi_pos _).ne'
    field_simp

/-! ## The dimensionless quantities `q00` and `q01` of `test_quantity` -/

theorem value_q00 (M : cmath ℝ) (hM : M.exact) (v : ℝ) :
    quantity.value M ⟨test_unit.u00_type, v⟩ = .ok (v * (Real.pi * 100) / 4) := by
  have e1 : test_unit.u00_type.pow_10.toRat = 2 := by
    norm_num [test_unit.u00_type, ratio.toRat]
  have e2 : test_unit.u00_type.pow_pi.toRat = 1 := by
    norm_num [test_unit.u00_type, ratio.toRat]
  have e3 : test_unit.u00_type.factor.toRat = 1 / 4 := by
    norm_num [test_unit.u00_type, ratio.toRat]
  have e4 : (10 : ℝ) ^ (2 : ℝ) = 100 := by
    rw [Real.rpow_two]
    norm_num
  have hv : test_unit.u00_type.valid := by decide
  have hd : test_unit.u00_type.is_dimensionless = true := by decide
  rw [value_dimensionless_exact M hM ⟨test_unit.u00_type, v⟩ hv hd]
  congr 1
  show v * (10 : ℝ) ^ ((test_unit.u00_type.pow_10.toRat : ℚ) : ℝ) *
      Real.pi ^ ((test_unit.u00_type.pow_pi.toRat : ℚ) : ℝ) *
      ((test_unit.u00_type.factor.toRat : ℚ) : ℝ) = _
  rw [e1, e2, e3]
  push_cast
  rw [e4, Real.rpow_one]
  ring

theorem value_q01 (M : cmath ℝ) (hM : M.exact) (v : ℝ) :
    quantity.value M ⟨test_unit.u01_type, v⟩ = .ok (v * 3 / 2) := by
  have e1 : test_unit.u01_type.pow_10.toRat = 0 := by
    norm_num [test_unit.u01_type, ratio.toRat]
  have e2 : test_unit.u01_type.pow_pi.toRat = 0 := by
    norm_num [test_unit.u01_type, ratio.toRat]
  have e3 : test_unit.u01_type.factor.toRat = 3 / 2 := by
    norm_num [test_unit.u01_type, ratio.toRat]
  have hv : test_unit.u01_type.valid := by decide
  have hd : test_unit.u01_type.is_dimensionless = true := by decide
  rw [value_dimensionless_exact M hM ⟨test_unit.u01_type, v⟩ hv hd]
  congr 1
  show v * (10 : ℝ) ^ ((test_unit.u01_type.pow_10.toRat : ℚ) : ℝ) *
      Real.pi ^ ((test_unit.u01_type.pow_pi.toRat : ℚ) : ℝ) *
      ((test_unit.u01_type.factor.toRat : ℚ) : ℝ) = _
  rw [e1, e2, e3]
  push_cast
  rw [Real.rpow_zero, Real.rpow_zero]
  ring

/-- The witness of C19 in `test_quantity`: for `q00{12}` (value `12 * (pi * 100) / 4`) and
the number 4.1, `(q00 + 4.1).value()` is `q00.value() + 4.1`, `4.1 + q00` is
`4.1 + q00.value()` and `(q00 - 4.1).value()` is `q00.value() - 4.1`. -/
theorem quantity_add_sub_double_witness :
    ∃ M : cmath ℝ, M.exact ∧ test_unit.u00_type.valid ∧
      test_unit.u00_type.is_dimensionless = true ∧ test_unit.u00_type.factor.toRat ≠ 0 ∧
      (quantity.add_double M ⟨test_unit.u00_type, 12⟩ (41 / 10)).bind (quantity.value M) =
        .ok (12 * (Real.pi * 100) / 4 + 41 / 10) ∧
      quantity.double_add M (41 / 10) ⟨test_unit.u00_type, 12⟩ =
        .ok (41 / 10 + 12 * (Real.pi * 100) / 4) ∧
      (quantity.sub_double M ⟨test_unit.u00_type, 12⟩ (41 / 10)).bind (quantity.value M) =
        .ok (12 * (Real.pi * 100) / 4 - 41 / 10) := by
  obtain ⟨M, hM⟩ : ∃ M : cmath ℝ, M.exact := ⟨_, cmath.exact_real⟩
  have hz : test_unit.u00_type.factor.toRat ≠ 0 := by
    norm_num [test_unit.u00_type, ratio.toRat]
  obtain ⟨w, x, _, hx, _, hsum, hda, _, _, hdiff⟩ := quantity_add_sub_double M hM
    ⟨test_unit.u00_type, 12⟩ (by decide) (by decide) hz (41 / 10)
  rw [value_q00 M hM 12] at hx
  injection hx with hx
  subst hx
  exact ⟨M, hM, by decide, by decide, hz, hsum, hda, hdiff⟩

/-- An instance, in unbounded integers, in `test_quantity`: for `q00{12}` and `q01{8.9}` (unit `u01_type`,
factor 3/2), with values `12 * (pi * 100) / 4` and `8.9 * 3 / 2`, the product and the
quotient have the product and the quotient of these values as `value()`. -/
theorem quantity_dimensionless_mul_div_witness :
    ∃ M : cmath ℝ, M.exact ∧ test_unit.u00_type.valid ∧ test_unit.u01_type.valid ∧
      test_unit.u00_type.is_dimensionless = true ∧
      test_unit.u01_type.is_dimensionless = true ∧
      test_unit.u00_type.system = test_unit.u01_type.system ∧
      test_unit.u01_type.factor.toRat ≠ 0 ∧
      (quantity.mul ⟨test_unit.u00_type, 12⟩ ⟨test_unit.u01_type, 89 / 10⟩).bind
        (quantity.value M) = .ok (12 * (Real.pi * 100) / 4 * (89 / 10 * 3 / 2)) ∧
      (quantity.div ⟨test_unit.u00_type, 12⟩ ⟨test_unit.u01_type, 89 / 10⟩).bind
        (quantity.value M) = .ok (12 * (Real.pi * 100) / 4 / (89 / 10 * 3 / 2)) := by
  obtain ⟨M, hM⟩ : ∃ M : cmath ℝ, M.exact := ⟨_, cmath.exact_real⟩
  have hz : test_unit.u01_type.factor.toRat ≠ 0 := by
    norm_num [test_unit.u01_type, ratio.toRat]
  obtain ⟨x, y, hx, hy, ⟨m, hm, _, _, hmv⟩, hdiv⟩ := quantity_dimensionless_mul_div M hM
    ⟨test_unit.u00_type, 12⟩ ⟨test_unit.u01_type, 89 / 10⟩ (by decide) (by decide) (by decide)
    (by decide) (by decide)
  obtain ⟨n, hn, _, _, hnv⟩ := hdiv hz (by show (89 / 10 : ℝ) ≠ 0; norm_num)
  rw [value_q00 M hM 12] at hx
  rw [value_q01 M hM (89 / 10)] at hy
  injection hx with hx
  injection hy with hy
  subst hx
  subst hy
  refine ⟨M, hM, by decide, by decide, by decide, by decide, by decide, hz, ?_, ?_⟩
  · rw [hm]
    exact hmv
  · rw [hn]
    exact hnv

/-! ## A power followed by the inverse power -/

theorem pow_unit_valid (u : unit) (hu : u.valid) (r : ratio) (hr : r.valid) :
    ({ system := u.system
       dimensions := unit_impl.dimensions_multiply u.dimensions r
       pow_10 := ratio_multiply u.pow_10 r
       pow_pi := ratio_multiply u.pow_pi r
       factor := ⟨1, 1⟩ } : unit).valid := by
  have h1 : (⟨1, 1⟩ : ratio).valid := by decide
  refine ⟨?_, fun d hd => ((dimensions_multiply_spec r hr u.dimensions hu.2.1).1 d hd).valid,
    (ratio_multiply_reduced _ _ hu.2.2.1 hr).valid,
    (ratio_multiply_reduced _ _ hu.2.2.2.1 hr).valid, h1⟩
  show u.system.size = (unit_impl.dimensions_multiply u.dimensions r).length
  rw [unit_impl.dimensions_multiply, List.length_map, hu.1]

/-- Invariant of the binary search: started on `1 <= left <= right` with `n <= right^N`
and `k^N < n` for every `1 <= k < left`, it returns the least `r >= 1` with `n <= r^N`. -/
theorem iroot_impl.iroot_least (N : Nat) (n : Int) :
    ∀ (fuel : Nat) (left right : Int), 1 ≤ left → left ≤ right → right - left < fuel →
      n ≤ right ^ N → (∀ k : Int, 1 ≤ k → k < left → k ^ N < n) →
      ∃ r, iroot_impl.iroot N n fuel left right = some r ∧ left ≤ r ∧ r ≤ right ∧
        n ≤ r ^ N ∧ ∀ k : Int, 1 ≤ k → k < r → k ^ N < n
  | 0, left, right, _, hlr, hf, _, _ => by omega
  | fuel + 1, left, right, hl, hlr, hf, hr, hk => by
    rw [iroot_impl.iroot]
    by_cases heq : left = right
    · rw [if_pos heq]
      exact ⟨right, rfl, hlr, le_refl _, hr, by rw [← heq]; exact hk⟩
    · rw [if_neg heq]
      have hm : iroot_impl.mid left right = (left + right) / 2 :=
        iroot_impl.mid_eq _ _ (by omega)
      rw [hm]
      by_cases hc : ipow N ((left + right) / 2) ≥ n
      · rw [if_pos hc, if_pos hc]
        obtain ⟨r, h1, h2, h3, h4, h5⟩ := iroot_impl.iroot_least N n fuel left
          ((left + right) / 2) hl (by omega) (by omega) (by rw [← ipow_eq_pow]; exact hc) hk
        exact ⟨r, h1, h2, by omega, h4, h5⟩
      · rw [if_neg hc, if_neg hc]
        have hlt : ((left + right) / 2) ^ N < n := by
          rw [← ipow_eq_pow]
          omega
        obtain ⟨r, h1, h2, h3, h4, h5⟩ := iroot_impl.iroot_least N n fuel
          ((left + right) / 2 + 1) right (by omega) (by omega) (by omega) hr
          (fun k hk1 hk2 =>
            lt_of_le_of_lt (pow_le_pow_left₀ (by omega) (by omega) N) hlt)
        exact ⟨r, h1, by omega, h3, h4, h5⟩

/-- For a degree `N >= 1` and `n >= 1`, `iroot<N>(n)` is the least integer `r >= 1` with
`n <= r^N`. -/
theorem iroot_spec (N : Nat) (hN : 1 ≤ N) (n : Int) (hn : 1 ≤ n) :
    ∃ r, iroot N n = .ok r ∧ 1 ≤ r ∧ r ≤ n ∧ n ≤ r ^ N ∧
      ∀ k : Int, 1 ≤ k → k < r → k ^ N < n := by
  rw [iroot]
  by_cases h1 : N = 1
  · rw [if_pos h1]
    subst h1
    exact ⟨n, rfl, hn, le_refl _, by rw [pow_one], fun k _ hk => by rw [pow_one]; exact hk⟩
  · rw [if_neg h1, if_neg (by omega)]
    obtain ⟨r, hr, h2, h3, h4, h5⟩ := iroot_impl.iroot_least N n (n.toNat + 1) 1 n (le_refl _)
      hn (by omega) (le_self_pow₀ hn (by omega)) (fun k hk1 hk2 => by omega)
    exact ⟨r, by rw [hr], h2, h3, h4, h5⟩

/-- The least `r >= 1` with `m^D <= r^D` is `m`. -/
theorem pow_least_eq (D : Nat) (hD : 1 ≤ D) (m r : Int) (hm : 1 ≤ m) (hr : 1 ≤ r)
    (hle : m ^ D ≤ r ^ D) (hleast : ∀ k : Int, 1 ≤ k → k < r → k ^ D < m ^ D) : r = m := by
  rcases lt_trichotomy r m with h | h | h
  · have := pow_lt_pow_left₀ h (by omega) (by omega : D ≠ 0)
    omega
  · exact h
  · have := hleast m hm h
    omega

/-- C28: for every degree `D >= 1` and every integer `m >= 1`, `iroot<D>(m^D)` is a constant
and equals `m`, with `m^D` computed by `ipow<D>` or as the power (integers without
overflow). -/
theorem iroot_perfect_power (D : Nat) (hD : 1 ≤ D) (m : Int) (hm : 1 ≤ m) :
    iroot D (m ^ D) = .ok m ∧ iroot D (ipow D m) = .ok m := by
  have hn : 1 ≤ m ^ D := one_le_pow₀ hm
  obtain ⟨r, hr, h1, _, h3, h4⟩ := iroot_spec D hD (m ^ D) hn
  have hrm : r = m := pow_least_eq D hD m r hm h1 h3 h4
  rw [ipow_eq_pow, hr, hrm]
  exact ⟨rfl, rfl⟩

/-- The witness of C28: the square root of `7^2` and the cube root of `5^3`. -/
theorem iroot_perfect_power_witness :
    1 ≤ 2 ∧ (1 : Int) ≤ 7 ∧ iroot 2 (7 ^ 2) = .ok 7 ∧ iroot 3 (ipow 3 5) = .ok 5 :=
  ⟨by decide, by decide, (iroot_perfect_power 2 (by decide) 7 (by decide)).1,
    (iroot_perfect_power 3 (by decide) 5 (by decide)).2⟩

/-- In unbounded integers: for every degree `D >= 2` and every integer `n >= 1` that is not a
perfect `D`-th power, `iroot<D>(n)` is a constant `r >= 2`, the least integer with
`n <= r^D`; here `(r - 1)^D < n < r^D`, so that `r - 1` is the largest integer whose
`D`-th power is at most `n` (the floor of the root) and the result is the floor plus one. -/
theorem iroot_not_perfect_power (D : Nat) (hD : 2 ≤ D) (n : Int) (hn : 1 ≤ n)
    (hnp : ¬ ∃ m : Int, m ^ D = n) :
    ∃ r, iroot D n = .ok r ∧ 2 ≤ r ∧ (r - 1) ^ D < n ∧ n < r ^ D ∧
      (∀ k : Int, 1 ≤ k → k < r → k ^ D < n) ∧
      (∀ k : Int, 0 ≤ k → k ^ D ≤ n → k ≤ r - 1) := by
  obtain ⟨r, hr, h1, _, h3, h4⟩ := iroot_spec D (by omega) n hn
  have hlt : n < r ^ D := lt_of_le_of_ne h3 (fun h => hnp ⟨r, h.symm⟩)
  have hr2 : 2 ≤ r := by
    by_contra hc
    have hr1 : r = 1 := by omega
    rw [hr1, one_pow] at hlt
    omega
  refine ⟨r, hr, hr2, h4 (r - 1) (by omega) (by omega), hlt, h4, fun k hk0 hkn => ?_⟩
  by_contra hc
  have hrk : r ≤ k := by omega
  have := pow_le_pow_left₀ (by omega : (0 : Int) ≤ r) hrk D
  omega

/-- An instance, in unbounded integers: 17 is not a square, `iroot<2>(17)` is 5 and the floor of
the square root is 4. -/
theorem iroot_not_perfect_power_witness :
    2 ≤ 2 ∧ (1 : Int) ≤ 17 ∧ (¬ ∃ m : Int, m ^ 2 = 17) ∧
    ∃ r, iroot 2 17 = .ok r ∧ 2 ≤ r ∧ (r - 1) ^ 2 < 17 ∧ 17 < r ^ 2 ∧
      (∀ k : Int, 1 ≤ k → k < r → k ^ 2 < 17) ∧
      (∀ k : Int, 0 ≤ k → k ^ 2 ≤ 17 → k ≤ r - 1) := by
  have hnp : ¬ ∃ m : Int, m ^ 2 = 17 := by
    rintro ⟨m, hm⟩
    have h1 : m ≤ 4 := by nlinarith
    have h2 : -4 ≤ m := by nlinarith
    interval_cases m <;> omega
  exact ⟨by decide, by decide, hnp, iroot_not_perfect_power 2 (by decide) 17 (by decide) hnp⟩

/-- In unbounded integers the result is not the floor on the smallest input: 2 is not a square, the largest integer `r`
with `r^2 <= 2` is 1, and `iroot<2>(2)` is 2, whose square exceeds 2. -/
theorem iroot_not_floor :
    (¬ ∃ m : Int, m ^ 2 = 2) ∧ (1 : Int) ^ 2 ≤ 2 ∧ ¬ ((1 + 1 : Int) ^ 2 ≤ 2) ∧
    iroot 2 2 = .ok 2 ∧ iroot 2 2 ≠ .ok 1 ∧
    (∀ r, iroot 2 2 = .ok r → ¬ (r ^ 2 ≤ 2)) := by
  have hnp : ¬ ∃ m : Int, m ^ 2 = 2 := by
    rintro ⟨m, hm⟩
    have h1 : m ≤ 1 := by nlinarith
    have h2 : -1 ≤ m := by nlinarith
    interval_cases m <;> omega
  have h : iroot 2 2 = .ok 2 := by decide
  refine ⟨hnp, by decide, by decide, h, by decide, fun r hr => ?_⟩
  rw [h] at hr
  injection hr with hr
  subst hr
  decide

/-! ## `ratio_pow` on perfect powers -/

theorem ipow_ratio_of_pow (r : ratio) (hr : r.reduced) (hN : 0 ≤ r.N) (m : Int) (hm : 1 ≤ m) :
    ipow_ratio r (m ^ r.D.toNat) = .ok (m ^ r.N.toNat) := by
  have hD : 1 ≤ r.D.toNat := by have := hr.1; omega
  obtain ⟨k, hk, h1, _, h3, h4⟩ := iroot_spec r.D.toNat hD (m ^ r.D.toNat) (one_le_pow₀ hm)
  have hkm : k = m := pow_least_eq r.D.toNat hD m k hm h1 h3 h4
  rw [ipow_ratio, hr.num_self, hr.den_self, if_pos hN, hk, hkm]
  show Except.ok (ipow r.N.toNat m) = _
  rw [ipow_eq_pow]

theorem abs_toNat (n : Int) : (abs n).toNat = n.natAbs := by
  unfold abs
  split <;> omega

theorem ratio_abs_of_reduced (r : ratio) (hr : r.reduced) : ratio_abs r = ⟨abs r.N, r.D⟩ := by
  rw [ratio_abs, hr.num_self, hr.den_self]

/-- C27: for a base `std::ratio<a, b>` with `a = x^D`, `b = y^D`, `x, y >= 1`, and an
exponent `std::ratio<N, D>` in lowest terms with `D >= 1`, `ratio_pow` is well-formed and
its value is `(x / y)^N`, the positive rational whose `D`-th power is `(a / b)^N`; when
`x / y` is in lowest terms the alias is `std::ratio<x^N, y^N>` for `N > 0` and
`std::ratio<y^|N|, x^|N|>` for `N < 0` (integers without overflow). -/
theorem ratio_pow_exact (a b x y N : Int) (D : Nat) (hx : 1 ≤ x) (hy : 1 ≤ y)
    (ha : a = x ^ D) (hb : b = y ^ D) (hD : 1 ≤ D) (hred : Int.gcd N D = 1) :
    ∃ q, ratio_pow ⟨a, b⟩ ⟨N, D⟩ = .ok q ∧ q.valid ∧
      q.toRat = ((x : ℚ) / (y : ℚ)) ^ N ∧ 0 < q.toRat ∧
      q.toRat ^ D = ((a : ℚ) / (b : ℚ)) ^ N ∧
      (Int.gcd x y = 1 →
        (0 < N → q = ⟨x ^ N.toNat, y ^ N.toNat⟩) ∧
        (N < 0 → q = ⟨y ^ (-N).toNat, x ^ (-N).toNat⟩)) := by
  have hxq : (0 : ℚ) < (x : ℚ) := by exact_mod_cast (by omega : (0 : Int) < x)
  have hyq : (0 : ℚ) < (y : ℚ) := by exact_mod_cast (by omega : (0 : Int) < y)
  have ht : (0 : ℚ) < (x : ℚ) / (y : ℚ) := div_pos hxq hyq
  have hb1 : 1 ≤ b := by rw [hb]; exact one_le_pow₀ hy
  have hv1 : (⟨a, b⟩ : ratio).valid := by show b ≠ 0; omega
  have hr2 : (⟨N, D⟩ : ratio).reduced := ⟨by show (0 : Int) < (D : Int); omega, hred⟩
  have hn2 : (⟨N, D⟩ : ratio).num = N := hr2.num_self
  have htr : (⟨a, b⟩ : ratio).toRat = ((x : ℚ) / (y : ℚ)) ^ D := by
    rw [ratio.toRat, div_pow]
    show ((a : Int) : ℚ) / ((b : Int) : ℚ) = _
    rw [ha, hb]
    push_cast
    rfl
  have hnum : (⟨a, b⟩ : ratio).num = ((x : ℚ) / (y : ℚ)).num ^ D := by
    rw [ratio.num_eq, htr, Rat.num_pow]
  have hden : (⟨a, b⟩ : ratio).den = ((((x : ℚ) / (y : ℚ)).den : Nat) : Int) ^ D := by
    rw [ratio.den_eq _ hv1, htr, Rat.den_pow]
    push_cast
    rfl
  have hp : 1 ≤ ((x : ℚ) / (y : ℚ)).num := by
    have := Rat.num_pos.2 ht
    omega
  have hq : 1 ≤ ((((x : ℚ) / (y : ℚ)).den : Nat) : Int) := by
    have := ((x : ℚ) / (y : ℚ)).den_pos
    omega
  have hra := ratio_abs_reduced ⟨N, D⟩ hr2.valid
  have hraeq : ratio_abs ⟨N, D⟩ = ⟨abs N, D⟩ := ratio_abs_of_reduced _ hr2
  have habs : 0 ≤ abs N := by unfold abs; split <;> omega
  have hDn : ((D : Int)).toNat = D := Int.toNat_ofNat D
  have hipn := ipow_ratio_of_pow (ratio_abs ⟨N, D⟩) hra (by rw [hraeq]; exact habs) _ hp
  have hipd := ipow_ratio_of_pow (ratio_abs ⟨N, D⟩) hra (by rw [hraeq]; exact habs) _ hq
  rw [hraeq] at hipn hipd
  simp only [hDn, abs_toNat] at hipn hipd
  rw [← hnum] at hipn
  rw [← hden] at hipd
  have hcast : (((x : ℚ) / (y : ℚ)).num : ℚ) / ((((x : ℚ) / (y : ℚ)).den : Nat) : ℚ) =
      (x : ℚ) / (y : ℚ) := Rat.num_div_den _
  have hpq : (0 : ℚ) < (((x : ℚ) / (y : ℚ)).num : ℚ) := by
    have h0 : (0 : Int) < ((x : ℚ) / (y : ℚ)).num := by omega
    exact_mod_cast h0
  have hqq : (0 : ℚ) < ((((x : ℚ) / (y : ℚ)).den : Nat) : ℚ) := by
    exact_mod_cast ((x : ℚ) / (y : ℚ)).den_pos
  have hpowD : ∀ v : ℚ, v = ((x : ℚ) / (y : ℚ)) ^ N → v ^ D = ((a : ℚ) / (b : ℚ)) ^ N := by
    intro v hv
    have hab : (a : ℚ) / (b : ℚ) = ((x : ℚ) / (y : ℚ)) ^ D := htr
    rw [hv, hab, ← zpow_natCast, ← zpow_natCast, ← zpow_mul, ← zpow_mul, mul_comm]
  have hcop : Int.gcd x y = 1 → ((x : ℚ) / (y : ℚ)).num = x ∧
      ((((x : ℚ) / (y : ℚ)).den : Nat) : Int) = y := by
    intro hg
    have hc : Nat.Coprime x.natAbs y.natAbs := hg
    exact ⟨Rat.num_div_eq_of_coprime (by omega) hc, Rat.den_div_eq_of_coprime (by omega) hc⟩
  by_cases hs : N > 0
  · have hd0 : (((((x : ℚ) / (y : ℚ)).den : Nat) : Int) ^ N.natAbs) ≠ 0 := by
      have := one_le_pow₀ (n := N.natAbs) hq
      omega
    have hval : (⟨((x : ℚ) / (y : ℚ)).num ^ N.natAbs,
        ((((x : ℚ) / (y : ℚ)).den : Nat) : Int) ^ N.natAbs⟩ : ratio).toRat =
        ((x : ℚ) / (y : ℚ)) ^ N := by
      rw [ratio.toRat]
      push_cast
      rw [← div_pow, hcast, ← zpow_natCast]
      congr 1
      omega
    refine ⟨⟨((x : ℚ) / (y : ℚ)).num ^ N.natAbs,
      ((((x : ℚ) / (y : ℚ)).den : Nat) : Int) ^ N.natAbs⟩, ?_, hd0, hval, ?_, hpowD _ hval, ?_⟩
    · simp [ratio_pow, hn2, hs, hraeq, hipn, hipd, hd0, bind, Except.bind]
    · rw [hval]
      exact zpow_pos ht N
    · intro hg
      obtain ⟨e1, e2⟩ := hcop hg
      refine ⟨fun _ => ?_, fun h => by omega⟩
      rw [e1, e2]
      have : N.toNat = N.natAbs := by omega
      rw [this]
  · have hn0 : (((x : ℚ) / (y : ℚ)).num ^ N.natAbs) ≠ 0 := by
      have := one_le_pow₀ (n := N.natAbs) hp
      omega
    have hval : (⟨((((x : ℚ) / (y : ℚ)).den : Nat) : Int) ^ N.natAbs,
        ((x : ℚ) / (y : ℚ)).num ^ N.natAbs⟩ : ratio).toRat = ((x : ℚ) / (y : ℚ)) ^ N := by
      rw [ratio.toRat]
      push_cast
      rw [← div_pow, ← inv_div, hcast, inv_pow, ← zpow_natCast, ← zpow_neg]
      congr 1
      omega
    refine ⟨⟨((((x : ℚ) / (y : ℚ)).den : Nat) : Int) ^ N.natAbs,
      ((x : ℚ) / (y : ℚ)).num ^ N.natAbs⟩, ?_, hn0, hval, ?_, hpowD _ hval, ?_⟩
    · simp [ratio_pow, hn2, hs, hraeq, hipn, hipd, hn0, bind, Except.bind]
    · rw [hval]
      exact zpow_pos ht N
    · intro hg
      obtain ⟨e1, e2⟩ := hcop hg
      refine ⟨fun h => by omega, fun _ => ?_⟩
      rw [e1, e2]
      have : (-N).toNat = N.natAbs := by omega
      rw [this]

/-- The witness of C27 in `test_unit.cc`: `(1/2)^4` is `std::ratio<1, 16>` (degree 1, by
repeated multiplication), and `(4/9)^(-3/2)` is `std::ratio<27, 8>`. -/
theorem ratio_pow_exact_witness :
    (1 : Int) ≤ 1 ∧ (1 : Int) ≤ 2 ∧ (1 : Int) = 1 ^ 1 ∧ (2 : Int) = 2 ^ 1 ∧ 1 ≤ 1 ∧
    Int.gcd 4 (1 : Nat) = 1 ∧ Int.gcd 1 2 = 1 ∧
    ratio_pow ⟨1, 2⟩ ⟨4, 1⟩ = .ok ⟨1, 16⟩ ∧ ratio_pow ⟨4, 9⟩ ⟨-3, 2⟩ = .ok ⟨27, 8⟩ := by
  obtain ⟨q, hq, _, _, _, _, hc⟩ := ratio_pow_exact 1 2 1 2 4 1 (by decide) (by decide)
    (by decide) (by decide) (by decide) (by decide)
  have hq1 := (hc (by decide)).1 (by decide)
  rw [hq1] at hq
  obtain ⟨p, hp, _, _, _, _, hc2⟩ := ratio_pow_exact 4 9 2 3 (-3) 2 (by decide) (by decide)
    (by decide) (by decide) (by decide) (by decide)
  have hp1 := (hc2 (by decide)).2 (by decide)
  rw [hp1] at hp
  exact ⟨by decide, by decide, by decide, by decide, by decide, by decide, by decide, hq, hp⟩

/-! ## The value of a power of a dimensionless quantity -/

theorem ipow_ratio_one (n : Int) : ipow_ratio ⟨1, 1⟩ n = .ok n := by
  have h1 : (⟨1, 1⟩ : ratio).num = 1 := by decide
  have h2 : (⟨1, 1⟩ : ratio).den = 1 := by decide
  rw [ipow_ratio, h1, h2, if_pos (by decide), iroot, if_pos (by decide)]
  show Except.ok (ipow 1 n) = _
  rw [ipow_eq_pow, pow_one]

/-- The alias `ratio_pow<F, std::ratio<-1>>` is `std::ratio<F::den, F::num>`, ill-formed
when `F::num` is zero. -/
theorem ratio_pow_neg_one (f : ratio) :
    ratio_pow f ⟨-1, 1⟩ =
      if f.num = 0 then .error .zero_denominator else .ok ⟨f.den, f.num⟩ := by
  have h1 : (⟨-1, 1⟩ : ratio).num = -1 := by decide
  have h2 : ratio_abs ⟨-1, 1⟩ = ⟨1, 1⟩ := by decide
  simp [ratio_pow, h1, h2, ipow_ratio_one, bind, Except.bind]

/-- The name of a unit depends on the text of the factor only. -/
theorem unit_string_of_factor (ds : Int → Int → String) (u : unit) (n d : Int) (s : String)
    (hn : u.factor.num = n) (hd : u.factor.den = d) (h : ds n d = s) :
    unit_string ds u = unit_string (fun _ _ => s) u := by
  simp only [unit_string, hn, hd, h]

/-- C22 (amended): for every number `d` and every quantity `q` of a well-formed unit `u`
with a nonzero factor `f`, `d / q` is a well-formed quantity with raw value
`d / q.raw_value()` and unit `unit_pow<u, std::ratio<-1>>`: the system of `u`, every
dimension exponent, `pow_10` and `pow_pi` negated (in lowest terms) and the factor
`std::ratio<f.den, f.num>`, which is `1 / f`; for a unit with factor zero `d / q` is
ill-formed. -/
theorem quantity_double_div {F : Type} [Field F] (d : F) (q : quantity F)
    (hq : q.unit.valid) :
    (q.unit.factor.toRat ≠ 0 →
      ∃ u, unit_pow q.unit ⟨-1, 1⟩ = .ok u ∧ double_div d q = .ok ⟨u, d / q.raw_value⟩ ∧
        u.valid ∧ u.system = q.unit.system ∧
        (∀ x ∈ u.dimensions, x.reduced) ∧
        u.dimensions.map ratio.toRat = q.unit.dimensions.map (fun x => -x.toRat) ∧
        u.pow_10.reduced ∧ u.pow_10.toRat = -q.unit.pow_10.toRat ∧
        u.pow_pi.reduced ∧ u.pow_pi.toRat = -q.unit.pow_pi.toRat ∧
        u.factor = ⟨q.unit.factor.den, q.unit.factor.num⟩ ∧
        u.factor.toRat = 1 / q.unit.factor.toRat) ∧
    (q.unit.factor.toRat = 0 → double_div d q = .error .zero_denominator) := by
  have hr : (⟨-1, 1⟩ : ratio).valid := by decide
  have hm1 : (⟨-1, 1⟩ : ratio).toRat = -1 := by norm_num [ratio.toRat]
  have hdm := dimensions_multiply_spec ⟨-1, 1⟩ hr q.unit.dimensions hq.2.1
  constructor
  · intro hz
    have hn0 : q.unit.factor.num ≠ 0 := fun h => hz ((ratio.num_eq_zero_iff _).1 h)
    have hf : ratio_pow q.unit.factor ⟨-1, 1⟩ = .ok ⟨q.unit.factor.den, q.unit.factor.num⟩ := by
      rw [ratio_pow_neg_one, if_neg hn0]
    have hu := unit_pow_ok q.unit ⟨-1, 1⟩ _ hf
    refine ⟨_, hu, ?_, ⟨?_, fun x hx => (hdm.1 x hx).valid,
        (ratio_multiply_reduced _ _ hq.2.2.1 hr).valid,
        (ratio_multiply_reduced _ _ hq.2.2.2.1 hr).valid, hn0⟩,
      rfl, hdm.1, ?_, ratio_multiply_reduced _ _ hq.2.2.1 hr, ?_,
      ratio_multiply_reduced _ _ hq.2.2.2.1 hr, ?_, rfl, ?_⟩
    · rw [double_div, hu]
      rfl
    · show q.unit.system.size = (unit_impl.dimensions_multiply q.unit.dimensions _).length
      rw [unit_impl.dimensions_multiply, List.length_map, hq.1]
    · rw [hdm.2]
      apply List.map_congr_left
      intro x _
      rw [hm1, mul_neg_one]
    · show (ratio_multiply q.unit.pow_10 ⟨-1, 1⟩).toRat = _
      rw [ratio_multiply_toRat _ _ hq.2.2.1 hr, hm1, mul_neg_one]
    · show (ratio_multiply q.unit.pow_pi ⟨-1, 1⟩).toRat = _
      rw [ratio_multiply_toRat _ _ hq.2.2.2.1 hr, hm1, mul_neg_one]
    · show ((q.unit.factor.den : Int) : ℚ) / ((q.unit.factor.num : Int) : ℚ) = _
      rw [← ratio.num_div_den _ hq.2.2.2.2, one_div_div]
  · intro hz
    have hn0 : q.unit.factor.num = 0 := (ratio.num_eq_zero_iff _).2 hz
    have hf : ratio_pow q.unit.factor ⟨-1, 1⟩ = .error .zero_denominator := by
      rw [ratio_pow_neg_one, if_pos hn0]
    rw [double_div, unit_pow_error q.unit ⟨-1, 1⟩ _ hf]
    rfl

end physics
namespace physics

/-- The witness of C22 in `test_quantity`: `qd = q_mm / q00` has the unit named
`" x (4 x 10^-2 x pi^-1) mm"` and `1. / qd` the unit named `" x (0.25 x 10^2 x pi) mm^-1"`
(with the texts `4` and `0.25` for the numbers 4 and 1/4). -/
theorem quantity_double_div_witness :
    unit_divide test_unit.u2_type test_unit.u00_type =
      .ok ⟨test_unit.sys1_type, test_unit.dim1_type, ⟨-2, 1⟩, ⟨-1, 1⟩, ⟨4, 1⟩⟩ ∧
    (⟨test_unit.sys1_type, test_unit.dim1_type, ⟨-2, 1⟩, ⟨-1, 1⟩, ⟨4, 1⟩⟩ : unit).valid ∧
    (⟨4, 1⟩ : ratio).toRat ≠ 0 ∧
    (∀ ds : Int → Int → String, ds 4 1 = "4" →
      unit_string ds ⟨test_unit.sys1_type, test_unit.dim1_type, ⟨-2, 1⟩, ⟨-1, 1⟩, ⟨4, 1⟩⟩ =
        .ok " x (4 x 10^-2 x pi^-1) mm") ∧
    double_div (1 : ℚ)
        ⟨⟨test_unit.sys1_type, test_unit.dim1_type, ⟨-2, 1⟩, ⟨-1, 1⟩, ⟨4, 1⟩⟩, 3⟩ =
      .ok ⟨⟨test_unit.sys1_type, [⟨-1, 1⟩, ⟨0, 1⟩, ⟨0, 1⟩], ⟨2, 1⟩, ⟨1, 1⟩, ⟨1, 4⟩⟩, 1 / 3⟩ ∧
    (∀ ds : Int → Int → String, ds 1 4 = "0.25" →
      unit_string ds ⟨test_unit.sys1_type, [⟨-1, 1⟩, ⟨0, 1⟩, ⟨0, 1⟩], ⟨2, 1⟩, ⟨1, 1⟩, ⟨1, 4⟩⟩ =
        .ok " x (0.25 x 10^2 x pi) mm^-1") := by
  have hz : (⟨4, 1⟩ : ratio).toRat ≠ 0 := by norm_num [ratio.toRat]
  have hv : (⟨test_unit.sys1_type, test_unit.dim1_type, ⟨-2, 1⟩, ⟨-1, 1⟩, ⟨4, 1⟩⟩ : unit).valid := by
    decide
  obtain ⟨u, hu, hdd, _⟩ := (quantity_double_div (1 : ℚ)
    ⟨⟨test_unit.sys1_type, test_unit.dim1_type, ⟨-2, 1⟩, ⟨-1, 1⟩, ⟨4, 1⟩⟩, 3⟩ hv).1 hz
  have hc : unit_pow ⟨test_unit.sys1_type, test_unit.dim1_type, ⟨-2, 1⟩, ⟨-1, 1⟩, ⟨4, 1⟩⟩ ⟨-1, 1⟩ =
      .ok ⟨test_unit.sys1_type, [⟨-1, 1⟩, ⟨0, 1⟩, ⟨0, 1⟩], ⟨2, 1⟩, ⟨1, 1⟩, ⟨1, 4⟩⟩ := by
    decide
  rw [show (quantity.mk (⟨test_unit.sys1_type, test_unit.dim1_type, ⟨-2, 1⟩, ⟨-1, 1⟩, ⟨4, 1⟩⟩ :
    unit) (3 : ℚ)).unit = ⟨test_unit.sys1_type, test_unit.dim1_type, ⟨-2, 1⟩, ⟨-1, 1⟩, ⟨4, 1⟩⟩
    from rfl, hc] at hu
  injection hu with hu
  subst hu
  refine ⟨by decide, hv, hz, fun ds h => ?_, hdd, fun ds h => ?_⟩
  · refine (unit_string_of_factor ds _ 4 1 "4" ?_ ?_ h).trans ?_ <;> decide
  · refine (unit_string_of_factor ds _ 1 4 "0.25" ?_ ?_ h).trans ?_ <;> decide

/-- C22 as stated fails for a quantity of the well-formed unit with the system and
dimensions of `mm_type` and the factor `std::ratio<0>`: `1. / q` asks for
`std::ratio<1, 0>` and is ill-formed. -/
theorem double_div_zero_factor :
    ({ test_unit.u2_type with factor := ⟨0, 1⟩ } : unit).valid ∧
    double_div (1 : ℚ) ⟨{ test_unit.u2_type with factor := ⟨0, 1⟩ }, 3⟩ =
      .error .zero_denominator ∧
    ¬ ∃ r, double_div (1 : ℚ) ⟨{ test_unit.u2_type with factor := ⟨0, 1⟩ }, 3⟩ = .ok r := by
  have h : double_div (1 : ℚ) ⟨{ test_unit.u2_type with factor := ⟨0, 1⟩ }, 3⟩ =
      .error .zero_denominator := by
    have hf : ratio_pow ({ test_unit.u2_type with factor := ⟨0, 1⟩ } : unit).factor ⟨-1, 1⟩ =
        .error .zero_denominator := by decide
    rw [double_div, unit_pow_error _ ⟨-1, 1⟩ _ hf]
    rfl
  refine ⟨by decide, h, ?_⟩
  rintro ⟨r, hr⟩
  rw [h] at hr
  exact absurd hr (by simp)

/-! ## The name of a unit -/

theorem string_foldl_append (l : List String) :
    ∀ acc : String, l.foldl (fun r s => r ++ s) acc = acc ++ l.foldl (fun r s => r ++ s) "" := by
  induction l with
  | nil => intro acc; simp
  | cons b l ih =>
    intro acc
    rw [List.foldl_cons, List.foldl_cons, ih (acc ++ b), ih ("" ++ b), String.empty_append,
      String.append_assoc]

theorem string_join_cons (a : String) (l : List String) :
    String.join (a :: l) = a ++ String.join l := by
  show (a :: l).foldl (fun r s => r ++ s) "" = a ++ l.foldl (fun r s => r ++ s) ""
  rw [List.foldl_cons, string_foldl_append l ("" ++ a), String.empty_append]

theorem ratio_eq_one_iff (r : ratio) (h : r.valid) : (r.num = 1 ∧ r.den = 1) ↔ r.toRat = 1 := by
  constructor
  · rintro ⟨h1, h2⟩
    rw [← ratio.num_div_den r h, h1, h2]
    norm_num
  · intro h1
    rw [ratio.num_eq, ratio.den_eq r h, h1]
    exact ⟨rfl, rfl⟩

theorem ratio_not_equal_one (r : ratio) (h : r.valid) :
    ratio_not_equal r ⟨1, 1⟩ = decide (r.toRat ≠ 1) := by
  have h1 : (⟨1, 1⟩ : ratio).num = 1 := by decide
  have h2 : (⟨1, 1⟩ : ratio).den = 1 := by decide
  rw [ratio_not_equal, h1, h2, Bool.eq_iff_iff]
  simp only [Bool.not_eq_true', Bool.and_eq_false_imp, beq_iff_eq, beq_eq_false_iff_ne,
    decide_eq_true_eq, ne_eq, ← ratio_eq_one_iff r h, not_and]

theorem ratio_not_equal_zero (r : ratio) (h : r.valid) :
    ratio_not_equal r ⟨0, 1⟩ = decide (r.toRat ≠ 0) := by
  have h1 : (⟨0, 1⟩ : ratio).num = 0 := by decide
  have h2 : (⟨0, 1⟩ : ratio).den = 1 := by decide
  have hd : r.toRat = 0 → r.den = 1 := by
    intro h0
    rw [ratio.den_eq r h, h0]
    rfl
  rw [ratio_not_equal, h1, h2, Bool.eq_iff_iff]
  simp only [Bool.not_eq_true', Bool.and_eq_false_imp, beq_iff_eq, beq_eq_false_iff_ne,
    decide_eq_true_eq, ne_eq, ← ratio.num_eq_zero_iff]
  constructor
  · intro hc h0
    exact hc h0 (hd ((ratio.num_eq_zero_iff r).1 h0))
  · intro hc h0 _
    exact hc h0

theorem exponent_string_eq (r : ratio) (h : r.valid) :
    exponent_string r = exponent_spec r.toRat := by
  have hn := ratio.num_eq r
  have hd := ratio.den_eq r h
  have h1 := ratio_eq_one_iff r h
  unfold exponent_string exponent_spec
  by_cases hden : r.den = 1
  · have hden2 : r.toRat.den = 1 := by omega
    by_cases hnum : r.num = 1
    · rw [if_neg (by simpa using hden), if_neg (by simpa using hnum), if_pos (h1.1 ⟨hnum, hden⟩)]
    · rw [if_neg (by simpa using hden), if_pos hnum, if_neg (fun hc => hnum (h1.2 hc).1),
        if_pos hden2, hn]
  · have hden2 : ¬ r.toRat.den = 1 := by omega
    rw [if_pos hden, if_neg (fun hc => hden (h1.2 hc).2), if_neg hden2, hn, hd]

/-- The scale clause `unit_string` writes is the clause of the specification. -/
theorem scale_clause_eq (ds : Int → Int → String) (f p s : ratio) (hf : f.valid)
    (hp : p.valid) (hs : s.valid) :
    (if ratio_not_equal f ⟨1, 1⟩ || ratio_not_equal p ⟨0, 1⟩ || ratio_not_equal s ⟨0, 1⟩ then
      " x ("
        ++ (if ratio_not_equal f ⟨1, 1⟩ then ds f.num f.den else "")
        ++ (if ratio_not_equal p ⟨0, 1⟩ then
              (if ratio_not_equal f ⟨1, 1⟩ then " x " else "") ++ "10" ++ exponent_string p
            else "")
        ++ (if ratio_not_equal s ⟨0, 1⟩ then
              (if ratio_not_equal f ⟨1, 1⟩ || ratio_not_equal p ⟨0, 1⟩ then " x " else "")
                ++ "pi" ++ exponent_string s
            else "")
        ++ ")"
     else "") = scale_clause_spec ds f.toRat p.toRat s.toRat := by
  rw [ratio_not_equal_one f hf, ratio_not_equal_zero p hp, ratio_not_equal_zero s hs,
    exponent_string_eq p hp, exponent_string_eq s hs, ratio.num_eq f, ratio.den_eq f hf]
  have e1 : ∀ t : String, " x pi" ++ t = " x " ++ ("pi" ++ t) := fun t => by
    rw [← String.append_assoc]
    rfl
  have e2 : ∀ t : String, " x 10" ++ t = " x " ++ ("10" ++ t) := fun t => by
    rw [← String.append_assoc]
    rfl
  unfold scale_clause_spec
  by_cases h1 : f.toRat = 1 <;> by_cases h2 : p.toRat = 0 <;> by_cases h3 : s.toRat = 0 <;>
    simp [h1, h2, h3, String.intercalate, String.intercalate.go, String.append_assoc, e1, e2]

theorem scale_clause_spec_empty (ds : Int → Int → String) (f p s : ℚ) :
    (scale_clause_spec ds f p s = "" ↔ f = 1 ∧ p = 0 ∧ s = 0) ∧
    (¬ (f = 1 ∧ p = 0 ∧ s = 0) → ∃ body, scale_clause_spec ds f p s = " x (" ++ body ++ ")") := by
  have hne : ∀ body : String, " x (" ++ body ++ ")" ≠ "" := by
    intro body hc
    have := congrArg String.length hc
    rw [String.length_append, String.length_append] at this
    have h4 : " x (".length = 4 := by decide
    have h0 : "".length = 0 := by decide
    omega
  unfold scale_clause_spec
  by_cases h1 : f = 1 <;> by_cases h2 : p = 0 <;> by_cases h3 : s = 0 <;>
    simp only [h1, h2, h3, hne, ne_eq, not_true_eq_false, not_false_eq_true, if_true, if_false,
      List.nil_append, List.append_nil, List.singleton_append, List.cons_append, reduceCtorEq,
      and_self, and_true, and_false, true_and, false_and, iff_false, iff_true, not_false_iff,
      forall_true_left, false_implies, true_implies] <;>
    exact ⟨_, rfl⟩

/-- C24: for every well-formed unit, `unit_string` is the scale clause of the specification
followed by the dimension names: the clause is empty exactly when the factor is 1 and
`pow_10` and `pow_pi` are 0, and otherwise `" x ("`, the present components in the order
factor (the decimal number), power of 10, power of pi, joined by `" x "`, and `")"`, a power
being written bare for the exponent 1, with `^e` for another integer `e` and with
`^(num/den)` for a non-integer exponent. -/
theorem unit_string_scale_clause (ds : Int → Int → String) (u : unit) (hu : u.valid) :
    unit_string ds u =
      (unit_impl.stream_unit_name_dimensions u.system u.dimensions).map (fun names =>
        scale_clause_spec ds u.factor.toRat u.pow_10.toRat u.pow_pi.toRat ++ names) ∧
    (scale_clause_spec ds u.factor.toRat u.pow_10.toRat u.pow_pi.toRat = "" ↔
      u.factor.toRat = 1 ∧ u.pow_10.toRat = 0 ∧ u.pow_pi.toRat = 0) ∧
    (¬ (u.factor.toRat = 1 ∧ u.pow_10.toRat = 0 ∧ u.pow_pi.toRat = 0) →
      ∃ body, scale_clause_spec ds u.factor.toRat u.pow_10.toRat u.pow_pi.toRat =
        " x (" ++ body ++ ")") := by
  refine ⟨?_, (scale_clause_spec_empty ds _ _ _).1, (scale_clause_spec_empty ds _ _ _).2⟩
  unfold unit_string
  simp only []
  rw [scale_clause_eq ds u.factor u.pow_10 u.pow_pi hu.2.2.2.2 hu.2.2.1 hu.2.2.2.1]

theorem streamer_eq (name : name_ref) (x : ratio) (h : x.valid) :
    unit_impl.single_name_dimension_streamer name x =
      if x.toRat ≠ 0 then " " ++ name.text ++ exponent_spec x.toRat else "" := by
  unfold unit_impl.single_name_dimension_streamer
  by_cases h0 : x.num = 0
  · rw [if_neg (by simpa using h0), if_neg (by simpa using (ratio.num_eq_zero_iff x).1 h0)]
  · rw [if_pos h0, if_pos (fun hc => h0 ((ratio.num_eq_zero_iff x).2 hc)),
      exponent_string_eq x h]

/-- What the streamers write, one after the other, is the dimension part of the
specification. -/
theorem join_streamers :
    ∀ (names : List name_ref) (d : unit_dimensions), (∀ x ∈ d, x.valid) →
      String.join (List.zipWith unit_impl.single_name_dimension_streamer names d) =
        dimension_names_spec (names.map name_ref.text) (d.map ratio.toRat)
  | [], _, _ => by simp [dimension_names_spec]
  | _ :: _, [], _ => by simp [dimension_names_spec]
  | n :: names, x :: d, h => by
    have hx : x.valid := h x (List.mem_cons_self _ _)
    have ih := join_streamers names d (fun y hy => h y (List.mem_cons_of_mem _ hy))
    unfold dimension_names_spec at ih ⊢
    rw [List.zipWith_cons_cons, string_join_cons, ih, streamer_eq n x hx]
    by_cases h0 : x.toRat = 0
    · simp [h0]
    · simp [h0, string_join_cons]

theorem zip_nodup_of_left {α β : Type} (l1 : List α) (l2 : List β)
    (hlen : l1.length = l2.length) (h : l1.Nodup) : (List.zip l1 l2).Nodup := by
  apply List.Nodup.of_map Prod.fst
  rw [List.map_fst_zip _ _ (by omega)]
  exact h

theorem dimension_names_spec_zero (names : List String) (n : Nat) :
    dimension_names_spec names (List.replicate n 0) = "" := by
  have hf : (List.zip names (List.replicate n (0 : ℚ))).filter (fun p => p.2 ≠ 0) = [] := by
    rw [List.filter_eq_nil_iff]
    intro p hp
    have := List.eq_of_mem_replicate (List.of_mem_zip hp).2
    simp [this]
  rw [dimension_names_spec, hf]
  rfl

/-- For every well-formed unit of a system whose names are distinct variables, the
dimension part of `unit_string` is well-formed and lists, in the declared order of the
system, the base dimensions with a nonzero exponent, each as its name after a blank,
bare for the exponent 1, with `^n` for another integer `n` and with `^(num/den)` for a
non-integer exponent; it follows the scale clause, and an unscaled dimensionless unit is
named by the empty string. -/
theorem unit_string_dimension_names (ds : Int → Int → String) (u : unit) (hu : u.valid)
    (hnd : (u.system.names.map name_ref.object).Nodup) :
    unit_impl.stream_unit_name_dimensions u.system u.dimensions =
      .ok (dimension_names_spec (u.system.names.map name_ref.text)
        (u.dimensions.map ratio.toRat)) ∧
    (∃ clause, unit_string ds u =
      .ok (clause ++ dimension_names_spec (u.system.names.map name_ref.text)
        (u.dimensions.map ratio.toRat))) ∧
    (u.is_dimensionless = true → u.pow_10 = ⟨0, 1⟩ → u.pow_pi = ⟨0, 1⟩ → u.factor = ⟨1, 1⟩ →
      unit_string ds u = .ok "") := by
  have hlen : u.system.names.length = u.dimensions.length := hu.1
  have hzip : (List.zip (u.system.names.map name_ref.object) u.dimensions).Nodup :=
    zip_nodup_of_left _ _ (by rw [List.length_map]; exact hlen) hnd
  have hs : unit_impl.stream_unit_name_dimensions u.system u.dimensions =
      .ok (dimension_names_spec (u.system.names.map name_ref.text)
        (u.dimensions.map ratio.toRat)) := by
    rw [unit_impl.stream_unit_name_dimensions, if_neg (by simpa using hlen),
      if_neg (by simpa using hzip), join_streamers _ _ hu.2.1]
  refine ⟨hs, ?_, fun hd h1 h2 h3 => ?_⟩
  · unfold unit_string
    simp only []
    rw [hs]
    exact ⟨_, rfl⟩
  · have hdl : u.dimensions = unit_impl.make_dimensionless u.system.size := by
      simpa [unit.is_dimensionless] using hd
    have hz : dimension_names_spec (u.system.names.map name_ref.text)
        (u.dimensions.map ratio.toRat) = "" := by
      have h0 : (⟨0, 1⟩ : ratio).toRat = 0 := by norm_num [ratio.toRat]
      rw [hdl, unit_impl.make_dimensionless, List.map_replicate, h0]
      exact dimension_names_spec_zero _ _
    have hf : ratio_not_equal ⟨1, 1⟩ ⟨1, 1⟩ = false := by decide
    have hp : ratio_not_equal ⟨0, 1⟩ ⟨0, 1⟩ = false := by decide
    unfold unit_string
    simp only []
    rw [hs, hz, h1, h2, h3, hf, hp]
    rfl

/-- The names checked in `test_quantity`: `" mm^2"`, `" mm^(2/3)"`, `" mm^-1"` and the empty
name of the unscaled dimensionless unit. -/
theorem unit_string_test (ds : Int → Int → String) :
    unit_string ds ⟨test_unit.sys1_type, [⟨2, 1⟩, ⟨0, 1⟩, ⟨0, 1⟩], ⟨0, 1⟩, ⟨0, 1⟩, ⟨1, 1⟩⟩ =
      .ok " mm^2" ∧
    unit_string ds ⟨test_unit.sys1_type, [⟨2, 3⟩, ⟨0, 1⟩, ⟨0, 1⟩], ⟨0, 1⟩, ⟨0, 1⟩, ⟨1, 1⟩⟩ =
      .ok " mm^(2/3)" ∧
    unit_string ds ⟨test_unit.sys1_type, [⟨-1, 1⟩, ⟨0, 1⟩, ⟨0, 1⟩], ⟨0, 1⟩, ⟨0, 1⟩, ⟨1, 1⟩⟩ =
      .ok " mm^-1" ∧
    unit_string ds ⟨test_unit.sys1_type, test_unit.sys1_type.dimensionless, ⟨0, 1⟩, ⟨0, 1⟩,
      ⟨1, 1⟩⟩ = .ok "" :=
  ⟨by rfl, by rfl, by rfl, by rfl⟩

/-- A system that names one variable twice: the streamers of two equal exponents are the
same class, which cannot be a direct base twice, and `unit_string` is ill-formed. -/
theorem unit_string_duplicate_name (ds : Int → Int → String) :
    (⟨⟨[test_unit.mm_name, test_unit.mm_name]⟩, [⟨0, 1⟩, ⟨0, 1⟩], ⟨0, 1⟩, ⟨0, 1⟩, ⟨1, 1⟩⟩ :
      unit).valid ∧
    unit_string ds ⟨⟨[test_unit.mm_name, test_unit.mm_name]⟩, [⟨0, 1⟩, ⟨0, 1⟩], ⟨0, 1⟩, ⟨0, 1⟩,
      ⟨1, 1⟩⟩ = .error .duplicate_base ∧
    unit_string ds ⟨⟨[test_unit.mm_name, test_unit.mm_name]⟩, [⟨1, 1⟩, ⟨2, 1⟩], ⟨0, 1⟩, ⟨0, 1⟩,
      ⟨1, 1⟩⟩ = .ok " mm mm^2" :=
  ⟨by decide, by rfl, by rfl⟩

/-- An instance: for the units of `test_quantity` named `" mm^2"`, `" mm^(2/3)"` and
`" mm^-1"` the dimension part of the specification is this name, and the unscaled
dimensionless unit is named by the empty string. -/
theorem unit_string_dimension_names_witness :
    (test_unit.sys1_type.names.map name_ref.object).Nodup ∧
    (⟨test_unit.sys1_type, [⟨2, 3⟩, ⟨0, 1⟩, ⟨0, 1⟩], ⟨0, 1⟩, ⟨0, 1⟩, ⟨1, 1⟩⟩ : unit).valid ∧
    dimension_names_spec (test_unit.sys1_type.names.map name_ref.text)
      (([⟨2, 1⟩, ⟨0, 1⟩, ⟨0, 1⟩] : unit_dimensions).map ratio.toRat) = " mm^2" ∧
    dimension_names_spec (test_unit.sys1_type.names.map name_ref.text)
      (([⟨2, 3⟩, ⟨0, 1⟩, ⟨0, 1⟩] : unit_dimensions).map ratio.toRat) = " mm^(2/3)" ∧
    dimension_names_spec (test_unit.sys1_type.names.map name_ref.text)
      (([⟨-1, 1⟩, ⟨0, 1⟩, ⟨0, 1⟩] : unit_dimensions).map ratio.toRat) = " mm^-1" ∧
    (∀ ds : Int → Int → String,
      unit_string ds ⟨test_unit.sys1_type, test_unit.sys1_type.dimensionless, ⟨0, 1⟩, ⟨0, 1⟩,
        ⟨1, 1⟩⟩ = .ok "") := by
  have hnd : (test_unit.sys1_type.names.map name_ref.object).Nodup := by decide
  have ds0 : Int → Int → String := fun _ _ => ""
  have h1 := (unit_string_dimension_names ds0
    ⟨test_unit.sys1_type, [⟨2, 1⟩, ⟨0, 1⟩, ⟨0, 1⟩], ⟨0, 1⟩, ⟨0, 1⟩, ⟨1, 1⟩⟩ (by decide) hnd).1
  have h2 := (unit_string_dimension_names ds0
    ⟨test_unit.sys1_type, [⟨2, 3⟩, ⟨0, 1⟩, ⟨0, 1⟩], ⟨0, 1⟩, ⟨0, 1⟩, ⟨1, 1⟩⟩ (by decide) hnd).1
  have h3 := (unit_string_dimension_names ds0
    ⟨test_unit.sys1_type, [⟨-1, 1⟩, ⟨0, 1⟩, ⟨0, 1⟩], ⟨0, 1⟩, ⟨0, 1⟩, ⟨1, 1⟩⟩ (by decide) hnd).1
  have c1 : unit_impl.stream_unit_name_dimensions test_unit.sys1_type
      [⟨2, 1⟩, ⟨0, 1⟩, ⟨0, 1⟩] = .ok " mm^2" := by decide
  have c2 : unit_impl.stream_unit_name_dimensions test_unit.sys1_type
      [⟨2, 3⟩, ⟨0, 1⟩, ⟨0, 1⟩] = .ok " mm^(2/3)" := by decide
  have c3 : unit_impl.stream_unit_name_dimensions test_unit.sys1_type
      [⟨-1, 1⟩, ⟨0, 1⟩, ⟨0, 1⟩] = .ok " mm^-1" := by decide
  refine ⟨hnd, by decide, ?_, ?_, ?_, fun ds => ?_⟩
  · exact (Except.ok.inj (h1.symm.trans c1))
  · exact (Except.ok.inj (h2.symm.trans c2))
  · exact (Except.ok.inj (h3.symm.trans c3))
  · exact (unit_string_dimension_names ds
      ⟨test_unit.sys1_type, test_unit.sys1_type.dimensionless, ⟨0, 1⟩, ⟨0, 1⟩, ⟨1, 1⟩⟩
      (by decide) hnd).2.2 (by decide) rfl rfl rfl

/-- The witness of C24 in `test_quantity`: the units named `" x (0.5 x 10 x pi) mm^2"`,
`" x (10^(4/3) x pi^(2/3))"` and `" x (6 x 10^-2 x pi^-1)"` (with the texts `0.5` and `6` for
the numbers 1/2 and 6); the clause of the specification followed by the dimension names
is this name. -/
theorem unit_string_scale_clause_witness :
    (⟨test_unit.sys1_type, [⟨2, 1⟩, ⟨0, 1⟩, ⟨0, 1⟩], ⟨1, 1⟩, ⟨1, 1⟩, ⟨1, 2⟩⟩ : unit).valid ∧
    unit_multiply test_unit.u2_type test_unit.u1_type =
      .ok ⟨test_unit.sys1_type, [⟨2, 1⟩, ⟨0, 1⟩, ⟨0, 1⟩], ⟨1, 1⟩, ⟨1, 1⟩, ⟨1, 2⟩⟩ ∧
    (∀ ds : Int → Int → String, ds 1 2 = "0.5" →
      unit_string ds ⟨test_unit.sys1_type, [⟨2, 1⟩, ⟨0, 1⟩, ⟨0, 1⟩], ⟨1, 1⟩, ⟨1, 1⟩, ⟨1, 2⟩⟩ =
        .ok " x (0.5 x 10 x pi) mm^2" ∧
      scale_clause_spec ds (⟨1, 2⟩ : ratio).toRat (⟨1, 1⟩ : ratio).toRat (⟨1, 1⟩ : ratio).toRat
        ++ " mm^2" = " x (0.5 x 10 x pi) mm^2") ∧
    (∀ ds : Int → Int → String,
      unit_string ds ⟨test_unit.sys1_type, test_unit.sys1_type.dimensionless, ⟨4, 3⟩, ⟨2, 3⟩,
        ⟨1, 1⟩⟩ = .ok " x (10^(4/3) x pi^(2/3))" ∧
      scale_clause_spec ds (⟨1, 1⟩ : ratio).toRat (⟨4, 3⟩ : ratio).toRat (⟨2, 3⟩ : ratio).toRat
        ++ "" = " x (10^(4/3) x pi^(2/3))") ∧
    (∀ ds : Int → Int → String, ds 6 1 = "6" →
      unit_string ds ⟨test_unit.sys1_type, test_unit.sys1_type.dimensionless, ⟨-2, 1⟩, ⟨-1, 1⟩,
        ⟨6, 1⟩⟩ = .ok " x (6 x 10^-2 x pi^-1)" ∧
      scale_clause_spec ds (⟨6, 1⟩ : ratio).toRat (⟨-2, 1⟩ : ratio).toRat (⟨-1, 1⟩ : ratio).toRat
        ++ "" = " x (6 x 10^-2 x pi^-1)") := by
  have hv1 : (⟨test_unit.sys1_type, [⟨2, 1⟩, ⟨0, 1⟩, ⟨0, 1⟩], ⟨1, 1⟩, ⟨1, 1⟩, ⟨1, 2⟩⟩ :
      unit).valid := by decide
  have s1 : unit_impl.stream_unit_name_dimensions test_unit.sys1_type
      [⟨2, 1⟩, ⟨0, 1⟩, ⟨0, 1⟩] = .ok " mm^2" := by decide
  have s0 : unit_impl.stream_unit_name_dimensions test_unit.sys1_type
      test_unit.sys1_type.dimensionless = .ok "" := by decide
  refine ⟨hv1, by decide, fun ds h => ?_, fun ds => ?_, fun ds h => ?_⟩
  · have hc : unit_string ds ⟨test_unit.sys1_type, [⟨2, 1⟩, ⟨0, 1⟩, ⟨0, 1⟩], ⟨1, 1⟩, ⟨1, 1⟩,
        ⟨1, 2⟩⟩ = .ok " x (0.5 x 10 x pi) mm^2" := by
      refine (unit_string_of_factor ds _ 1 2 "0.5" ?_ ?_ h).trans ?_ <;> decide
    have ht := (unit_string_scale_clause ds _ hv1).1
    rw [hc] at ht
    exact ⟨hc, (Except.ok.inj (ht.trans (by rw [s1]; rfl))).symm⟩
  · have hc : unit_string ds ⟨test_unit.sys1_type, test_unit.sys1_type.dimensionless, ⟨4, 3⟩,
        ⟨2, 3⟩, ⟨1, 1⟩⟩ = .ok " x (10^(4/3) x pi^(2/3))" := by rfl
    have ht := (unit_string_scale_clause ds
      ⟨test_unit.sys1_type, test_unit.sys1_type.dimensionless, ⟨4, 3⟩, ⟨2, 3⟩, ⟨1, 1⟩⟩
      (by decide)).1
    rw [hc] at ht
    exact ⟨hc, (Except.ok.inj (ht.trans (by rw [s0]; rfl))).symm⟩
  · have hc : unit_string ds ⟨test_unit.sys1_type, test_unit.sys1_type.dimensionless, ⟨-2, 1⟩,
        ⟨-1, 1⟩, ⟨6, 1⟩⟩ = .ok " x (6 x 10^-2 x pi^-1)" := by
      refine (unit_string_of_factor ds _ 6 1 "6" ?_ ?_ h).trans ?_ <;> decide
    have ht := (unit_string_scale_clause ds
      ⟨test_unit.sys1_type, test_unit.sys1_type.dimensionless, ⟨-2, 1⟩, ⟨-1, 1⟩, ⟨6, 1⟩⟩
      (by decide)).1
    rw [hc] at ht
    exact ⟨hc, (Except.ok.inj (ht.trans (by rw [s0]; rfl))).symm⟩

/-! ## Definition of a unit -/

theorem is_unit_system_iff (t : type_arg) :
    unit_impl.is_unit_system t = true ↔ ∃ s, t = .system s := by
  cases t <;> simp [unit_impl.is_unit_system]

theorem is_unit_dimensions_iff (t : type_arg) :
    unit_impl.is_unit_dimensions t = true ↔ ∃ d, t = .dimensions d := by
  cases t <;> simp [unit_impl.is_unit_dimensions]

theorem are_valid_ratios_iff (a b c : type_arg) :
    unit_impl.are_valid_ratios [a, b, c] = true ↔
      ∃ p q f, a = .ratio p ∧ b = .ratio q ∧ c = .ratio f := by
  cases a <;> cases b <;> cases c <;> simp [unit_impl.are_valid_ratios]

theorem unit_define_ok (s : unit_system) (d : unit_dimensions) (p q f : ratio)
    (hs : s.size = d.length) :
    unit.define (.system s) (.dimensions d) (.ratio p) (.ratio q) (.ratio f) =
      unit.instantiate ⟨s, d, p, q, f⟩ := by
  simp [unit.define, unit_impl.is_unit_system, unit_impl.is_unit_dimensions,
    unit_impl.are_valid_ratios, type_arg.size, hs]

/-- C30: the class template `unit` applied to five types is accepted only if `System` is a
`unit_system`, `Dimensions` a `unit_dimensions`, `Pow10`, `PowPi` and `Factor` are
`std::ratio`s, and the dimension vector has exactly as many entries as the system has base
dimensions; with a dimension vector of another length it is rejected by the
`static_assert` and yields no unit; with equal lengths and well-formed ratios it is
accepted. -/
theorem unit_define_spec (System Dimensions Pow10 PowPi Factor : type_arg) :
    (∀ u, unit.define System Dimensions Pow10 PowPi Factor = .ok u →
      ∃ s d p q f, System = .system s ∧ Dimensions = .dimensions d ∧ Pow10 = .ratio p ∧
        PowPi = .ratio q ∧ Factor = .ratio f ∧ s.size = d.length ∧
        u = ⟨s, d, p, q, f⟩ ∧ u.valid) ∧
    (∀ s d, System = .system s → Dimensions = .dimensions d → s.size ≠ d.length →
      unit.define System Dimensions Pow10 PowPi Factor = .error .static_assertion ∧
      ¬ ∃ u, unit.define System Dimensions Pow10 PowPi Factor = .ok u) ∧
    (∀ s d p q f, System = .system s → Dimensions = .dimensions d → Pow10 = .ratio p →
      PowPi = .ratio q → Factor = .ratio f → (⟨s, d, p, q, f⟩ : unit).valid →
      unit.define System Dimensions Pow10 PowPi Factor = .ok ⟨s, d, p, q, f⟩) := by
  have hbad : ∀ s d, System = .system s → Dimensions = .dimensions d → s.size ≠ d.length →
      unit.define System Dimensions Pow10 PowPi Factor = .error .static_assertion := by
    intro s d h1 h2 hne
    subst h1
    subst h2
    simp [unit.define, unit_impl.is_unit_system, unit_impl.is_unit_dimensions, type_arg.size,
      hne]
  refine ⟨fun u h => ?_, fun s d h1 h2 hne => ⟨hbad s d h1 h2 hne, ?_⟩, ?_⟩
  · unfold unit.define at h
    split_ifs at h with h1 h2 h3 h4
    obtain ⟨s, rfl⟩ := (is_unit_system_iff System).1 (by simpa using h1)
    obtain ⟨d, rfl⟩ := (is_unit_dimensions_iff Dimensions).1 (by simpa using h2)
    obtain ⟨p, q, f, rfl, rfl, rfl⟩ := (are_valid_ratios_iff Pow10 PowPi Factor).1
      (by simpa using h4)
    have hsz : s.size = d.length := by simpa [type_arg.size] using h3
    have hi : unit.instantiate ⟨s, d, p, q, f⟩ = .ok u := h
    unfold unit.instantiate at hi
    split_ifs at hi with hv
    injection hi with hi
    subst hi
    exact ⟨s, d, p, q, f, rfl, rfl, rfl, rfl, rfl, hsz, rfl, hv⟩
  · rintro ⟨u, hu⟩
    rw [hbad s d h1 h2 hne] at hu
    exact absurd hu (by simp)
  · intro s d p q f h1 h2 h3 h4 h5 hv
    subst h1 h2 h3 h4 h5
    rw [unit_define_ok s d p q f hv.1, unit.instantiate, if_pos hv]

/-- The units of `test_unit.cc` are accepted; the system `sys1_type` of three base
dimensions with the two-entry vector `dim3_type` is rejected, and so is a factor that is
no `std::ratio`. -/
theorem unit_define_test :
    unit.define (.system test_unit.sys1_type) (.dimensions test_unit.dim1_type) =
      .ok test_unit.u2_type ∧
    unit.define (.system test_unit.sys3_type) (.dimensions test_unit.dim3_type)
      (.ratio ⟨3, 1⟩) (.ratio ⟨1, 1⟩) = .ok test_unit.u4_type ∧
    unit.define (.system test_unit.sys1_type) (.dimensions test_unit.dim3_type) =
      .error .static_assertion ∧
    unit.define (.system test_unit.sys1_type) (.dimensions test_unit.dim1_type)
      (.ratio ⟨0, 1⟩) (.ratio ⟨0, 1⟩) (.other "double") = .error .static_assertion := by
  decide

/-! ## Reading a quantity from a stream -/

/-- The code at the input of C25: `q` holds 5 and the stream holds 7; after `is >> q` the
raw value of `q` is still 5.  The number read is stored in the local `value` only, and the
object is assigned a copy of itself, whatever number is read and whatever `q` holds. -/
theorem istream_extract_keeps_value :
    (istream_extract (7 : ℚ) ⟨test_unit.u2_type, 5⟩).raw_value = 5 ∧
    (istream_extract (7 : ℚ) ⟨test_unit.u2_type, 5⟩).raw_value ≠ 7 ∧
    (∀ (x : ℚ) (q : quantity ℚ), istream_extract x q = q) := by
  refine ⟨rfl, ?_, fun x q => rfl⟩
  show (5 : ℚ) ≠ 7
  norm_num

/-! ## The comparison operators of `comparison_mixin` -/

/-- C26: for operators `==` and `<` of a type that satisfy trichotomy (for all `a`, `b`
exactly one of `a < b`, `a == b`, `b < a`), the operators of `comparison_mixin` are:
`a != b` iff not `a == b`; `a <= b` iff `a == b` or `a < b`, iff not `b < a`; `a > b` iff
`b < a`; `a >= b` iff not `a < b`, iff `b <= a`. -/
theorem comparison_mixin_total_order {T : Type} (eq lt : T → T → Bool)
    (htri : ∀ a b : T,
      (lt a b = true ∧ eq a b = false ∧ lt b a = false) ∨
      (lt a b = false ∧ eq a b = true ∧ lt b a = false) ∨
      (lt a b = false ∧ eq a b = false ∧ lt b a = true)) (a b : T) :
    (comparison_mixin.ne eq a b = true ↔ ¬ eq a b = true) ∧
    (comparison_mixin.le eq lt a b = true ↔ (eq a b = true ∨ lt a b = true)) ∧
    (comparison_mixin.le eq lt a b = true ↔ ¬ lt b a = true) ∧
    (comparison_mixin.gt eq lt a b = true ↔ lt b a = true) ∧
    (comparison_mixin.ge lt a b = true ↔ ¬ lt a b = true) ∧
    (comparison_mixin.ge lt a b = true ↔ comparison_mixin.le eq lt b a = true) := by
  unfold comparison_mixin.ne comparison_mixin.gt comparison_mixin.ge comparison_mixin.le
  rcases htri a b with ⟨h1, h2, h3⟩ | ⟨h1, h2, h3⟩ | ⟨h1, h2, h3⟩ <;>
    rcases htri b a with ⟨k1, k2, k3⟩ | ⟨k1, k2, k3⟩ | ⟨k1, k2, k3⟩ <;>
    simp_all

/-- The witness of C26: `==` and `<` of `quantity<Unit>` compare the raw values and
satisfy trichotomy over an ordered field; for the raw values 5 and 3, `a > b`, `a >= b`
and `a != b` hold and `a <= b` does not. -/
theorem comparison_mixin_total_order_witness :
    (∀ a b : quantity ℚ,
      (quantity.lt a b = true ∧ quantity.eq a b = false ∧ quantity.lt b a = false) ∨
      (quantity.lt a b = false ∧ quantity.eq a b = true ∧ quantity.lt b a = false) ∨
      (quantity.lt a b = false ∧ quantity.eq a b = false ∧ quantity.lt b a = true)) ∧
    comparison_mixin.gt quantity.eq quantity.lt
      (⟨test_unit.u2_type, 5⟩ : quantity ℚ) ⟨test_unit.u2_type, 3⟩ = true ∧
    comparison_mixin.ge quantity.lt
      (⟨test_unit.u2_type, 5⟩ : quantity ℚ) ⟨test_unit.u2_type, 3⟩ = true ∧
    comparison_mixin.ne quantity.eq
      (⟨test_unit.u2_type, 5⟩ : quantity ℚ) ⟨test_unit.u2_type, 3⟩ = true ∧
    comparison_mixin.le quantity.eq quantity.lt
      (⟨test_unit.u2_type, 5⟩ : quantity ℚ) ⟨test_unit.u2_type, 3⟩ = false := by
  have htri : ∀ a b : quantity ℚ,
      (quantity.lt a b = true ∧ quantity.eq a b = false ∧ quantity.lt b a = false) ∨
      (quantity.lt a b = false ∧ quantity.eq a b = true ∧ quantity.lt b a = false) ∨
      (quantity.lt a b = false ∧ quantity.eq a b = false ∧ quantity.lt b a = true) := by
    intro a b
    unfold quantity.lt quantity.eq
    rcases lt_trichotomy a.value_ b.value_ with h | h | h
    · left
      simp [h, h.ne, h.le]
    · right; left
      simp [h]
    · right; right
      simp [h, h.ne', h.le]
  have hlt : quantity.lt (⟨test_unit.u2_type, 3⟩ : quantity ℚ) ⟨test_unit.u2_type, 5⟩ = true := by
    unfold quantity.lt
    rw [decide_eq_true_eq]
    show (3 : ℚ) < 5
    norm_num
  obtain ⟨hne, _, hle, hgt, hge, _⟩ := comparison_mixin_total_order quantity.eq quantity.lt htri
    (⟨test_unit.u2_type, 5⟩ : quantity ℚ) ⟨test_unit.u2_type, 3⟩
  have hnlt : ¬ quantity.lt (⟨test_unit.u2_type, 5⟩ : quantity ℚ) ⟨test_unit.u2_type, 3⟩ = true := by
    rcases htri ⟨test_unit.u2_type, 5⟩ ⟨test_unit.u2_type, 3⟩ with ⟨_, _, h⟩ | ⟨_, _, h⟩ | ⟨h, _, _⟩
    · rw [hlt] at h; exact absurd h (by simp)
    · rw [hlt] at h; exact absurd h (by simp)
    · rw [h]; simp
  have hneq : ¬ quantity.eq (⟨test_unit.u2_type, 5⟩ : quantity ℚ) ⟨test_unit.u2_type, 3⟩ = true := by
    rcases htri ⟨test_unit.u2_type, 5⟩ ⟨test_unit.u2_type, 3⟩ with ⟨_, _, h⟩ | ⟨_, _, h⟩ | ⟨_, h, _⟩
    · rw [hlt] at h; exact absurd h (by simp)
    · rw [hlt] at h; exact absurd h (by simp)
    · rw [h]; simp
  refine ⟨htri, hgt.2 hlt, hge.2 hnlt, hne.2 hneq, ?_⟩
  rw [Bool.eq_false_iff]
  exact fun h => (hle.1 h) hlt

/-! ## The search of `iroot`: result, termination, size of the integers -/

/-- C33: for every degree `D >= 2` and every integer `n >= 1`, `iroot<D>(n)` is a constant
`r` with `1 <= r <= n` and `r^D >= n`, the least such integer: `k^D < n` for every
`1 <= k < r`, so that `r = 1` or `(r - 1)^D < n` (integers without overflow). -/
theorem iroot_least_root (D : Nat) (hD : 2 ≤ D) (n : Int) (hn : 1 ≤ n) :
    ∃ r, iroot D n = .ok r ∧ 1 ≤ r ∧ r ≤ n ∧ n ≤ r ^ D ∧
      (∀ k : Int, 1 ≤ k → k < r → k ^ D < n) ∧ (r = 1 ∨ (r - 1) ^ D < n) := by
  obtain ⟨r, hr, h1, h2, h3, h4⟩ := iroot_spec D (by omega) n hn
  refine ⟨r, hr, h1, h2, h3, h4, ?_⟩
  by_cases h : r = 1
  · exact Or.inl h
  · exact Or.inr (h4 (r - 1) (by omega) (by omega))

/-- The witness of C33: `iroot<2>(17)` is 5, with `5^2 >= 17` and `4^2 < 17`. -/
theorem iroot_least_root_witness :
    2 ≤ 2 ∧ (1 : Int) ≤ 17 ∧ iroot 2 17 = .ok 5 ∧ (17 : Int) ≤ 5 ^ 2 ∧ ((5 : Int) - 1) ^ 2 < 17 := by
  obtain ⟨r, hr, _, _, h3, _, h5⟩ := iroot_least_root 2 (by decide) 17 (by decide)
  have h : iroot 2 17 = .ok 5 := by decide
  rw [h] at hr
  injection hr with hr
  subst hr
  exact ⟨by decide, by decide, h, h3, by decide⟩

/-- In unbounded integers: for every degree `D` (so for every `D >= 1`) and every integer `n >= 1`, a call
`iroot_impl::iroot<D>(n, left, right)` with `1 <= left < right <= n` makes its recursive
call on arguments that again satisfy `1 <= left <= right <= n` and whose difference
`right - left` is strictly smaller; the search started on `(1, n)` ends with a value of
`[1, n]` within `n` calls, and with any larger number of calls gives the same value. -/
theorem iroot_search_terminates (D : Nat) (n : Int) (hn : 1 ≤ n) :
    (∀ left right : Int, 1 ≤ left → left ≤ right → right ≤ n → left ≠ right →
      1 ≤ (if ipow D (iroot_impl.mid left right) ≥ n then left
            else iroot_impl.mid left right + 1) ∧
      (if ipow D (iroot_impl.mid left right) ≥ n then left else iroot_impl.mid left right + 1) ≤
        (if ipow D (iroot_impl.mid left right) ≥ n then iroot_impl.mid left right else right) ∧
      (if ipow D (iroot_impl.mid left right) ≥ n then iroot_impl.mid left right else right) ≤ n ∧
      (if ipow D (iroot_impl.mid left right) ≥ n then iroot_impl.mid left right else right) -
        (if ipow D (iroot_impl.mid left right) ≥ n then left
          else iroot_impl.mid left right + 1) < right - left) ∧
    (∃ r, 1 ≤ r ∧ r ≤ n ∧
      ∀ fuel : Nat, n.toNat ≤ fuel → iroot_impl.iroot D n fuel 1 n = some r) := by
  constructor
  · intro left right hl hlr hrn hne
    have hm : iroot_impl.mid left right = (left + right) / 2 :=
      iroot_impl.mid_eq _ _ (by omega)
    rw [hm]
    by_cases hc : ipow D ((left + right) / 2) ≥ n
    · simp only [if_pos hc]
      omega
    · simp only [if_neg hc]
      omega
  · obtain ⟨r, hr, h1, h2⟩ := iroot_impl.iroot_terminates D n n.toNat 1 n (le_refl _) hn
      (by omega)
    refine ⟨r, h1, h2, fun fuel hf => ?_⟩
    have := iroot_impl.iroot_fuel_mono D n n.toNat 1 n r hr (fuel - n.toNat)
    rwa [show n.toNat + (fuel - n.toNat) = fuel by omega] at this

/-- An instance, in unbounded integers: the search of `iroot<2>(17)` started on `(1, 17)`. -/
theorem iroot_search_terminates_witness :
    (1 : Int) ≤ 17 ∧
    (∃ r, (1 : Int) ≤ r ∧ r ≤ 17 ∧
      ∀ fuel : Nat, (17 : Int).toNat ≤ fuel → iroot_impl.iroot 2 17 fuel 1 17 = some r) ∧
    iroot_impl.iroot 2 17 17 1 17 = some 5 :=
  ⟨by decide, (iroot_search_terminates 2 17 (by decide)).2, by decide⟩

theorem iroot_impl.evaluated_head (N : Nat) (n : Int) (fuel : Nat) (left right : Int)
    (h : left ≠ right) :
    left + right ∈ iroot_impl.evaluated N n (fuel + 1) left right ∧
    ipow N (iroot_impl.mid left right) ∈ iroot_impl.evaluated N n (fuel + 1) left right := by
  rw [iroot_impl.evaluated, if_neg h]
  simp

/-- In a search on `1 <= left <= right <= R` every integer computed is at least 1 and at
most `2 * R` or `R^N`. -/
theorem iroot_impl.evaluated_bound (N : Nat) (n R : Int) :
    ∀ (fuel : Nat) (left right : Int), 1 ≤ left → left ≤ right → right ≤ R →
      ∀ x ∈ iroot_impl.evaluated N n fuel left right, 1 ≤ x ∧ (x ≤ 2 * R ∨ x ≤ R ^ N)
  | 0, _, _, _, _, _ => by simp [iroot_impl.evaluated]
  | fuel + 1, left, right, hl, hlr, hR => by
    intro x hx
    rw [iroot_impl.evaluated] at hx
    by_cases heq : left = right
    · rw [if_pos heq] at hx
      simp at hx
    · rw [if_neg heq] at hx
      have hm : iroot_impl.mid left right = (left + right) / 2 :=
        iroot_impl.mid_eq _ _ (by omega)
      rw [hm] at hx
      have hm1 : 1 ≤ (left + right) / 2 := by omega
      have hpow1 : 1 ≤ ((left + right) / 2) ^ N := one_le_pow₀ hm1
      have hpowR : ((left + right) / 2) ^ N ≤ R ^ N :=
        pow_le_pow_left₀ (by omega) (by omega) N
      rw [List.append_assoc, List.mem_append] at hx
      rcases hx with hx | hx
      · simp only [List.mem_cons, List.mem_singleton, List.not_mem_nil, or_false] at hx
        rcases hx with rfl | rfl
        · exact ⟨by omega, Or.inl (by omega)⟩
        · rw [ipow_eq_pow]
          exact ⟨hpow1, Or.inr hpowR⟩
      · rw [List.mem_append] at hx
        rcases hx with hx | hx
        · by_cases hc : ipow N ((left + right) / 2) ≥ n
          · rw [if_pos hc] at hx
            simp at hx
          · rw [if_neg hc] at hx
            simp only [List.mem_singleton] at hx
            subst hx
            exact ⟨by omega, Or.inl (by omega)⟩
        · by_cases hc : ipow N ((left + right) / 2) ≥ n
          · rw [if_pos hc, if_pos hc] at hx
            exact iroot_impl.evaluated_bound N n R fuel left ((left + right) / 2) hl (by omega)
              (by omega) x hx
          · rw [if_neg hc, if_neg hc] at hx
            exact iroot_impl.evaluated_bound N n R fuel ((left + right) / 2 + 1) right
              (by omega) (by omega) hR x hx

/-- C35 (amended): for the degree 2 and every integer `n >= 1`: when `n <= 6074000998`,
`iroot<2>(n)` is a constant and every integer its search computes (each sum
`left + right`, each power `ipow<2>(mid)`, each `mid + 1`) lies in the range of
`std::intmax_t`; when `n >= 6074000999` the first power, `ipow<2>(mid(1, n))`, is computed
and exceeds that range. -/
theorem iroot_sqrt_range (n : Int) (hn : 1 ≤ n) :
    (n ≤ 6074000998 →
      (∃ r, iroot 2 n = .ok r) ∧
      ∀ x ∈ iroot_impl.evaluated 2 n (n.toNat + 1) 1 n, intmax_fits x) ∧
    (6074000999 ≤ n →
      ipow 2 (iroot_impl.mid 1 n) ∈ iroot_impl.evaluated 2 n (n.toNat + 1) 1 n ∧
      ¬ intmax_fits (ipow 2 (iroot_impl.mid 1 n))) := by
  have hm : iroot_impl.mid 1 n = (1 + n) / 2 := iroot_impl.mid_eq _ _ (by omega)
  constructor
  · intro hle
    obtain ⟨r, hr, _⟩ := iroot_spec 2 (by decide) n hn
    refine ⟨⟨r, hr⟩, fun x hx => ?_⟩
    by_cases h1 : n = 1 ∨ n = 2
    · rcases h1 with rfl | rfl
      · simp [iroot_impl.evaluated] at hx
      · have hall : ∀ y ∈ iroot_impl.evaluated 2 2 ((2 : Int).toNat + 1) 1 2, intmax_fits y := by
          decide
        exact hall x hx
    · rw [iroot_impl.evaluated, if_neg (by omega), hm, List.append_assoc,
        List.mem_append] at hx
      have hmid1 : 1 ≤ (1 + n) / 2 := by omega
      have hmidle : (1 + n) / 2 ≤ 3037000499 := by omega
      have hsq : ((1 + n) / 2) ^ 2 ≤ 3037000499 ^ 2 :=
        pow_le_pow_left₀ (by omega) hmidle 2
      have hsq1 : 1 ≤ ((1 + n) / 2) ^ 2 := one_le_pow₀ hmid1
      have hnum : (3037000499 : Int) ^ 2 ≤ 2 ^ 63 - 1 := by decide
      rcases hx with hx | hx
      · simp only [List.mem_cons, List.mem_singleton, List.not_mem_nil, or_false] at hx
        rcases hx with rfl | rfl
        · unfold intmax_fits
          constructor <;> omega
        · rw [ipow_eq_pow]
          unfold intmax_fits
          constructor <;> omega
      · have hge : ipow 2 ((1 + n) / 2) ≥ n := by
          rw [ipow_eq_pow]
          have h2 : n ≤ 2 * ((1 + n) / 2) := by omega
          have h3 : 2 ≤ (1 + n) / 2 := by omega
          nlinarith
        rw [if_pos hge, if_pos hge, if_pos hge, List.nil_append] at hx
        obtain ⟨hx1, hx2⟩ := iroot_impl.evaluated_bound 2 n ((1 + n) / 2) n.toNat 1
          ((1 + n) / 2) (le_refl _) hmid1 (le_refl _) x hx
        unfold intmax_fits
        constructor
        · omega
        · rcases hx2 with h | h <;> omega
  · intro hge
    refine ⟨(iroot_impl.evaluated_head 2 n n.toNat 1 n (by omega)).2, ?_⟩
    rw [hm, ipow_eq_pow]
    have hmid : 3037000500 ≤ (1 + n) / 2 := by omega
    have hsq : (3037000500 : Int) ^ 2 ≤ ((1 + n) / 2) ^ 2 :=
      pow_le_pow_left₀ (by omega) hmid 2
    have hnum : (2 : Int) ^ 63 - 1 < 3037000500 ^ 2 := by decide
    unfold intmax_fits
    omega

/-- The witness of C35 (amended): the search of `iroot<2>(17)` computes the integers
18, 81, 10, 25, 6, 9, 4, 9, 16, 5. -/
theorem iroot_sqrt_range_witness :
    (1 : Int) ≤ 17 ∧ (17 : Int) ≤ 6074000998 ∧
    iroot_impl.evaluated 2 17 ((17 : Int).toNat + 1) 1 17 = [18, 81, 10, 25, 6, 9, 4, 9, 16, 5] ∧
    (∃ r, iroot 2 17 = .ok r) ∧
    ∀ x ∈ iroot_impl.evaluated 2 17 ((17 : Int).toNat + 1) 1 17, intmax_fits x :=
  ⟨by decide, by decide, by decide,
    ((iroot_sqrt_range 17 (by decide)).1 (by decide)).1,
    ((iroot_sqrt_range 17 (by decide)).1 (by decide)).2⟩

/-- C35 as stated fails at the largest `std::intmax_t`: for `n = 2^63 - 1` the first sum
`left + right = 1 + n` computed by `mid(1, n)` is `2^63`, and the first power
`ipow<2>(mid(1, n))` is `2^124`, both outside the range of `std::intmax_t`; the power is
already outside it for `n = 6074000999`. -/
theorem iroot_sqrt_overflow :
    intmax_fits 9223372036854775807 ∧
    (1 : Int) + 9223372036854775807 ∈
      iroot_impl.evaluated 2 9223372036854775807 ((9223372036854775807 : Int).toNat + 1) 1
        9223372036854775807 ∧
    ¬ intmax_fits (1 + 9223372036854775807) ∧
    ipow 2 (iroot_impl.mid 1 9223372036854775807) ∈
      iroot_impl.evaluated 2 9223372036854775807 ((9223372036854775807 : Int).toNat + 1) 1
        9223372036854775807 ∧
    ¬ intmax_fits (ipow 2 (iroot_impl.mid 1 9223372036854775807)) ∧
    ipow 2 (iroot_impl.mid 1 6074000999) ∈
      iroot_impl.evaluated 2 6074000999 ((6074000999 : Int).toNat + 1) 1 6074000999 ∧
    ¬ intmax_fits (ipow 2 (iroot_impl.mid 1 6074000999)) := by
  have h1 := iroot_impl.evaluated_head 2 9223372036854775807
    (9223372036854775807 : Int).toNat 1 9223372036854775807 (by decide)
  have h2 := iroot_impl.evaluated_head 2 6074000999 (6074000999 : Int).toNat 1 6074000999
    (by decide)
  exact ⟨by decide, h1.1, by decide, h1.2, by decide, h2.2, by decide⟩

/-! ## `stringify` -/

theorem string_append_ne_empty (a b : String) (h : a ≠ "") : a ++ b ≠ "" := by
  intro hab
  apply h
  have hl : (a ++ b).length = 0 := by rw [hab]; rfl
  rw [String.length_append] at hl
  have : a.length = 0 := by omega
  exact String.ext (List.length_eq_zero.mp this)

/-- Once the accumulated string is not empty, every further element is preceded by the
delimiter. -/
theorem stringify_foldl_nonempty {Element : Type} (delimiter : String)
    (acc : Element → String) :
    ∀ (r : List Element) (str : String), str ≠ "" →
      r.foldl (fun str el => (if str ≠ "" then str ++ delimiter else str) ++ acc el) str =
        String.intercalate.go str delimiter (r.map acc)
  | [], _, _ => rfl
  | el :: r, str, h => by
    rw [List.foldl_cons, if_pos h, List.map_cons, String.intercalate.go]
    exact stringify_foldl_nonempty delimiter acc r _
      (string_append_ne_empty _ _ (string_append_ne_empty _ _ h))

/-- The string of a range: the leading elements with an empty string form leave no trace,
the other string forms are joined by the delimiter. -/
theorem stringify_eq {Element : Type} (delimiter : String) (acc : Element → String) :
    ∀ r : List Element,
      stringify r delimiter acc =
        String.intercalate delimiter ((r.map acc).dropWhile (fun t => t = ""))
  | [] => rfl
  | el :: r => by
    by_cases h : acc el = ""
    · have h1 : stringify (el :: r) delimiter acc = stringify r delimiter acc := by
        simp [stringify, h]
      rw [h1, stringify_eq delimiter acc r, List.map_cons, List.dropWhile_cons, h]
      simp
    · have h1 : stringify (el :: r) delimiter acc =
          r.foldl (fun str el => (if str ≠ "" then str ++ delimiter else str) ++ acc el)
            (acc el) := by
        simp [stringify]
      rw [h1, stringify_foldl_nonempty delimiter acc r _ h, List.map_cons,
        List.dropWhile_cons]
      simp [h, String.intercalate]

/-- C31 (the code differs): `stringify` of the two strings `""` and `"a"` with the
delimiter `", "` is `"a"`, without any delimiter, where the string forms separated by the
delimiter are `", a"`; `stringify` of `"a"`, `""`, `"b"` is `"a, , b"` and `stringify` of an
empty range is `""`. For every range, the result is the string forms joined by the
delimiter after the leading empty string forms were dropped: a first element with an
empty string form is skipped together with its delimiter, and a range whose first element
has a nonempty string form gives the string forms separated by the delimiter. -/
theorem stringify_leading_empty :
    stringify ["", "a"] ", " id = "a" ∧
    String.intercalate ", " (["", "a"].map id) = ", a" ∧
    stringify ["", "a"] ", " id ≠ String.intercalate ", " (["", "a"].map id) ∧
    stringify ["a", "", "b"] ", " id = "a, , b" ∧
    stringify ([] : List String) ", " id = "" ∧
    (∀ (Element : Type) (r : List Element) (delimiter : String) (acc : Element → String),
      stringify r delimiter acc =
        String.intercalate delimiter ((r.map acc).dropWhile (fun t => t = ""))) ∧
    (∀ (Element : Type) (el : Element) (r : List Element) (delimiter : String)
      (acc : Element → String),
      stringify (el :: r) delimiter acc =
        if acc el = "" then stringify r delimiter acc
        else String.intercalate delimiter ((el :: r).map acc)) := by
  refine ⟨by decide, by decide, by decide, by decide, by decide,
    fun _ r delimiter acc => stringify_eq delimiter acc r, ?_⟩
  intro _ el r delimiter acc
  by_cases h : acc el = ""
  · rw [if_pos h, stringify_eq, stringify_eq, List.map_cons, List.dropWhile_cons]
    simp [h]
  · rw [if_neg h, stringify_eq, List.map_cons, List.dropWhile_cons]
    simp [h]

/-! ## The boost of a `lorentzvector` into its rest frame -/

/-- C32: in exact real arithmetic, for every `lorentzvector` `v = (x0, x)` with
`x0 != 0` and `0 < |x|^2 < x0^2`: `beta = v.beta()` has `0 < |beta|^2 < 1`,
`v.boost(v.beta())` has the spatial part `(0, 0, 0)` and its `mag2()` is the `mag2()` of
`v`, which is `x0^2 - |x|^2`. -/
theorem lorentzvector.boost_beta (M : cmath ℝ) (hM : M.exact) (v : lorentzvector ℝ)
    (h0 : v.x0 ≠ 0) (h1 : 0 < v.x.mag2) (h2 : v.x.mag2 < v.x0 ^ 2) :
    0 < v.beta.mag2 ∧ v.beta.mag2 < 1 ∧
    (v.boost M v.beta).x = ⟨0, 0, 0⟩ ∧
    (v.boost M v.beta).mag2 = v.mag2 ∧
    v.mag2 = v.x0 ^ 2 - v.x.mag2 := by
  obtain ⟨x0, ⟨a, b, c⟩⟩ := v
  simp only [lorentzvector.boost, lorentzvector.beta, lorentzvector.mag2, lorentzvector.dot,
    vector.mag2, vector.dot, vector.div, vector.add, vector.mul] at *
  have hx0 : 0 < x0 ^ 2 := by positivity
  have hb : a / x0 * (a / x0) + b / x0 * (b / x0) + c / x0 * (c / x0) =
      (a * a + b * b + c * c) / x0 ^ 2 := by
    rw [div_mul_div_comm, div_mul_div_comm, div_mul_div_comm, ← add_div, ← add_div, sq]
  rw [hb]
  have hs : a * a + b * b + c * c ≠ 0 := ne_of_gt h1
  have hb0 : 0 < (a * a + b * b + c * c) / x0 ^ 2 := div_pos h1 hx0
  have hb1 : (a * a + b * b + c * c) / x0 ^ 2 < 1 := (div_lt_one hx0).mpr h2
  have hpos : 0 < 1 - (a * a + b * b + c * c) / x0 ^ 2 := by linarith
  have hw : M.sqrt (1 - (a * a + b * b + c * c) / x0 ^ 2) =
      Real.sqrt (1 - (a * a + b * b + c * c) / x0 ^ 2) := by
    rw [hM.2.2.1 _ (le_of_lt hpos), Real.sqrt_eq_rpow]
  rw [hw]
  have hwpos : 0 < Real.sqrt (1 - (a * a + b * b + c * c) / x0 ^ 2) := Real.sqrt_pos.mpr hpos
  have hwsq : Real.sqrt (1 - (a * a + b * b + c * c) / x0 ^ 2) ^ 2 =
      1 - (a * a + b * b + c * c) / x0 ^ 2 := Real.sq_sqrt (le_of_lt hpos)
  generalize Real.sqrt (1 - (a * a + b * b + c * c) / x0 ^ 2) = w at hwpos hwsq
  have hw0 : w ≠ 0 := ne_of_gt hwpos
  have hbr : (1 / w - 1) / ((a * a + b * b + c * c) / x0 ^ 2) *
      (a * (a / x0) + b * (b / x0) + c * (c / x0)) - 1 / w * x0 = -x0 := by
    field_simp
    ring
  have hy0 : 1 / w * (x0 - (a / x0 * a + b / x0 * b + c / x0 * c)) =
      x0 * (1 - (a * a + b * b + c * c) / x0 ^ 2) / w := by
    field_simp
    ring
  refine ⟨hb0, hb1, ?_, ?_, by ring⟩
  · rw [hbr]
    simp only [vector.mk.injEq]
    refine ⟨?_, ?_, ?_⟩ <;> field_simp
  · rw [hbr, hy0, ← hwsq]
    have e1 : a + a / x0 * -x0 = 0 := by field_simp
    have e2 : b + b / x0 * -x0 = 0 := by field_simp
    have e3 : c + c / x0 * -x0 = 0 := by field_simp
    rw [e1, e2, e3]
    have hsx : a * a + b * b + c * c = x0 ^ 2 * (1 - w ^ 2) := by
      rw [hwsq]
      field_simp
    rw [hsx]
    field_simp
    ring

/-- The witness of C32: the vector `v1{4, {3, 2, 1}}` of the test `lorentzvector_double`;
its boost into its rest frame has the spatial part `(0, 0, 0)` and the `mag2()` 2. -/
theorem lorentzvector.boost_beta_witness :
    ∃ M : cmath ℝ, M.exact ∧
      (⟨4, ⟨3, 2, 1⟩⟩ : lorentzvector ℝ).x0 ≠ 0 ∧
      0 < (⟨4, ⟨3, 2, 1⟩⟩ : lorentzvector ℝ).x.mag2 ∧
      (⟨4, ⟨3, 2, 1⟩⟩ : lorentzvector ℝ).x.mag2 < (⟨4, ⟨3, 2, 1⟩⟩ : lorentzvector ℝ).x0 ^ 2 ∧
      ((⟨4, ⟨3, 2, 1⟩⟩ : lorentzvector ℝ).boost M
        (⟨4, ⟨3, 2, 1⟩⟩ : lorentzvector ℝ).beta).x = ⟨0, 0, 0⟩ ∧
      ((⟨4, ⟨3, 2, 1⟩⟩ : lorentzvector ℝ).boost M
        (⟨4, ⟨3, 2, 1⟩⟩ : lorentzvector ℝ).beta).mag2 = 2 := by
  obtain ⟨M, hM⟩ : ∃ M : cmath ℝ, M.exact := ⟨_, cmath.exact_real⟩
  have h0 : (⟨4, ⟨3, 2, 1⟩⟩ : lorentzvector ℝ).x0 ≠ 0 := by norm_num
  have h1 : 0 < (⟨4, ⟨3, 2, 1⟩⟩ : lorentzvector ℝ).x.mag2 := by
    norm_num [vector.mag2, vector.dot]
  have h2 : (⟨4, ⟨3, 2, 1⟩⟩ : lorentzvector ℝ).x.mag2 <
      (⟨4, ⟨3, 2, 1⟩⟩ : lorentzvector ℝ).x0 ^ 2 := by
    norm_num [vector.mag2, vector.dot]
  obtain ⟨_, _, h3, h4, h5⟩ := lorentzvector.boost_beta M hM ⟨4, ⟨3, 2, 1⟩⟩ h0 h1 h2
  refine ⟨M, hM, h0, h1, h2, h3, ?_⟩
  rw [h4, h5]
  norm_num [vector.mag2, vector.dot]

/-! ## The standard units -/

/-- C40 (the code differs): `charge::coulomb_unit` has the `pow_10` 18 and the factor
`std::ratio<62415 / 10000>`, whose one argument is the integer quotient 6, so its factor
is 6 / 1 and not 62415 / 10000, while `energy::joule_unit` has the `pow_10` 12 and the
factor `std::ratio<624150, 100000>` of the value 62415 / 10000. -/
theorem coulomb_unit_factor :
    standard_units.charge.coulomb_unit.pow_10 = ⟨18, 1⟩ ∧
    standard_units.charge.coulomb_unit.factor = ⟨6, 1⟩ ∧
    standard_units.charge.coulomb_unit.factor.toRat = 6 ∧
    standard_units.charge.coulomb_unit.factor.toRat ≠ 62415 / 10000 ∧
    standard_units.energy.joule_unit.pow_10 = ⟨12, 1⟩ ∧
    standard_units.energy.joule_unit.factor = ⟨624150, 100000⟩ ∧
    standard_units.energy.joule_unit.factor.toRat = 62415 / 10000 ∧
    standard_units.charge.coulomb_unit.valid ∧ standard_units.energy.joule_unit.valid := by
  have hf : standard_units.charge.coulomb_unit.factor = ⟨6, 1⟩ := by decide
  refine ⟨by decide, hf, ?_, ?_, by decide, by decide, ?_, by decide, by decide⟩
  · rw [hf]
    norm_num [ratio.toRat]
  · rw [hf]
    norm_num [ratio.toRat]
  · norm_num [standard_units.energy.joule_unit, ratio.toRat]

/-! ## Rescaling through an intermediate unit, and rescaling a product -/

theorem rpow_add_cast (x : ℝ) (hx : 0 < x) (a b c : ℚ) :
    x ^ (((a - b : ℚ)) : ℝ) * x ^ (((b - c : ℚ)) : ℝ) = x ^ (((a - c : ℚ)) : ℝ) := by
  rw [← Real.rpow_add hx]
  congr 1
  push_cast
  ring

theorem rpow_mul_cast (x : ℝ) (hx : 0 < x) (a b c d : ℚ) :
    x ^ (((a - b : ℚ)) : ℝ) * x ^ (((c - d : ℚ)) : ℝ) =
      x ^ ((((a + c) - (b + d) : ℚ)) : ℝ) := by
  rw [← Real.rpow_add hx]
  congr 1
  push_cast
  ring

theorem unit_multiply_valid (u1 u2 : unit) (h1 : u1.valid) (h2 : u2.valid)
    (hs : u1.system = u2.system) :
    ({ system := u1.system
       dimensions := List.zipWith ratio_add u1.dimensions u2.dimensions
       pow_10 := ratio_add u1.pow_10 u2.pow_10
       pow_pi := ratio_add u1.pow_pi u2.pow_pi
       factor := ratio_multiply u1.factor u2.factor } : unit).valid := by
  have hlen := unit_valid_same_length u1 u2 h1 h2 hs
  have hz := dimensions_toRat_zipWith ratio_add (· + ·)
    (fun a b ha hb => ⟨ratio_add_reduced a b ha hb, ratio_add_toRat a b ha hb⟩)
    u1.dimensions u2.dimensions h1.2.1 h2.2.1
  refine ⟨?_, fun d hd => (hz.1 d hd).valid, (ratio_add_reduced _ _ h1.2.2.1 h2.2.2.1).valid,
    (ratio_add_reduced _ _ h1.2.2.2.1 h2.2.2.2.1).valid,
    (ratio_multiply_reduced _ _ h1.2.2.2.2 h2.2.2.2.2).valid⟩
  show u1.system.size = (List.zipWith ratio_add u1.dimensions u2.dimensions).length
  rw [List.length_zipWith, ← hlen, min_self, h1.1]

/-- In unbounded integers: in exact arithmetic, for well-formed units `u1`, `u2`, `u3` with `u1` compatible
with `u2` and `u2` with `u3`, where the factors of `u2` and `u3` are not zero, and every
value `v`: rescaling `v` from `u1` to `u2` and the result from `u2` to `u3` is well-formed
and is the value of rescaling `v` from `u1` to `u3`; and the quantity of `u3` built from
the quantity of `u2` built from a quantity of `u1` is the quantity of `u3` built from the
quantity of `u1`. -/
theorem rescale_value_transitive (M : cmath ℝ) (hM : M.exact) (u1 u2 u3 : unit)
    (h1 : u1.valid) (h2 : u2.valid) (h3 : u3.valid)
    (hc12 : unit_impl.are_compatible u1 u2 = true)
    (hc23 : unit_impl.are_compatible u2 u3 = true)
    (hz2 : u2.factor.toRat ≠ 0) (hz3 : u3.factor.toRat ≠ 0) (v : ℝ) :
    unit_impl.are_compatible u1 u3 = true ∧
    (∃ w, unit_impl.rescale_value M u3 u1 v = .ok w ∧
      (unit_impl.rescale_value M u2 u1 v).bind (unit_impl.rescale_value M u3 u2) = .ok w ∧
      quantity.from_quantity M u3 ⟨u1, v⟩ = .ok ⟨u3, w⟩ ∧
      (quantity.from_quantity M u2 ⟨u1, v⟩).bind (quantity.from_quantity M u3) =
        .ok ⟨u3, w⟩) := by
  have c12 := (are_compatible_eq_true u1 u2).1 hc12
  have c23 := (are_compatible_eq_true u2 u3).1 hc23
  have c13 : u1.system = u3.system ∧ u1.dimensions = u3.dimensions :=
    ⟨c12.1.trans c23.1, c12.2.trans c23.2⟩
  have e21 := unit_impl.rescale_value_exact M hM u2 u1 h2 h1 hz2 v
  have e31 := unit_impl.rescale_value_exact M hM u3 u1 h3 h1 hz3 v
  have f2 : ((u2.factor.toRat : ℚ) : ℝ) ≠ 0 := by exact_mod_cast hz2
  have f3 : ((u3.factor.toRat : ℚ) : ℝ) ≠ 0 := by exact_mod_cast hz3
  have e32 : unit_impl.rescale_value M u3 u2
      (v * (10 : ℝ) ^ (((u1.pow_10.toRat - u2.pow_10.toRat : ℚ)) : ℝ) *
        Real.pi ^ (((u1.pow_pi.toRat - u2.pow_pi.toRat : ℚ)) : ℝ) *
        (((u1.factor.toRat / u2.factor.toRat : ℚ)) : ℝ)) = .ok
      (v * (10 : ℝ) ^ (((u1.pow_10.toRat - u3.pow_10.toRat : ℚ)) : ℝ) *
        Real.pi ^ (((u1.pow_pi.toRat - u3.pow_pi.toRat : ℚ)) : ℝ) *
        (((u1.factor.toRat / u3.factor.toRat : ℚ)) : ℝ)) := by
    rw [unit_impl.rescale_value_exact M hM u3 u2 h3 h2 hz3,
      ← rpow_add_cast 10 (by norm_num) u1.pow_10.toRat u2.pow_10.toRat u3.pow_10.toRat,
      ← rpow_add_cast Real.pi Real.pi_pos u1.pow_pi.toRat u2.pow_pi.toRat u3.pow_pi.toRat]
    congr 1
    push_cast
    field_simp
    ring
  refine ⟨(are_compatible_eq_true u1 u3).2 c13, _, e31, ?_, ?_, ?_⟩
  · rw [e21]
    exact e32
  · exact from_quantity_ok M u3 ⟨u1, v⟩ c13 _ e31
  · rw [from_quantity_ok M u2 ⟨u1, v⟩ c12 _ e21]
    exact from_quantity_ok M u3 ⟨u2, _⟩ c23 _ e32

/-- An instance, in unbounded integers: one joule to electronvolts and then to the base unit MeV, and
directly to MeV. -/
theorem rescale_value_transitive_witness :
    ∃ M : cmath ℝ, M.exact ∧
      standard_units.energy.joule_unit.valid ∧ standard_units.energy.electronvolt_unit.valid ∧
      standard_units.energy.joule_unit.unscaled.valid ∧
      unit_impl.are_compatible standard_units.energy.joule_unit
        standard_units.energy.electronvolt_unit = true ∧
      unit_impl.are_compatible standard_units.energy.electronvolt_unit
        standard_units.energy.joule_unit.unscaled = true ∧
      standard_units.energy.electronvolt_unit.factor.toRat ≠ 0 ∧
      standard_units.energy.joule_unit.unscaled.factor.toRat ≠ 0 ∧
      ∃ w, unit_impl.rescale_value M standard_units.energy.joule_unit.unscaled
          standard_units.energy.joule_unit 1 = .ok w ∧
        (unit_impl.rescale_value M standard_units.energy.electronvolt_unit
          standard_units.energy.joule_unit 1).bind
          (unit_impl.rescale_value M standard_units.energy.joule_unit.unscaled
            standard_units.energy.electronvolt_unit) = .ok w := by
  obtain ⟨M, hM⟩ : ∃ M : cmath ℝ, M.exact := ⟨_, cmath.exact_real⟩
  have hz2 : standard_units.energy.electronvolt_unit.factor.toRat ≠ 0 := by
    norm_num [standard_units.energy.electronvolt_unit, ratio.toRat]
  have hz3 : standard_units.energy.joule_unit.unscaled.factor.toRat ≠ 0 := by
    norm_num [unit.unscaled, ratio.toRat]
  obtain ⟨_, w, hw1, hw2, _⟩ := rescale_value_transitive M hM standard_units.energy.joule_unit
    standard_units.energy.electronvolt_unit standard_units.energy.joule_unit.unscaled
    (by decide) (by decide) (by decide) (by decide) (by decide) hz2 hz3 1
  exact ⟨M, hM, by decide, by decide, by decide, by decide, by decide, hz2, hz3, w, hw1, hw2⟩

/-- In unbounded integers: in exact arithmetic, for well-formed units `a`, `b` of one system, `a` compatible
with `a2` and `b` compatible with `b2`, where the factors of `a2` and `b2` are not zero:
`unit_multiply<a, b>` and `unit_multiply<a2, b2>` are well-formed and compatible, and for
all raw values `x`, `y` rescaling `x * y` from the first product unit to the second is the
product of `x` rescaled from `a` to `a2` and `y` rescaled from `b` to `b2`; so the
quantity of the second product unit built from the product of two quantities is the
product of the two converted quantities. -/
theorem rescale_value_multiplicative (M : cmath ℝ) (hM : M.exact) (a a2 b b2 : unit)
    (ha : a.valid) (ha2 : a2.valid) (hb : b.valid) (hb2 : b2.valid)
    (hs : a.system = b.system)
    (hca : unit_impl.are_compatible a a2 = true)
    (hcb : unit_impl.are_compatible b b2 = true)
    (hza : a2.factor.toRat ≠ 0) (hzb : b2.factor.toRat ≠ 0) (x y : ℝ) :
    ∃ ab ab2 rx ry, unit_multiply a b = .ok ab ∧ unit_multiply a2 b2 = .ok ab2 ∧
      unit_impl.are_compatible ab ab2 = true ∧
      unit_impl.rescale_value M a2 a x = .ok rx ∧
      unit_impl.rescale_value M b2 b y = .ok ry ∧
      unit_impl.rescale_value M ab2 ab (x * y) = .ok (rx * ry) ∧
      (quantity.mul ⟨a, x⟩ ⟨b, y⟩).bind (quantity.from_quantity M ab2) = .ok ⟨ab2, rx * ry⟩ ∧
      (quantity.from_quantity M a2 ⟨a, x⟩).bind (fun qa =>
        (quantity.from_quantity M b2 ⟨b, y⟩).bind (fun qb => quantity.mul qa qb)) =
        .ok ⟨ab2, rx * ry⟩ := by
  have ca := (are_compatible_eq_true a a2).1 hca
  have cb := (are_compatible_eq_true b b2).1 hcb
  have hs2 : a2.system = b2.system := by rw [← ca.1, ← cb.1, hs]
  have hm := unit_multiply_ok a b hs (unit_valid_same_length a b ha hb hs)
  have hm2 := unit_multiply_ok a2 b2 hs2 (unit_valid_same_length a2 b2 ha2 hb2 hs2)
  have hv := unit_multiply_valid a b ha hb hs
  have hv2 := unit_multiply_valid a2 b2 ha2 hb2 hs2
  have hfz : (ratio_multiply a2.factor b2.factor).toRat ≠ 0 := by
    rw [ratio_multiply_toRat _ _ ha2.2.2.2.2 hb2.2.2.2.2]
    exact mul_ne_zero hza hzb
  have ea := unit_impl.rescale_value_exact M hM a2 a ha2 ha hza x
  have eb := unit_impl.rescale_value_exact M hM b2 b hb2 hb hzb y
  have fa : ((a2.factor.toRat : ℚ) : ℝ) ≠ 0 := by exact_mod_cast hza
  have fb : ((b2.factor.toRat : ℚ) : ℝ) ≠ 0 := by exact_mod_cast hzb
  have eab := unit_impl.rescale_value_exact M hM _ _ hv2 hv hfz (x * y)
  simp only [ratio_add_toRat _ _ ha.2.2.1 hb.2.2.1, ratio_add_toRat _ _ ha2.2.2.1 hb2.2.2.1,
    ratio_add_toRat _ _ ha.2.2.2.1 hb.2.2.2.1, ratio_add_toRat _ _ ha2.2.2.2.1 hb2.2.2.2.1,
    ratio_multiply_toRat _ _ ha.2.2.2.2 hb.2.2.2.2,
    ratio_multiply_toRat _ _ ha2.2.2.2.2 hb2.2.2.2.2] at eab
  have hval : x * y *
      (10 : ℝ) ^ ((((a.pow_10.toRat + b.pow_10.toRat) -
        (a2.pow_10.toRat + b2.pow_10.toRat) : ℚ)) : ℝ) *
      Real.pi ^ ((((a.pow_pi.toRat + b.pow_pi.toRat) -
        (a2.pow_pi.toRat + b2.pow_pi.toRat) : ℚ)) : ℝ) *
      (((a.factor.toRat * b.factor.toRat / (a2.factor.toRat * b2.factor.toRat) : ℚ)) : ℝ) =
      (x * (10 : ℝ) ^ (((a.pow_10.toRat - a2.pow_10.toRat : ℚ)) : ℝ) *
        Real.pi ^ (((a.pow_pi.toRat - a2.pow_pi.toRat : ℚ)) : ℝ) *
        (((a.factor.toRat / a2.factor.toRat : ℚ)) : ℝ)) *
      (y * (10 : ℝ) ^ (((b.pow_10.toRat - b2.pow_10.toRat : ℚ)) : ℝ) *
        Real.pi ^ (((b.pow_pi.toRat - b2.pow_pi.toRat : ℚ)) : ℝ) *
        (((b.factor.toRat / b2.factor.toRat : ℚ)) : ℝ)) := by
    rw [← rpow_mul_cast 10 (by norm_num) a.pow_10.toRat a2.pow_10.toRat b.pow_10.toRat
        b2.pow_10.toRat,
      ← rpow_mul_cast Real.pi Real.pi_pos a.pow_pi.toRat a2.pow_pi.toRat b.pow_pi.toRat
        b2.pow_pi.toRat]
    push_cast
    field_simp
    ring
  rw [hval] at eab
  have hcomp : ({ system := a.system
                  dimensions := List.zipWith ratio_add a.dimensions b.dimensions
                  pow_10 := ratio_add a.pow_10 b.pow_10
                  pow_pi := ratio_add a.pow_pi b.pow_pi
                  factor := ratio_multiply a.factor b.factor } : unit).system = a2.system ∧
      ({ system := a.system
         dimensions := List.zipWith ratio_add a.dimensions b.dimensions
         pow_10 := ratio_add a.pow_10 b.pow_10
         pow_pi := ratio_add a.pow_pi b.pow_pi
         factor := ratio_multiply a.factor b.factor } : unit).dimensions =
        List.zipWith ratio_add a2.dimensions b2.dimensions := by
    refine ⟨ca.1, ?_⟩
    show List.zipWith ratio_add a.dimensions b.dimensions = _
    rw [ca.2, cb.2]
  refine ⟨_, _, _, _, hm, hm2, (are_compatible_eq_true _ _).2 hcomp, ea, eb, eab, ?_, ?_⟩
  · rw [quantity_mul_ok ⟨a, x⟩ ⟨b, y⟩ _ hm]
    refine from_quantity_ok M _ ⟨_, x * y⟩ ?_ _ eab
    exact hcomp
  · rw [from_quantity_ok M a2 ⟨a, x⟩ ca _ ea]
    show (quantity.from_quantity M b2 ⟨b, y⟩).bind _ = _
    rw [from_quantity_ok M b2 ⟨b, y⟩ cb _ eb]
    exact quantity_mul_ok _ _ _ hm2

/-- An instance, in unbounded integers, on the units of `test_unit.cc`: `u1_type` with the compatible
`u2_type`, and `u3_type` with its unscaled unit. -/
theorem rescale_value_multiplicative_witness :
    ∃ M : cmath ℝ, M.exact ∧
      test_unit.u1_type.valid ∧ test_unit.u2_type.valid ∧ test_unit.u3_type.valid ∧
      test_unit.u3_type.unscaled.valid ∧
      test_unit.u1_type.system = test_unit.u3_type.system ∧
      unit_impl.are_compatible test_unit.u1_type test_unit.u2_type = true ∧
      unit_impl.are_compatible test_unit.u3_type test_unit.u3_type.unscaled = true ∧
      test_unit.u2_type.factor.toRat ≠ 0 ∧ test_unit.u3_type.unscaled.factor.toRat ≠ 0 ∧
      ∃ ab ab2 rx ry, unit_multiply test_unit.u1_type test_unit.u3_type = .ok ab ∧
        unit_multiply test_unit.u2_type test_unit.u3_type.unscaled = .ok ab2 ∧
        unit_impl.are_compatible ab ab2 = true ∧
        unit_impl.rescale_value M test_unit.u2_type test_unit.u1_type 3 = .ok rx ∧
        unit_impl.rescale_value M test_unit.u3_type.unscaled test_unit.u3_type 5 = .ok ry ∧
        unit_impl.rescale_value M ab2 ab (3 * 5) = .ok (rx * ry) := by
  obtain ⟨M, hM⟩ : ∃ M : cmath ℝ, M.exact := ⟨_, cmath.exact_real⟩
  have hza : test_unit.u2_type.factor.toRat ≠ 0 := by
    norm_num [test_unit.u2_type, ratio.toRat]
  have hzb : test_unit.u3_type.unscaled.factor.toRat ≠ 0 := by
    norm_num [unit.unscaled, ratio.toRat]
  obtain ⟨ab, ab2, rx, ry, h1, h2, h3, h4, h5, h6, _⟩ :=
    rescale_value_multiplicative M hM test_unit.u1_type test_unit.u2_type test_unit.u3_type
      test_unit.u3_type.unscaled (by decide) (by decide) (by decide) (by decide) (by decide)
      (by decide) (by decide) hza hzb 3 5
  exact ⟨M, hM, by decide, by decide, by decide, by decide, by decide, by decide, by decide,
    hza, hzb, ab, ab2, rx, ry, h1, h2, h3, h4, h5, h6⟩

/-! ## Integer powers and exact roots of a unit -/

theorem ratio_of_nat_reduced (N : Nat) : (⟨(N : Int), 1⟩ : ratio).reduced :=
  ⟨by show (0 : Int) < 1; decide, by show Int.gcd (N : Int) 1 = 1; simp⟩

theorem ratio_of_nat_toRat (N : Nat) : (⟨(N : Int), 1⟩ : ratio).toRat = (N : ℚ) := by
  simp [ratio.toRat]

theorem ratio_abs_of_nat (N : Nat) : ratio_abs ⟨(N : Int), 1⟩ = ⟨(N : Int), 1⟩ := by
  rw [ratio_abs_of_reduced _ (ratio_of_nat_reduced N)]
  have h : ¬ ((N : Int) < 0) := by omega
  show (⟨abs (N : Int), 1⟩ : ratio) = _
  rw [abs, if_neg h]

theorem ipow_ratio_nat (N : Nat) (n : Int) : ipow_ratio ⟨(N : Int), 1⟩ n = .ok (n ^ N) := by
  have hr := ratio_of_nat_reduced N
  have h0 : (⟨(N : Int), 1⟩ : ratio).num ≥ 0 := by rw [hr.num_self]; show (0 : Int) ≤ N; omega
  rw [ipow_ratio, if_pos h0, hr.num_self, hr.den_self]
  show (iroot 1 n).map (ipow (N : Int).toNat) = _
  rw [iroot, if_pos rfl]
  show Except.ok (ipow (N : Int).toNat n) = _
  rw [ipow_eq_pow, Int.toNat_ofNat]

theorem gcd_pow_eq_one (x y : Int) (hg : Int.gcd x y = 1) (N : Nat) :
    Int.gcd (x ^ N) (y ^ N) = 1 := by
  have hc : Nat.Coprime x.natAbs y.natAbs := hg
  show Nat.gcd (x ^ N).natAbs (y ^ N).natAbs = 1
  rw [Int.natAbs_pow, Int.natAbs_pow]
  exact Nat.Coprime.pow N N hc

/-- The alias `ratio_pow<F, std::ratio<N>>` for `N >= 0` is
`std::ratio<F::num^N, F::den^N>`, in lowest terms. -/
theorem ratio_pow_nat (f : ratio) (hf : f.valid) (N : Nat) :
    ratio_pow f ⟨(N : Int), 1⟩ = .ok ⟨f.num ^ N, f.den ^ N⟩ ∧
    (⟨f.num ^ N, f.den ^ N⟩ : ratio).reduced ∧
    (⟨f.num ^ N, f.den ^ N⟩ : ratio).toRat = f.toRat ^ N := by
  have hden : 1 ≤ f.den := f.den_pos hf
  have hdN : f.den ^ N ≠ 0 := by
    have := one_le_pow₀ (n := N) hden
    omega
  have hn2 : (⟨(N : Int), 1⟩ : ratio).num = N := (ratio_of_nat_reduced N).num_self
  refine ⟨?_, ⟨?_, ?_⟩, ?_⟩
  · by_cases hs : (N : Int) > 0
    · simp [ratio_pow, hn2, hs, ratio_abs_of_nat, ipow_ratio_nat, hdN, bind, Except.bind]
    · have h0 : N = 0 := by omega
      subst h0
      have hn0 : (⟨0, 1⟩ : ratio).num = 0 := by decide
      have ha0 : ratio_abs ⟨0, 1⟩ = ⟨0, 1⟩ := by decide
      have hi0 : ∀ n : Int, ipow_ratio ⟨0, 1⟩ n = .ok 1 := fun n => by
        have h := ipow_ratio_nat 0 n
        rw [pow_zero] at h
        exact h
      show ratio_pow f ⟨0, 1⟩ = .ok ⟨f.num ^ 0, f.den ^ 0⟩
      simp [ratio_pow, hn0, ha0, hi0, bind, Except.bind]
  · show 0 < f.den ^ N
    have := one_le_pow₀ (n := N) hden
    omega
  · exact gcd_pow_eq_one _ _ (f.type_reduced hf).2 N
  · rw [ratio.toRat]
    show (((f.num ^ N : Int)) : ℚ) / (((f.den ^ N : Int)) : ℚ) = _
    push_cast
    rw [← div_pow, f.num_div_den hf]

/-- The alias `ratio_pow<std::ratio<x^N, y^N>, std::ratio<1, N>>` for `x, y >= 1` without
a common divisor is `std::ratio<x, y>`. -/
theorem ratio_pow_root (x y : Int) (hx : 1 ≤ x) (hy : 1 ≤ y) (hg : Int.gcd x y = 1) (N : Nat)
    (hN : 1 ≤ N) : ratio_pow ⟨x ^ N, y ^ N⟩ ⟨1, (N : Int)⟩ = .ok ⟨x, y⟩ := by
  have hr1 : (⟨x ^ N, y ^ N⟩ : ratio).reduced := by
    refine ⟨?_, gcd_pow_eq_one x y hg N⟩
    show 0 < y ^ N
    have := one_le_pow₀ (n := N) hy
    omega
  have hr2 : (⟨1, (N : Int)⟩ : ratio).reduced :=
    ⟨by show (0 : Int) < N; omega, by show Int.gcd 1 (N : Int) = 1; simp⟩
  have hn2 : (⟨1, (N : Int)⟩ : ratio).num = 1 := hr2.num_self
  have hraeq : ratio_abs ⟨1, (N : Int)⟩ = ⟨1, (N : Int)⟩ := by
    rw [ratio_abs_of_reduced _ hr2]
    rfl
  have h1 : (0 : Int) ≤ (⟨1, (N : Int)⟩ : ratio).N := by show (0 : Int) ≤ 1; decide
  have hipx := ipow_ratio_of_pow ⟨1, (N : Int)⟩ hr2 h1 x hx
  have hipy := ipow_ratio_of_pow ⟨1, (N : Int)⟩ hr2 h1 y hy
  have e1 : (⟨1, (N : Int)⟩ : ratio).D.toNat = N := Int.toNat_ofNat N
  have e2 : (⟨1, (N : Int)⟩ : ratio).N.toNat = 1 := rfl
  rw [e1, e2, pow_one] at hipx hipy
  have hy0 : y ≠ 0 := by omega
  simp [ratio_pow, hn2, hraeq, hr1.num_self, hr1.den_self, hipx, hipy, hy0, bind, Except.bind]

/-- Two units whose components are in lowest terms and denote the same numbers are the
same type. -/
theorem unit_eq_of_toRat_eq (u v : unit) (hs : u.system = v.system)
    (hud : ∀ d ∈ u.dimensions, d.reduced) (hvd : ∀ d ∈ v.dimensions, d.reduced)
    (hd : u.dimensions.map ratio.toRat = v.dimensions.map ratio.toRat)
    (hup : u.pow_10.reduced) (hvp : v.pow_10.reduced) (hp : u.pow_10.toRat = v.pow_10.toRat)
    (huq : u.pow_pi.reduced) (hvq : v.pow_pi.reduced) (hq : u.pow_pi.toRat = v.pow_pi.toRat)
    (huf : u.factor.reduced) (hvf : v.factor.reduced) (hf : u.factor.toRat = v.factor.toRat) :
    u = v := by
  obtain ⟨us, ud, up, uq, uf⟩ := u
  obtain ⟨vs, vd, vp, vq, vf⟩ := v
  simp only [unit.mk.injEq]
  exact ⟨hs, dimensions_eq_of_toRat_eq _ _ hud hvd hd, (ratio.reduced.eq_iff hup hvp).2 hp,
    (ratio.reduced.eq_iff huq hvq).2 hq, (ratio.reduced.eq_iff huf hvf).2 hf⟩

theorem dimensions_multiply_nat_toRat (d : unit_dimensions) (hd : ∀ x ∈ d, x.valid) (N : Nat) :
    (∀ x ∈ unit_impl.dimensions_multiply d ⟨(N : Int), 1⟩, x.reduced) ∧
    (unit_impl.dimensions_multiply d ⟨(N : Int), 1⟩).map ratio.toRat =
      d.map (fun x => x.toRat * (N : ℚ)) := by
  have h := dimensions_multiply_spec ⟨(N : Int), 1⟩ (ratio_of_nat_reduced N).valid d hd
  rw [ratio_of_nat_toRat] at h
  exact h

theorem zipWith_add_map_succ (a : ℚ) :
    ∀ d : List ratio,
      List.zipWith (· + ·) (d.map (fun x => x.toRat * a)) (d.map ratio.toRat) =
        d.map (fun x => x.toRat * (a + 1))
  | [] => rfl
  | x :: d => by
    simp only [List.map_cons, List.zipWith_cons_cons, zipWith_add_map_succ a d]
    congr 1
    ring

theorem zipWith_add_map_self :
    ∀ d : List ratio,
      List.zipWith (· + ·) (d.map ratio.toRat) (d.map ratio.toRat) =
        d.map (fun x => x.toRat * 2)
  | [] => rfl
  | x :: d => by
    simp only [List.map_cons, List.zipWith_cons_cons, zipWith_add_map_self d]
    congr 1
    ring

/-- In unbounded integers: for every well-formed unit `u` and every integer `N >= 0`, `unit_pow<u, N>`,
`unit_pow<u, N + 1>` and `unit_multiply<unit_pow<u, N>, u>` are well-formed and the last
two are the same type; `unit_pow<u, 1>` has the system of `u` and, as rational numbers,
its dimension exponents, `pow_10`, `pow_pi` and factor, and is the type `u` itself when
`u` is written in lowest terms; `unit_pow<u, 0>` is the unscaled dimensionless unit of
the system of `u`; and `unit_pow<u, 2>` is the type `unit_multiply<u, u>`. -/
theorem unit_pow_succ (u : unit) (hu : u.valid) (N : Nat) :
    (∃ p q, unit_pow u ⟨(N : Int), 1⟩ = .ok p ∧ unit_pow u ⟨(N : Int) + 1, 1⟩ = .ok q ∧
      unit_multiply p u = .ok q) ∧
    (∃ r, unit_pow u ⟨1, 1⟩ = .ok r ∧ r.system = u.system ∧
      r.dimensions.map ratio.toRat = u.dimensions.map ratio.toRat ∧
      r.pow_10.toRat = u.pow_10.toRat ∧ r.pow_pi.toRat = u.pow_pi.toRat ∧
      r.factor.toRat = u.factor.toRat ∧
      (((∀ d ∈ u.dimensions, d.reduced) ∧ u.pow_10.reduced ∧ u.pow_pi.reduced ∧
        u.factor.reduced) → r = u)) ∧
    unit_pow u ⟨0, 1⟩ = .ok { system := u.system, dimensions := u.system.dimensionless } ∧
    (∃ s, unit_pow u ⟨2, 1⟩ = .ok s ∧ unit_multiply u u = .ok s) := by
  obtain ⟨hl, hd, hp, hq, hf⟩ := hu
  have hu : u.valid := ⟨hl, hd, hp, hq, hf⟩
  -- the power with a natural exponent
  have hpow : ∀ K : Nat, unit_pow u ⟨(K : Int), 1⟩ = .ok
      { system := u.system
        dimensions := unit_impl.dimensions_multiply u.dimensions ⟨(K : Int), 1⟩
        pow_10 := ratio_multiply u.pow_10 ⟨(K : Int), 1⟩
        pow_pi := ratio_multiply u.pow_pi ⟨(K : Int), 1⟩
        factor := ⟨u.factor.num ^ K, u.factor.den ^ K⟩ } :=
    fun K => unit_pow_ok u _ _ (ratio_pow_nat u.factor hf K).1
  have hKv : ∀ K : Nat, (⟨(K : Int), 1⟩ : ratio).valid := fun K => (ratio_of_nat_reduced K).valid
  have hmr : ∀ (x : ratio) (K : Nat), x.valid → (ratio_multiply x ⟨(K : Int), 1⟩).reduced ∧
      (ratio_multiply x ⟨(K : Int), 1⟩).toRat = x.toRat * (K : ℚ) := fun x K hx =>
    ⟨ratio_multiply_reduced _ _ hx (hKv K), by
      rw [ratio_multiply_toRat _ _ hx (hKv K), ratio_of_nat_toRat]⟩
  -- the product of a power with the unit
  have hstep : ∀ K : Nat, unit_multiply
      { system := u.system
        dimensions := unit_impl.dimensions_multiply u.dimensions ⟨(K : Int), 1⟩
        pow_10 := ratio_multiply u.pow_10 ⟨(K : Int), 1⟩
        pow_pi := ratio_multiply u.pow_pi ⟨(K : Int), 1⟩
        factor := ⟨u.factor.num ^ K, u.factor.den ^ K⟩ } u = .ok
      { system := u.system
        dimensions := unit_impl.dimensions_multiply u.dimensions ⟨((K + 1 : Nat) : Int), 1⟩
        pow_10 := ratio_multiply u.pow_10 ⟨((K + 1 : Nat) : Int), 1⟩
        pow_pi := ratio_multiply u.pow_pi ⟨((K + 1 : Nat) : Int), 1⟩
        factor := ⟨u.factor.num ^ (K + 1), u.factor.den ^ (K + 1)⟩ } := by
    intro K
    have hdK := dimensions_multiply_nat_toRat u.dimensions hd K
    have hdK1 := dimensions_multiply_nat_toRat u.dimensions hd (K + 1)
    have hfK := ratio_pow_nat u.factor hf K
    have hfK1 := ratio_pow_nat u.factor hf (K + 1)
    have hlen : (unit_impl.dimensions_multiply u.dimensions ⟨(K : Int), 1⟩).length =
        u.dimensions.length := by
      rw [unit_impl.dimensions_multiply, List.length_map]
    have hz := dimensions_toRat_zipWith ratio_add (· + ·)
      (fun a b ha hb => ⟨ratio_add_reduced a b ha hb, ratio_add_toRat a b ha hb⟩)
      (unit_impl.dimensions_multiply u.dimensions ⟨(K : Int), 1⟩) u.dimensions
      (fun x hx => (hdK.1 x hx).valid) hd
    rw [unit_multiply_ok
      ⟨u.system, unit_impl.dimensions_multiply u.dimensions ⟨(K : Int), 1⟩,
        ratio_multiply u.pow_10 ⟨(K : Int), 1⟩, ratio_multiply u.pow_pi ⟨(K : Int), 1⟩,
        ⟨u.factor.num ^ K, u.factor.den ^ K⟩⟩ u rfl hlen]
    congr 1
    refine unit_eq_of_toRat_eq _ _ rfl hz.1 hdK1.1 ?_
      (ratio_add_reduced _ _ (hmr _ K hp).1.valid hp) (hmr _ (K + 1) hp).1 ?_
      (ratio_add_reduced _ _ (hmr _ K hq).1.valid hq) (hmr _ (K + 1) hq).1 ?_
      (ratio_multiply_reduced _ _ hfK.2.1.valid hf) hfK1.2.1 ?_
    · show (List.zipWith ratio_add (unit_impl.dimensions_multiply u.dimensions ⟨(K : Int), 1⟩)
        u.dimensions).map ratio.toRat =
        (unit_impl.dimensions_multiply u.dimensions ⟨((K + 1 : Nat) : Int), 1⟩).map ratio.toRat
      rw [hz.2, hdK.2, hdK1.2, zipWith_add_map_succ]
      push_cast
      rfl
    · show (ratio_add (ratio_multiply u.pow_10 ⟨(K : Int), 1⟩) u.pow_10).toRat =
        (ratio_multiply u.pow_10 ⟨((K + 1 : Nat) : Int), 1⟩).toRat
      rw [ratio_add_toRat _ _ (hmr _ K hp).1.valid hp, (hmr _ K hp).2, (hmr _ (K + 1) hp).2]
      push_cast
      ring
    · show (ratio_add (ratio_multiply u.pow_pi ⟨(K : Int), 1⟩) u.pow_pi).toRat =
        (ratio_multiply u.pow_pi ⟨((K + 1 : Nat) : Int), 1⟩).toRat
      rw [ratio_add_toRat _ _ (hmr _ K hq).1.valid hq, (hmr _ K hq).2, (hmr _ (K + 1) hq).2]
      push_cast
      ring
    · show (ratio_multiply ⟨u.factor.num ^ K, u.factor.den ^ K⟩ u.factor).toRat =
        (⟨u.factor.num ^ (K + 1), u.factor.den ^ (K + 1)⟩ : ratio).toRat
      rw [ratio_multiply_toRat _ _ hfK.2.1.valid hf, hfK.2.2, hfK1.2.2, pow_succ]
  have hcast : ∀ K : Nat, (⟨(K : Int) + 1, 1⟩ : ratio) = ⟨((K + 1 : Nat) : Int), 1⟩ := fun K => by
    push_cast
    rfl
  refine ⟨⟨_, _, hpow N, by rw [hcast N]; exact hpow (N + 1), hstep N⟩, ?_, ?_, ?_⟩
  · have h1 := hpow 1
    have hd1 := dimensions_multiply_nat_toRat u.dimensions hd 1
    have hf1 := ratio_pow_nat u.factor hf 1
    have e1 : (⟨((1 : Nat) : Int), 1⟩ : ratio) = ⟨1, 1⟩ := rfl
    rw [e1] at h1 hd1
    have hdv : (unit_impl.dimensions_multiply u.dimensions ⟨1, 1⟩).map ratio.toRat =
        u.dimensions.map ratio.toRat := by
      rw [hd1.2]
      simp
    have hpv : (ratio_multiply u.pow_10 ⟨1, 1⟩).toRat = u.pow_10.toRat := by
      have := (hmr u.pow_10 1 hp).2
      rw [e1] at this
      rw [this]
      simp
    have hqv : (ratio_multiply u.pow_pi ⟨1, 1⟩).toRat = u.pow_pi.toRat := by
      have := (hmr u.pow_pi 1 hq).2
      rw [e1] at this
      rw [this]
      simp
    have hfv : (⟨u.factor.num ^ 1, u.factor.den ^ 1⟩ : ratio).toRat = u.factor.toRat := by
      rw [hf1.2.2, pow_one]
    refine ⟨_, h1, rfl, hdv, hpv, hqv, hfv, ?_⟩
    rintro ⟨rd, rp, rq, rf⟩
    have hp1 := (hmr u.pow_10 1 hp).1
    have hq1 := (hmr u.pow_pi 1 hq).1
    rw [e1] at hp1 hq1
    exact unit_eq_of_toRat_eq _ u rfl hd1.1 rd hdv hp1 rp hpv hq1 rq hqv hf1.2.1 rf hfv
  · have h0 := hpow 0
    have hd0 := dimensions_multiply_nat_toRat u.dimensions hd 0
    have hr0 : (⟨0, 1⟩ : ratio).reduced := by decide
    have e0 : (⟨((0 : Nat) : Int), 1⟩ : ratio) = ⟨0, 1⟩ := rfl
    rw [e0] at h0 hd0
    rw [h0]
    congr 1
    have hzero : ∀ x : ratio, x.valid → ratio_multiply x ⟨0, 1⟩ = ⟨0, 1⟩ := by
      intro x hx
      rw [ratio.reduced.eq_iff (ratio_multiply_reduced _ _ hx hr0.valid) hr0,
        ratio_multiply_toRat _ _ hx hr0.valid]
      norm_num [ratio.toRat]
    have hdz : unit_impl.dimensions_multiply u.dimensions ⟨0, 1⟩ = u.system.dimensionless := by
      rw [unit_system.dimensionless, unit_impl.make_dimensionless, hl,
        unit_impl.dimensions_multiply]
      rw [List.eq_replicate_iff]
      refine ⟨List.length_map _ _, ?_⟩
      · intro b hb
        rw [List.mem_map] at hb
        obtain ⟨x, hx, rfl⟩ := hb
        exact hzero x (hd x hx)
    rw [hdz, hzero _ hp, hzero _ hq]
    rfl
  · have hz := dimensions_toRat_zipWith ratio_add (· + ·)
      (fun a b ha hb => ⟨ratio_add_reduced a b ha hb, ratio_add_toRat a b ha hb⟩)
      u.dimensions u.dimensions hd hd
    have hd2 := dimensions_multiply_nat_toRat u.dimensions hd 2
    have hf2 := ratio_pow_nat u.factor hf 2
    have hp2 := hmr u.pow_10 2 hp
    have hq2 := hmr u.pow_pi 2 hq
    have h2 := hpow 2
    have e2 : (⟨((2 : Nat) : Int), 1⟩ : ratio) = ⟨2, 1⟩ := rfl
    have c2 : ((2 : Nat) : ℚ) = 2 := by norm_num
    rw [e2] at h2 hd2 hp2 hq2
    rw [c2] at hd2 hp2 hq2
    refine ⟨_, h2, ?_⟩
    rw [unit_multiply_ok u u rfl rfl]
    congr 1
    refine unit_eq_of_toRat_eq _ _ rfl hz.1 hd2.1 ?_
      (ratio_add_reduced _ _ hp hp) hp2.1 ?_
      (ratio_add_reduced _ _ hq hq) hq2.1 ?_
      (ratio_multiply_reduced _ _ hf hf) hf2.2.1 ?_
    · show (List.zipWith ratio_add u.dimensions u.dimensions).map ratio.toRat =
        (unit_impl.dimensions_multiply u.dimensions ⟨2, 1⟩).map ratio.toRat
      rw [hz.2, hd2.2, zipWith_add_map_self]
    · show (ratio_add u.pow_10 u.pow_10).toRat = (ratio_multiply u.pow_10 ⟨2, 1⟩).toRat
      rw [ratio_add_toRat _ _ hp hp, hp2.2]
      ring
    · show (ratio_add u.pow_pi u.pow_pi).toRat = (ratio_multiply u.pow_pi ⟨2, 1⟩).toRat
      rw [ratio_add_toRat _ _ hq hq, hq2.2]
      ring
    · show (ratio_multiply u.factor u.factor).toRat =
        (⟨u.factor.num ^ 2, u.factor.den ^ 2⟩ : ratio).toRat
      rw [ratio_multiply_toRat _ _ hf hf, hf2.2.2, sq]

/-- An instance, in unbounded integers, on `u1_type` of `test_unit.cc` with `N = 3`; `unit_pow<u1_type, 1>`
is `u1_type` and `unit_pow<u1_type, 2>` is `unit_multiply<u1_type, u1_type>`. -/
theorem unit_pow_succ_witness :
    test_unit.u1_type.valid ∧
    (∃ p q, unit_pow test_unit.u1_type ⟨((3 : Nat) : Int), 1⟩ = .ok p ∧
      unit_pow test_unit.u1_type ⟨((3 : Nat) : Int) + 1, 1⟩ = .ok q ∧
      unit_multiply p test_unit.u1_type = .ok q) ∧
    unit_pow test_unit.u1_type ⟨1, 1⟩ = .ok test_unit.u1_type ∧
    unit_pow test_unit.u1_type ⟨0, 1⟩ = .ok
      { system := test_unit.u1_type.system
        dimensions := test_unit.u1_type.system.dimensionless } ∧
    (∃ s, unit_pow test_unit.u1_type ⟨2, 1⟩ = .ok s ∧
      unit_multiply test_unit.u1_type test_unit.u1_type = .ok s) := by
  obtain ⟨h1, ⟨r, hr, _, _, _, _, _, hru⟩, h3, h4⟩ :=
    unit_pow_succ test_unit.u1_type (by decide) 3
  rw [hru (by decide)] at hr
  exact ⟨by decide, h1, hr, h3, h4⟩

theorem dimensions_multiply_inverse (d : unit_dimensions) (hd : ∀ x ∈ d, x.valid)
    (a b : ratio) (ha : a.valid) (hb : b.valid) (hab : a.toRat * b.toRat = 1) :
    (∀ x ∈ unit_impl.dimensions_multiply (unit_impl.dimensions_multiply d a) b, x.reduced) ∧
    (unit_impl.dimensions_multiply (unit_impl.dimensions_multiply d a) b).map ratio.toRat =
      d.map ratio.toRat := by
  have h1 := dimensions_multiply_spec a ha d hd
  have h2 := dimensions_multiply_spec b hb (unit_impl.dimensions_multiply d a)
    (fun x hx => (h1.1 x hx).valid)
  refine ⟨h2.1, ?_⟩
  have h3 : (unit_impl.dimensions_multiply d a).map (fun x => x.toRat * b.toRat) =
      ((unit_impl.dimensions_multiply d a).map ratio.toRat).map (fun t => t * b.toRat) := by
    rw [List.map_map]
    rfl
  rw [h2.2, h3, h1.2, List.map_map]
  apply List.map_congr_left
  intro x _
  show x.toRat * a.toRat * b.toRat = x.toRat
  rw [mul_assoc, hab, mul_one]

/-- C38: for every well-formed unit `u` with a positive factor and every integer `N >= 1`,
`unit_pow<u, N>` and its `N`-th root `unit_pow<unit_pow<u, N>, std::ratio<1, N>>` are
well-formed, and the root has the system of `u` and, as rational numbers, the dimension
exponents, the `pow_10`, the `pow_pi` and the factor of `u`; it is the type `u` itself
when `u` is written in lowest terms (integers without overflow). -/
theorem unit_pow_root (u : unit) (hu : u.valid) (hpos : 0 < u.factor.toRat) (N : Nat)
    (hN : 1 ≤ N) :
    ∃ p r, unit_pow u ⟨(N : Int), 1⟩ = .ok p ∧ unit_pow p ⟨1, (N : Int)⟩ = .ok r ∧
      r.system = u.system ∧
      r.dimensions.map ratio.toRat = u.dimensions.map ratio.toRat ∧
      r.pow_10.toRat = u.pow_10.toRat ∧ r.pow_pi.toRat = u.pow_pi.toRat ∧
      r.factor.toRat = u.factor.toRat ∧
      (((∀ d ∈ u.dimensions, d.reduced) ∧ u.pow_10.reduced ∧ u.pow_pi.reduced ∧
        u.factor.reduced) → r = u) := by
  obtain ⟨_, hd, hp, hq, hf⟩ := hu
  have hn : 1 ≤ u.factor.num := by
    have : 0 < u.factor.toRat.num := Rat.num_pos.2 hpos
    rw [u.factor.num_eq]
    omega
  have hden : 1 ≤ u.factor.den := u.factor.den_pos hf
  have hg : Int.gcd u.factor.num u.factor.den = 1 := (u.factor.type_reduced hf).2
  have hNv : (⟨(N : Int), 1⟩ : ratio).valid := (ratio_of_nat_reduced N).valid
  have hRr : (⟨1, (N : Int)⟩ : ratio).reduced :=
    ⟨by show (0 : Int) < N; omega, by show Int.gcd 1 (N : Int) = 1; simp⟩
  have hNq : (N : ℚ) ≠ 0 := by
    have : 0 < N := hN
    positivity
  have hinv : (⟨(N : Int), 1⟩ : ratio).toRat * (⟨1, (N : Int)⟩ : ratio).toRat = 1 := by
    rw [ratio_of_nat_toRat, ratio.toRat]
    show (N : ℚ) * (((1 : Int) : ℚ) / (((N : Int)) : ℚ)) = 1
    push_cast
    field_simp
  have hfN := ratio_pow_nat u.factor hf N
  have hroot := ratio_pow_root u.factor.num u.factor.den hn hden hg N hN
  have hdd := dimensions_multiply_inverse u.dimensions hd _ _ hNv hRr.valid hinv
  have hmm : ∀ x : ratio, x.valid →
      (ratio_multiply (ratio_multiply x ⟨(N : Int), 1⟩) ⟨1, (N : Int)⟩).reduced ∧
      (ratio_multiply (ratio_multiply x ⟨(N : Int), 1⟩) ⟨1, (N : Int)⟩).toRat = x.toRat := by
    intro x hx
    have hxr := ratio_multiply_reduced x _ hx hNv
    refine ⟨ratio_multiply_reduced _ _ hxr.valid hRr.valid, ?_⟩
    rw [ratio_multiply_toRat _ _ hxr.valid hRr.valid, ratio_multiply_toRat _ _ hx hNv,
      mul_assoc, hinv, mul_one]
  have hfr : (⟨u.factor.num, u.factor.den⟩ : ratio).reduced := u.factor.type_reduced hf
  have hfv : (⟨u.factor.num, u.factor.den⟩ : ratio).toRat = u.factor.toRat :=
    u.factor.type_toRat hf
  refine ⟨_, _, unit_pow_ok u _ _ hfN.1,
    unit_pow_ok
      ⟨u.system, unit_impl.dimensions_multiply u.dimensions ⟨(N : Int), 1⟩,
        ratio_multiply u.pow_10 ⟨(N : Int), 1⟩, ratio_multiply u.pow_pi ⟨(N : Int), 1⟩,
        ⟨u.factor.num ^ N, u.factor.den ^ N⟩⟩ ⟨1, (N : Int)⟩ ⟨u.factor.num, u.factor.den⟩ hroot,
    rfl, hdd.2, (hmm _ hp).2, (hmm _ hq).2, hfv, ?_⟩
  rintro ⟨rd, rp, rq, rf⟩
  exact unit_eq_of_toRat_eq _ u rfl hdd.1 rd hdd.2 (hmm _ hp).1 rp (hmm _ hp).2
    (hmm _ hq).1 rq (hmm _ hq).2 hfr rf hfv

/-- The witness of C38 on `u1_type` of `test_unit.cc` (factor 1/2) with `N = 2`: the
square root of the square of `u1_type` is `u1_type`. -/
theorem unit_pow_root_witness :
    test_unit.u1_type.valid ∧ 0 < test_unit.u1_type.factor.toRat ∧ 1 ≤ 2 ∧
    ∃ p, unit_pow test_unit.u1_type ⟨((2 : Nat) : Int), 1⟩ = .ok p ∧
      unit_pow p ⟨1, ((2 : Nat) : Int)⟩ = .ok test_unit.u1_type := by
  have hpos : 0 < test_unit.u1_type.factor.toRat := by
    norm_num [test_unit.u1_type, ratio.toRat]
  obtain ⟨p, r, hp, hr, _, _, _, _, _, hru⟩ :=
    unit_pow_root test_unit.u1_type (by decide) hpos 2 (by decide)
  rw [hru (by decide)] at hr
  exact ⟨by decide, hpos, by decide, p, hp, hr⟩

/-! ## The templates in the range of `std::intmax_t` -/

theorem ratio.instantiate_of_valid (r : ratio) (hv : r.valid) :
    r.instantiate = if r.representable then .ok r else .error .overflow := by
  rw [ratio.instantiate, if_neg hv]

theorem intmax_ratio_add_eq (r1 r2 : ratio) (h1 : r1.valid) (h2 : r2.valid) :
    intmax.ratio_add r1 r2 =
      if (ratio_add r1 r2).representable then .ok (ratio_add r1 r2) else .error .overflow :=
  ratio.instantiate_of_valid _ (ratio_add_reduced r1 r2 h1 h2).valid

theorem intmax_ratio_subtract_eq (r1 r2 : ratio) (h1 : r1.valid) (h2 : r2.valid) :
    intmax.ratio_subtract r1 r2 =
      if (ratio_subtract r1 r2).representable then .ok (ratio_subtract r1 r2)
      else .error .overflow :=
  ratio.instantiate_of_valid _ (ratio_subtract_reduced r1 r2 h1 h2).valid

theorem intmax_ratio_multiply_eq (r1 r2 : ratio) (h1 : r1.valid) (h2 : r2.valid) :
    intmax.ratio_multiply r1 r2 =
      if (ratio_multiply r1 r2).representable then .ok (ratio_multiply r1 r2)
      else .error .overflow :=
  ratio.instantiate_of_valid _ (ratio_multiply_reduced r1 r2 h1 h2).valid

theorem intmax_ratio_divide_eq (r1 r2 q : ratio) (hq : ratio_divide r1 r2 = .ok q)
    (hv : q.valid) :
    intmax.ratio_divide r1 r2 = if q.representable then .ok q else .error .overflow := by
  rw [intmax.ratio_divide, hq]
  exact ratio.instantiate_of_valid q hv

theorem intmax_ratio_divide_error (r1 r2 : ratio) (e : build_error)
    (hq : ratio_divide r1 r2 = .error e) : intmax.ratio_divide r1 r2 = .error e := by
  rw [intmax.ratio_divide, hq]
  rfl

/-- A pack of `std::ratio` types with nonzero denominators is accepted when all of them
are in range, and rejected for overflow otherwise. -/
theorem intmax_expand_eq :
    ∀ l : List ratio, (∀ r ∈ l, r.valid) →
      intmax.expand (l.map ratio.instantiate) =
        if ∀ r ∈ l, r.representable then .ok l else .error .overflow
  | [], _ => by simp [intmax.expand]
  | a :: l, h => by
    have ha : a.valid := h a (List.mem_cons_self _ _)
    have ih := intmax_expand_eq l (fun r hr => h r (List.mem_cons_of_mem _ hr))
    rw [List.map_cons, intmax.expand, ratio.instantiate_of_valid a ha, ih]
    by_cases hr : a.representable
    · by_cases hl : ∀ r ∈ l, r.representable
      · have hall : ∀ r ∈ a :: l, r.representable := by
          intro r hm
          rcases List.mem_cons.1 hm with rfl | hm
          · exact hr
          · exact hl r hm
        rw [if_pos hr, if_pos hl, if_pos hall]
        rfl
      · have hall : ¬ ∀ r ∈ a :: l, r.representable :=
          fun hh => hl (fun r hm => hh r (List.mem_cons_of_mem _ hm))
        rw [if_pos hr, if_neg hl, if_neg hall]
        rfl
    · have hall : ¬ ∀ r ∈ a :: l, r.representable :=
        fun hh => hr (hh a (List.mem_cons_self _ _))
      rw [if_neg hr, if_neg hall]
      rfl

theorem intmax_dimensions_add_eq (d1 d2 : unit_dimensions) (h1 : ∀ r ∈ d1, r.valid)
    (h2 : ∀ r ∈ d2, r.valid) (hlen : d1.length = d2.length) :
    intmax.unit_impl.dimensions_add d1 d2 =
      if ∀ r ∈ List.zipWith ratio_add d1 d2, r.representable
      then .ok (List.zipWith ratio_add d1 d2) else .error .overflow := by
  have hz := dimensions_toRat_zipWith ratio_add (· + ·)
    (fun a b ha hb => ⟨ratio_add_reduced a b ha hb, ratio_add_toRat a b ha hb⟩) d1 d2 h1 h2
  rw [intmax.unit_impl.dimensions_add, if_pos hlen,
    ← intmax_expand_eq _ (fun r hr => (hz.1 r hr).valid), List.map_zipWith]
  rfl

theorem intmax_dimensions_subtract_eq (d1 d2 : unit_dimensions) (h1 : ∀ r ∈ d1, r.valid)
    (h2 : ∀ r ∈ d2, r.valid) (hlen : d1.length = d2.length) :
    intmax.unit_impl.dimensions_subtract d1 d2 =
      if ∀ r ∈ List.zipWith ratio_subtract d1 d2, r.representable
      then .ok (List.zipWith ratio_subtract d1 d2) else .error .overflow := by
  have hz := dimensions_toRat_zipWith ratio_subtract (· - ·)
    (fun a b ha hb => ⟨ratio_subtract_reduced a b ha hb, ratio_subtract_toRat a b ha hb⟩)
    d1 d2 h1 h2
  rw [intmax.unit_impl.dimensions_subtract, if_pos hlen,
    ← intmax_expand_eq _ (fun r hr => (hz.1 r hr).valid), List.map_zipWith]
  rfl

theorem intmax_dimensions_multiply_eq (d : unit_dimensions) (r : ratio)
    (hd : ∀ x ∈ d, x.valid) (hr : r.valid) :
    intmax.unit_impl.dimensions_multiply d r =
      if ∀ x ∈ unit_impl.dimensions_multiply d r, x.representable
      then .ok (unit_impl.dimensions_multiply d r) else .error .overflow := by
  have hz := dimensions_multiply_spec r hr d hd
  rw [intmax.unit_impl.dimensions_multiply,
    ← intmax_expand_eq _ (fun x hx => (hz.1 x hx).valid), unit_impl.dimensions_multiply,
    List.map_map]
  rfl

theorem intmax_unit_multiply_eq (u1 u2 u : unit) (h1 : u1.valid) (h2 : u2.valid)
    (h : unit_multiply u1 u2 = .ok u) :
    intmax.unit_multiply u1 u2 = if u.representable then .ok u else .error .overflow := by
  have hs : unit_impl.have_same_system u1 u2 = true := by
    by_contra hne
    simp [unit_multiply, hne] at h
  have hsys := (have_same_system_iff u1 u2).1 hs
  have hlen := unit_valid_same_length u1 u2 h1 h2 hsys
  rw [unit_multiply_ok u1 u2 hsys hlen] at h
  injection h with h
  subst h
  rw [intmax.unit_multiply, if_pos hs, intmax_dimensions_add_eq _ _ h1.2.1 h2.2.1 hlen,
    intmax_ratio_add_eq _ _ h1.2.2.1 h2.2.2.1, intmax_ratio_add_eq _ _ h1.2.2.2.1 h2.2.2.2.1,
    intmax_ratio_multiply_eq _ _ h1.2.2.2.2 h2.2.2.2.2]
  by_cases hu : ({ system := u1.system
                   dimensions := List.zipWith ratio_add u1.dimensions u2.dimensions
                   pow_10 := ratio_add u1.pow_10 u2.pow_10
                   pow_pi := ratio_add u1.pow_pi u2.pow_pi
                   factor := ratio_multiply u1.factor u2.factor } : unit).representable
  · rw [if_pos hu]
    obtain ⟨hd, hp, hq, hf⟩ := hu
    simp only [if_pos hd, if_pos hp, if_pos hq, if_pos hf]
    rfl
  · rw [if_neg hu]
    by_cases hd : ∀ r ∈ List.zipWith ratio_add u1.dimensions u2.dimensions, r.representable
    · by_cases hp : (ratio_add u1.pow_10 u2.pow_10).representable
      · by_cases hq : (ratio_add u1.pow_pi u2.pow_pi).representable
        · by_cases hf : (ratio_multiply u1.factor u2.factor).representable
          · exact absurd ⟨hd, hp, hq, hf⟩ hu
          · simp only [if_pos hd, if_pos hp, if_pos hq, if_neg hf]
            rfl
        · simp only [if_pos hd, if_pos hp, if_neg hq]
          rfl
      · simp only [if_pos hd, if_neg hp]
        rfl
    · simp only [if_neg hd]
      rfl

theorem intmax_unit_multiply_error (u1 u2 : unit)
    (hs : unit_impl.have_same_system u1 u2 = false) :
    intmax.unit_multiply u1 u2 = .error .different_system := by
  simp [intmax.unit_multiply, hs]

theorem intmax_unit_divide_eq (u1 u2 u : unit) (h1 : u1.valid) (h2 : u2.valid)
    (h : unit_divide u1 u2 = .ok u) :
    intmax.unit_divide u1 u2 = if u.representable then .ok u else .error .overflow := by
  have hs : unit_impl.have_same_system u1 u2 = true := by
    by_contra hne
    simp [unit_divide, hne] at h
  have hsys := (have_same_system_iff u1 u2).1 hs
  have hlen := unit_valid_same_length u1 u2 h1 h2 hsys
  have hz : u2.factor.toRat ≠ 0 := by
    intro h0
    have hn : u2.factor.num = 0 := (u2.factor.num_eq_zero_iff).2 h0
    simp [unit_divide, hs, unit_impl.dimensions_subtract, hlen, ratio_divide, hn, bind,
      Except.bind] at h
  obtain ⟨q, hq, hqr, _⟩ := ratio_divide_spec u1.factor u2.factor h1.2.2.2.2 h2.2.2.2.2 hz
  rw [unit_divide_ok u1 u2 hsys hlen q hq] at h
  injection h with h
  subst h
  rw [intmax.unit_divide, if_pos hs, intmax_dimensions_subtract_eq _ _ h1.2.1 h2.2.1 hlen,
    intmax_ratio_subtract_eq _ _ h1.2.2.1 h2.2.2.1,
    intmax_ratio_subtract_eq _ _ h1.2.2.2.1 h2.2.2.2.1,
    intmax_ratio_divide_eq _ _ q hq hqr.valid]
  by_cases hu : ({ system := u1.system
                   dimensions := List.zipWith ratio_subtract u1.dimensions u2.dimensions
                   pow_10 := ratio_subtract u1.pow_10 u2.pow_10
                   pow_pi := ratio_subtract u1.pow_pi u2.pow_pi
                   factor := q } : unit).representable
  · rw [if_pos hu]
    obtain ⟨hd, hp, hq, hf⟩ := hu
    simp only [if_pos hd, if_pos hp, if_pos hq, if_pos hf]
    rfl
  · rw [if_neg hu]
    by_cases hd : ∀ r ∈ List.zipWith ratio_subtract u1.dimensions u2.dimensions,
        r.representable
    · by_cases hf : q.representable
      · by_cases hp : (ratio_subtract u1.pow_10 u2.pow_10).representable
        · by_cases hq : (ratio_subtract u1.pow_pi u2.pow_pi).representable
          · exact absurd ⟨hd, hp, hq, hf⟩ hu
          · simp only [if_pos hd, if_pos hp, if_neg hq, if_pos hf]
            rfl
        · simp only [if_pos hd, if_neg hp, if_pos hf]
          rfl
      · simp only [if_pos hd, if_neg hf]
        rfl
    · simp only [if_neg hd]
      rfl

theorem intmax_unit_divide_error (u1 u2 : unit)
    (hs : unit_impl.have_same_system u1 u2 = false) :
    intmax.unit_divide u1 u2 = .error .different_system := by
  simp [intmax.unit_divide, hs]

/-- Dividing by a unit whose factor is zero is rejected, whatever else overflows. -/
theorem intmax_unit_divide_zero (u1 u2 : unit) (hz : u2.factor.num = 0) :
    ∃ e, intmax.unit_divide u1 u2 = .error e := by
  unfold intmax.unit_divide
  by_cases hs : unit_impl.have_same_system u1 u2 = true
  · rw [if_pos hs]
    cases hd : intmax.unit_impl.dimensions_subtract u1.dimensions u2.dimensions with
    | error e => exact ⟨e, by simp [hd, bind, Except.bind]⟩
    | ok d =>
      refine ⟨.zero_denominator, ?_⟩
      simp [hd, bind, Except.bind, intmax.ratio_divide, ratio_divide, hz]
  · rw [if_neg hs]
    exact ⟨_, rfl⟩

theorem rescale_representable_iff (lhs rhs : unit) :
    intmax.unit_impl.rescale_impl.representable lhs rhs ↔
      (lhs = rhs ∨
        ((ratio_subtract rhs.pow_10 lhs.pow_10).representable ∧
         (ratio_subtract rhs.pow_pi lhs.pow_pi).representable ∧
         ∀ q, ratio_divide rhs.factor lhs.factor = .ok q → q.representable)) := by
  unfold intmax.unit_impl.rescale_impl.representable
  cases hd : ratio_divide rhs.factor lhs.factor with
  | error e => simp
  | ok q => simp

theorem intmax_rescale_value_eq {F : Type} [Field F] (M : cmath F) (lhs rhs : unit)
    (hl : lhs.valid) (hr : rhs.valid) (v : F) :
    intmax.unit_impl.rescale_value M lhs rhs v =
      if intmax.unit_impl.rescale_impl.representable lhs rhs
      then unit_impl.rescale_value M lhs rhs v else .error .overflow := by
  by_cases he : lhs = rhs
  · subst he
    have hrep : intmax.unit_impl.rescale_impl.representable lhs lhs := Or.inl rfl
    rw [if_pos hrep, unit_impl.rescale_value_self]
    simp [intmax.unit_impl.rescale_value, intmax.unit_impl.rescale_impl.pow_10,
      intmax.unit_impl.rescale_impl.pow_pi, intmax.unit_impl.rescale_impl.factor, bind,
      Except.bind, pure, Except.pure]
  · have hp := intmax_ratio_subtract_eq rhs.pow_10 lhs.pow_10 hr.2.2.1 hl.2.2.1
    have hq := intmax_ratio_subtract_eq rhs.pow_pi lhs.pow_pi hr.2.2.2.1 hl.2.2.2.1
    have key : intmax.unit_impl.rescale_impl.representable lhs rhs ↔
        ((ratio_subtract rhs.pow_10 lhs.pow_10).representable ∧
         (ratio_subtract rhs.pow_pi lhs.pow_pi).representable ∧
         ∀ q, ratio_divide rhs.factor lhs.factor = .ok q → q.representable) := by
      rw [rescale_representable_iff, or_iff_right he]
    have hdiv : ∀ q, ratio_divide rhs.factor lhs.factor = .ok q → q.valid := by
      intro q hd
      have hz : lhs.factor.toRat ≠ 0 := by
        intro h0
        rw [ratio_divide_zero _ _ h0] at hd
        cases hd
      obtain ⟨q2, hq2, hq2r, _⟩ := ratio_divide_spec rhs.factor lhs.factor hr.2.2.2.2
        hl.2.2.2.2 hz
      rw [hq2] at hd
      injection hd with hd
      subst hd
      exact hq2r.valid
    simp only [intmax.unit_impl.rescale_value, intmax.unit_impl.rescale_impl.pow_10,
      intmax.unit_impl.rescale_impl.pow_pi, intmax.unit_impl.rescale_impl.factor,
      unit_impl.rescale_value, unit_impl.rescale_impl.pow_10, unit_impl.rescale_impl.pow_pi,
      unit_impl.rescale_impl.factor, if_neg he, hp, hq]
    by_cases hrep : intmax.unit_impl.rescale_impl.representable lhs rhs
    · rw [if_pos hrep]
      obtain ⟨h1, h2, h3⟩ := key.1 hrep
      simp only [if_pos h1, if_pos h2]
      cases hd : ratio_divide rhs.factor lhs.factor with
      | error e =>
        rw [intmax_ratio_divide_error _ _ e hd]
        rfl
      | ok q =>
        rw [intmax_ratio_divide_eq _ _ q hd (hdiv q hd), if_pos (h3 q hd)]
        rfl
    · rw [if_neg hrep]
      by_cases h1 : (ratio_subtract rhs.pow_10 lhs.pow_10).representable
      · by_cases h2 : (ratio_subtract rhs.pow_pi lhs.pow_pi).representable
        · simp only [if_pos h1, if_pos h2]
          cases hd : ratio_divide rhs.factor lhs.factor with
          | error e =>
            exact absurd (key.2 ⟨h1, h2, fun q hq => by rw [hd] at hq; cases hq⟩) hrep
          | ok q =>
            have h3 : ¬ q.representable := fun h3 =>
              hrep (key.2 ⟨h1, h2, fun q2 hq2 => by
                rw [hd] at hq2
                injection hq2 with hq2
                subst hq2
                exact h3⟩)
            rw [intmax_ratio_divide_eq _ _ q hd (hdiv q hd), if_neg h3]
            rfl
        · simp only [if_pos h1, if_neg h2]
          rfl
      · simp only [if_neg h1]
        rfl

/-! ### Representable ratios -/

theorem ratio.type_representable (r : ratio) (hv : r.valid) (hr : r.representable) :
    r.type.representable := by
  have hD : r.D ≠ 0 := hv
  have hnum : r.num ∣ r.N := by
    rw [ratio.num_eq, ratio.toRat_eq_divInt]
    exact Rat.num_dvd r.N hD
  have hden : r.den ∣ r.D := by
    rw [ratio.den_eq r hv, ratio.toRat_eq_divInt]
    exact Rat.den_dvd r.N r.D
  have hdpos := r.den_pos hv
  have h1 : r.num.natAbs ≤ r.N.natAbs ∨ r.N = 0 := by
    by_cases h0 : r.N = 0
    · exact Or.inr h0
    · exact Or.inl (Nat.le_of_dvd (Int.natAbs_pos.2 h0) (Int.natAbs_dvd_natAbs.2 hnum))
  have h2 : r.den.natAbs ≤ r.D.natAbs :=
    Nat.le_of_dvd (Int.natAbs_pos.2 hD) (Int.natAbs_dvd_natAbs.2 hden)
  have h0 : r.N = 0 → r.num = 0 := by
    intro h
    rw [ratio.num_eq_zero_iff, ratio.toRat, h]
    simp
  obtain ⟨a1, a2, a3, a4⟩ := hr
  unfold INTMAX_MAX at a1 a2 a3 a4
  refine ⟨?_, ?_, ?_, ?_⟩ <;> unfold INTMAX_MAX <;> show _ ≤ _
  · show -(2 ^ 63 - 1) ≤ r.num
    rcases h1 with h1 | h1
    · omega
    · rw [h0 h1]; decide
  · show r.num ≤ 2 ^ 63 - 1
    rcases h1 with h1 | h1
    · omega
    · rw [h0 h1]; decide
  · show -(2 ^ 63 - 1) ≤ r.den
    omega
  · show r.den ≤ 2 ^ 63 - 1
    omega

theorem ratio.representable_neg (r : ratio) (hr : r.representable) :
    (⟨-r.N, r.D⟩ : ratio).representable := by
  obtain ⟨a1, a2, a3, a4⟩ := hr
  exact ⟨by show -INTMAX_MAX ≤ -r.N; omega, by show -r.N ≤ INTMAX_MAX; omega, a3, a4⟩

theorem ratio.reduced_neg (r : ratio) (hr : r.reduced) : (⟨-r.N, r.D⟩ : ratio).reduced :=
  ⟨hr.1, by show Int.gcd (-r.N) r.D = 1; rw [Int.neg_gcd]; exact hr.2⟩

/-- The difference taken the other way round has the negated numerator, so that it is in
range when the difference is. -/
theorem ratio_subtract_swap (a b : ratio) (ha : a.valid) (hb : b.valid) :
    ratio_subtract b a = ⟨-(ratio_subtract a b).N, (ratio_subtract a b).D⟩ := by
  have h1 := ratio_subtract_reduced a b ha hb
  have h2 := ratio_subtract_reduced b a hb ha
  have h4 : (⟨-(ratio_subtract a b).N, (ratio_subtract a b).D⟩ : ratio).toRat =
      -(ratio_subtract a b).toRat := by
    simp [ratio.toRat, neg_div]
  rw [ratio.reduced.eq_iff h2 (ratio.reduced_neg _ h1), ratio_subtract_toRat _ _ hb ha, h4,
    ratio_subtract_toRat a b ha hb]
  ring

theorem ratio_subtract_swap_representable (a b : ratio) (ha : a.valid) (hb : b.valid)
    (h : (ratio_subtract a b).representable) : (ratio_subtract b a).representable := by
  rw [ratio_subtract_swap a b ha hb]
  exact ratio.representable_neg _ h

/-- The reciprocal of a ratio in lowest terms is in range when the ratio is. -/
theorem ratio.representable_of_inverse (q p : ratio) (hq : q.reduced) (hp : p.reduced)
    (h : p.toRat * q.toRat = 1) (hr : q.representable) : p.representable := by
  have hq0 : q.toRat ≠ 0 := fun h0 => by rw [h0, mul_zero] at h; exact zero_ne_one h
  have hN : q.N ≠ 0 := fun h0 => hq0 ((q.toRat_eq_zero_iff hq.valid).2 h0)
  have hDq : (q.D : ℚ) ≠ 0 := by exact_mod_cast hq.valid
  have hNq : (q.N : ℚ) ≠ 0 := by exact_mod_cast hN
  have hpv : p.toRat = (q.D : ℚ) / (q.N : ℚ) := by
    have : p.toRat = 1 / q.toRat := by
      field_simp
      exact h
    rw [this, ratio.toRat]
    field_simp
  obtain ⟨a1, a2, a3, a4⟩ := hr
  have hD := hq.1
  rcases lt_or_gt_of_ne hN with hneg | hpos
  · have hc : (⟨-q.D, -q.N⟩ : ratio).reduced := by
      refine ⟨by show 0 < -q.N; omega, ?_⟩
      show Int.gcd (-q.D) (-q.N) = 1
      rw [Int.neg_gcd, Int.gcd_neg, Int.gcd_comm]
      exact hq.2
    have he : p = ⟨-q.D, -q.N⟩ := by
      rw [ratio.reduced.eq_iff hp hc, hpv, ratio.toRat]
      show _ = (((-q.D : Int)) : ℚ) / (((-q.N : Int)) : ℚ)
      push_cast
      rw [neg_div_neg_eq]
    rw [he]
    exact ⟨by show -INTMAX_MAX ≤ -q.D; omega, by show -q.D ≤ INTMAX_MAX; omega,
      by show -INTMAX_MAX ≤ -q.N; omega, by show -q.N ≤ INTMAX_MAX; omega⟩
  · have hc : (⟨q.D, q.N⟩ : ratio).reduced := by
      refine ⟨hpos, ?_⟩
      show Int.gcd q.D q.N = 1
      rw [Int.gcd_comm]
      exact hq.2
    have he : p = ⟨q.D, q.N⟩ := by
      rw [ratio.reduced.eq_iff hp hc, hpv, ratio.toRat]
    rw [he]
    exact ⟨a3, a4, a1, a2⟩

theorem ratio_subtract_zero (r : ratio) (hr : r.valid) : ratio_subtract r ⟨0, 1⟩ = r.type := by
  have h0 : (⟨0, 1⟩ : ratio).valid := by decide
  rw [ratio.reduced.eq_iff (ratio_subtract_reduced _ _ hr h0) (r.type_reduced hr),
    ratio_subtract_toRat _ _ hr h0, r.type_toRat hr]
  norm_num [ratio.toRat]

theorem ratio_divide_one (r : ratio) (hr : r.valid) : ratio_divide r ⟨1, 1⟩ = .ok r.type := by
  have h1 : (⟨1, 1⟩ : ratio).valid := by decide
  have hz : (⟨1, 1⟩ : ratio).toRat ≠ 0 := by norm_num [ratio.toRat]
  obtain ⟨q, hq, hqr, hqv⟩ := ratio_divide_spec r ⟨1, 1⟩ hr h1 hz
  rw [hq]
  congr 1
  rw [ratio.reduced.eq_iff hqr (r.type_reduced hr), hqv, r.type_toRat hr]
  norm_num [ratio.toRat]

/-- The conversion of a unit whose arguments are in range to the unscaled unit of its
system and dimensions has its three ratios in range. -/
theorem rescale_to_unscaled_representable (u : unit) (hv : u.valid) (hr : u.representable) :
    intmax.unit_impl.rescale_impl.representable u.unscaled u := by
  rw [rescale_representable_iff]
  right
  refine ⟨?_, ?_, ?_⟩
  · show (ratio_subtract u.pow_10 ⟨0, 1⟩).representable
    rw [ratio_subtract_zero _ hv.2.2.1]
    exact ratio.type_representable _ hv.2.2.1 hr.2.1
  · show (ratio_subtract u.pow_pi ⟨0, 1⟩).representable
    rw [ratio_subtract_zero _ hv.2.2.2.1]
    exact ratio.type_representable _ hv.2.2.2.1 hr.2.2.1
  · intro q hq
    have hq2 : ratio_divide u.factor ⟨1, 1⟩ = .ok q := hq
    rw [ratio_divide_one _ hv.2.2.2.2] at hq2
    injection hq2 with hq2
    rw [← hq2]
    exact ratio.type_representable _ hv.2.2.2.2 hr.2.2.2

/-- For units with nonzero factors the conversion in one direction has its ratios in range
when the conversion in the other direction has. -/
theorem rescale_representable_symm (u1 u2 : unit) (h1 : u1.valid) (h2 : u2.valid)
    (hz1 : u1.factor.toRat ≠ 0) (hz2 : u2.factor.toRat ≠ 0)
    (h : intmax.unit_impl.rescale_impl.representable u2 u1) :
    intmax.unit_impl.rescale_impl.representable u1 u2 := by
  rw [rescale_representable_iff] at h ⊢
  rcases h with h | ⟨hp, hq, hf⟩
  · exact Or.inl h.symm
  · right
    refine ⟨ratio_subtract_swap_representable _ _ h1.2.2.1 h2.2.2.1 hp,
      ratio_subtract_swap_representable _ _ h1.2.2.2.1 h2.2.2.2.1 hq, ?_⟩
    obtain ⟨q, hq1, hqr, hqv⟩ := ratio_divide_spec u1.factor u2.factor h1.2.2.2.2 h2.2.2.2.2 hz2
    obtain ⟨p, hp1, hpr, hpv⟩ := ratio_divide_spec u2.factor u1.factor h2.2.2.2.2 h1.2.2.2.2 hz1
    intro p2 hp2
    rw [hp1] at hp2
    injection hp2 with hp2
    subst hp2
    refine ratio.representable_of_inverse q p hqr hpr ?_ (hf q hq1)
    rw [hpv, hqv]
    field_simp

/-! ### Quantities in the range of `std::intmax_t` -/

theorem intmax_from_quantity_eq {F : Type} [Field F] (M : cmath F) (u : unit) (q : quantity F)
    (hu : u.valid) (hq : q.unit.valid)
    (hrep : intmax.unit_impl.rescale_impl.representable u q.unit) :
    intmax.quantity.from_quantity M u q = quantity.from_quantity M u q := by
  rw [intmax.quantity.from_quantity, quantity.from_quantity,
    intmax_rescale_value_eq M u q.unit hu hq, if_pos hrep]

theorem intmax_from_quantity_overflow {F : Type} [Field F] (M : cmath F) (u : unit)
    (q : quantity F) (hu : u.valid) (hq : q.unit.valid)
    (hc : q.unit.system = u.system ∧ q.unit.dimensions = u.dimensions)
    (hrep : ¬ intmax.unit_impl.rescale_impl.representable u q.unit) :
    intmax.quantity.from_quantity M u q = .error .overflow := by
  rw [intmax.quantity.from_quantity, if_pos hc, intmax_rescale_value_eq M u q.unit hu hq,
    if_neg hrep]
  rfl

theorem intmax_implicit_eq {F : Type} [Field F] (M : cmath F) (u : unit) (b : quantity F)
    (hu : u.valid) (hb : b.unit.valid)
    (hrep : intmax.unit_impl.rescale_impl.representable u b.unit) :
    intmax.quantity.implicit M u b = quantity.implicit M u b := by
  rw [intmax.quantity.implicit, quantity.implicit, intmax_from_quantity_eq M u b hu hb hrep]

theorem intmax_implicit_overflow {F : Type} [Field F] (M : cmath F) (u : unit)
    (b : quantity F) (hu : u.valid) (hb : b.unit.valid)
    (hc : b.unit.system = u.system ∧ b.unit.dimensions = u.dimensions)
    (hrep : ¬ intmax.unit_impl.rescale_impl.representable u b.unit) :
    intmax.quantity.implicit M u b = .error .overflow := by
  have hne : ¬ b.unit = u := fun h => hrep (Or.inl h.symm)
  rw [intmax.quantity.implicit, if_neg hne, intmax_from_quantity_overflow M u b hu hb hc hrep]

theorem intmax_add_expr_eq {F : Type} [Field F] (M : cmath F) (a b : quantity F)
    (ha : a.unit.valid) (hb : b.unit.valid)
    (hrep : intmax.unit_impl.rescale_impl.representable a.unit b.unit) :
    intmax.quantity.add_expr M a b = quantity.add_expr M a b ∧
    intmax.quantity.sub_expr M a b = quantity.sub_expr M a b := by
  rw [intmax.quantity.add_expr, intmax.quantity.sub_expr, quantity.add_expr, quantity.sub_expr,
    intmax_implicit_eq M a.unit b ha hb hrep]
  exact ⟨rfl, rfl⟩

theorem intmax_add_expr_overflow {F : Type} [Field F] (M : cmath F) (a b : quantity F)
    (ha : a.unit.valid) (hb : b.unit.valid)
    (hc : b.unit.system = a.unit.system ∧ b.unit.dimensions = a.unit.dimensions)
    (hrep : ¬ intmax.unit_impl.rescale_impl.representable a.unit b.unit) :
    intmax.quantity.add_expr M a b = .error .overflow ∧
    intmax.quantity.sub_expr M a b = .error .overflow := by
  rw [intmax.quantity.add_expr, intmax.quantity.sub_expr,
    intmax_implicit_overflow M a.unit b ha hb hc hrep]
  exact ⟨rfl, rfl⟩

theorem intmax_value_eq {F : Type} [Field F] (M : cmath F) (q : quantity F)
    (hv : q.unit.valid) (hr : q.unit.representable) :
    intmax.quantity.value M q = quantity.value M q := by
  rw [intmax.quantity.value, quantity.value,
    intmax_from_quantity_eq M q.unit.unscaled q (unscaled_valid _ hv) hv
      (rescale_to_unscaled_representable _ hv hr)]

theorem intmax_value_in_eq {F : Type} [Field F] (M : cmath F) (q : quantity F) (u : unit)
    (hq : q.unit.valid) (hu : u.valid) (hur : u.representable)
    (hrep : intmax.unit_impl.rescale_impl.representable u q.unit) :
    intmax.quantity.value_in M q u = quantity.value_in M q u := by
  rw [intmax.quantity.value_in, quantity.value_in, intmax_from_quantity_eq M u q hu hq hrep]
  by_cases hc : unit_impl.are_compatible q.unit u = true
  · rw [if_pos hc, if_pos hc]
    cases hf : quantity.from_quantity M u q with
    | error e => rfl
    | ok w =>
      have hwu : w.unit = u := by
        unfold quantity.from_quantity at hf
        split at hf
        · cases hr : unit_impl.rescale_value M u q.unit q.raw_value with
          | error e => rw [hr] at hf; cases hf
          | ok x =>
            rw [hr] at hf
            injection hf with hf
            rw [← hf]
        · cases hf
      show intmax.quantity.value M w = quantity.value M w
      exact intmax_value_eq M w (hwu ▸ hu) (hwu ▸ hur)
  · rw [if_neg hc, if_neg hc]

theorem intmax_mul_eq {F : Type} [Field F] (a b : quantity F) (u : unit)
    (ha : a.unit.valid) (hb : b.unit.valid) (h : unit_multiply a.unit b.unit = .ok u) :
    intmax.quantity.mul a b =
      if u.representable then .ok ⟨u, a.raw_value * b.raw_value⟩ else .error .overflow := by
  rw [intmax.quantity.mul, intmax_unit_multiply_eq _ _ u ha hb h]
  split <;> rfl

theorem intmax_div_eq {F : Type} [Field F] (a b : quantity F) (u : unit)
    (ha : a.unit.valid) (hb : b.unit.valid) (h : unit_divide a.unit b.unit = .ok u) :
    intmax.quantity.div a b =
      if u.representable then .ok ⟨u, a.raw_value / b.raw_value⟩ else .error .overflow := by
  rw [intmax.quantity.div, intmax_unit_divide_eq _ _ u ha hb h]
  split <;> rfl

/-! ### `ipow` and `iroot` in the range of `std::intmax_t` -/

theorem intmax_constant_ok (x : Int) (h : intmax_fits x) : intmax.constant x = .ok x := by
  rw [intmax.constant, if_pos h]

theorem intmax_constant_overflow (x : Int) (h : ¬ intmax_fits x) :
    intmax.constant x = .error .overflow := by
  rw [intmax.constant, if_neg h]

theorem intmax_recursive_pow_ok (x : Int) :
    ∀ N : Nat, (∀ k, k ≤ N → intmax_fits (x ^ k)) →
      intmax.pow_impl.recursive_pow x N = .ok (x ^ N)
  | 0, _ => by rw [intmax.pow_impl.recursive_pow, pow_zero]
  | N + 1, h => by
    rw [intmax.pow_impl.recursive_pow,
      intmax_recursive_pow_ok x N (fun k hk => h k (Nat.le_succ_of_le hk))]
    show intmax.constant (x * x ^ N) = _
    rw [← pow_succ']
    exact intmax_constant_ok _ (h (N + 1) (le_refl _))

theorem intmax_recursive_pow_overflow (x : Int) :
    ∀ N : Nat, (¬ ∀ k, k ≤ N → intmax_fits (x ^ k)) →
      intmax.pow_impl.recursive_pow x N = .error .overflow
  | 0, h => by
    exfalso
    apply h
    intro k hk
    have : k = 0 := by omega
    rw [this, pow_zero]
    decide
  | N + 1, h => by
    rw [intmax.pow_impl.recursive_pow]
    by_cases hN : ∀ k, k ≤ N → intmax_fits (x ^ k)
    · rw [intmax_recursive_pow_ok x N hN]
      show intmax.constant (x * x ^ N) = _
      rw [← pow_succ']
      apply intmax_constant_overflow
      intro hfit
      apply h
      intro k hk
      rcases Nat.lt_or_ge k (N + 1) with hlt | hge
      · exact hN k (by omega)
      · have : k = N + 1 := by omega
        rw [this]
        exact hfit
    · rw [intmax_recursive_pow_overflow x N hN]
      rfl

/-- A power in the symmetric range has all the smaller powers in the range. -/
theorem pow_fits_of_representable (x : Int) (N : Nat)
    (h : -INTMAX_MAX ≤ x ^ N ∧ x ^ N ≤ INTMAX_MAX) : ∀ k, k ≤ N → intmax_fits (x ^ k) := by
  intro k hk
  unfold INTMAX_MAX at h
  unfold intmax_fits
  by_cases h0 : x = 0
  · subst h0
    rcases Nat.eq_zero_or_pos k with hk0 | hk0
    · rw [hk0, pow_zero]; decide
    · rw [zero_pow (by omega)]; decide
  · have hx : 1 ≤ x.natAbs := Int.natAbs_pos.2 h0
    have hle : x.natAbs ^ k ≤ x.natAbs ^ N := Nat.pow_le_pow_right hx hk
    rw [← Int.natAbs_pow, ← Int.natAbs_pow] at hle
    omega

theorem intmax_ipow_ok (N : Nat) (n : Int) (hN : (N : Int) ≤ INTMAX_MAX)
    (h : ∀ k, k ≤ N → intmax_fits (n ^ k)) : intmax.ipow N n = .ok (n ^ N) := by
  rw [intmax.ipow, if_pos hN, intmax_recursive_pow_ok n N h]

theorem intmax_ipow_overflow (N : Nat) (n : Int) (hN : (N : Int) ≤ INTMAX_MAX)
    (h : ¬ ∀ k, k ≤ N → intmax_fits (n ^ k)) : intmax.ipow N n = .error .overflow := by
  rw [intmax.ipow, if_pos hN, intmax_recursive_pow_overflow n N h]

theorem ratio.instantiate_ok (r f : ratio) (h : r.instantiate = .ok f) :
    f = r ∧ r.valid ∧ r.representable := by
  unfold ratio.instantiate at h
  by_cases hD : r.D = 0
  · rw [if_pos hD] at h
    cases h
  · rw [if_neg hD] at h
    by_cases hr : r.representable
    · rw [if_pos hr] at h
      injection h with h
      exact ⟨h.symm, hD, hr⟩
    · rw [if_neg hr] at h
      cases h

theorem intmax_ratio_pow_ok (r1 r2 f : ratio) (h : intmax.ratio_pow r1 r2 = .ok f) :
    f.valid ∧ f.representable := by
  unfold intmax.ratio_pow at h
  cases ha : (if r2.num > 0 then intmax.ipow_ratio (ratio_abs r2) r1.num
      else intmax.ipow_ratio (ratio_abs r2) r1.den) with
  | error e =>
    rw [ha] at h
    cases h
  | ok a =>
    rw [ha] at h
    cases hb : (if r2.num > 0 then intmax.ipow_ratio (ratio_abs r2) r1.den
        else intmax.ipow_ratio (ratio_abs r2) r1.num) with
    | error e =>
      rw [hb] at h
      cases h
    | ok b =>
      rw [hb] at h
      have h2 : (⟨a, b⟩ : ratio).instantiate = .ok f := h
      obtain ⟨he, hv, hr⟩ := ratio.instantiate_ok _ _ h2
      rw [he]
      exact ⟨hv, hr⟩

theorem intmax_unit_pow_eq (u : unit) (r f : ratio) (hu : u.valid) (hr : r.valid)
    (hf : intmax.ratio_pow u.factor r = .ok f) :
    intmax.unit_pow u r =
      if ({ system := u.system
            dimensions := unit_impl.dimensions_multiply u.dimensions r
            pow_10 := ratio_multiply u.pow_10 r
            pow_pi := ratio_multiply u.pow_pi r
            factor := f } : unit).representable
      then .ok { system := u.system
                 dimensions := unit_impl.dimensions_multiply u.dimensions r
                 pow_10 := ratio_multiply u.pow_10 r
                 pow_pi := ratio_multiply u.pow_pi r
                 factor := f }
      else .error .overflow := by
  have hfr := (intmax_ratio_pow_ok _ _ _ hf).2
  rw [intmax.unit_pow, hf, intmax_dimensions_multiply_eq _ _ hu.2.1 hr,
    intmax_ratio_multiply_eq _ _ hu.2.2.1 hr, intmax_ratio_multiply_eq _ _ hu.2.2.2.1 hr]
  by_cases hrep : ({ system := u.system
                     dimensions := unit_impl.dimensions_multiply u.dimensions r
                     pow_10 := ratio_multiply u.pow_10 r
                     pow_pi := ratio_multiply u.pow_pi r
                     factor := f } : unit).representable
  · rw [if_pos hrep]
    obtain ⟨hd, hp, hq, _⟩ := hrep
    show (Except.ok f).bind _ = _
    simp only [if_pos hd, if_pos hp, if_pos hq]
    rfl
  · rw [if_neg hrep]
    show (Except.ok f).bind _ = _
    by_cases hd : ∀ x ∈ unit_impl.dimensions_multiply u.dimensions r, x.representable
    · by_cases hp : (ratio_multiply u.pow_10 r).representable
      · by_cases hq : (ratio_multiply u.pow_pi r).representable
        · exact absurd ⟨hd, hp, hq, hfr⟩ hrep
        · simp only [if_pos hd, if_pos hp, if_neg hq]
          rfl
      · simp only [if_pos hd, if_neg hp]
        rfl
    · simp only [if_neg hd]
      rfl

theorem intmax_unit_pow_error (u : unit) (r : ratio) (e : build_error)
    (hf : intmax.ratio_pow u.factor r = .error e) : intmax.unit_pow u r = .error e := by
  rw [intmax.unit_pow, hf]
  rfl

theorem intmax_ipow_ratio_nat (N : Nat) (n : Int) :
    intmax.ipow_ratio ⟨(N : Int), 1⟩ n = intmax.ipow N n := by
  have hr := ratio_of_nat_reduced N
  have h0 : (⟨(N : Int), 1⟩ : ratio).num ≥ 0 := by rw [hr.num_self]; show (0 : Int) ≤ N; omega
  rw [intmax.ipow_ratio, if_pos h0, hr.num_self, hr.den_self]
  show (intmax.iroot 1 n).bind (intmax.ipow (N : Int).toNat) = _
  rw [intmax.iroot, if_pos rfl, Int.toNat_ofNat]
  rfl

/-- The alias `ratio_pow<F, std::ratio<N>>` for `0 <= N <= INTMAX_MAX` in the range of
`std::intmax_t`: `std::ratio<F::num^N, F::den^N>` when these powers are representable, and
rejected otherwise. -/
theorem intmax_ratio_pow_nat (f : ratio) (hf : f.valid) (N : Nat) (hN : (N : Int) ≤ INTMAX_MAX) :
    intmax.ratio_pow f ⟨(N : Int), 1⟩ =
      if (⟨f.num ^ N, f.den ^ N⟩ : ratio).representable
      then .ok ⟨f.num ^ N, f.den ^ N⟩ else .error .overflow := by
  have hden : 1 ≤ f.den := f.den_pos hf
  have hdN : f.den ^ N ≠ 0 := by
    have := one_le_pow₀ (n := N) hden
    omega
  have hn2 : (⟨(N : Int), 1⟩ : ratio).num = N := (ratio_of_nat_reduced N).num_self
  have hinst : (⟨f.num ^ N, f.den ^ N⟩ : ratio).instantiate =
      if (⟨f.num ^ N, f.den ^ N⟩ : ratio).representable
      then .ok ⟨f.num ^ N, f.den ^ N⟩ else .error .overflow :=
    ratio.instantiate_of_valid _ hdN
  have hcomm : intmax.ratio_pow f ⟨(N : Int), 1⟩ =
      (intmax.ipow N f.num).bind (fun a => (intmax.ipow N f.den).bind (fun b =>
        (⟨a, b⟩ : ratio).instantiate)) := by
    by_cases hs : (N : Int) > 0
    · simp only [intmax.ratio_pow, hn2, if_pos hs, ratio_abs_of_nat, intmax_ipow_ratio_nat]
    · have h0 : N = 0 := by omega
      subst h0
      have hs0 : ¬ ((⟨((0 : Nat) : Int), 1⟩ : ratio).num > 0) := by rw [hn2]; exact hs
      have hi : ∀ x : Int, intmax.ipow 0 x = .ok 1 := fun x => by
        rw [intmax.ipow, if_pos hN]
        rfl
      simp only [intmax.ratio_pow, if_neg hs0, ratio_abs_of_nat, intmax_ipow_ratio_nat, hi]
  rw [hcomm]
  by_cases hA : ∀ k, k ≤ N → intmax_fits (f.num ^ k)
  · rw [intmax_ipow_ok N _ hN hA]
    show (intmax.ipow N f.den).bind _ = _
    by_cases hB : ∀ k, k ≤ N → intmax_fits (f.den ^ k)
    · rw [intmax_ipow_ok N _ hN hB]
      exact hinst
    · rw [intmax_ipow_overflow N _ hN hB]
      have hrep : ¬ (⟨f.num ^ N, f.den ^ N⟩ : ratio).representable := fun h =>
        hB (pow_fits_of_representable _ _ ⟨h.2.2.1, h.2.2.2⟩)
      rw [if_neg hrep]
      rfl
  · rw [intmax_ipow_overflow N _ hN hA]
    have hrep : ¬ (⟨f.num ^ N, f.den ^ N⟩ : ratio).representable := fun h =>
      hA (pow_fits_of_representable _ _ ⟨h.1, h.2.1⟩)
    rw [if_neg hrep]
    rfl

/-- The alias `unit_pow<Unit, std::ratio<N>>` for `0 <= N <= INTMAX_MAX` in the range of
`std::intmax_t` is the unit computed in unbounded integers when its arguments are
representable, and is rejected otherwise. -/
theorem intmax_unit_pow_nat_eq (u : unit) (hu : u.valid) (N : Nat)
    (hN : (N : Int) ≤ INTMAX_MAX) (p : unit) (hp : unit_pow u ⟨(N : Int), 1⟩ = .ok p) :
    intmax.unit_pow u ⟨(N : Int), 1⟩ =
      if p.representable then .ok p else .error .overflow := by
  have hr : (⟨(N : Int), 1⟩ : ratio).valid := (ratio_of_nat_reduced N).valid
  rw [unit_pow_ok u _ _ (ratio_pow_nat u.factor hu.2.2.2.2 N).1] at hp
  injection hp with hp
  subst hp
  have hrp := intmax_ratio_pow_nat u.factor hu.2.2.2.2 N hN
  by_cases hrep : (⟨u.factor.num ^ N, u.factor.den ^ N⟩ : ratio).representable
  · rw [if_pos hrep] at hrp
    exact intmax_unit_pow_eq u _ _ hu hr hrp
  · rw [if_neg hrep] at hrp
    rw [intmax_unit_pow_error u _ _ hrp, if_neg (fun h => hrep h.2.2.2)]

/-! ### The search of `iroot` out of the range of `std::intmax_t` -/

/-- More calls compute the same integers and possibly more. -/
theorem iroot_impl.evaluated_mono (N : Nat) (n : Int) :
    ∀ (fuel : Nat) (left right x : Int), x ∈ iroot_impl.evaluated N n fuel left right →
      ∀ more : Nat, x ∈ iroot_impl.evaluated N n (fuel + more) left right
  | 0, _, _, _, h, _ => by simp [iroot_impl.evaluated] at h
  | fuel + 1, left, right, x, h, more => by
    rw [show fuel + 1 + more = (fuel + more) + 1 by omega, iroot_impl.evaluated]
    rw [iroot_impl.evaluated] at h
    by_cases heq : left = right
    · rw [if_pos heq] at h
      simp at h
    · rw [if_neg heq] at h ⊢
      rw [List.mem_append] at h ⊢
      rcases h with h | h
      · exact Or.inl h
      · exact Or.inr (iroot_impl.evaluated_mono N n fuel _ _ x h more)

/-- C1 (amended): for two well-formed units of the same system, let `u` be the unit with
the system of the first, the elementwise sum of the dimension vectors, the sum of the
`pow_10`, the sum of the `pow_pi` and the product of the factors, each an exact rational in
lowest terms.  When the numerators and denominators of `u` are representable by
`std::intmax_t`, `unit_multiply` is well-formed and is `u`; otherwise `unit_multiply` is
rejected (overflow in `<ratio>`) and yields no unit. -/
theorem unit_multiply_in_range (u1 u2 : unit) (h1 : u1.valid) (h2 : u2.valid)
    (hs : unit_impl.have_same_system u1 u2 = true) :
    ∃ u, unit_multiply u1 u2 = .ok u ∧
      intmax.unit_multiply u1 u2 = (if u.representable then .ok u else .error .overflow) ∧
      u.valid ∧ u.system = u1.system ∧
      (∀ d ∈ u.dimensions, d.reduced) ∧
      u.dimensions.map ratio.toRat =
        List.zipWith (· + ·) (u1.dimensions.map ratio.toRat) (u2.dimensions.map ratio.toRat) ∧
      u.dimensions.length = u1.dimensions.length ∧
      u.pow_10.reduced ∧ u.pow_10.toRat = u1.pow_10.toRat + u2.pow_10.toRat ∧
      u.pow_pi.reduced ∧ u.pow_pi.toRat = u1.pow_pi.toRat + u2.pow_pi.toRat ∧
      u.factor.reduced ∧ u.factor.toRat = u1.factor.toRat * u2.factor.toRat := by
  obtain ⟨u, hu, hrest⟩ := unit_multiply_spec u1 u2 h1 h2 hs
  exact ⟨u, hu, intmax_unit_multiply_eq u1 u2 u h1 h2 hu, hrest⟩

/-- The witness of C1 (amended) in `test_unit.cc`: `u1_type` times `u3_type` is the unit of
dimensions (2, 2, 0) with `pow_10` 2, `pow_pi` 2 and factor 2/3. -/
theorem unit_multiply_in_range_witness :
    test_unit.u1_type.valid ∧ test_unit.u3_type.valid ∧
    unit_impl.have_same_system test_unit.u1_type test_unit.u3_type = true ∧
    intmax.unit_multiply test_unit.u1_type test_unit.u3_type =
      .ok ⟨test_unit.sys1_type, [⟨2, 1⟩, ⟨2, 1⟩, ⟨0, 1⟩], ⟨2, 1⟩, ⟨2, 1⟩, ⟨2, 3⟩⟩ := by
  obtain ⟨u, hu, hi, _⟩ := unit_multiply_in_range test_unit.u1_type test_unit.u3_type
    (by decide) (by decide) (by decide)
  have hu2 : unit_multiply test_unit.u1_type test_unit.u3_type =
      .ok ⟨test_unit.sys1_type, [⟨2, 1⟩, ⟨2, 1⟩, ⟨0, 1⟩], ⟨2, 1⟩, ⟨2, 1⟩, ⟨2, 3⟩⟩ := by decide
  rw [hu2] at hu
  injection hu with hu
  subst hu
  rw [if_pos (by decide)] at hi
  exact ⟨by decide, by decide, by decide, hi⟩

/-- C1 as stated fails: the unit of `mm_type` with the factor `std::ratio<4294967296>` is a
well-formed unit whose arguments are in range, and `unit_multiply` of it with itself asks
for the factor 2^64, which `<ratio>` rejects, so that no unit results. -/
theorem unit_multiply_overflow :
    ({ test_unit.u2_type with factor := ⟨4294967296, 1⟩ } : unit).valid ∧
    ({ test_unit.u2_type with factor := ⟨4294967296, 1⟩ } : unit).representable ∧
    unit_impl.have_same_system { test_unit.u2_type with factor := ⟨4294967296, 1⟩ }
      { test_unit.u2_type with factor := ⟨4294967296, 1⟩ } = true ∧
    intmax.unit_multiply { test_unit.u2_type with factor := ⟨4294967296, 1⟩ }
      { test_unit.u2_type with factor := ⟨4294967296, 1⟩ } = .error .overflow ∧
    ¬ ∃ u, intmax.unit_multiply { test_unit.u2_type with factor := ⟨4294967296, 1⟩ }
      { test_unit.u2_type with factor := ⟨4294967296, 1⟩ } = .ok u := by
  have h : intmax.unit_multiply { test_unit.u2_type with factor := ⟨4294967296, 1⟩ }
      { test_unit.u2_type with factor := ⟨4294967296, 1⟩ } = .error .overflow := by decide
  refine ⟨by decide, by decide, by decide, h, ?_⟩
  rintro ⟨u, hu⟩
  rw [h] at hu
  cases hu

/-- C2 (amended): for two well-formed units of the same system whose divisor has a nonzero
factor, let `u` be the unit with the system of the first, the elementwise difference of
the dimension vectors, the difference of the `pow_10`, the difference of the `pow_pi` and
the quotient of the factors, each an exact rational in lowest terms.  When the numerators
and denominators of `u` are representable by `std::intmax_t`, `unit_divide` is
well-formed and is `u`; otherwise `unit_divide` is rejected (overflow in `<ratio>`); and
for a divisor with the factor zero `unit_divide` is rejected as well. -/
theorem unit_divide_in_range (u1 u2 : unit) (h1 : u1.valid) (h2 : u2.valid)
    (hs : unit_impl.have_same_system u1 u2 = true) :
    (u2.factor.toRat ≠ 0 →
      ∃ u, unit_divide u1 u2 = .ok u ∧
        intmax.unit_divide u1 u2 = (if u.representable then .ok u else .error .overflow) ∧
        u.valid ∧ u.system = u1.system ∧
        (∀ d ∈ u.dimensions, d.reduced) ∧
        u.dimensions.map ratio.toRat =
          List.zipWith (· - ·) (u1.dimensions.map ratio.toRat)
            (u2.dimensions.map ratio.toRat) ∧
        u.dimensions.length = u1.dimensions.length ∧
        u.pow_10.reduced ∧ u.pow_10.toRat = u1.pow_10.toRat - u2.pow_10.toRat ∧
        u.pow_pi.reduced ∧ u.pow_pi.toRat = u1.pow_pi.toRat - u2.pow_pi.toRat ∧
        u.factor.reduced ∧ u.factor.toRat = u1.factor.toRat / u2.factor.toRat) ∧
    (u2.factor.toRat = 0 → ∃ e, intmax.unit_divide u1 u2 = .error e) := by
  constructor
  · intro hz
    obtain ⟨u, hu, hrest⟩ := unit_divide_spec u1 u2 h1 h2 hs hz
    exact ⟨u, hu, intmax_unit_divide_eq u1 u2 u h1 h2 hu, hrest⟩
  · intro hz
    exact intmax_unit_divide_zero u1 u2 ((u2.factor.num_eq_zero_iff).2 hz)

/-- The witness of C2 (amended) in `test_unit.cc`: `u1_type` divided by `u3_type` is the
unit of dimensions (0, -2, 0) with `pow_10` 0, `pow_pi` 0 and factor 3/8. -/
theorem unit_divide_in_range_witness :
    test_unit.u1_type.valid ∧ test_unit.u3_type.valid ∧
    unit_impl.have_same_system test_unit.u1_type test_unit.u3_type = true ∧
    test_unit.u3_type.factor.toRat ≠ 0 ∧
    intmax.unit_divide test_unit.u1_type test_unit.u3_type =
      .ok ⟨test_unit.sys1_type, [⟨0, 1⟩, ⟨-2, 1⟩, ⟨0, 1⟩], ⟨0, 1⟩, ⟨0, 1⟩, ⟨3, 8⟩⟩ := by
  have hz : test_unit.u3_type.factor.toRat ≠ 0 := by
    norm_num [test_unit.u3_type, ratio.toRat]
  obtain ⟨u, hu, hi, _⟩ := (unit_divide_in_range test_unit.u1_type test_unit.u3_type
    (by decide) (by decide) (by decide)).1 hz
  have hu2 : unit_divide test_unit.u1_type test_unit.u3_type =
      .ok ⟨test_unit.sys1_type, [⟨0, 1⟩, ⟨-2, 1⟩, ⟨0, 1⟩], ⟨0, 1⟩, ⟨0, 1⟩, ⟨3, 8⟩⟩ := by decide
  rw [hu2] at hu
  injection hu with hu
  subst hu
  rw [if_pos (by decide)] at hi
  exact ⟨by decide, by decide, by decide, hz, hi⟩

/-- C2 as stated fails twice: `unit_divide` by the well-formed unit with factor
`std::ratio<0>` is rejected (`std::ratio` with denominator zero), and `unit_divide` of the
unit with factor `std::ratio<4294967296>` by the unit with factor `std::ratio<1, 4294967296>`,
both well-formed with arguments in range and a nonzero factor, asks for the factor 2^64,
which `<ratio>` rejects; no unit results. -/
theorem unit_divide_zero_or_overflow :
    test_unit.u1_type.valid ∧ ({ test_unit.u2_type with factor := ⟨0, 1⟩ } : unit).valid ∧
    unit_impl.have_same_system test_unit.u1_type { test_unit.u2_type with factor := ⟨0, 1⟩ }
      = true ∧
    intmax.unit_divide test_unit.u1_type { test_unit.u2_type with factor := ⟨0, 1⟩ } =
      .error .zero_denominator ∧
    ({ test_unit.u2_type with factor := ⟨4294967296, 1⟩ } : unit).valid ∧
    ({ test_unit.u2_type with factor := ⟨1, 4294967296⟩ } : unit).valid ∧
    ({ test_unit.u2_type with factor := ⟨4294967296, 1⟩ } : unit).representable ∧
    ({ test_unit.u2_type with factor := ⟨1, 4294967296⟩ } : unit).representable ∧
    unit_impl.have_same_system { test_unit.u2_type with factor := ⟨4294967296, 1⟩ }
      { test_unit.u2_type with factor := ⟨1, 4294967296⟩ } = true ∧
    intmax.unit_divide { test_unit.u2_type with factor := ⟨4294967296, 1⟩ }
      { test_unit.u2_type with factor := ⟨1, 4294967296⟩ } = .error .overflow := by
  decide

/-- C4 (amended): `have_same_system` compares the systems only; for well-formed units
`unit_multiply` is defined exactly when the two units have the same system and the sums
of the exponents and the product of the factors, in lowest terms, are representable by
`std::intmax_t`; `unit_divide` exactly when they have the same system, the factor of the
divisor is not zero and the differences of the exponents and the quotient of the factors
are representable; for units of different systems both are rejected and yield no unit. -/
theorem unit_multiply_divide_in_range (u1 u2 : unit) (h1 : u1.valid) (h2 : u2.valid) :
    (unit_impl.have_same_system u1 u2 = true ↔ u1.system = u2.system) ∧
    ((∃ u, intmax.unit_multiply u1 u2 = .ok u) ↔
      (unit_impl.have_same_system u1 u2 = true ∧
        ∃ u, unit_multiply u1 u2 = .ok u ∧ u.representable)) ∧
    ((∃ u, intmax.unit_divide u1 u2 = .ok u) ↔
      (unit_impl.have_same_system u1 u2 = true ∧ u2.factor.toRat ≠ 0 ∧
        ∃ u, unit_divide u1 u2 = .ok u ∧ u.representable)) ∧
    (unit_impl.have_same_system u1 u2 = false →
      intmax.unit_multiply u1 u2 = .error .different_system ∧
      intmax.unit_divide u1 u2 = .error .different_system) := by
  refine ⟨have_same_system_iff u1 u2, ?_, ?_, fun hs =>
    ⟨intmax_unit_multiply_error u1 u2 hs, intmax_unit_divide_error u1 u2 hs⟩⟩
  · constructor
    · rintro ⟨u, hu⟩
      by_cases hs : unit_impl.have_same_system u1 u2 = true
      · obtain ⟨m, hm, _⟩ := unit_multiply_spec u1 u2 h1 h2 hs
        rw [intmax_unit_multiply_eq u1 u2 m h1 h2 hm] at hu
        by_cases hr : m.representable
        · exact ⟨hs, m, hm, hr⟩
        · rw [if_neg hr] at hu
          cases hu
      · rw [intmax_unit_multiply_error u1 u2 (by simpa using hs)] at hu
        cases hu
    · rintro ⟨_, m, hm, hr⟩
      exact ⟨m, by rw [intmax_unit_multiply_eq u1 u2 m h1 h2 hm, if_pos hr]⟩
  · constructor
    · rintro ⟨u, hu⟩
      by_cases hs : unit_impl.have_same_system u1 u2 = true
      · by_cases hz : u2.factor.toRat = 0
        · obtain ⟨e, he⟩ := intmax_unit_divide_zero u1 u2 ((u2.factor.num_eq_zero_iff).2 hz)
          rw [he] at hu
          cases hu
        · obtain ⟨m, hm, _⟩ := unit_divide_spec u1 u2 h1 h2 hs hz
          rw [intmax_unit_divide_eq u1 u2 m h1 h2 hm] at hu
          by_cases hr : m.representable
          · exact ⟨hs, hz, m, hm, hr⟩
          · rw [if_neg hr] at hu
            cases hu
      · rw [intmax_unit_divide_error u1 u2 (by simpa using hs)] at hu
        cases hu
    · rintro ⟨_, _, m, hm, hr⟩
      exact ⟨m, by rw [intmax_unit_divide_eq u1 u2 m h1 h2 hm, if_pos hr]⟩

/-- The witness of C4 (amended): `u1_type` and `u4_type` of `test_unit.cc` are units of
different systems, `u1_type` and `u3_type` of the same. -/
theorem unit_multiply_divide_in_range_witness :
    test_unit.u1_type.valid ∧ test_unit.u4_type.valid ∧ test_unit.u3_type.valid ∧
    unit_impl.have_same_system test_unit.u1_type test_unit.u4_type = false ∧
    intmax.unit_multiply test_unit.u1_type test_unit.u4_type = .error .different_system ∧
    intmax.unit_divide test_unit.u1_type test_unit.u4_type = .error .different_system ∧
    (∃ u, intmax.unit_multiply test_unit.u1_type test_unit.u3_type = .ok u) ∧
    (∃ u, intmax.unit_divide test_unit.u1_type test_unit.u3_type = .ok u) := by
  have h14 := unit_multiply_divide_in_range test_unit.u1_type test_unit.u4_type (by decide)
    (by decide)
  have h13 := unit_multiply_divide_in_range test_unit.u1_type test_unit.u3_type (by decide)
    (by decide)
  have hz : test_unit.u3_type.factor.toRat ≠ 0 := by
    norm_num [test_unit.u3_type, ratio.toRat]
  exact ⟨by decide, by decide, by decide, by decide, (h14.2.2.2 (by decide)).1,
    (h14.2.2.2 (by decide)).2,
    h13.2.1.2 ⟨by decide, _, (by decide : unit_multiply test_unit.u1_type test_unit.u3_type =
      .ok ⟨test_unit.sys1_type, [⟨2, 1⟩, ⟨2, 1⟩, ⟨0, 1⟩], ⟨2, 1⟩, ⟨2, 1⟩, ⟨2, 3⟩⟩), by decide⟩,
    h13.2.2.1.2 ⟨by decide, hz, _, (by decide : unit_divide test_unit.u1_type test_unit.u3_type =
      .ok ⟨test_unit.sys1_type, [⟨0, 1⟩, ⟨-2, 1⟩, ⟨0, 1⟩], ⟨0, 1⟩, ⟨0, 1⟩, ⟨3, 8⟩⟩), by decide⟩⟩

/-- C4 as stated fails: units of one system need not have a product or a quotient.
`u3_type` and the well-formed unit with the dimensions of `u1_type` and factor
`std::ratio<0, 5>` have the same system, yet `unit_divide` is rejected; and the well-formed
unit with factor `std::ratio<4294967296>` has the system of itself, yet `unit_multiply` of
it with itself is rejected, the factor 2^64 not being representable. -/
theorem unit_same_system_undefined :
    test_unit.u3_type.valid ∧ ({ test_unit.u1_type with factor := ⟨0, 5⟩ } : unit).valid ∧
    unit_impl.have_same_system test_unit.u3_type { test_unit.u1_type with factor := ⟨0, 5⟩ }
      = true ∧
    intmax.unit_divide test_unit.u3_type { test_unit.u1_type with factor := ⟨0, 5⟩ } =
      .error .zero_denominator ∧
    ({ test_unit.u2_type with factor := ⟨4294967296, 1⟩ } : unit).valid ∧
    unit_impl.have_same_system { test_unit.u2_type with factor := ⟨4294967296, 1⟩ }
      { test_unit.u2_type with factor := ⟨4294967296, 1⟩ } = true ∧
    intmax.unit_multiply { test_unit.u2_type with factor := ⟨4294967296, 1⟩ }
      { test_unit.u2_type with factor := ⟨4294967296, 1⟩ } = .error .overflow := by
  decide

/-- C10 (amended): for well-formed units of one system, with a nonzero factor of the
second, let `m` be the product unit and `u` the quotient of `m` by the second unit, in
unbounded integers.  The unit `u` has the system of `U1` and, as rational numbers, its
dimension exponents, `pow_10`, `pow_pi` and factor, and is the type `U1` itself when `U1`
is written in lowest terms.  When the numerators and denominators of `m` and of `u` are
representable by `std::intmax_t`, `unit_divide<unit_multiply<U1, U2>, U2>` is well-formed
and is `u`; otherwise it is rejected (overflow in `<ratio>`). -/
theorem unit_divide_multiply_in_range (u1 u2 : unit) (h1 : u1.valid) (h2 : u2.valid)
    (hs : unit_impl.have_same_system u1 u2 = true) (hz : u2.factor.toRat ≠ 0) :
    ∃ m u, unit_multiply u1 u2 = .ok m ∧ unit_divide m u2 = .ok u ∧
      (intmax.unit_multiply u1 u2).bind (fun p => intmax.unit_divide p u2) =
        (if m.representable ∧ u.representable then .ok u else .error .overflow) ∧
      u.system = u1.system ∧
      u.dimensions.map ratio.toRat = u1.dimensions.map ratio.toRat ∧
      u.pow_10.toRat = u1.pow_10.toRat ∧
      u.pow_pi.toRat = u1.pow_pi.toRat ∧
      u.factor.toRat = u1.factor.toRat ∧
      (((∀ d ∈ u1.dimensions, d.reduced) ∧ u1.pow_10.reduced ∧ u1.pow_pi.reduced ∧
        u1.factor.reduced) → u = u1) := by
  obtain ⟨m, hm, hmv, _⟩ := unit_multiply_spec u1 u2 h1 h2 hs
  obtain ⟨u, hu, hrest⟩ := unit_divide_multiply u1 u2 h1 h2 hs hz
  rw [hm] at hu
  have hu2 : unit_divide m u2 = .ok u := hu
  refine ⟨m, u, hm, hu2, ?_, hrest⟩
  rw [intmax_unit_multiply_eq u1 u2 m h1 h2 hm]
  by_cases hr : m.representable
  · rw [if_pos hr]
    show intmax.unit_divide m u2 = _
    rw [intmax_unit_divide_eq m u2 u hmv h2 hu2]
    by_cases hru : u.representable
    · rw [if_pos hru, if_pos ⟨hr, hru⟩]
    · rw [if_neg hru, if_neg (fun h => hru h.2)]
  · rw [if_neg hr, if_neg (fun h => hr h.1)]
    rfl

/-- The witness of C10 (amended) on the units of `test_unit.cc`: `u1_type` times
`u3_type`, divided by `u3_type`, is `u1_type`. -/
theorem unit_divide_multiply_in_range_witness :
    test_unit.u1_type.valid ∧ test_unit.u3_type.valid ∧
    unit_impl.have_same_system test_unit.u1_type test_unit.u3_type = true ∧
    test_unit.u3_type.factor.toRat ≠ 0 ∧
    (intmax.unit_multiply test_unit.u1_type test_unit.u3_type).bind
      (fun p => intmax.unit_divide p test_unit.u3_type) = .ok test_unit.u1_type := by
  have hz : test_unit.u3_type.factor.toRat ≠ 0 := by
    norm_num [test_unit.u3_type, ratio.toRat]
  obtain ⟨m, u, hm, _, hi, _, _, _, _, _, huu⟩ :=
    unit_divide_multiply_in_range test_unit.u1_type test_unit.u3_type (by decide) (by decide)
      (by decide) hz
  have hm2 : unit_multiply test_unit.u1_type test_unit.u3_type =
      .ok ⟨test_unit.sys1_type, [⟨2, 1⟩, ⟨2, 1⟩, ⟨0, 1⟩], ⟨2, 1⟩, ⟨2, 1⟩, ⟨2, 3⟩⟩ := by decide
  rw [hm2] at hm
  injection hm with hm
  subst hm
  have hu := huu (by decide)
  subst hu
  rw [if_pos ⟨by decide, by decide⟩] at hi
  exact ⟨by decide, by decide, by decide, hz, hi⟩

/-- C10 as stated fails: the unit of `mm_type` with the factor `std::ratio<4294967296>` is
a well-formed unit with arguments in range and a nonzero factor, and the product of it
with itself, to be divided again, asks for the factor 2^64, which `<ratio>` rejects. -/
theorem unit_divide_multiply_overflow :
    ({ test_unit.u2_type with factor := ⟨4294967296, 1⟩ } : unit).valid ∧
    ({ test_unit.u2_type with factor := ⟨4294967296, 1⟩ } : unit).representable ∧
    ({ test_unit.u2_type with factor := ⟨4294967296, 1⟩ } : unit).factor.toRat ≠ 0 ∧
    (intmax.unit_multiply { test_unit.u2_type with factor := ⟨4294967296, 1⟩ }
      { test_unit.u2_type with factor := ⟨4294967296, 1⟩ }).bind
      (fun p => intmax.unit_divide p { test_unit.u2_type with factor := ⟨4294967296, 1⟩ }) =
      .error .overflow := by
  refine ⟨by decide, by decide, ?_, by decide⟩
  norm_num [ratio.toRat]

/-- C3 (amended): for a well-formed unit and a well-formed exponent, where
`ratio_pow<Unit::factor, Ratio>` is well-formed, let `res` be the unit with the system of
the unit, every dimension exponent, the `pow_10` and the `pow_pi` multiplied by the
exponent (exact rationals in lowest terms) and the factor `ratio_pow<Unit::factor,
Ratio>`; when the numerators and denominators of `res` are representable by
`std::intmax_t`, `unit_pow<Unit, Ratio>` is well-formed and is `res`, otherwise it is
rejected (overflow in `<ratio>`).  Where `ratio_pow<Unit::factor, Ratio>` is rejected,
`unit_pow<Unit, Ratio>` is rejected for the same reason.  For an integer exponent
`0 <= N <= INTMAX_MAX`, `ratio_pow<Unit::factor, std::ratio<N>>` is well-formed exactly
when the `N`-th powers of the numerator and of the denominator of the factor are
representable, and is `std::ratio` of these powers. -/
theorem unit_pow_in_range (u : unit) (r : ratio) (hu : u.valid) (hr : r.valid) :
    (∀ f, intmax.ratio_pow u.factor r = .ok f →
      ∃ res, intmax.unit_pow u r = (if res.representable then .ok res else .error .overflow) ∧
        res.valid ∧ res.system = u.system ∧
        (∀ d ∈ res.dimensions, d.reduced) ∧
        res.dimensions.map ratio.toRat = u.dimensions.map (fun d => d.toRat * r.toRat) ∧
        res.pow_10.reduced ∧ res.pow_10.toRat = u.pow_10.toRat * r.toRat ∧
        res.pow_pi.reduced ∧ res.pow_pi.toRat = u.pow_pi.toRat * r.toRat ∧
        res.factor = f) ∧
    (∀ e, intmax.ratio_pow u.factor r = .error e → intmax.unit_pow u r = .error e) ∧
    (∀ N : Nat, (N : Int) ≤ INTMAX_MAX → r = ⟨(N : Int), 1⟩ →
      intmax.ratio_pow u.factor r =
        (if (⟨u.factor.num ^ N, u.factor.den ^ N⟩ : ratio).representable
          then .ok ⟨u.factor.num ^ N, u.factor.den ^ N⟩ else .error .overflow)) := by
  refine ⟨fun f hf => ?_, fun e he => intmax_unit_pow_error u r e he, fun N hN hrN => by
    rw [hrN]; exact intmax_ratio_pow_nat u.factor hu.2.2.2.2 N hN⟩
  have hd := dimensions_multiply_spec r hr u.dimensions hu.2.1
  have hv := pow_unit_valid u hu r hr
  exact ⟨_, intmax_unit_pow_eq u r f hu hr hf,
    ⟨hv.1, hv.2.1, hv.2.2.1, hv.2.2.2.1, (intmax_ratio_pow_ok _ _ _ hf).1⟩, rfl, hd.1, hd.2,
    ratio_multiply_reduced _ _ hu.2.2.1 hr, ratio_multiply_toRat _ _ hu.2.2.1 hr,
    ratio_multiply_reduced _ _ hu.2.2.2.1 hr, ratio_multiply_toRat _ _ hu.2.2.2.1 hr, rfl⟩

/-- The witness of C3 (amended) in `test_unit.cc`: `u1_type` to the power 4 has `pow_10` 4,
`pow_pi` 4 and factor 1/16, on the dimensions (4, 0, 0). -/
theorem unit_pow_in_range_witness :
    test_unit.u1_type.valid ∧ (⟨4, 1⟩ : ratio).valid ∧
    intmax.ratio_pow test_unit.u1_type.factor ⟨4, 1⟩ = .ok ⟨1, 16⟩ ∧
    intmax.unit_pow test_unit.u1_type ⟨4, 1⟩ =
      .ok ⟨test_unit.sys1_type, [⟨4, 1⟩, ⟨0, 1⟩, ⟨0, 1⟩], ⟨4, 1⟩, ⟨4, 1⟩, ⟨1, 16⟩⟩ ∧
    ∃ res, intmax.unit_pow test_unit.u1_type ⟨4, 1⟩ =
        (if res.representable then .ok res else .error .overflow) ∧
      res.pow_10.toRat = test_unit.u1_type.pow_10.toRat * (⟨4, 1⟩ : ratio).toRat ∧
      res.factor = ⟨1, 16⟩ := by
  have hf : intmax.ratio_pow test_unit.u1_type.factor ⟨4, 1⟩ = .ok ⟨1, 16⟩ := by decide
  obtain ⟨res, h1, _, _, _, _, _, h2, _, _, h3⟩ :=
    (unit_pow_in_range test_unit.u1_type ⟨4, 1⟩ (by decide) (by decide)).1 _ hf
  exact ⟨by decide, by decide, hf, by decide, res, h1, h2, h3⟩

/-- C3 as stated fails: for the well-formed unit with factor `std::ratio<0>` and the
exponent `std::ratio<-1>`, `ratio_pow` asks for `std::ratio<1, 0>`; for `joule_unit`
(factor 12483/2000) and the exponent 5 the power `12483^5` is not representable; and for
the well-formed unit with the positive factor `std::ratio<6074000999>` and the exponent
1/2 the first probe of `iroot<2>` is not representable.  In each case neither `ratio_pow`
nor `unit_pow` yields a type. -/
theorem unit_pow_undefined :
    ({ test_unit.u2_type with factor := ⟨0, 1⟩ } : unit).valid ∧
    intmax.ratio_pow ⟨0, 1⟩ ⟨-1, 1⟩ = .error .zero_denominator ∧
    intmax.unit_pow { test_unit.u2_type with factor := ⟨0, 1⟩ } ⟨-1, 1⟩ =
      .error .zero_denominator ∧
    standard_units.energy.joule_unit.valid ∧
    standard_units.energy.joule_unit.representable ∧
    intmax.unit_pow standard_units.energy.joule_unit ⟨5, 1⟩ = .error .overflow ∧
    ({ test_unit.u2_type with factor := ⟨6074000999, 1⟩ } : unit).valid ∧
    ({ test_unit.u2_type with factor := ⟨6074000999, 1⟩ } : unit).representable ∧
    intmax.unit_pow { test_unit.u2_type with factor := ⟨6074000999, 1⟩ } ⟨1, 2⟩ =
      .error .overflow := by
  decide

theorem unit_pow_nat_valid (u : unit) (hu : u.valid) (N : Nat) (p : unit)
    (hp : unit_pow u ⟨(N : Int), 1⟩ = .ok p) : p.valid := by
  have hr : (⟨(N : Int), 1⟩ : ratio).valid := (ratio_of_nat_reduced N).valid
  rw [unit_pow_ok u _ _ (ratio_pow_nat u.factor hu.2.2.2.2 N).1] at hp
  injection hp with hp
  subst hp
  have hv := pow_unit_valid u hu _ hr
  exact ⟨hv.1, hv.2.1, hv.2.2.1, hv.2.2.2.1, (ratio_pow_nat u.factor hu.2.2.2.2 N).2.1.valid⟩

theorem dimensionless_representable (s : unit_system) :
    ({ system := s, dimensions := s.dimensionless } : unit).representable := by
  have h0 : (⟨0, 1⟩ : ratio).representable := by decide
  have h1 : (⟨1, 1⟩ : ratio).representable := by decide
  refine ⟨?_, h0, h0, h1⟩
  intro d hd
  have hd2 : d ∈ List.replicate s.size (⟨0, 1⟩ : ratio) := hd
  rw [List.eq_of_mem_replicate hd2]
  exact h0

/-- C39 (amended): for a well-formed unit `u` and an integer `N >= 0` with `N + 1`
representable, let `p`, `q` be `unit_pow<u, N>` and `unit_pow<u, N + 1>` in unbounded
integers; `q` is `unit_multiply<p, u>`; each of the three aliases is well-formed and is
that unit when the numerators and denominators of the unit are representable by
`std::intmax_t`, and is rejected otherwise.  In the same sense `unit_pow<u, 1>` has the
system of `u` and, as rational numbers, its dimension exponents, `pow_10`, `pow_pi` and
factor (the type `u` itself when `u` is written in lowest terms), and `unit_pow<u, 2>` is
`unit_multiply<u, u>`; `unit_pow<u, 0>` is always well-formed and is the unscaled
dimensionless unit of the system of `u`. -/
theorem unit_pow_succ_in_range (u : unit) (hu : u.valid) (N : Nat)
    (hN : (N : Int) + 1 ≤ INTMAX_MAX) :
    (∃ p q, unit_pow u ⟨(N : Int), 1⟩ = .ok p ∧ unit_pow u ⟨(N : Int) + 1, 1⟩ = .ok q ∧
      unit_multiply p u = .ok q ∧
      intmax.unit_pow u ⟨(N : Int), 1⟩ =
        (if p.representable then .ok p else .error .overflow) ∧
      intmax.unit_pow u ⟨(N : Int) + 1, 1⟩ =
        (if q.representable then .ok q else .error .overflow) ∧
      intmax.unit_multiply p u = (if q.representable then .ok q else .error .overflow)) ∧
    (∃ r, unit_pow u ⟨1, 1⟩ = .ok r ∧
      intmax.unit_pow u ⟨1, 1⟩ = (if r.representable then .ok r else .error .overflow) ∧
      r.system = u.system ∧
      r.dimensions.map ratio.toRat = u.dimensions.map ratio.toRat ∧
      r.pow_10.toRat = u.pow_10.toRat ∧ r.pow_pi.toRat = u.pow_pi.toRat ∧
      r.factor.toRat = u.factor.toRat ∧
      (((∀ d ∈ u.dimensions, d.reduced) ∧ u.pow_10.reduced ∧ u.pow_pi.reduced ∧
        u.factor.reduced) → r = u)) ∧
    intmax.unit_pow u ⟨0, 1⟩ =
      .ok { system := u.system, dimensions := u.system.dimensionless } ∧
    (∃ s, unit_pow u ⟨2, 1⟩ = .ok s ∧ unit_multiply u u = .ok s ∧
      intmax.unit_pow u ⟨2, 1⟩ = (if s.representable then .ok s else .error .overflow) ∧
      intmax.unit_multiply u u = (if s.representable then .ok s else .error .overflow)) := by
  obtain ⟨⟨p, q, hp, hq, hm⟩, ⟨r, hr, hrest⟩, h0, ⟨s, hs, hss⟩⟩ := unit_pow_succ u hu N
  have hcast : (⟨(N : Int) + 1, 1⟩ : ratio) = ⟨((N + 1 : Nat) : Int), 1⟩ := by
    push_cast
    rfl
  have hN0 : (N : Int) ≤ INTMAX_MAX := by omega
  have hN1 : (((N + 1 : Nat)) : Int) ≤ INTMAX_MAX := by
    push_cast
    exact hN
  have h1le : (((1 : Nat)) : Int) ≤ INTMAX_MAX := by decide
  have h0le : (((0 : Nat)) : Int) ≤ INTMAX_MAX := by decide
  have h2le : (((2 : Nat)) : Int) ≤ INTMAX_MAX := by decide
  refine ⟨⟨p, q, hp, hq, hm, intmax_unit_pow_nat_eq u hu N hN0 p hp, ?_,
    intmax_unit_multiply_eq p u q (unit_pow_nat_valid u hu N p hp) hu hm⟩,
    ⟨r, hr, intmax_unit_pow_nat_eq u hu 1 h1le r hr, hrest⟩, ?_,
    ⟨s, hs, hss, intmax_unit_pow_nat_eq u hu 2 h2le s hs, intmax_unit_multiply_eq u u s hu hu hss⟩⟩
  · rw [hcast] at hq ⊢
    exact intmax_unit_pow_nat_eq u hu (N + 1) hN1 q hq
  · have h := intmax_unit_pow_nat_eq u hu 0 h0le _ h0
    rw [if_pos (dimensionless_representable u.system)] at h
    exact h

/-- The witness of C39 (amended) on `u1_type` of `test_unit.cc` with `N = 3`:
`unit_pow<u1_type, 4>` is `unit_multiply<unit_pow<u1_type, 3>, u1_type>`,
`unit_pow<u1_type, 1>` is `u1_type` and `unit_pow<u1_type, 2>` is
`unit_multiply<u1_type, u1_type>`. -/
theorem unit_pow_succ_in_range_witness :
    test_unit.u1_type.valid ∧ (((3 : Nat)) : Int) + 1 ≤ INTMAX_MAX ∧
    (∃ p q, intmax.unit_pow test_unit.u1_type ⟨((3 : Nat) : Int), 1⟩ = .ok p ∧
      intmax.unit_pow test_unit.u1_type ⟨((3 : Nat) : Int) + 1, 1⟩ = .ok q ∧
      intmax.unit_multiply p test_unit.u1_type = .ok q) ∧
    intmax.unit_pow test_unit.u1_type ⟨1, 1⟩ = .ok test_unit.u1_type ∧
    intmax.unit_pow test_unit.u1_type ⟨0, 1⟩ = .ok
      { system := test_unit.u1_type.system
        dimensions := test_unit.u1_type.system.dimensionless } ∧
    (∃ s, intmax.unit_pow test_unit.u1_type ⟨2, 1⟩ = .ok s ∧
      intmax.unit_multiply test_unit.u1_type test_unit.u1_type = .ok s) := by
  obtain ⟨⟨p, q, hp, hq, _, hpi, hqi, hmi⟩, ⟨r, _, hri, _, _, _, _, _, hru⟩, h0,
      ⟨s, hs, _, hsi, hsm⟩⟩ :=
    unit_pow_succ_in_range test_unit.u1_type (by decide) 3 (by decide)
  have hp2 : unit_pow test_unit.u1_type ⟨((3 : Nat) : Int), 1⟩ =
      .ok ⟨test_unit.sys1_type, [⟨3, 1⟩, ⟨0, 1⟩, ⟨0, 1⟩], ⟨3, 1⟩, ⟨3, 1⟩, ⟨1, 8⟩⟩ := by decide
  have hq2 : unit_pow test_unit.u1_type ⟨((3 : Nat) : Int) + 1, 1⟩ =
      .ok ⟨test_unit.sys1_type, [⟨4, 1⟩, ⟨0, 1⟩, ⟨0, 1⟩], ⟨4, 1⟩, ⟨4, 1⟩, ⟨1, 16⟩⟩ := by decide
  have hs2 : unit_pow test_unit.u1_type ⟨2, 1⟩ =
      .ok ⟨test_unit.sys1_type, [⟨2, 1⟩, ⟨0, 1⟩, ⟨0, 1⟩], ⟨2, 1⟩, ⟨2, 1⟩, ⟨1, 4⟩⟩ := by decide
  rw [hp2] at hp
  rw [hq2] at hq
  rw [hs2] at hs
  injection hp with hp
  injection hq with hq
  injection hs with hs
  subst hp
  subst hq
  subst hs
  have hr := hru (by decide)
  subst hr
  rw [if_pos (by decide)] at hpi hqi hmi hri hsi hsm
  exact ⟨by decide, by decide, ⟨_, _, hpi, hqi, hmi⟩, hri, h0, ⟨_, hsi, hsm⟩⟩

/-- C39 as stated fails: `joule_unit` (factor 624150/100000, that is 12483/2000) is a
well-formed unit with arguments in range whose fourth power is well-formed, and neither
`unit_pow<joule_unit, 5>` nor `unit_multiply<unit_pow<joule_unit, 4>, joule_unit>` is a
type, `12483^5` not being representable; and for the well-formed unit with factor
`std::ratio<4294967296>` neither `unit_pow<u, 2>` nor `unit_multiply<u, u>` is. -/
theorem unit_pow_succ_overflow :
    standard_units.energy.joule_unit.valid ∧
    standard_units.energy.joule_unit.representable ∧
    (∃ p, intmax.unit_pow standard_units.energy.joule_unit ⟨4, 1⟩ = .ok p ∧
      intmax.unit_multiply p standard_units.energy.joule_unit = .error .overflow) ∧
    intmax.unit_pow standard_units.energy.joule_unit ⟨5, 1⟩ = .error .overflow ∧
    ({ test_unit.u2_type with factor := ⟨4294967296, 1⟩ } : unit).valid ∧
    intmax.unit_pow { test_unit.u2_type with factor := ⟨4294967296, 1⟩ } ⟨2, 1⟩ =
      .error .overflow ∧
    intmax.unit_multiply { test_unit.u2_type with factor := ⟨4294967296, 1⟩ }
      { test_unit.u2_type with factor := ⟨4294967296, 1⟩ } = .error .overflow := by
  refine ⟨by decide, by decide, ⟨⟨standard_units.standard_system,
    [⟨0, 1⟩, ⟨0, 1⟩, ⟨4, 1⟩, ⟨0, 1⟩, ⟨0, 1⟩, ⟨0, 1⟩, ⟨0, 1⟩, ⟨0, 1⟩, ⟨0, 1⟩], ⟨48, 1⟩, ⟨0, 1⟩,
    ⟨12483 ^ 4, 2000 ^ 4⟩⟩, by decide, by decide⟩, by decide, by decide, by decide, by decide⟩

/-! ## The rescale engine in the range of `std::intmax_t` -/

theorem intmax_value_dimensioned {F : Type} [Field F] (M : cmath F) (q : quantity F)
    (hd : q.unit.is_dimensionless = false) : intmax.quantity.value M q = .ok q.value_ := by
  rw [intmax.quantity.value]
  simp [hd]

/-- C7 (amended): in exact arithmetic, for compatible well-formed units and a target unit
with a nonzero factor: when the two units are the same type, or the differences of the
`pow_10` and of the `pow_pi` and the quotient of the factors, in lowest terms, are
representable by `std::intmax_t`, the rescale engine with `UnitLHS = to` and
`UnitRHS = from` returns
`v * 10^(from.pow_10 - to.pow_10) * pi^(from.pow_pi - to.pow_pi) * (from.factor / to.factor)`,
and this is the value the converting constructor of `quantity<to>` stores; otherwise both
are rejected (overflow in `<ratio>`). -/
theorem rescale_value_in_range (M : cmath ℝ) (hM : M.exact) (u_from u_to : unit)
    (hf : u_from.valid) (ht : u_to.valid)
    (hc : unit_impl.are_compatible u_from u_to = true) (hz : u_to.factor.toRat ≠ 0) (v : ℝ) :
    (intmax.unit_impl.rescale_impl.representable u_to u_from →
      intmax.unit_impl.rescale_value M u_to u_from v = .ok
        (v * (10 : ℝ) ^ (((u_from.pow_10.toRat - u_to.pow_10.toRat : ℚ)) : ℝ) *
          Real.pi ^ (((u_from.pow_pi.toRat - u_to.pow_pi.toRat : ℚ)) : ℝ) *
          (((u_from.factor.toRat / u_to.factor.toRat : ℚ)) : ℝ)) ∧
      intmax.quantity.from_quantity M u_to ⟨u_from, v⟩ = .ok
        ⟨u_to, v * (10 : ℝ) ^ (((u_from.pow_10.toRat - u_to.pow_10.toRat : ℚ)) : ℝ) *
          Real.pi ^ (((u_from.pow_pi.toRat - u_to.pow_pi.toRat : ℚ)) : ℝ) *
          (((u_from.factor.toRat / u_to.factor.toRat : ℚ)) : ℝ)⟩) ∧
    (¬ intmax.unit_impl.rescale_impl.representable u_to u_from →
      intmax.unit_impl.rescale_value M u_to u_from v = .error .overflow ∧
      intmax.quantity.from_quantity M u_to ⟨u_from, v⟩ = .error .overflow) := by
  have h := rescale_value_spec M hM u_from u_to hf ht hc hz v
  constructor
  · intro hrep
    rw [intmax_rescale_value_eq M u_to u_from ht hf, if_pos hrep,
      intmax_from_quantity_eq M u_to ⟨u_from, v⟩ ht hf hrep]
    exact h
  · intro hrep
    rw [intmax_rescale_value_eq M u_to u_from ht hf, if_neg hrep]
    exact ⟨rfl, intmax_from_quantity_overflow M u_to ⟨u_from, v⟩ ht hf
      ((are_compatible_eq_true _ _).1 hc) hrep⟩

/-- The witness of C7 (amended) in `test_unit.cc`: `q_mm` is constructed from
`q_pi_cm_over_2`, of raw value 12. -/
theorem rescale_value_in_range_witness :
    ∃ M : cmath ℝ, M.exact ∧ test_unit.u1_type.valid ∧ test_unit.u2_type.valid ∧
      unit_impl.are_compatible test_unit.u1_type test_unit.u2_type = true ∧
      test_unit.u2_type.factor.toRat ≠ 0 ∧
      intmax.unit_impl.rescale_impl.representable test_unit.u2_type test_unit.u1_type ∧
      intmax.unit_impl.rescale_value M test_unit.u2_type test_unit.u1_type 12 = .ok
        ((12 : ℝ) *
          (10 : ℝ) ^ (((test_unit.u1_type.pow_10.toRat - test_unit.u2_type.pow_10.toRat : ℚ)) : ℝ) *
          Real.pi ^ (((test_unit.u1_type.pow_pi.toRat - test_unit.u2_type.pow_pi.toRat : ℚ)) : ℝ) *
          (((test_unit.u1_type.factor.toRat / test_unit.u2_type.factor.toRat : ℚ)) : ℝ)) :=
  have hz : test_unit.u2_type.factor.toRat ≠ 0 := by
    norm_num [test_unit.u2_type, ratio.toRat]
  ⟨_, cmath.exact_real, by decide, by decide, by decide, hz, by decide,
    ((rescale_value_in_range _ cmath.exact_real test_unit.u1_type test_unit.u2_type (by decide)
      (by decide) (by decide) hz 12).1 (by decide)).1⟩

/-- C7 as stated fails three times.  On the conversion checked in `test_unit.cc`, from
`u1_type` (factor 1/2) to `u2_type` (factor 1), the engine multiplies 12 by
`10 * pi * (1/2)`, where the stated formula with `to.factor / from.factor` gives
`12 * 10 * pi * 2`; towards a unit with factor zero that differs from the source no value
is produced; and from the unit with factor `std::ratio<4294967296>` to the compatible unit
with factor `std::ratio<1, 4294967296>` none is produced either, the quotient 2^64 of the
factors not being representable. -/
theorem rescale_value_direction_or_overflow :
    ∃ M : cmath ℝ, M.exact ∧
      unit_impl.are_compatible test_unit.u1_type test_unit.u2_type = true ∧
      intmax.unit_impl.rescale_value M test_unit.u2_type test_unit.u1_type 12 =
        .ok (12 * (Real.pi * 10) / 2) ∧
      intmax.unit_impl.rescale_value M test_unit.u2_type test_unit.u1_type 12 ≠ .ok
        ((12 : ℝ) *
          (10 : ℝ) ^ (((test_unit.u1_type.pow_10.toRat - test_unit.u2_type.pow_10.toRat : ℚ)) : ℝ) *
          Real.pi ^ (((test_unit.u1_type.pow_pi.toRat - test_unit.u2_type.pow_pi.toRat : ℚ)) : ℝ) *
          (((test_unit.u2_type.factor.toRat / test_unit.u1_type.factor.toRat : ℚ)) : ℝ)) ∧
      unit_impl.are_compatible test_unit.u1_type { test_unit.u2_type with factor := ⟨0, 1⟩ }
        = true ∧
      intmax.unit_impl.rescale_value M { test_unit.u2_type with factor := ⟨0, 1⟩ }
        test_unit.u1_type 12 = .error .zero_denominator ∧
      ({ test_unit.u2_type with factor := ⟨4294967296, 1⟩ } : unit).valid ∧
      ({ test_unit.u2_type with factor := ⟨1, 4294967296⟩ } : unit).valid ∧
      unit_impl.are_compatible { test_unit.u2_type with factor := ⟨4294967296, 1⟩ }
        { test_unit.u2_type with factor := ⟨1, 4294967296⟩ } = true ∧
      ({ test_unit.u2_type with factor := ⟨1, 4294967296⟩ } : unit).factor.toRat ≠ 0 ∧
      intmax.unit_impl.rescale_value M { test_unit.u2_type with factor := ⟨1, 4294967296⟩ }
        { test_unit.u2_type with factor := ⟨4294967296, 1⟩ } 12 = .error .overflow := by
  obtain ⟨M, hM, hc, h1, h2, hc0, h0⟩ := rescale_value_factor_direction
  have e1 := intmax_rescale_value_eq M test_unit.u2_type test_unit.u1_type (by decide)
    (by decide) 12
  rw [if_pos (by decide)] at e1
  have e0 := intmax_rescale_value_eq M { test_unit.u2_type with factor := ⟨0, 1⟩ }
    test_unit.u1_type (by decide) (by decide) 12
  rw [if_pos (by decide)] at e0
  have e2 := intmax_rescale_value_eq M { test_unit.u2_type with factor := ⟨1, 4294967296⟩ }
    { test_unit.u2_type with factor := ⟨4294967296, 1⟩ } (by decide) (by decide) 12
  rw [if_neg (by decide)] at e2
  refine ⟨M, hM, hc, by rw [e1]; exact h1, by rw [e1]; exact h2, hc0, by rw [e0]; exact h0,
    by decide, by decide, by decide, ?_, e2⟩
  norm_num [ratio.toRat]

/-- C9 (amended): in exact arithmetic, for compatible well-formed units with nonzero
factors: when the conversion from `u1` to `u2` has its ratios in range (the units are the
same type, or the differences of the `pow_10` and of the `pow_pi` and the quotient of the
factors are representable by `std::intmax_t`), so has the conversion back, rescaling a
value from `u1` to `u2` and back is well-formed and returns the value, and a quantity
built in `u2` from a quantity of a non-dimensionless `u1` with raw value `v` reports
`value<u1>() == v`; otherwise the conversion from `u1` to `u2` is rejected. -/
theorem rescale_round_trip_in_range (M : cmath ℝ) (hM : M.exact) (u1 u2 : unit)
    (h1 : u1.valid) (h2 : u2.valid) (hc : unit_impl.are_compatible u1 u2 = true)
    (hz1 : u1.factor.toRat ≠ 0) (hz2 : u2.factor.toRat ≠ 0) (v : ℝ) :
    (intmax.unit_impl.rescale_impl.representable u2 u1 →
      intmax.unit_impl.rescale_impl.representable u1 u2 ∧
      (intmax.unit_impl.rescale_value M u2 u1 v).bind (intmax.unit_impl.rescale_value M u1 u2)
        = .ok v ∧
      (u1.is_dimensionless = false →
        (intmax.quantity.from_quantity M u2 ⟨u1, v⟩).bind
          (fun q => intmax.quantity.value_in M q u1) = .ok v)) ∧
    (¬ intmax.unit_impl.rescale_impl.representable u2 u1 →
      intmax.unit_impl.rescale_value M u2 u1 v = .error .overflow) := by
  have hcc := (are_compatible_eq_true u1 u2).1 hc
  have hc2 : unit_impl.are_compatible u2 u1 = true :=
    (are_compatible_eq_true u2 u1).2 ⟨hcc.1.symm, hcc.2.symm⟩
  have e1 := unit_impl.rescale_value_exact M hM u2 u1 h2 h1 hz2 v
  have hold := (rescale_round_trip M hM u1 u2 h1 h2 hc hz1 hz2 v).1
  rw [e1] at hold
  have key : unit_impl.rescale_value M u1 u2 _ = .ok v := hold
  constructor
  · intro hrep
    have hrep2 := rescale_representable_symm u1 u2 h1 h2 hz1 hz2 hrep
    refine ⟨hrep2, ?_, fun hd => ?_⟩
    · rw [intmax_rescale_value_eq M u2 u1 h2 h1, if_pos hrep, e1]
      show intmax.unit_impl.rescale_value M u1 u2 _ = .ok v
      rw [intmax_rescale_value_eq M u1 u2 h1 h2, if_pos hrep2]
      exact key
    · rw [intmax_from_quantity_eq M u2 ⟨u1, v⟩ h2 h1 hrep,
        from_quantity_ok M u2 ⟨u1, v⟩ hcc _ e1]
      show intmax.quantity.value_in M _ u1 = .ok v
      rw [intmax.quantity.value_in, if_pos hc2,
        intmax_from_quantity_eq M u1 ⟨u2, _⟩ h1 h2 hrep2,
        from_quantity_ok M u1 ⟨u2, _⟩ ⟨hcc.1.symm, hcc.2.symm⟩ v key]
      show intmax.quantity.value M ⟨u1, v⟩ = .ok v
      exact intmax_value_dimensioned M ⟨u1, v⟩ hd
  · intro hrep
    rw [intmax_rescale_value_eq M u2 u1 h2 h1, if_neg hrep]

/-- The witness of C9 (amended) in `test_unit.cc`: `q_mm` is built from `q_pi_cm_over_2`
(raw value 12) and `q_mm.value<pi_cm_over_2_type>()` is 12. -/
theorem rescale_round_trip_in_range_witness :
    ∃ M : cmath ℝ, M.exact ∧ test_unit.u1_type.valid ∧ test_unit.u2_type.valid ∧
      unit_impl.are_compatible test_unit.u1_type test_unit.u2_type = true ∧
      test_unit.u1_type.factor.toRat ≠ 0 ∧ test_unit.u2_type.factor.toRat ≠ 0 ∧
      intmax.unit_impl.rescale_impl.representable test_unit.u2_type test_unit.u1_type ∧
      test_unit.u1_type.is_dimensionless = false ∧
      (intmax.unit_impl.rescale_value M test_unit.u2_type test_unit.u1_type 12).bind
        (intmax.unit_impl.rescale_value M test_unit.u1_type test_unit.u2_type) = .ok 12 ∧
      (intmax.quantity.from_quantity M test_unit.u2_type ⟨test_unit.u1_type, 12⟩).bind
        (fun q => intmax.quantity.value_in M q test_unit.u1_type) = .ok 12 :=
  have hz1 : test_unit.u1_type.factor.toRat ≠ 0 := by
    norm_num [test_unit.u1_type, ratio.toRat]
  have hz2 : test_unit.u2_type.factor.toRat ≠ 0 := by
    norm_num [test_unit.u2_type, ratio.toRat]
  have h := (rescale_round_trip_in_range _ cmath.exact_real test_unit.u1_type
    test_unit.u2_type (by decide) (by decide) (by decide) hz1 hz2 12).1 (by decide)
  ⟨_, cmath.exact_real, by decide, by decide, by decide, hz1, hz2, by decide, by decide,
    h.2.1, h.2.2 (by decide)⟩

/-- C9 as stated fails: the units with the system and dimensions of `mm_type` and the
factors `std::ratio<4294967296>` and `std::ratio<1, 4294967296>` are well-formed,
compatible, with arguments in range and nonzero factors, and no value is rescaled from
the first to the second, the quotient 2^64 of the factors not being representable. -/
theorem rescale_round_trip_overflow :
    ∃ M : cmath ℝ, M.exact ∧
      ({ test_unit.u2_type with factor := ⟨4294967296, 1⟩ } : unit).valid ∧
      ({ test_unit.u2_type with factor := ⟨1, 4294967296⟩ } : unit).valid ∧
      ({ test_unit.u2_type with factor := ⟨4294967296, 1⟩ } : unit).representable ∧
      ({ test_unit.u2_type with factor := ⟨1, 4294967296⟩ } : unit).representable ∧
      unit_impl.are_compatible { test_unit.u2_type with factor := ⟨4294967296, 1⟩ }
        { test_unit.u2_type with factor := ⟨1, 4294967296⟩ } = true ∧
      ({ test_unit.u2_type with factor := ⟨4294967296, 1⟩ } : unit).factor.toRat ≠ 0 ∧
      ({ test_unit.u2_type with factor := ⟨1, 4294967296⟩ } : unit).factor.toRat ≠ 0 ∧
      (intmax.unit_impl.rescale_value M { test_unit.u2_type with factor := ⟨1, 4294967296⟩ }
        { test_unit.u2_type with factor := ⟨4294967296, 1⟩ } 12).bind
        (intmax.unit_impl.rescale_value M { test_unit.u2_type with factor := ⟨4294967296, 1⟩ }
          { test_unit.u2_type with factor := ⟨1, 4294967296⟩ }) = .error .overflow := by
  obtain ⟨M, hM⟩ : ∃ M : cmath ℝ, M.exact := ⟨_, cmath.exact_real⟩
  have e2 := intmax_rescale_value_eq M { test_unit.u2_type with factor := ⟨1, 4294967296⟩ }
    { test_unit.u2_type with factor := ⟨4294967296, 1⟩ } (by decide) (by decide) 12
  rw [if_neg (by decide)] at e2
  refine ⟨M, hM, by decide, by decide, by decide, by decide, by decide, ?_, ?_, ?_⟩
  · norm_num [ratio.toRat]
  · norm_num [ratio.toRat]
  · rw [e2]
    rfl

/-- C36 (amended): in exact arithmetic, for well-formed units `u1`, `u2`, `u3` with `u1`
compatible with `u2` and `u2` with `u3`, where the factors of `u2` and `u3` are not zero:
when each of the three conversions (from `u1` to `u2`, from `u2` to `u3`, from `u1` to
`u3`) has its ratios in range (the two units are the same type, or the differences of the
`pow_10` and of the `pow_pi` and the quotient of the factors are representable by
`std::intmax_t`), rescaling a value from `u1` to `u2` and the result from `u2` to `u3` is
the value of rescaling it from `u1` to `u3`, and the same holds of the quantities built by
the converting constructor; a conversion whose ratios are not in range is rejected. -/
theorem rescale_value_transitive_in_range (M : cmath ℝ) (hM : M.exact) (u1 u2 u3 : unit)
    (h1 : u1.valid) (h2 : u2.valid) (h3 : u3.valid)
    (hc12 : unit_impl.are_compatible u1 u2 = true)
    (hc23 : unit_impl.are_compatible u2 u3 = true)
    (hz2 : u2.factor.toRat ≠ 0) (hz3 : u3.factor.toRat ≠ 0) (v : ℝ) :
    unit_impl.are_compatible u1 u3 = true ∧
    (intmax.unit_impl.rescale_impl.representable u2 u1 →
      intmax.unit_impl.rescale_impl.representable u3 u2 →
      intmax.unit_impl.rescale_impl.representable u3 u1 →
      ∃ w, intmax.unit_impl.rescale_value M u3 u1 v = .ok w ∧
        (intmax.unit_impl.rescale_value M u2 u1 v).bind
          (intmax.unit_impl.rescale_value M u3 u2) = .ok w ∧
        intmax.quantity.from_quantity M u3 ⟨u1, v⟩ = .ok ⟨u3, w⟩ ∧
        (intmax.quantity.from_quantity M u2 ⟨u1, v⟩).bind
          (intmax.quantity.from_quantity M u3) = .ok ⟨u3, w⟩) ∧
    (¬ intmax.unit_impl.rescale_impl.representable u2 u1 →
      intmax.unit_impl.rescale_value M u2 u1 v = .error .overflow) ∧
    (¬ intmax.unit_impl.rescale_impl.representable u3 u2 →
      ∀ x : ℝ, intmax.unit_impl.rescale_value M u3 u2 x = .error .overflow) ∧
    (¬ intmax.unit_impl.rescale_impl.representable u3 u1 →
      intmax.unit_impl.rescale_value M u3 u1 v = .error .overflow) := by
  obtain ⟨hc13, w, hw1, hw2, hw3, hw4⟩ :=
    rescale_value_transitive M hM u1 u2 u3 h1 h2 h3 hc12 hc23 hz2 hz3 v
  have c12 := (are_compatible_eq_true u1 u2).1 hc12
  have e21 := unit_impl.rescale_value_exact M hM u2 u1 h2 h1 hz2 v
  refine ⟨hc13, fun r21 r32 r31 => ⟨w, ?_, ?_, ?_, ?_⟩, fun r21 => ?_, fun r32 x => ?_,
    fun r31 => ?_⟩
  · rw [intmax_rescale_value_eq M u3 u1 h3 h1, if_pos r31]
    exact hw1
  · rw [intmax_rescale_value_eq M u2 u1 h2 h1, if_pos r21, e21]
    rw [e21] at hw2
    show intmax.unit_impl.rescale_value M u3 u2 _ = .ok w
    rw [intmax_rescale_value_eq M u3 u2 h3 h2, if_pos r32]
    exact hw2
  · rw [intmax_from_quantity_eq M u3 ⟨u1, v⟩ h3 h1 r31]
    exact hw3
  · rw [intmax_from_quantity_eq M u2 ⟨u1, v⟩ h2 h1 r21]
    rw [from_quantity_ok M u2 ⟨u1, v⟩ c12 _ e21] at hw4 ⊢
    show intmax.quantity.from_quantity M u3 ⟨u2, _⟩ = _
    rw [intmax_from_quantity_eq M u3 ⟨u2, _⟩ h3 h2 r32]
    exact hw4
  · rw [intmax_rescale_value_eq M u2 u1 h2 h1, if_neg r21]
  · rw [intmax_rescale_value_eq M u3 u2 h3 h2, if_neg r32]
  · rw [intmax_rescale_value_eq M u3 u1 h3 h1, if_neg r31]

/-- The witness of C36 (amended): one joule to electronvolts and then to the base unit
MeV, and directly to MeV. -/
theorem rescale_value_transitive_in_range_witness :
    ∃ M : cmath ℝ, M.exact ∧
      standard_units.energy.joule_unit.valid ∧ standard_units.energy.electronvolt_unit.valid ∧
      standard_units.energy.joule_unit.unscaled.valid ∧
      unit_impl.are_compatible standard_units.energy.joule_unit
        standard_units.energy.electronvolt_unit = true ∧
      unit_impl.are_compatible standard_units.energy.electronvolt_unit
        standard_units.energy.joule_unit.unscaled = true ∧
      standard_units.energy.electronvolt_unit.factor.toRat ≠ 0 ∧
      standard_units.energy.joule_unit.unscaled.factor.toRat ≠ 0 ∧
      intmax.unit_impl.rescale_impl.representable standard_units.energy.electronvolt_unit
        standard_units.energy.joule_unit ∧
      intmax.unit_impl.rescale_impl.representable standard_units.energy.joule_unit.unscaled
        standard_units.energy.electronvolt_unit ∧
      intmax.unit_impl.rescale_impl.representable standard_units.energy.joule_unit.unscaled
        standard_units.energy.joule_unit ∧
      ∃ w, intmax.unit_impl.rescale_value M standard_units.energy.joule_unit.unscaled
          standard_units.energy.joule_unit 1 = .ok w ∧
        (intmax.unit_impl.rescale_value M standard_units.energy.electronvolt_unit
          standard_units.energy.joule_unit 1).bind
          (intmax.unit_impl.rescale_value M standard_units.energy.joule_unit.unscaled
            standard_units.energy.electronvolt_unit) = .ok w := by
  obtain ⟨M, hM⟩ : ∃ M : cmath ℝ, M.exact := ⟨_, cmath.exact_real⟩
  have hz2 : standard_units.energy.electronvolt_unit.factor.toRat ≠ 0 := by
    norm_num [standard_units.energy.electronvolt_unit, ratio.toRat]
  have hz3 : standard_units.energy.joule_unit.unscaled.factor.toRat ≠ 0 := by
    norm_num [unit.unscaled, ratio.toRat]
  obtain ⟨w, hw1, hw2, _⟩ := (rescale_value_transitive_in_range M hM
    standard_units.energy.joule_unit standard_units.energy.electronvolt_unit
    standard_units.energy.joule_unit.unscaled (by decide) (by decide) (by decide) (by decide)
    (by decide) hz2 hz3 1).2.1 (by decide) (by decide) (by decide)
  exact ⟨M, hM, by decide, by decide, by decide, by decide, by decide, hz2, hz3, by decide,
    by decide, by decide, w, hw1, hw2⟩

/-- C36 as stated fails: the units with the system and dimensions of `mm_type` and the
factors `std::ratio<4294967296>`, `std::ratio<1>` and `std::ratio<1, 4294967296>` are
well-formed and pairwise compatible, with arguments in range and nonzero factors; a value
is rescaled from the first to the second and from the second to the third, and none is
rescaled from the first to the third directly, the quotient 2^64 of the factors not being
representable. -/
theorem rescale_value_transitive_overflow :
    ∃ M : cmath ℝ, M.exact ∧
      ({ test_unit.u2_type with factor := ⟨4294967296, 1⟩ } : unit).valid ∧
      test_unit.u2_type.valid ∧
      ({ test_unit.u2_type with factor := ⟨1, 4294967296⟩ } : unit).valid ∧
      unit_impl.are_compatible { test_unit.u2_type with factor := ⟨4294967296, 1⟩ }
        test_unit.u2_type = true ∧
      unit_impl.are_compatible test_unit.u2_type
        { test_unit.u2_type with factor := ⟨1, 4294967296⟩ } = true ∧
      unit_impl.are_compatible { test_unit.u2_type with factor := ⟨4294967296, 1⟩ }
        { test_unit.u2_type with factor := ⟨1, 4294967296⟩ } = true ∧
      ({ test_unit.u2_type with factor := ⟨4294967296, 1⟩ } : unit).factor.toRat ≠ 0 ∧
      test_unit.u2_type.factor.toRat ≠ 0 ∧
      ({ test_unit.u2_type with factor := ⟨1, 4294967296⟩ } : unit).factor.toRat ≠ 0 ∧
      (∃ w, (intmax.unit_impl.rescale_value M test_unit.u2_type
          { test_unit.u2_type with factor := ⟨4294967296, 1⟩ } 12).bind
        (intmax.unit_impl.rescale_value M { test_unit.u2_type with factor := ⟨1, 4294967296⟩ }
          test_unit.u2_type) = .ok w) ∧
      intmax.unit_impl.rescale_value M { test_unit.u2_type with factor := ⟨1, 4294967296⟩ }
        { test_unit.u2_type with factor := ⟨4294967296, 1⟩ } 12 = .error .overflow := by
  obtain ⟨M, hM⟩ : ∃ M : cmath ℝ, M.exact := ⟨_, cmath.exact_real⟩
  have hz1 : ({ test_unit.u2_type with factor := ⟨4294967296, 1⟩ } : unit).factor.toRat ≠ 0 := by
    norm_num [ratio.toRat]
  have hz2 : test_unit.u2_type.factor.toRat ≠ 0 := by
    norm_num [test_unit.u2_type, ratio.toRat]
  have hz3 : ({ test_unit.u2_type with factor := ⟨1, 4294967296⟩ } : unit).factor.toRat ≠ 0 := by
    norm_num [ratio.toRat]
  have e31 := intmax_rescale_value_eq M { test_unit.u2_type with factor := ⟨1, 4294967296⟩ }
    { test_unit.u2_type with factor := ⟨4294967296, 1⟩ } (by decide) (by decide) 12
  rw [if_neg (by decide)] at e31
  have e21 := intmax_rescale_value_eq M test_unit.u2_type
    { test_unit.u2_type with factor := ⟨4294967296, 1⟩ } (by decide) (by decide) 12
  rw [if_pos (by decide)] at e21
  obtain ⟨w1, hw1⟩ := rescale_value_defined M test_unit.u2_type
    { test_unit.u2_type with factor := ⟨4294967296, 1⟩ } (by decide) (by decide) (Or.inl hz2) 12
  have e32 := intmax_rescale_value_eq M { test_unit.u2_type with factor := ⟨1, 4294967296⟩ }
    test_unit.u2_type (by decide) (by decide) w1
  rw [if_pos (by decide)] at e32
  obtain ⟨w2, hw2⟩ := rescale_value_defined M
    { test_unit.u2_type with factor := ⟨1, 4294967296⟩ } test_unit.u2_type (by decide)
    (by decide) (Or.inl hz3) w1
  refine ⟨M, hM, by decide, by decide, by decide, by decide, by decide, by decide, hz1, hz2,
    hz3, ⟨w2, ?_⟩, e31⟩
  rw [e21, hw1]
  show intmax.unit_impl.rescale_value M _ _ w1 = .ok w2
  rw [e32, hw2]

/-- C37 (amended): in exact arithmetic, for well-formed units `a`, `b` of one system, `a`
compatible with `a2` and `b` compatible with `b2`, where the factors of `a2` and `b2` are
not zero, let `ab` and `ab2` be the product units in unbounded integers; they are
compatible.  When the numerators and denominators of `ab` and `ab2` are representable by
`std::intmax_t` and each of the three conversions (from `a` to `a2`, from `b` to `b2`,
from `ab` to `ab2`) has its ratios in range, `unit_multiply<a, b>` and
`unit_multiply<a2, b2>` are well-formed, and for all raw values `x`, `y` rescaling `x * y`
from the first product unit to the second is the product of `x` rescaled from `a` to `a2`
and `y` rescaled from `b` to `b2`; so the quantity of the second product unit built from
the product of two quantities is the product of the two converted quantities.  A product
unit that is not representable is rejected. -/
theorem rescale_value_multiplicative_in_range (M : cmath ℝ) (hM : M.exact)
    (a a2 b b2 : unit) (ha : a.valid) (ha2 : a2.valid) (hb : b.valid) (hb2 : b2.valid)
    (hs : a.system = b.system)
    (hca : unit_impl.are_compatible a a2 = true)
    (hcb : unit_impl.are_compatible b b2 = true)
    (hza : a2.factor.toRat ≠ 0) (hzb : b2.factor.toRat ≠ 0) (x y : ℝ) :
    ∃ ab ab2, unit_multiply a b = .ok ab ∧ unit_multiply a2 b2 = .ok ab2 ∧
      unit_impl.are_compatible ab ab2 = true ∧
      intmax.unit_multiply a b = (if ab.representable then .ok ab else .error .overflow) ∧
      intmax.unit_multiply a2 b2 =
        (if ab2.representable then .ok ab2 else .error .overflow) ∧
      (ab.representable → ab2.representable →
        intmax.unit_impl.rescale_impl.representable a2 a →
        intmax.unit_impl.rescale_impl.representable b2 b →
        intmax.unit_impl.rescale_impl.representable ab2 ab →
        ∃ rx ry, intmax.unit_impl.rescale_value M a2 a x = .ok rx ∧
          intmax.unit_impl.rescale_value M b2 b y = .ok ry ∧
          intmax.unit_impl.rescale_value M ab2 ab (x * y) = .ok (rx * ry) ∧
          (intmax.quantity.mul ⟨a, x⟩ ⟨b, y⟩).bind (intmax.quantity.from_quantity M ab2) =
            .ok ⟨ab2, rx * ry⟩ ∧
          (intmax.quantity.from_quantity M a2 ⟨a, x⟩).bind (fun qa =>
            (intmax.quantity.from_quantity M b2 ⟨b, y⟩).bind (fun qb =>
              intmax.quantity.mul qa qb)) = .ok ⟨ab2, rx * ry⟩) := by
  obtain ⟨ab, ab2, rx, ry, hm, hm2, hcomp, hrx, hry, hrxy, _, _⟩ :=
    rescale_value_multiplicative M hM a a2 b b2 ha ha2 hb hb2 hs hca hcb hza hzb x y
  have ca := (are_compatible_eq_true a a2).1 hca
  have cb := (are_compatible_eq_true b b2).1 hcb
  have cab := (are_compatible_eq_true ab ab2).1 hcomp
  have hs2 : a2.system = b2.system := by rw [← ca.1, ← cb.1, hs]
  obtain ⟨m, hmm, hmv, _⟩ := unit_multiply_spec a b ha hb ((have_same_system_iff a b).2 hs)
  obtain ⟨m2, hmm2, hmv2, _⟩ :=
    unit_multiply_spec a2 b2 ha2 hb2 ((have_same_system_iff a2 b2).2 hs2)
  rw [hm] at hmm
  rw [hm2] at hmm2
  injection hmm with hmm
  injection hmm2 with hmm2
  subst hmm
  subst hmm2
  refine ⟨ab, ab2, hm, hm2, hcomp, intmax_unit_multiply_eq a b ab ha hb hm,
    intmax_unit_multiply_eq a2 b2 ab2 ha2 hb2 hm2, ?_⟩
  intro rab rab2 ra rb rr
  have i1 : intmax.unit_impl.rescale_value M a2 a x = .ok rx := by
    rw [intmax_rescale_value_eq M a2 a ha2 ha, if_pos ra]
    exact hrx
  have i2 : intmax.unit_impl.rescale_value M b2 b y = .ok ry := by
    rw [intmax_rescale_value_eq M b2 b hb2 hb, if_pos rb]
    exact hry
  have i3 : intmax.unit_impl.rescale_value M ab2 ab (x * y) = .ok (rx * ry) := by
    rw [intmax_rescale_value_eq M ab2 ab hmv2 hmv, if_pos rr]
    exact hrxy
  refine ⟨rx, ry, i1, i2, i3, ?_, ?_⟩
  · rw [intmax_mul_eq ⟨a, x⟩ ⟨b, y⟩ ab ha hb hm, if_pos rab]
    show intmax.quantity.from_quantity M ab2 ⟨ab, x * y⟩ = _
    rw [intmax.quantity.from_quantity, if_pos cab]
    show (intmax.unit_impl.rescale_value M ab2 ab (x * y)).map _ = _
    rw [i3]
    rfl
  · have f1 : intmax.quantity.from_quantity M a2 ⟨a, x⟩ = .ok ⟨a2, rx⟩ := by
      rw [intmax.quantity.from_quantity, if_pos ca]
      show (intmax.unit_impl.rescale_value M a2 a x).map _ = _
      rw [i1]
      rfl
    have f2 : intmax.quantity.from_quantity M b2 ⟨b, y⟩ = .ok ⟨b2, ry⟩ := by
      rw [intmax.quantity.from_quantity, if_pos cb]
      show (intmax.unit_impl.rescale_value M b2 b y).map _ = _
      rw [i2]
      rfl
    rw [f1]
    show (intmax.quantity.from_quantity M b2 ⟨b, y⟩).bind _ = _
    rw [f2]
    show intmax.quantity.mul ⟨a2, rx⟩ ⟨b2, ry⟩ = _
    rw [intmax_mul_eq ⟨a2, rx⟩ ⟨b2, ry⟩ ab2 ha2 hb2 hm2, if_pos rab2]
    rfl

/-- The witness of C37 (amended) on the units of `test_unit.cc`: `u1_type` with the
compatible `u2_type`, and `u3_type` with its unscaled unit. -/
theorem rescale_value_multiplicative_in_range_witness :
    ∃ M : cmath ℝ, M.exact ∧
      test_unit.u1_type.valid ∧ test_unit.u2_type.valid ∧ test_unit.u3_type.valid ∧
      test_unit.u3_type.unscaled.valid ∧
      test_unit.u1_type.system = test_unit.u3_type.system ∧
      unit_impl.are_compatible test_unit.u1_type test_unit.u2_type = true ∧
      unit_impl.are_compatible test_unit.u3_type test_unit.u3_type.unscaled = true ∧
      test_unit.u2_type.factor.toRat ≠ 0 ∧ test_unit.u3_type.unscaled.factor.toRat ≠ 0 ∧
      ∃ ab ab2 rx ry, intmax.unit_multiply test_unit.u1_type test_unit.u3_type = .ok ab ∧
        intmax.unit_multiply test_unit.u2_type test_unit.u3_type.unscaled = .ok ab2 ∧
        unit_impl.are_compatible ab ab2 = true ∧
        intmax.unit_impl.rescale_value M test_unit.u2_type test_unit.u1_type 3 = .ok rx ∧
        intmax.unit_impl.rescale_value M test_unit.u3_type.unscaled test_unit.u3_type 5 =
          .ok ry ∧
        intmax.unit_impl.rescale_value M ab2 ab (3 * 5) = .ok (rx * ry) := by
  obtain ⟨M, hM⟩ : ∃ M : cmath ℝ, M.exact := ⟨_, cmath.exact_real⟩
  have hza : test_unit.u2_type.factor.toRat ≠ 0 := by
    norm_num [test_unit.u2_type, ratio.toRat]
  have hzb : test_unit.u3_type.unscaled.factor.toRat ≠ 0 := by
    norm_num [unit.unscaled, ratio.toRat]
  obtain ⟨ab, ab2, h1, h2, h3, h4, h5, h6⟩ :=
    rescale_value_multiplicative_in_range M hM test_unit.u1_type test_unit.u2_type
      test_unit.u3_type test_unit.u3_type.unscaled (by decide) (by decide) (by decide)
      (by decide) (by decide) (by decide) (by decide) hza hzb 3 5
  have g1 : unit_multiply test_unit.u1_type test_unit.u3_type =
      .ok ⟨test_unit.sys1_type, [⟨2, 1⟩, ⟨2, 1⟩, ⟨0, 1⟩], ⟨2, 1⟩, ⟨2, 1⟩, ⟨2, 3⟩⟩ := by decide
  have g2 : unit_multiply test_unit.u2_type test_unit.u3_type.unscaled =
      .ok ⟨test_unit.sys1_type, [⟨2, 1⟩, ⟨2, 1⟩, ⟨0, 1⟩], ⟨0, 1⟩, ⟨0, 1⟩, ⟨1, 1⟩⟩ := by decide
  rw [g1] at h1
  rw [g2] at h2
  injection h1 with h1
  injection h2 with h2
  subst h1
  subst h2
  rw [if_pos (by decide)] at h4 h5
  obtain ⟨rx, ry, k1, k2, k3, _⟩ := h6 (by decide) (by decide) (by decide) (by decide)
    (by decide)
  exact ⟨M, hM, by decide, by decide, by decide, by decide, by decide, by decide, by decide,
    hza, hzb, _, _, rx, ry, h4, h5, h3, k1, k2, k3⟩

/-- C37 as stated fails: the unit with the system and dimensions of `mm_type` and the
factor `std::ratio<4294967296>` is well-formed, with arguments in range and a nonzero
factor, and compatible with itself, and `unit_multiply` of it with itself is rejected, the
factor 2^64 not being representable, so that there is no product unit to convert from or
to. -/
theorem rescale_value_multiplicative_overflow :
    ({ test_unit.u2_type with factor := ⟨4294967296, 1⟩ } : unit).valid ∧
    ({ test_unit.u2_type with factor := ⟨4294967296, 1⟩ } : unit).representable ∧
    unit_impl.are_compatible { test_unit.u2_type with factor := ⟨4294967296, 1⟩ }
      { test_unit.u2_type with factor := ⟨4294967296, 1⟩ } = true ∧
    ({ test_unit.u2_type with factor := ⟨4294967296, 1⟩ } : unit).factor.toRat ≠ 0 ∧
    intmax.unit_multiply { test_unit.u2_type with factor := ⟨4294967296, 1⟩ }
      { test_unit.u2_type with factor := ⟨4294967296, 1⟩ } = .error .overflow ∧
    intmax.quantity.mul
      (⟨{ test_unit.u2_type with factor := ⟨4294967296, 1⟩ }, 3⟩ : quantity ℚ)
      ⟨{ test_unit.u2_type with factor := ⟨4294967296, 1⟩ }, 5⟩ = .error .overflow := by
  have h : intmax.unit_multiply { test_unit.u2_type with factor := ⟨4294967296, 1⟩ }
      { test_unit.u2_type with factor := ⟨4294967296, 1⟩ } = .error .overflow := by decide
  refine ⟨by decide, by decide, by decide, ?_, h, ?_⟩
  · norm_num [ratio.toRat]
  · rw [intmax.quantity.mul, h]
    rfl

/-! ## Quantities in the range of `std::intmax_t`: products, quotients, sums -/

theorem intmax_implicit_incompatible {F : Type} [Field F] (M : cmath F) (u : unit)
    (b : quantity F) (hc : unit_impl.are_compatible u b.unit = false) :
    intmax.quantity.implicit M u b = .error .incompatible := by
  have hn : ¬ (u.system = b.unit.system ∧ u.dimensions = b.unit.dimensions) := by
    intro h
    rw [(are_compatible_eq_true _ _).2 h] at hc
    cases hc
  have he : b.unit ≠ u := fun h => hn ⟨by rw [h], by rw [h]⟩
  have hn2 : ¬ (b.unit.system = u.system ∧ b.unit.dimensions = u.dimensions) :=
    fun h => hn ⟨h.1.symm, h.2.symm⟩
  rw [intmax.quantity.implicit, if_neg he, intmax.quantity.from_quantity, if_neg hn2]

/-- C12 (amended): for quantities of well-formed units of one system, dimensionless or not,
let `u` be the product unit in unbounded integers.  When the numerators and denominators
of `u` are representable by `std::intmax_t`, `q1 * q2` is the quantity of unit
`unit_multiply<U1, U2>`, which is `u`, with raw value `q1.raw * q2.raw`; otherwise
`q1 * q2` is rejected.  When the factor of `U2` is not zero, the same holds of `q1 / q2`
with the quotient unit `unit_divide<U1, U2>` and the raw value `q1.raw / q2.raw`; when
that factor is zero `q1 / q2` is rejected.  No `<cmath>` function and no rescaling enters
either result. -/
theorem quantity_mul_div_in_range {F : Type} [Field F] (q1 q2 : quantity F)
    (h1 : q1.unit.valid) (h2 : q2.unit.valid)
    (hs : unit_impl.have_same_system q1.unit q2.unit = true) :
    (∃ u, unit_multiply q1.unit q2.unit = .ok u ∧
      intmax.unit_multiply q1.unit q2.unit =
        (if u.representable then .ok u else .error .overflow) ∧
      intmax.quantity.mul q1 q2 =
        (if u.representable then .ok ⟨u, q1.raw_value * q2.raw_value⟩
          else .error .overflow)) ∧
    (q2.unit.factor.toRat ≠ 0 →
      ∃ u, unit_divide q1.unit q2.unit = .ok u ∧
        intmax.unit_divide q1.unit q2.unit =
          (if u.representable then .ok u else .error .overflow) ∧
        intmax.quantity.div q1 q2 =
          (if u.representable then .ok ⟨u, q1.raw_value / q2.raw_value⟩
            else .error .overflow)) ∧
    (q2.unit.factor.toRat = 0 → ∃ e, intmax.quantity.div q1 q2 = .error e) := by
  obtain ⟨⟨u, hu, _⟩, hdiv, _⟩ := quantity_mul_div q1 q2 h1 h2 hs
  refine ⟨⟨u, hu, intmax_unit_multiply_eq _ _ u h1 h2 hu, intmax_mul_eq q1 q2 u h1 h2 hu⟩,
    fun hz => ?_, fun hz => ?_⟩
  · obtain ⟨d, hd, _⟩ := hdiv hz
    exact ⟨d, hd, intmax_unit_divide_eq _ _ d h1 h2 hd, intmax_div_eq q1 q2 d h1 h2 hd⟩
  · obtain ⟨e, he⟩ := intmax_unit_divide_zero q1.unit q2.unit
      ((q2.unit.factor.num_eq_zero_iff).2 hz)
    refine ⟨e, ?_⟩
    rw [intmax.quantity.div, he]
    rfl

/-- The witness of C12 (amended): 4 mm times 3 mm (unit `mm_type` of `test_unit.cc`) is the
quantity of raw value `4 * 3` whose unit has the length exponent 2 and the default scale,
and 4 mm divided by 3 mm the dimensionless quantity of raw value `4 / 3`. -/
theorem quantity_mul_div_in_range_witness :
    test_unit.u2_type.valid ∧
    unit_impl.have_same_system test_unit.u2_type test_unit.u2_type = true ∧
    test_unit.u2_type.factor.toRat ≠ 0 ∧
    intmax.quantity.mul (⟨test_unit.u2_type, 4⟩ : quantity ℚ) ⟨test_unit.u2_type, 3⟩ =
      .ok ⟨⟨test_unit.sys1_type, [⟨2, 1⟩, ⟨0, 1⟩, ⟨0, 1⟩], ⟨0, 1⟩, ⟨0, 1⟩, ⟨1, 1⟩⟩,
        (4 : ℚ) * 3⟩ ∧
    intmax.quantity.div (⟨test_unit.u2_type, 4⟩ : quantity ℚ) ⟨test_unit.u2_type, 3⟩ =
      .ok ⟨⟨test_unit.sys1_type, [⟨0, 1⟩, ⟨0, 1⟩, ⟨0, 1⟩], ⟨0, 1⟩, ⟨0, 1⟩, ⟨1, 1⟩⟩,
        (4 : ℚ) / 3⟩ := by
  have hz : test_unit.u2_type.factor.toRat ≠ 0 := by
    norm_num [test_unit.u2_type, ratio.toRat]
  have h := quantity_mul_div_in_range (⟨test_unit.u2_type, 4⟩ : quantity ℚ)
    ⟨test_unit.u2_type, 3⟩ (by decide) (by decide) (by decide)
  obtain ⟨m, hm, _, hmq⟩ := h.1
  obtain ⟨d, hd, _, hdq⟩ := h.2.1 hz
  have gm : unit_multiply test_unit.u2_type test_unit.u2_type =
      .ok ⟨test_unit.sys1_type, [⟨2, 1⟩, ⟨0, 1⟩, ⟨0, 1⟩], ⟨0, 1⟩, ⟨0, 1⟩, ⟨1, 1⟩⟩ := by decide
  have gd : unit_divide test_unit.u2_type test_unit.u2_type =
      .ok ⟨test_unit.sys1_type, [⟨0, 1⟩, ⟨0, 1⟩, ⟨0, 1⟩], ⟨0, 1⟩, ⟨0, 1⟩, ⟨1, 1⟩⟩ := by decide
  have em := hm.symm.trans gm
  have ed := hd.symm.trans gd
  injection em with em
  injection ed with ed
  subst em
  subst ed
  rw [if_pos (by decide)] at hmq hdq
  exact ⟨by decide, by decide, hz, hmq, hdq⟩

/-- C12 as stated fails twice: dividing by a quantity of the well-formed unit with the
system and dimensions of `mm_type` and factor `std::ratio<0>` is rejected, and the product
of two quantities of the well-formed unit with factor `std::ratio<4294967296>`, whose
arguments are in range, is rejected as well, its unit asking for the factor 2^64; no
quantity results. -/
theorem quantity_div_zero_or_mul_overflow :
    test_unit.u1_type.valid ∧ ({ test_unit.u2_type with factor := ⟨0, 1⟩ } : unit).valid ∧
    unit_impl.have_same_system test_unit.u1_type { test_unit.u2_type with factor := ⟨0, 1⟩ }
      = true ∧
    intmax.quantity.div (⟨test_unit.u1_type, 12⟩ : quantity ℚ)
      ⟨{ test_unit.u2_type with factor := ⟨0, 1⟩ }, 3⟩ = .error .zero_denominator ∧
    ({ test_unit.u2_type with factor := ⟨4294967296, 1⟩ } : unit).valid ∧
    ({ test_unit.u2_type with factor := ⟨4294967296, 1⟩ } : unit).representable ∧
    unit_impl.have_same_system { test_unit.u2_type with factor := ⟨4294967296, 1⟩ }
      { test_unit.u2_type with factor := ⟨4294967296, 1⟩ } = true ∧
    intmax.quantity.mul
      (⟨{ test_unit.u2_type with factor := ⟨4294967296, 1⟩ }, 4⟩ : quantity ℚ)
      ⟨{ test_unit.u2_type with factor := ⟨4294967296, 1⟩ }, 3⟩ = .error .overflow := by
  have hd : intmax.unit_divide test_unit.u1_type
      { test_unit.u2_type with factor := ⟨0, 1⟩ } = .error .zero_denominator := by decide
  have hm : intmax.unit_multiply { test_unit.u2_type with factor := ⟨4294967296, 1⟩ }
      { test_unit.u2_type with factor := ⟨4294967296, 1⟩ } = .error .overflow := by decide
  refine ⟨by decide, by decide, by decide, ?_, by decide, by decide, by decide, ?_⟩
  · rw [intmax.quantity.div, hd]
    rfl
  · rw [intmax.quantity.mul, hm]
    rfl

/-- C13 (amended): for compatible non-dimensionless quantities `a` and `b` of well-formed
units, where the factor of the unit of `a` is not zero or the two units are the same:
when the two units are the same type, or the differences of the `pow_10` and of the
`pow_pi` and the quotient of the factors (those of `ub` minus or over those of `ua`), in
lowest terms, are representable by `std::intmax_t`, `a + b` and `a - b` are quantities of
the unit of `a` whose raw value is `a.raw` plus or minus `rescale_value<ua, ub>(b.raw)`, so
that `(a + b).value() == a.value() + b.value<ua>()` and `(a - b).value() == a.value() -
b.value<ua>()`; otherwise `a + b` and `a - b` are rejected. -/
theorem quantity_add_sub_in_range {F : Type} [Field F] (M : cmath F) (a b : quantity F)
    (ha : a.unit.valid) (hb : b.unit.valid)
    (hc : unit_impl.are_compatible a.unit b.unit = true)
    (hd : a.unit.is_dimensionless = false)
    (hz : a.unit.factor.toRat ≠ 0 ∨ b.unit = a.unit) :
    (intmax.unit_impl.rescale_impl.representable a.unit b.unit →
      ∃ w, intmax.unit_impl.rescale_value M a.unit b.unit b.raw_value = .ok w ∧
        intmax.quantity.add_expr M a b = .ok ⟨a.unit, a.raw_value + w⟩ ∧
        intmax.quantity.sub_expr M a b = .ok ⟨a.unit, a.raw_value - w⟩ ∧
        intmax.quantity.value M a = .ok a.raw_value ∧
        intmax.quantity.value_in M b a.unit = .ok w ∧
        (intmax.quantity.add_expr M a b).bind (intmax.quantity.value M) =
          .ok (a.raw_value + w) ∧
        (intmax.quantity.sub_expr M a b).bind (intmax.quantity.value M) =
          .ok (a.raw_value - w)) ∧
    (¬ intmax.unit_impl.rescale_impl.representable a.unit b.unit →
      intmax.quantity.add_expr M a b = .error .overflow ∧
      intmax.quantity.sub_expr M a b = .error .overflow) := by
  have hcc := (are_compatible_eq_true _ _).1 hc
  have hcs : b.unit.system = a.unit.system ∧ b.unit.dimensions = a.unit.dimensions :=
    ⟨hcc.1.symm, hcc.2.symm⟩
  have hc2 : unit_impl.are_compatible b.unit a.unit = true :=
    (are_compatible_eq_true _ _).2 hcs
  refine ⟨fun hrep => ?_, fun hrep => intmax_add_expr_overflow M a b ha hb hcs hrep⟩
  obtain ⟨w, hw, hadd, hsub, _, _, _, _⟩ := quantity_add_sub M a b ha hb hc hd hz
  have e := intmax_add_expr_eq M a b ha hb hrep
  have iw : intmax.unit_impl.rescale_value M a.unit b.unit b.raw_value = .ok w := by
    rw [intmax_rescale_value_eq M a.unit b.unit ha hb, if_pos hrep]
    exact hw
  have iadd : intmax.quantity.add_expr M a b = .ok ⟨a.unit, a.raw_value + w⟩ := by
    rw [e.1]
    exact hadd
  have isub : intmax.quantity.sub_expr M a b = .ok ⟨a.unit, a.raw_value - w⟩ := by
    rw [e.2]
    exact hsub
  refine ⟨w, iw, iadd, isub, intmax_value_dimensioned M a hd, ?_, ?_, ?_⟩
  · rw [intmax.quantity.value_in, if_pos hc2, intmax_from_quantity_eq M a.unit b ha hb hrep,
      from_quantity_ok M a.unit b hcs w hw]
    exact intmax_value_dimensioned M ⟨a.unit, w⟩ hd
  · rw [iadd]
    exact intmax_value_dimensioned M ⟨a.unit, a.raw_value + w⟩ hd
  · rw [isub]
    exact intmax_value_dimensioned M ⟨a.unit, a.raw_value - w⟩ hd

/-- The witness of C13 (amended) in `test_quantity`: `q_mm + q_pi_cm_over_2` and
`q_mm - q_pi_cm_over_2`, for a `q_mm` of raw value 5 and `q_pi_cm_over_2` of raw value 12. -/
theorem quantity_add_sub_in_range_witness :
    ∃ M : cmath ℝ, M.exact ∧ test_unit.u2_type.valid ∧ test_unit.u1_type.valid ∧
      unit_impl.are_compatible test_unit.u2_type test_unit.u1_type = true ∧
      test_unit.u2_type.is_dimensionless = false ∧
      test_unit.u2_type.factor.toRat ≠ 0 ∧
      intmax.unit_impl.rescale_impl.representable test_unit.u2_type test_unit.u1_type ∧
      intmax.quantity.add_expr M ⟨test_unit.u2_type, 5⟩ ⟨test_unit.u1_type, 12⟩ =
        .ok ⟨test_unit.u2_type, 5 + 12 * (Real.pi * 10) / 2⟩ ∧
      intmax.quantity.sub_expr M ⟨test_unit.u2_type, 5⟩ ⟨test_unit.u1_type, 12⟩ =
        .ok ⟨test_unit.u2_type, 5 - 12 * (Real.pi * 10) / 2⟩ := by
  have hz : test_unit.u2_type.factor.toRat ≠ 0 := by
    norm_num [test_unit.u2_type, ratio.toRat]
  refine ⟨_, cmath.exact_real, by decide, by decide, by decide, by decide, hz, by decide, ?_⟩
  obtain ⟨w, hw, hadd, hsub, _⟩ :=
    (quantity_add_sub_in_range _ (⟨test_unit.u2_type, 5⟩ : quantity ℝ)
      ⟨test_unit.u1_type, 12⟩ (by decide) (by decide) (by decide) (by decide)
      (Or.inl hz)).1 (by decide)
  rw [intmax_rescale_value_eq _ test_unit.u2_type test_unit.u1_type (by decide) (by decide),
    if_pos (by decide)] at hw
  have hw2 := rescale_pi_cm_over_2_to_mm _ cmath.exact_real 12
  have hw3 : w = 12 * (Real.pi * 10) / 2 := by
    have h := hw.symm.trans hw2
    injection h
  rw [hw3] at hadd hsub
  exact ⟨hadd, hsub⟩

/-- C13 as stated fails twice.  Where the unit of `a` has the factor `std::ratio<0>` and
differs from the unit of `b`, neither `a + b` nor `a - b` is accepted, the conversion of
`b` asking for a `std::ratio` with denominator zero; and where the unit of `a` has the
factor `std::ratio<1, 4294967296>` and the unit of `b` the factor `std::ratio<4294967296>`
neither is accepted, the conversion asking for the factor 2^64.  The quantities are
compatible and non-dimensionless in both cases. -/
theorem quantity_add_zero_or_overflow :
    ∃ M : cmath ℝ, M.exact ∧
      ({ test_unit.u2_type with factor := ⟨0, 1⟩ } : unit).valid ∧ test_unit.u1_type.valid ∧
      unit_impl.are_compatible { test_unit.u2_type with factor := ⟨0, 1⟩ } test_unit.u1_type
        = true ∧
      ({ test_unit.u2_type with factor := ⟨0, 1⟩ } : unit).is_dimensionless = false ∧
      intmax.quantity.add_expr M ⟨{ test_unit.u2_type with factor := ⟨0, 1⟩ }, 5⟩
        ⟨test_unit.u1_type, 12⟩ = .error .zero_denominator ∧
      intmax.quantity.sub_expr M ⟨{ test_unit.u2_type with factor := ⟨0, 1⟩ }, 5⟩
        ⟨test_unit.u1_type, 12⟩ = .error .zero_denominator ∧
      ({ test_unit.u2_type with factor := ⟨1, 4294967296⟩ } : unit).valid ∧
      ({ test_unit.u2_type with factor := ⟨4294967296, 1⟩ } : unit).valid ∧
      ({ test_unit.u2_type with factor := ⟨1, 4294967296⟩ } : unit).representable ∧
      ({ test_unit.u2_type with factor := ⟨4294967296, 1⟩ } : unit).representable ∧
      unit_impl.are_compatible { test_unit.u2_type with factor := ⟨1, 4294967296⟩ }
        { test_unit.u2_type with factor := ⟨4294967296, 1⟩ } = true ∧
      ({ test_unit.u2_type with factor := ⟨1, 4294967296⟩ } : unit).is_dimensionless
        = false ∧
      ({ test_unit.u2_type with factor := ⟨1, 4294967296⟩ } : unit).factor.toRat ≠ 0 ∧
      intmax.quantity.add_expr M ⟨{ test_unit.u2_type with factor := ⟨1, 4294967296⟩ }, 5⟩
        ⟨{ test_unit.u2_type with factor := ⟨4294967296, 1⟩ }, 12⟩ = .error .overflow ∧
      intmax.quantity.sub_expr M ⟨{ test_unit.u2_type with factor := ⟨1, 4294967296⟩ }, 5⟩
        ⟨{ test_unit.u2_type with factor := ⟨4294967296, 1⟩ }, 12⟩ = .error .overflow := by
  obtain ⟨M, hM, _, _, _, _, hadd, hsub⟩ := quantity_add_zero_factor
  have e := intmax_add_expr_eq M ⟨{ test_unit.u2_type with factor := ⟨0, 1⟩ }, 5⟩
    ⟨test_unit.u1_type, 12⟩ (by decide) (by decide) (by decide)
  have o := intmax_add_expr_overflow M
    ⟨{ test_unit.u2_type with factor := ⟨1, 4294967296⟩ }, 5⟩
    ⟨{ test_unit.u2_type with factor := ⟨4294967296, 1⟩ }, 12⟩ (by decide) (by decide)
    ⟨by decide, by decide⟩ (by decide)
  refine ⟨M, hM, by decide, by decide, by decide, by decide, ?_, ?_, by decide, by decide,
    by decide, by decide, by decide, by decide, ?_, o.1, o.2⟩
  · rw [e.1]
    exact hadd
  · rw [e.2]
    exact hsub
  · norm_num [ratio.toRat]

/-- C14 (amended): `operator+` and `operator-` of a non-dimensionless quantity take a
right operand of the type of the left one.  For identical units the raw values are added
or subtracted directly and the unit is unchanged; an operand whose unit is compatible
but differs in scale is accepted as well and is rescaled into the unit of the left
operand by the converting constructor, whenever that conversion is well-formed: the
factor of the left unit is not zero and the differences of the `pow_10` and of the
`pow_pi` and the quotient of the factors are representable by `std::intmax_t`; when they
are not, the operand is rejected, and so is an operand whose unit is not compatible. -/
theorem quantity_add_sub_operands_in_range {F : Type} [Field F] (M : cmath F)
    (a b : quantity F) (ha : a.unit.valid) (hb : b.unit.valid)
    (hd : a.unit.is_dimensionless = false) :
    (b.unit = a.unit →
      intmax.quantity.add_expr M a b = .ok ⟨a.unit, a.raw_value + b.raw_value⟩ ∧
      intmax.quantity.sub_expr M a b = .ok ⟨a.unit, a.raw_value - b.raw_value⟩ ∧
      (intmax.quantity.add_expr M a b).bind (intmax.quantity.value M) =
        .ok (a.raw_value + b.raw_value)) ∧
    (unit_impl.are_compatible a.unit b.unit = true → a.unit.factor.toRat ≠ 0 →
      intmax.unit_impl.rescale_impl.representable a.unit b.unit →
      ∃ w, intmax.unit_impl.rescale_value M a.unit b.unit b.raw_value = .ok w ∧
        intmax.quantity.add_expr M a b = .ok ⟨a.unit, a.raw_value + w⟩ ∧
        intmax.quantity.sub_expr M a b = .ok ⟨a.unit, a.raw_value - w⟩) ∧
    (unit_impl.are_compatible a.unit b.unit = true →
      ¬ intmax.unit_impl.rescale_impl.representable a.unit b.unit →
      intmax.quantity.add_expr M a b = .error .overflow ∧
      intmax.quantity.sub_expr M a b = .error .overflow) ∧
    (unit_impl.are_compatible a.unit b.unit = false →
      intmax.quantity.add_expr M a b = .error .incompatible ∧
      intmax.quantity.sub_expr M a b = .error .incompatible) := by
  refine ⟨fun he => ?_, fun hc hz hrep => ?_, fun hc hrep => ?_, fun hc => ?_⟩
  · have hi : intmax.quantity.implicit M a.unit b = .ok b := by
      rw [intmax.quantity.implicit, if_pos he]
    have hadd : intmax.quantity.add_expr M a b = .ok ⟨a.unit, a.raw_value + b.raw_value⟩ := by
      rw [intmax.quantity.add_expr, hi]; rfl
    refine ⟨hadd, ?_, ?_⟩
    · rw [intmax.quantity.sub_expr, hi]; rfl
    · rw [hadd]
      exact intmax_value_dimensioned M ⟨a.unit, a.raw_value + b.raw_value⟩ hd
  · obtain ⟨w, hw, hadd, hsub⟩ := (quantity_add_sub_operands M a b ha hb).2.1 hc hz
    have e := intmax_add_expr_eq M a b ha hb hrep
    refine ⟨w, ?_, ?_, ?_⟩
    · rw [intmax_rescale_value_eq M a.unit b.unit ha hb, if_pos hrep]
      exact hw
    · rw [e.1]
      exact hadd
    · rw [e.2]
      exact hsub
  · have hcc := (are_compatible_eq_true _ _).1 hc
    exact intmax_add_expr_overflow M a b ha hb ⟨hcc.1.symm, hcc.2.symm⟩ hrep
  · have hi := intmax_implicit_incompatible M a.unit b hc
    constructor
    · rw [intmax.quantity.add_expr, hi]; rfl
    · rw [intmax.quantity.sub_expr, hi]; rfl

/-- The witness of C14 (amended) on the units of `test_unit.cc`: `mm_type` on the left,
and on the right `mm_type` itself, the compatible `pi_cm_over_2_type`, and `u3_type`,
which is not compatible. -/
theorem quantity_add_sub_operands_in_range_witness :
    ∃ M : cmath ℝ, M.exact ∧ test_unit.u2_type.valid ∧ test_unit.u1_type.valid ∧
      test_unit.u3_type.valid ∧ test_unit.u2_type.is_dimensionless = false ∧
      test_unit.u2_type.factor.toRat ≠ 0 ∧
      unit_impl.are_compatible test_unit.u2_type test_unit.u1_type = true ∧
      intmax.unit_impl.rescale_impl.representable test_unit.u2_type test_unit.u1_type ∧
      unit_impl.are_compatible test_unit.u2_type test_unit.u3_type = false ∧
      intmax.quantity.add_expr M ⟨test_unit.u2_type, 5⟩ ⟨test_unit.u2_type, 12⟩ =
        .ok ⟨test_unit.u2_type, 5 + 12⟩ ∧
      (∃ w, intmax.unit_impl.rescale_value M test_unit.u2_type test_unit.u1_type 12 = .ok w ∧
        intmax.quantity.add_expr M ⟨test_unit.u2_type, 5⟩ ⟨test_unit.u1_type, 12⟩ =
          .ok ⟨test_unit.u2_type, 5 + w⟩) ∧
      intmax.quantity.add_expr M ⟨test_unit.u2_type, 5⟩ ⟨test_unit.u3_type, 12⟩ =
        .error .incompatible := by
  have hz : test_unit.u2_type.factor.toRat ≠ 0 := by
    norm_num [test_unit.u2_type, ratio.toRat]
  refine ⟨_, cmath.exact_real, by decide, by decide, by decide, by decide, hz, by decide,
    by decide, by decide, ?_, ?_, ?_⟩
  · exact ((quantity_add_sub_operands_in_range _ (⟨test_unit.u2_type, 5⟩ : quantity ℝ)
      ⟨test_unit.u2_type, 12⟩ (by decide) (by decide) (by decide)).1 rfl).1
  · obtain ⟨w, hw, hadd, _⟩ :=
      (quantity_add_sub_operands_in_range _ (⟨test_unit.u2_type, 5⟩ : quantity ℝ)
        ⟨test_unit.u1_type, 12⟩ (by decide) (by decide) (by decide)).2.1 (by decide) hz
        (by decide)
    exact ⟨w, hw, hadd⟩
  · exact ((quantity_add_sub_operands_in_range _ (⟨test_unit.u2_type, 5⟩ : quantity ℝ)
      ⟨test_unit.u3_type, 12⟩ (by decide) (by decide) (by decide)).2.2.2 (by decide)).1

/-- C14 as stated fails on the sum checked in `test_quantity`: `pi_cm_over_2_type` differs
from `mm_type` in `pow_10`, `pow_pi` and factor, both are non-dimensionless, and
`q_mm + q_pi_cm_over_2` is accepted without an explicit conversion, giving the quantity of
`mm_type` with raw value `q_mm.raw + 12 * (pi * 10) / 2`. -/
theorem quantity_add_converts_implicitly :
    ∃ M : cmath ℝ, M.exact ∧
      test_unit.u1_type ≠ test_unit.u2_type ∧
      test_unit.u1_type.pow_10 ≠ test_unit.u2_type.pow_10 ∧
      test_unit.u1_type.pow_pi ≠ test_unit.u2_type.pow_pi ∧
      test_unit.u1_type.factor ≠ test_unit.u2_type.factor ∧
      test_unit.u2_type.is_dimensionless = false ∧
      test_unit.u1_type.is_dimensionless = false ∧
      intmax.quantity.add_expr M ⟨test_unit.u2_type, 5⟩ ⟨test_unit.u1_type, 12⟩ =
        .ok ⟨test_unit.u2_type, 5 + 12 * (Real.pi * 10) / 2⟩ ∧
      intmax.quantity.sub_expr M ⟨test_unit.u2_type, 5⟩ ⟨test_unit.u1_type, 12⟩ =
        .ok ⟨test_unit.u2_type, 5 - 12 * (Real.pi * 10) / 2⟩ := by
  obtain ⟨M, hM, h1, h2, h3, h4, h5, hadd, hsub⟩ := quantity_add_accepts_compatible
  have e := intmax_add_expr_eq M ⟨test_unit.u2_type, 5⟩ ⟨test_unit.u1_type, 12⟩ (by decide)
    (by decide) (by decide)
  refine ⟨M, hM, h1, h2, h3, h4, h5, by decide, ?_, ?_⟩
  · rw [e.1]
    exact hadd
  · rw [e.2]
    exact hsub

/-- C20 (amended): in exact arithmetic, for dimensionless quantities `a` and `b` of
well-formed units of the same system whose arguments are representable by
`std::intmax_t`, `a.value()` and `b.value()` exist; the product unit `u`, in unbounded
integers, is dimensionless, and when its numerators and denominators are representable
`a * b` is the quantity of unit `u` with raw value `a.raw_value() * b.raw_value()` and
`(a * b).value() == a.value() * b.value()`, and otherwise `a * b` is rejected.  When the
factor of the unit of `b` is not zero and `b` is not zero, the same holds of `a / b` with
the quotient unit, the raw value `a.raw_value() / b.raw_value()` and
`(a / b).value() == a.value() / b.value()`. -/
theorem quantity_dimensionless_mul_div_in_range (M : cmath ℝ) (hM : M.exact)
    (a b : quantity ℝ) (ha : a.unit.valid) (hb : b.unit.valid)
    (har : a.unit.representable) (hbr : b.unit.representable)
    (hda : a.unit.is_dimensionless = true) (hdb : b.unit.is_dimensionless = true)
    (hs : a.unit.system = b.unit.system) :
    ∃ x y : ℝ, intmax.quantity.value M a = .ok x ∧ intmax.quantity.value M b = .ok y ∧
      (∃ u, unit_multiply a.unit b.unit = .ok u ∧ u.is_dimensionless = true ∧
        (u.representable →
          intmax.quantity.mul a b = .ok ⟨u, a.raw_value * b.raw_value⟩ ∧
          intmax.quantity.value M ⟨u, a.raw_value * b.raw_value⟩ = .ok (x * y) ∧
          (intmax.quantity.mul a b).bind (intmax.quantity.value M) = .ok (x * y)) ∧
        (¬ u.representable → intmax.quantity.mul a b = .error .overflow)) ∧
      (b.unit.factor.toRat ≠ 0 → b.raw_value ≠ 0 →
        ∃ u, unit_divide a.unit b.unit = .ok u ∧ u.is_dimensionless = true ∧
          (u.representable →
            intmax.quantity.div a b = .ok ⟨u, a.raw_value / b.raw_value⟩ ∧
            intmax.quantity.value M ⟨u, a.raw_value / b.raw_value⟩ = .ok (x / y) ∧
            (intmax.quantity.div a b).bind (intmax.quantity.value M) = .ok (x / y)) ∧
          (¬ u.representable → intmax.quantity.div a b = .error .overflow)) := by
  obtain ⟨x, y, hx, hy, ⟨m, hm, hmr, hmd, hmv⟩, hdiv⟩ :=
    quantity_dimensionless_mul_div M hM a b ha hb hda hdb hs
  have hsame := (have_same_system_iff a.unit b.unit).2 hs
  refine ⟨x, y, ?_, ?_, ?_, ?_⟩
  · rw [intmax_value_eq M a ha har]
    exact hx
  · rw [intmax_value_eq M b hb hbr]
    exact hy
  · obtain ⟨u, hu, huv, _⟩ := unit_multiply_spec a.unit b.unit ha hb hsame
    have hmu : m = ⟨u, a.raw_value * b.raw_value⟩ := by
      rw [quantity_mul_ok a b u hu] at hm
      injection hm with hm
      exact hm.symm
    subst hmu
    have e := intmax_mul_eq a b u ha hb hu
    refine ⟨u, hu, hmd, fun hr => ?_, fun hr => ?_⟩
    · rw [if_pos hr] at e
      have hv : intmax.quantity.value M ⟨u, a.raw_value * b.raw_value⟩ = .ok (x * y) := by
        rw [intmax_value_eq M ⟨u, a.raw_value * b.raw_value⟩ huv hr]
        exact hmv
      refine ⟨e, hv, ?_⟩
      rw [e]
      exact hv
    · rw [if_neg hr] at e
      exact e
  · intro hz hb0
    obtain ⟨d, hd, hdr, hdd, hdv⟩ := hdiv hz hb0
    obtain ⟨u, hu, huv, _⟩ := unit_divide_spec a.unit b.unit ha hb hsame hz
    have hdu : d = ⟨u, a.raw_value / b.raw_value⟩ := by
      rw [quantity_div_ok a b u hu] at hd
      injection hd with hd
      exact hd.symm
    subst hdu
    have e := intmax_div_eq a b u ha hb hu
    refine ⟨u, hu, hdd, fun hr => ?_, fun hr => ?_⟩
    · rw [if_pos hr] at e
      have hv : intmax.quantity.value M ⟨u, a.raw_value / b.raw_value⟩ = .ok (x / y) := by
        rw [intmax_value_eq M ⟨u, a.raw_value / b.raw_value⟩ huv hr]
        exact hdv
      refine ⟨e, hv, ?_⟩
      rw [e]
      exact hv
    · rw [if_neg hr] at e
      exact e

/-- The witness of C20 (amended) in `test_quantity`: for `q00{12}` and `q01{8.9}` (unit
`u01_type`, factor 3/2), with values `12 * (pi * 100) / 4` and `8.9 * 3 / 2`, the product
and the quotient have the product and the quotient of these values as `value()`. -/
theorem quantity_dimensionless_mul_div_in_range_witness :
    ∃ M : cmath ℝ, M.exact ∧ test_unit.u00_type.valid ∧ test_unit.u01_type.valid ∧
      test_unit.u00_type.representable ∧ test_unit.u01_type.representable ∧
      test_unit.u00_type.is_dimensionless = true ∧
      test_unit.u01_type.is_dimensionless = true ∧
      test_unit.u00_type.system = test_unit.u01_type.system ∧
      test_unit.u01_type.factor.toRat ≠ 0 ∧
      (intmax.quantity.mul ⟨test_unit.u00_type, 12⟩ ⟨test_unit.u01_type, 89 / 10⟩).bind
        (intmax.quantity.value M) = .ok (12 * (Real.pi * 100) / 4 * (89 / 10 * 3 / 2)) ∧
      (intmax.quantity.div ⟨test_unit.u00_type, 12⟩ ⟨test_unit.u01_type, 89 / 10⟩).bind
        (intmax.quantity.value M) = .ok (12 * (Real.pi * 100) / 4 / (89 / 10 * 3 / 2)) := by
  obtain ⟨M, hM⟩ : ∃ M : cmath ℝ, M.exact := ⟨_, cmath.exact_real⟩
  have hz : test_unit.u01_type.factor.toRat ≠ 0 := by
    norm_num [test_unit.u01_type, ratio.toRat]
  obtain ⟨x, y, hx, hy, ⟨m, hm, _, hmr, _⟩, hdiv⟩ :=
    quantity_dimensionless_mul_div_in_range M hM
      ⟨test_unit.u00_type, 12⟩ ⟨test_unit.u01_type, 89 / 10⟩ (by decide) (by decide)
      (by decide) (by decide) (by decide) (by decide) (by decide)
  obtain ⟨n, hn, _, hnr, _⟩ := hdiv hz (by show (89 / 10 : ℝ) ≠ 0; norm_num)
  have gm : unit_multiply test_unit.u00_type test_unit.u01_type =
      .ok ⟨test_unit.sys1_type, [⟨0, 1⟩, ⟨0, 1⟩, ⟨0, 1⟩], ⟨2, 1⟩, ⟨1, 1⟩, ⟨3, 8⟩⟩ := by decide
  have gd : unit_divide test_unit.u00_type test_unit.u01_type =
      .ok ⟨test_unit.sys1_type, [⟨0, 1⟩, ⟨0, 1⟩, ⟨0, 1⟩], ⟨2, 1⟩, ⟨1, 1⟩, ⟨1, 6⟩⟩ := by decide
  have em := hm.symm.trans gm
  have ed := hn.symm.trans gd
  injection em with em
  injection ed with ed
  subst em
  subst ed
  rw [intmax_value_eq M ⟨test_unit.u00_type, 12⟩ (by decide) (by decide),
    value_q00 M hM 12] at hx
  rw [intmax_value_eq M ⟨test_unit.u01_type, 89 / 10⟩ (by decide) (by decide),
    value_q01 M hM (89 / 10)] at hy
  injection hx with hx
  injection hy with hy
  subst hx
  subst hy
  exact ⟨M, hM, by decide, by decide, by decide, by decide, by decide, by decide, by decide,
    hz, (hmr (by decide)).2.2, (hnr (by decide)).2.2⟩

/-- C20 as stated fails: the unit with the system and dimensions of `u00_type`, the
default exponents and the factor `std::ratio<4294967296>` is a well-formed dimensionless
unit whose arguments are in range, with a nonzero factor; two quantities of it have a
`value()`, and their product is rejected, its unit asking for the factor 2^64, so that
`(a * b).value()` does not exist; likewise the quotient by a quantity of the unit with
factor `std::ratio<1, 4294967296>`. -/
theorem quantity_dimensionless_mul_overflow :
    ∃ M : cmath ℝ, M.exact ∧
      ({ test_unit.u00_type with factor := ⟨4294967296, 1⟩ } : unit).valid ∧
      ({ test_unit.u00_type with factor := ⟨4294967296, 1⟩ } : unit).representable ∧
      ({ test_unit.u00_type with factor := ⟨4294967296, 1⟩ } : unit).is_dimensionless
        = true ∧
      ({ test_unit.u00_type with factor := ⟨4294967296, 1⟩ } : unit).factor.toRat ≠ 0 ∧
      ({ test_unit.u00_type with factor := ⟨1, 4294967296⟩ } : unit).valid ∧
      ({ test_unit.u00_type with factor := ⟨1, 4294967296⟩ } : unit).representable ∧
      ({ test_unit.u00_type with factor := ⟨1, 4294967296⟩ } : unit).is_dimensionless
        = true ∧
      ({ test_unit.u00_type with factor := ⟨1, 4294967296⟩ } : unit).factor.toRat ≠ 0 ∧
      (∃ x, intmax.quantity.value M
        ⟨{ test_unit.u00_type with factor := ⟨4294967296, 1⟩ }, 12⟩ = .ok x) ∧
      (∃ y, intmax.quantity.value M
        ⟨{ test_unit.u00_type with factor := ⟨1, 4294967296⟩ }, 3⟩ = .ok y) ∧
      intmax.quantity.mul
        (⟨{ test_unit.u00_type with factor := ⟨4294967296, 1⟩ }, 12⟩ : quantity ℝ)
        ⟨{ test_unit.u00_type with factor := ⟨4294967296, 1⟩ }, 12⟩ = .error .overflow ∧
      intmax.quantity.div
        (⟨{ test_unit.u00_type with factor := ⟨4294967296, 1⟩ }, 12⟩ : quantity ℝ)
        ⟨{ test_unit.u00_type with factor := ⟨1, 4294967296⟩ }, 3⟩ = .error .overflow := by
  obtain ⟨M, hM⟩ : ∃ M : cmath ℝ, M.exact := ⟨_, cmath.exact_real⟩
  have hm : intmax.unit_multiply { test_unit.u00_type with factor := ⟨4294967296, 1⟩ }
      { test_unit.u00_type with factor := ⟨4294967296, 1⟩ } = .error .overflow := by decide
  have hd : intmax.unit_divide { test_unit.u00_type with factor := ⟨4294967296, 1⟩ }
      { test_unit.u00_type with factor := ⟨1, 4294967296⟩ } = .error .overflow := by decide
  have hx := value_dimensionless_exact M hM
    ⟨{ test_unit.u00_type with factor := ⟨4294967296, 1⟩ }, 12⟩ (by decide) (by decide)
  have hy := value_dimensionless_exact M hM
    ⟨{ test_unit.u00_type with factor := ⟨1, 4294967296⟩ }, 3⟩ (by decide) (by decide)
  have ix := intmax_value_eq M
    ⟨{ test_unit.u00_type with factor := ⟨4294967296, 1⟩ }, 12⟩ (by decide) (by decide)
  have iy := intmax_value_eq M
    ⟨{ test_unit.u00_type with factor := ⟨1, 4294967296⟩ }, 3⟩ (by decide) (by decide)
  refine ⟨M, hM, by decide, by decide, by decide, ?_, by decide, by decide, by decide, ?_,
    ⟨_, ix.trans hx⟩, ⟨_, iy.trans hy⟩, ?_, ?_⟩
  · norm_num [ratio.toRat]
  · norm_num [ratio.toRat]
  · rw [intmax.quantity.mul, hm]
    rfl
  · rw [intmax.quantity.div, hd]
    rfl

/-! ## The search of `iroot` in the range of `std::intmax_t` -/

/-- C23 (amended): for every well-formed unit in which no name of the system (the variable
the template argument is bound to) occurs twice with the same exponent type, which is the
case whenever the names of the system are distinct variables, the dimension part of
`unit_string` is well-formed and lists, in the declared order of the system, the base
dimensions with a nonzero exponent, each as its name after a blank, bare for the exponent
1, with `^n` for another integer `n` and with `^(num/den)` for a non-integer exponent; it
follows the scale clause, and an unscaled dimensionless unit is named by the empty
string.  For a unit in which a name occurs twice with the same exponent type,
`unit_string` is ill-formed. -/
theorem unit_string_streamers (ds : Int → Int → String) (u : unit) (hu : u.valid) :
    ((List.zip (u.system.names.map name_ref.object) u.dimensions).Nodup →
      unit_impl.stream_unit_name_dimensions u.system u.dimensions =
        .ok (dimension_names_spec (u.system.names.map name_ref.text)
          (u.dimensions.map ratio.toRat)) ∧
      (∃ clause, unit_string ds u =
        .ok (clause ++ dimension_names_spec (u.system.names.map name_ref.text)
          (u.dimensions.map ratio.toRat))) ∧
      (u.is_dimensionless = true → u.pow_10 = ⟨0, 1⟩ → u.pow_pi = ⟨0, 1⟩ →
        u.factor = ⟨1, 1⟩ → unit_string ds u = .ok "")) ∧
    (¬ (List.zip (u.system.names.map name_ref.object) u.dimensions).Nodup →
      unit_impl.stream_unit_name_dimensions u.system u.dimensions = .error .duplicate_base ∧
      unit_string ds u = .error .duplicate_base) ∧
    ((u.system.names.map name_ref.object).Nodup →
      (List.zip (u.system.names.map name_ref.object) u.dimensions).Nodup) := by
  have hlen : u.system.names.length = u.dimensions.length := hu.1
  refine ⟨fun hzip => ?_, fun hzip => ?_, fun hnd =>
    zip_nodup_of_left _ _ (by rw [List.length_map]; exact hlen) hnd⟩
  · have hs : unit_impl.stream_unit_name_dimensions u.system u.dimensions =
        .ok (dimension_names_spec (u.system.names.map name_ref.text)
          (u.dimensions.map ratio.toRat)) := by
      rw [unit_impl.stream_unit_name_dimensions, if_neg (by simpa using hlen),
        if_neg (by simpa using hzip), join_streamers _ _ hu.2.1]
    refine ⟨hs, ?_, fun hd h1 h2 h3 => ?_⟩
    · unfold unit_string
      simp only []
      rw [hs]
      exact ⟨_, rfl⟩
    · have hdl : u.dimensions = unit_impl.make_dimensionless u.system.size := by
        simpa [unit.is_dimensionless] using hd
      have hz : dimension_names_spec (u.system.names.map name_ref.text)
          (u.dimensions.map ratio.toRat) = "" := by
        have h0 : (⟨0, 1⟩ : ratio).toRat = 0 := by norm_num [ratio.toRat]
        rw [hdl, unit_impl.make_dimensionless, List.map_replicate, h0]
        exact dimension_names_spec_zero _ _
      have hf : ratio_not_equal ⟨1, 1⟩ ⟨1, 1⟩ = false := by decide
      have hp : ratio_not_equal ⟨0, 1⟩ ⟨0, 1⟩ = false := by decide
      unfold unit_string
      simp only []
      rw [hs, hz, h1, h2, h3, hf, hp]
      rfl
  · have hs : unit_impl.stream_unit_name_dimensions u.system u.dimensions =
        .error .duplicate_base := by
      rw [unit_impl.stream_unit_name_dimensions, if_neg (by simpa using hlen), if_pos hzip]
    refine ⟨hs, ?_⟩
    unfold unit_string
    simp only []
    rw [hs]
    rfl

/-- The witness of C23 (amended): the names of `sys1_type` are distinct variables; for the
units of `test_quantity` named `" mm^2"`, `" mm^(2/3)"` and `" mm^-1"` the dimension part
of the specification is this name, and the unscaled dimensionless unit is named by the
empty string. -/
theorem unit_string_streamers_witness :
    (test_unit.sys1_type.names.map name_ref.object).Nodup ∧
    (⟨test_unit.sys1_type, [⟨2, 3⟩, ⟨0, 1⟩, ⟨0, 1⟩], ⟨0, 1⟩, ⟨0, 1⟩, ⟨1, 1⟩⟩ : unit).valid ∧
    dimension_names_spec (test_unit.sys1_type.names.map name_ref.text)
      (([⟨2, 1⟩, ⟨0, 1⟩, ⟨0, 1⟩] : unit_dimensions).map ratio.toRat) = " mm^2" ∧
    dimension_names_spec (test_unit.sys1_type.names.map name_ref.text)
      (([⟨2, 3⟩, ⟨0, 1⟩, ⟨0, 1⟩] : unit_dimensions).map ratio.toRat) = " mm^(2/3)" ∧
    dimension_names_spec (test_unit.sys1_type.names.map name_ref.text)
      (([⟨-1, 1⟩, ⟨0, 1⟩, ⟨0, 1⟩] : unit_dimensions).map ratio.toRat) = " mm^-1" ∧
    (∀ ds : Int → Int → String,
      unit_string ds ⟨test_unit.sys1_type, [⟨2, 3⟩, ⟨0, 1⟩, ⟨0, 1⟩], ⟨0, 1⟩, ⟨0, 1⟩, ⟨1, 1⟩⟩ =
        .ok " mm^(2/3)") ∧
    (∀ ds : Int → Int → String,
      unit_string ds ⟨test_unit.sys1_type, test_unit.sys1_type.dimensionless, ⟨0, 1⟩, ⟨0, 1⟩,
        ⟨1, 1⟩⟩ = .ok "") := by
  have hnd : (test_unit.sys1_type.names.map name_ref.object).Nodup := by decide
  have ds0 : Int → Int → String := fun _ _ => ""
  have h1 := ((unit_string_streamers ds0
    ⟨test_unit.sys1_type, [⟨2, 1⟩, ⟨0, 1⟩, ⟨0, 1⟩], ⟨0, 1⟩, ⟨0, 1⟩, ⟨1, 1⟩⟩ (by decide)).1
    (by decide)).1
  have h2 := ((unit_string_streamers ds0
    ⟨test_unit.sys1_type, [⟨2, 3⟩, ⟨0, 1⟩, ⟨0, 1⟩], ⟨0, 1⟩, ⟨0, 1⟩, ⟨1, 1⟩⟩ (by decide)).1
    (by decide)).1
  have h3 := ((unit_string_streamers ds0
    ⟨test_unit.sys1_type, [⟨-1, 1⟩, ⟨0, 1⟩, ⟨0, 1⟩], ⟨0, 1⟩, ⟨0, 1⟩, ⟨1, 1⟩⟩ (by decide)).1
    (by decide)).1
  have c1 : unit_impl.stream_unit_name_dimensions test_unit.sys1_type
      [⟨2, 1⟩, ⟨0, 1⟩, ⟨0, 1⟩] = .ok " mm^2" := by decide
  have c2 : unit_impl.stream_unit_name_dimensions test_unit.sys1_type
      [⟨2, 3⟩, ⟨0, 1⟩, ⟨0, 1⟩] = .ok " mm^(2/3)" := by decide
  have c3 : unit_impl.stream_unit_name_dimensions test_unit.sys1_type
      [⟨-1, 1⟩, ⟨0, 1⟩, ⟨0, 1⟩] = .ok " mm^-1" := by decide
  refine ⟨hnd, by decide, ?_, ?_, ?_, fun ds => by rfl, fun ds => ?_⟩
  · exact (Except.ok.inj (h1.symm.trans c1))
  · exact (Except.ok.inj (h2.symm.trans c2))
  · exact (Except.ok.inj (h3.symm.trans c3))
  · exact ((unit_string_streamers ds
      ⟨test_unit.sys1_type, test_unit.sys1_type.dimensionless, ⟨0, 1⟩, ⟨0, 1⟩, ⟨1, 1⟩⟩
      (by decide)).1 (by decide)).2.2 (by decide) rfl rfl rfl

/-- C23 as stated fails for a system that names one variable twice: the unscaled
dimensionless unit of the system `unit_system<mm_name, mm_name>` is well-formed, its two
streamers are the same class `single_name_dimension_streamer<mm_name, std::ratio<0>>`,
which cannot be a direct base twice, so that `unit_string` is ill-formed and does not
render the empty string; with the exponents 1 and 2 the same system renders
`" mm mm^2"`. -/
theorem unit_string_repeated_name :
    (⟨⟨[test_unit.mm_name, test_unit.mm_name]⟩, [⟨0, 1⟩, ⟨0, 1⟩], ⟨0, 1⟩, ⟨0, 1⟩, ⟨1, 1⟩⟩ :
      unit).valid ∧
    (⟨⟨[test_unit.mm_name, test_unit.mm_name]⟩, [⟨0, 1⟩, ⟨0, 1⟩], ⟨0, 1⟩, ⟨0, 1⟩, ⟨1, 1⟩⟩ :
      unit).is_dimensionless = true ∧
    unit_impl.stream_unit_name_dimensions ⟨[test_unit.mm_name, test_unit.mm_name]⟩
      [⟨0, 1⟩, ⟨0, 1⟩] = .error .duplicate_base ∧
    (∀ ds : Int → Int → String,
      unit_string ds ⟨⟨[test_unit.mm_name, test_unit.mm_name]⟩, [⟨0, 1⟩, ⟨0, 1⟩], ⟨0, 1⟩,
        ⟨0, 1⟩, ⟨1, 1⟩⟩ = .error .duplicate_base) ∧
    (∀ ds : Int → Int → String,
      unit_string ds ⟨⟨[test_unit.mm_name, test_unit.mm_name]⟩, [⟨0, 1⟩, ⟨0, 1⟩], ⟨0, 1⟩,
        ⟨0, 1⟩, ⟨1, 1⟩⟩ ≠ .ok "") ∧
    (∀ ds : Int → Int → String,
      unit_string ds ⟨⟨[test_unit.mm_name, test_unit.mm_name]⟩, [⟨1, 1⟩, ⟨2, 1⟩], ⟨0, 1⟩,
        ⟨0, 1⟩, ⟨1, 1⟩⟩ = .ok " mm mm^2") := by
  have h : ∀ ds : Int → Int → String,
      unit_string ds ⟨⟨[test_unit.mm_name, test_unit.mm_name]⟩, [⟨0, 1⟩, ⟨0, 1⟩], ⟨0, 1⟩,
        ⟨0, 1⟩, ⟨1, 1⟩⟩ = .error .duplicate_base := fun ds => by rfl
  refine ⟨by decide, by decide, by decide, h, fun ds hc => ?_, fun ds => by rfl⟩
  rw [h ds] at hc
  cases hc

end physics
